import Mathlib

/-!
TCP-Flow-Spy: the flow-tracking engine of `tcp_flow_spy.c`.

A shallow embedding of the kernel module's flow pool, hash index, finished
queue, congestion histogram, pruning timer and drain path.

Modelling conventions.

* Pointers to `struct tcp_flow_log` are slot numbers into `storage`
  (`Option Nat`, `none` being the null pointer).  Dereferencing a slot number
  outside the pool, writing a histogram cell outside the array and dividing by
  zero are faults: every operation returns `Option`, and `none` is a fault (or
  an exhausted walk budget, see `find_walk`).
* Unsigned machine integers are `Nat` with explicit `% 2^32` / `% 2^64` where
  the C arithmetic can wrap; `int` module parameters and `timespec` fields are
  `Int`.
* `get_time()` is an input: every operation receives the clock readings it
  takes, one per call site.
* The socket and the packet (`struct sock`, `struct sk_buff`) are the event
  records `rcv_event` and `xmit_event`, holding exactly the fields the probes
  read.
* Locking, wait queues and the timer re-arming carry no data and are left out;
  one operation is one critical section.
-/

namespace TcpFlowSpy

/-! ## Data model -/

/-- Kernel `struct timespec`: seconds and nanoseconds, both `long`. -/
structure timespec where
  tv_sec : Int
  tv_nsec : Int
deriving DecidableEq, Repr

/-- The zeroed timespec. -/
def timespec.zero : timespec := ⟨0, 0⟩

/-- The record `struct tcp_flow_log`.  `next`/`prev` are slot numbers. -/
structure tcp_flow_log where
  first_packet_tstamp : timespec
  last_packet_tstamp : timespec
  last_printed_tstamp : timespec
  saddr : Nat
  daddr : Nat
  sport : Nat
  dport : Nat
  recv_count : Nat
  snd_count : Nat
  recv_size : Nat
  snd_size : Nat
  last_recv_seq : Nat
  last_snd_seq : Nat
  out_of_order_packets : Nat
  total_retransmissions : Nat
  snd_cwnd_clamp : Nat
  ssthresh : Nat
  srtt : Nat
  last_cwnd : Nat
  used : Int
  next : Option Nat
  prev : Option Nat
  snd_cwnd_histogram : List Nat
deriving DecidableEq, Repr

/-- The bucket `struct hashtable_entry`. -/
structure hashtable_entry where
  head : Option Nat
  tail : Option Nat
deriving DecidableEq, Repr

/-- The globals `tcp_flow_spy`, `tcp_flow_hashtable.entries` and
`last_printed_flow_index`. -/
structure State where
  start : timespec
  last_update : timespec
  last_read : timespec
  available : Option Nat
  storage : List tcp_flow_log
  finished : Option Nat
  entries : List hashtable_entry
  last_printed_flow_index : Nat
deriving DecidableEq, Repr

/-- The module parameters, and the byte order of the host (which fixes `ntohs`
and `ntohl`). -/
structure Config where
  port : Int
  bufsize : Nat
  bucket_length : Int
  number_of_buckets : Int
  live : Int
  big_endian : Bool
deriving DecidableEq, Repr

/-- The part of `(sk, skb)` read by `jtcp_v4_do_rcv`, with its three clock
readings.  Addresses, ports and `seq` are in network byte order as stored in
the headers. -/
structure rcv_event where
  saddr : Nat
  daddr : Nat
  source : Nat
  dest : Nat
  seq : Nat
  syn : Bool
  fin : Bool
  rst : Bool
  len : Nat
  sk_state : Nat
  snd_cwnd : Nat
  snd_cwnd_clamp : Nat
  current_ssthresh : Nat
  srtt : Nat
  now_first : timespec
  now_packet : timespec
  now_update : timespec
deriving DecidableEq, Repr

/-- The part of `(sk, skb)` read by `jtcp_transmit_skb`, with its three clock
readings.  `flags` is `tcb->flags`. -/
structure xmit_event where
  saddr : Nat
  daddr : Nat
  sport : Nat
  dport : Nat
  flags : Nat
  len : Nat
  sk_state : Nat
  snd_cwnd : Nat
  snd_cwnd_clamp : Nat
  current_ssthresh : Nat
  srtt : Nat
  total_retrans : Nat
  now_first : timespec
  now_packet : timespec
  now_update : timespec
deriving DecidableEq, Repr

/-! ## Constants -/

/-- `HASHSIZE_COEF`. -/
def HASHSIZE_COEF : Nat := 1

/-- `HASHTABLE_SIZE`, the `u32` product `HASHSIZE_COEF*bufsize`. -/
def HASHTABLE_SIZE (cfg : Config) : Nat := (HASHSIZE_COEF * cfg.bufsize) % 2 ^ 32

/-- `TCP_ESTABLISHED`. -/
def TCP_ESTABLISHED : Nat := 1

/-- `TCPHDR_FIN`. -/
def TCPHDR_FIN : Nat := 1

/-- `TCPHDR_SYN`. -/
def TCPHDR_SYN : Nat := 2

/-- `EXPIRE_SKB`. -/
def EXPIRE_SKB : Int := 2 * 60

/-- `PRINT_BUFF_SIZE`. -/
def PRINT_BUFF_SIZE : Nat := 256

/-! ## Byte order -/

/-- Byte swap of a 16-bit value. -/
def swab16 (x : Nat) : Nat := (x % 256) * 256 + (x / 256) % 256

/-- Byte swap of a 32-bit value. -/
def swab32 (x : Nat) : Nat :=
  (x % 256) * 2 ^ 24 + ((x / 256) % 256) * 2 ^ 16 + ((x / 2 ^ 16) % 256) * 256 + (x / 2 ^ 24) % 256

/-- `ntohs`. -/
def ntohs (cfg : Config) (x : Nat) : Nat := if cfg.big_endian then x else swab16 x

/-- `ntohl`. -/
def ntohl (cfg : Config) (x : Nat) : Nat := if cfg.big_endian then x else swab32 x

/-! ## Memory access -/

/-- The assignment `log->next = v`. -/
def set_next (v : Option Nat) (r : tcp_flow_log) : tcp_flow_log := { r with next := v }

/-- The assignment `log->prev = v`. -/
def set_prev (v : Option Nat) (r : tcp_flow_log) : tcp_flow_log := { r with prev := v }

/-- The assignment `log->used = v`. -/
def set_used (v : Int) (r : tcp_flow_log) : tcp_flow_log := { r with used := v }

/-- The assignment `log->last_printed_tstamp = v`. -/
def set_last_printed (v : timespec) (r : tcp_flow_log) : tcp_flow_log :=
  { r with last_printed_tstamp := v }

/-- The four assignments `p->saddr = saddr; p->sport = sport; p->daddr = daddr;
p->dport = dport`. -/
def set_identity (saddr daddr sport dport : Nat) (r : tcp_flow_log) : tcp_flow_log :=
  { r with saddr := saddr, sport := sport, daddr := daddr, dport := dport }

/-- Store through a record pointer: `storage[i] = f(storage[i])`. -/
def wr (st : State) (i : Nat) (f : tcp_flow_log → tcp_flow_log) : Option State :=
  match st.storage[i]? with
  | none => none
  | some r => some { st with storage := st.storage.set i (f r) }

/-- Store through a bucket pointer: `entries[b] = f(entries[b])`. -/
def wr_entry (st : State) (b : Nat) (f : hashtable_entry → hashtable_entry) : Option State :=
  match st.entries[b]? with
  | none => none
  | some e => some { st with entries := st.entries.set b (f e) }

/-! ## Hash index -/

/-- `skb_hash_function`. -/
def skb_hash_function (cfg : Config) (saddr daddr sport dport : Nat) : Nat :=
  ((((saddr >>> 24) &&& 0xff) + ((daddr >>> 24) &&& 0xff) + dport + sport) % 2 ^ 32)
    % HASHTABLE_SIZE cfg

/-- `is_log_for_skb`. -/
def is_log_for_skb (log : tcp_flow_log) (saddr daddr sport dport : Nat) : Bool :=
  (saddr == log.saddr && daddr == log.daddr && dport == log.dport && sport == log.sport) ||
  (daddr == log.saddr && daddr == log.saddr && dport == log.sport && sport == log.dport)

/-- The `while (log_element)` loop of `find_flow_log_for_skb`; the first
argument bounds the number of loop tests, `none` when it is exhausted. -/
def find_walk (storage : List tcp_flow_log) (saddr daddr sport dport : Nat) :
    Nat → Option Nat → Option (Option Nat)
  | 0, _ => none
  | _ + 1, none => some none
  | fuel + 1, some i =>
    match storage[i]? with
    | none => none
    | some log =>
      if is_log_for_skb log saddr daddr sport dport then some (some i)
      else find_walk storage saddr daddr sport dport fuel log.next

/-- `find_flow_log_for_skb`: a chain of pool slots has at most
`storage.length` nodes, hence the walk budget. -/
def find_flow_log_for_skb (cfg : Config) (st : State) (saddr daddr sport dport : Nat) :
    Option (Option Nat) :=
  match st.entries[skb_hash_function cfg saddr daddr sport dport]? with
  | none => none
  | some entry => find_walk st.storage saddr daddr sport dport (st.storage.length + 1) entry.head

/-- First statement of `remove_from_hashentry`:
`if (log == entry->tail) { entry->tail = log->prev; if (entry->tail) entry->tail->next = 0; }`. -/
def unlink_tail (st : State) (b l : Nat) : Option State :=
  match st.entries[b]? with
  | none => none
  | some e =>
    if e.tail = some l then
      match st.storage[l]? with
      | none => none
      | some lr =>
        match wr_entry st b (fun e => { e with tail := lr.prev }) with
        | none => none
        | some s =>
          match lr.prev with
          | some t => wr s t (set_next none)
          | none => some s
    else some st

/-- Second statement of `remove_from_hashentry`:
`if (log == entry->head) { entry->head = log->next; if (entry->head) entry->head->prev = 0; }`. -/
def unlink_head (st : State) (b l : Nat) : Option State :=
  match st.entries[b]? with
  | none => none
  | some e =>
    if e.head = some l then
      match st.storage[l]? with
      | none => none
      | some lr =>
        match wr_entry st b (fun e => { e with head := lr.next }) with
        | none => none
        | some s =>
          match lr.next with
          | some h => wr s h (set_prev none)
          | none => some s
    else some st

/-- Third statement of `remove_from_hashentry`:
`if (log->next) log->next->prev = log->prev;`. -/
def unlink_next (st : State) (l : Nat) : Option State :=
  match st.storage[l]? with
  | none => none
  | some lr =>
    match lr.next with
    | some n => wr st n (set_prev lr.prev)
    | none => some st

/-- Fourth statement of `remove_from_hashentry`:
`if (log->prev) log->prev->next = log->next;`. -/
def unlink_prev (st : State) (l : Nat) : Option State :=
  match st.storage[l]? with
  | none => none
  | some lr =>
    match lr.prev with
    | some p => wr st p (set_next lr.next)
    | none => some st

/-- `remove_from_hashentry` on bucket number `b`. -/
def remove_from_hashentry (st : State) (b : Nat) (log : Option Nat) : Option State :=
  match log with
  | none => some st
  | some l => do
    let st1 ← unlink_tail st b l
    let st2 ← unlink_head st1 b l
    let st3 ← unlink_next st2 l
    let st4 ← unlink_prev st3 l
    let st5 ← wr st4 l (set_prev none)
    wr st5 l (set_next none)

/-- `remove_from_hashtable`. -/
def remove_from_hashtable (cfg : Config) (st : State) (saddr daddr sport dport : Nat) :
    Option State :=
  match find_flow_log_for_skb cfg st saddr daddr sport dport with
  | none => none
  | some log => remove_from_hashentry st (skb_hash_function cfg saddr daddr sport dport) log

/-- The two `memset`s of `reinitialize_tcp_flow_log`: every field before
`used` is zeroed, `used`, `next`, `prev` and the histogram pointer are kept,
and `number_of_buckets` histogram cells are zeroed. -/
def memset_log (cfg : Config) (r : tcp_flow_log) : tcp_flow_log :=
  { first_packet_tstamp := timespec.zero
    last_packet_tstamp := timespec.zero
    last_printed_tstamp := timespec.zero
    saddr := 0, daddr := 0, sport := 0, dport := 0
    recv_count := 0, snd_count := 0, recv_size := 0, snd_size := 0
    last_recv_seq := 0, last_snd_seq := 0
    out_of_order_packets := 0, total_retransmissions := 0
    snd_cwnd_clamp := 0, ssthresh := 0, srtt := 0, last_cwnd := 0
    used := r.used, next := r.next, prev := r.prev
    snd_cwnd_histogram :=
      List.replicate cfg.number_of_buckets.toNat 0 ++
        r.snd_cwnd_histogram.drop cfg.number_of_buckets.toNat }

/-- The head of `reinitialize_tcp_flow_log`: the two `memset`s, then
`log->first_packet_tstamp = get_time()`. -/
def reset_log (cfg : Config) (now : timespec) (r : tcp_flow_log) : tcp_flow_log :=
  { memset_log cfg r with first_packet_tstamp := now }

/-- `reinitialize_tcp_flow_log` for a non-null `log`. -/
def reinitialize_tcp_flow_log (cfg : Config) (st : State) (log : Nat)
    (saddr daddr sport dport : Nat) (now : timespec) : Option State := do
  let s1 ← wr st log (reset_log cfg now)
  let b := skb_hash_function cfg saddr daddr sport dport
  let e ← s1.entries[b]?
  let s2 ←
    match e.tail with
    | some t => wr s1 t (set_next (some log))
    | none => wr_entry s1 b (fun e => { e with head := some log })
  let e2 ← s2.entries[b]?
  let s3 ← wr s2 log (set_prev e2.tail)
  let s4 ← wr s3 log (set_next none)
  wr_entry s4 b (fun e => { e with tail := some log })

/-- `is_finished`, with the same walk budget as `find_walk`. -/
def is_finished_walk (storage : List tcp_flow_log) (saddr daddr sport dport : Nat) :
    Nat → Option Nat → Option Bool
  | 0, _ => none
  | _ + 1, none => some false
  | fuel + 1, some i =>
    match storage[i]? with
    | none => none
    | some log =>
      if is_log_for_skb log saddr daddr sport dport then some true
      else is_finished_walk storage saddr daddr sport dport fuel log.next

/-- `tcp_flow_log_avail`. -/
def tcp_flow_log_avail (st : State) : Bool := st.available.isSome

/-! ## Event ingestion -/

/-- The two statements `int cwnd_index = tp->snd_cwnd / bucket_length;
cwnd_index = min(number_of_buckets - 1, cwnd_index);`: the division is an
unsigned 32-bit one (`bucket_length` converted to `unsigned`), its result is
converted to `int`. -/
def cwnd_index (cfg : Config) (snd_cwnd : Nat) : Int :=
  let bl : Nat := (cfg.bucket_length % 2 ^ 32).toNat
  let q : Nat := snd_cwnd / bl
  let q_int : Int := if q < 2 ^ 31 then (q : Int) else (q : Int) - 2 ^ 32
  min (cfg.number_of_buckets - 1) q_int

/-- The congestion sample taken when `sk->sk_state == TCP_ESTABLISHED`
(identical on both paths).  A zero divisor and a histogram cell outside the
array are faults. -/
def sample_cwnd (cfg : Config) (snd_cwnd snd_cwnd_clamp current_ssthresh srtt : Nat)
    (p : tcp_flow_log) : Option tcp_flow_log :=
  if (cfg.bucket_length % 2 ^ 32).toNat = 0 then none
  else if cwnd_index cfg snd_cwnd < 0 then none
  else
    match p.snd_cwnd_histogram[(cwnd_index cfg snd_cwnd).toNat]? with
    | none => none
    | some c =>
      some { p with
        snd_cwnd_histogram :=
          p.snd_cwnd_histogram.set (cwnd_index cfg snd_cwnd).toNat ((c + 1) % 2 ^ 32)
        last_cwnd := snd_cwnd
        snd_cwnd_clamp := snd_cwnd_clamp
        ssthresh := current_ssthresh
        srtt := srtt >>> 3 }

/-- The accounting of `jtcp_v4_do_rcv` on the resolved record, from
`p->last_packet_tstamp = get_time()` to the sequence-number test. -/
def rcv_account (cfg : Config) (e : rcv_event) (p : tcp_flow_log) : tcp_flow_log :=
  let p1 : tcp_flow_log :=
    { p with
      last_packet_tstamp := e.now_packet
      saddr := e.saddr, sport := e.source, daddr := e.daddr, dport := e.dest
      recv_count := (p.recv_count + 1) % 2 ^ 32
      recv_size := (p.recv_size + e.len) % 2 ^ 64 }
  if p1.last_recv_seq ≤ ntohl cfg e.seq then { p1 with last_recv_seq := ntohl cfg e.seq }
  else { p1 with out_of_order_packets := (p1.out_of_order_packets + 1) % 2 ^ 32 }

/-- The update of the resolved record in `jtcp_v4_do_rcv`: the accounting, then
the established block. -/
def rcv_update (cfg : Config) (e : rcv_event) (p : tcp_flow_log) : Option tcp_flow_log :=
  if e.sk_state = TCP_ESTABLISHED then
    sample_cwnd cfg e.snd_cwnd e.snd_cwnd_clamp e.current_ssthresh e.srtt (rcv_account cfg e p)
  else some (rcv_account cfg e p)

/-- Pushing record `p` on the finished queue: `p->next = finished; finished = p`. -/
def push_finished (st : State) (p : Nat) : Option State :=
  match wr st p (set_next st.finished) with
  | none => none
  | some s => some { s with finished := some p }

/-- The part of `jtcp_v4_do_rcv` after the record `p` is resolved. -/
def rcv_resolved (cfg : Config) (st : State) (e : rcv_event) (p : Nat) : Option State := do
  let r ← st.storage[p]?
  let r1 ← rcv_update cfg e r
  let s1 : State := { st with storage := st.storage.set p r1 }
  let s2 ←
    if e.fin || e.rst then do
      let s ← remove_from_hashtable cfg s1 e.saddr e.daddr e.source e.dest
      push_finished s p
    else some s1
  some { s2 with last_update := e.now_update }

/-- Taking the head of the free list and linking it into the index:
`p = available; available = available->next; reinitialize_tcp_flow_log(p, ...);
p->used = 1`. -/
def allocate_log (cfg : Config) (st : State) (p : Nat) (saddr daddr sport dport : Nat)
    (now : timespec) : Option State := do
  let ar ← st.storage[p]?
  let s1 : State := { st with available := ar.next }
  let s2 ← reinitialize_tcp_flow_log cfg s1 p saddr daddr sport dport now
  wr s2 p (set_used 1)

/-- `jtcp_v4_do_rcv`. -/
def jtcp_v4_do_rcv (cfg : Config) (st : State) (e : rcv_event) : Option State :=
  if cfg.port = 0 ∨ (ntohs cfg e.dest : Int) = cfg.port ∨ (ntohs cfg e.source : Int) = cfg.port then
    match find_flow_log_for_skb cfg st e.saddr e.daddr e.source e.dest with
    | none => none
    | some (some p) => rcv_resolved cfg st e p
    | some none =>
      if !e.syn then some st
      else
        match st.available with
        | none => some st
        | some p =>
          match allocate_log cfg st p e.saddr e.daddr e.source e.dest e.now_first with
          | none => none
          | some s => rcv_resolved cfg s e p
  else some st

/-- The accounting of `jtcp_transmit_skb` on the resolved record, from
`p->last_packet_tstamp = get_time()` to `p->total_retransmissions = ...`. -/
def xmit_account (e : xmit_event) (p : tcp_flow_log) : tcp_flow_log :=
  { p with
    last_packet_tstamp := e.now_packet
    snd_count := (p.snd_count + 1) % 2 ^ 32
    snd_size := (p.snd_size + e.len) % 2 ^ 64
    total_retransmissions := e.total_retrans }

/-- The update of the resolved record in `jtcp_transmit_skb`: the accounting,
then the established block. -/
def xmit_update (cfg : Config) (e : xmit_event) (p : tcp_flow_log) : Option tcp_flow_log :=
  if e.sk_state = TCP_ESTABLISHED then
    sample_cwnd cfg e.snd_cwnd e.snd_cwnd_clamp e.current_ssthresh e.srtt (xmit_account e p)
  else some (xmit_account e p)

/-- The part of `jtcp_transmit_skb` after the record `p` is resolved. -/
def xmit_resolved (cfg : Config) (st : State) (e : xmit_event) (p : Nat) : Option State := do
  let r ← st.storage[p]?
  let r1 ← xmit_update cfg e r
  let s1 : State := { st with storage := st.storage.set p r1 }
  let s2 ←
    if (e.flags &&& TCPHDR_FIN) ≠ 0 ∨ (e.flags &&& TCPHDR_SYN) ≠ 0 then do
      let s ← remove_from_hashtable cfg s1 e.saddr e.daddr e.sport e.dport
      push_finished s p
    else some s1
  some { s2 with last_update := e.now_update }

/-- `jtcp_transmit_skb`. -/
def jtcp_transmit_skb (cfg : Config) (st : State) (e : xmit_event) : Option State :=
  if cfg.port = 0 ∨ (ntohs cfg e.sport : Int) = cfg.port ∨ (ntohs cfg e.dport : Int) = cfg.port then
    match find_flow_log_for_skb cfg st e.saddr e.daddr e.sport e.dport with
    | none => none
    | some (some p) => xmit_resolved cfg st e p
    | some none =>
      if (e.flags &&& TCPHDR_SYN) = 0 then some st
      else
        match st.available with
        | none => some st
        | some p =>
          match allocate_log cfg st p e.saddr e.daddr e.sport e.dport e.now_first with
          | none => none
          | some s =>
            match wr s p (set_identity e.saddr e.daddr e.sport e.dport) with
            | none => none
            | some s1 => xmit_resolved cfg s1 e p
  else some st

/-- `tcpflowspy_open`. -/
def tcpflowspy_open (st : State) (now_start now_read now_update : timespec) : State :=
  { st with start := now_start, last_read := now_read, last_update := now_update }

/-! ## Serialisation and drain -/

/-- `tcpprobe_timespec_sub`. -/
def tcpprobe_timespec_sub (lhs rhs : timespec) : timespec :=
  { tv_sec := lhs.tv_sec - rhs.tv_sec
    tv_nsec := lhs.tv_nsec - rhs.tv_sec }

/-- `tcpprobe_timespec_larger`. -/
def tcpprobe_timespec_larger (lhs rhs : timespec) : Bool :=
  decide (rhs.tv_sec < lhs.tv_sec) ||
    (decide (lhs.tv_sec = rhs.tv_sec) && decide (rhs.tv_nsec < lhs.tv_nsec))

/-- Width of `unsigned long` in bits (an LP64 kernel). -/
def BITS_PER_LONG : Nat := 64

/-- One digit of `%u`, `%lu`, `%d` or `%x` output. -/
def digit_char (d : Nat) : Char := Char.ofNat (if d < 10 then 48 + d else 87 + d)

/-- Digits of `n` in base `base`, most significant first; the first argument
bounds the number of digits. -/
def render_digits (base : Nat) : Nat → Nat → List Char → List Char
  | 0, _, acc => acc
  | fuel + 1, n, acc =>
    if n / base = 0 then digit_char (n % base) :: acc
    else render_digits base fuel (n / base) (digit_char (n % base) :: acc)

/-- Conversion `%u` of a 32-bit value, also `%d` of a non-negative one. -/
def fmt_u (n : Nat) : List Char := render_digits 10 10 (n % 2 ^ 32) []

/-- Conversion `%x` of a 32-bit value. -/
def fmt_x (n : Nat) : List Char := render_digits 16 8 (n % 2 ^ 32) []

/-- Conversion `%lu` of a value cast to `unsigned long`. -/
def fmt_lu (x : Int) : List Char := render_digits 10 20 (x % 2 ^ BITS_PER_LONG).toNat []

/-- Conversion `%09lu` of a value cast to `unsigned long`. -/
def fmt_09lu (x : Int) : List Char :=
  List.replicate (9 - (fmt_lu x).length) (Char.ofNat 48) ++ fmt_lu x

/-- The text of the first `snprintf` of `tcpflowspy_sprint`. -/
def sprint_header (cfg : Config) (tv duration : timespec) (finished : Nat) (p : tcp_flow_log) :
    List Char :=
  fmt_lu tv.tv_sec ++ ['.'] ++ fmt_09lu tv.tv_nsec ++ [' ', '('] ++ fmt_u finished ++ [')', ' ']
    ++ fmt_x (ntohl cfg p.saddr) ++ [':'] ++ fmt_u (ntohs cfg p.sport) ++ [' ']
    ++ fmt_x (ntohl cfg p.daddr) ++ [':'] ++ fmt_u (ntohs cfg p.dport) ++ [' ']
    ++ fmt_lu duration.tv_sec ++ ['.'] ++ fmt_09lu duration.tv_nsec ++ [' ']
    ++ fmt_u p.recv_count ++ [' ']
    ++ fmt_lu p.recv_size ++ [' ']
    ++ fmt_u p.snd_count ++ [' ']
    ++ fmt_lu p.snd_size ++ [' ']
    ++ fmt_u p.total_retransmissions ++ [' ']
    ++ fmt_u p.out_of_order_packets ++ [' ']
    ++ fmt_u p.snd_cwnd_clamp ++ [' ']
    ++ fmt_u p.ssthresh ++ [' ']
    ++ fmt_u p.srtt ++ [' ']
    ++ fmt_u p.last_cwnd ++ [' ']

/-- Overwriting `tbuf` from offset `off` with `txt` (the array keeps its
length). -/
def buf_write (tbuf : List Char) (off : Nat) (txt : List Char) : List Char :=
  (tbuf.take off ++ txt ++ tbuf.drop (off + txt.length)).take tbuf.length

/-- Kernel `snprintf(tbuf + off, size, ...)` producing `txt`: at most `size - 1`
characters and a terminating NUL are stored, the full length is returned. -/
def snprintf (tbuf : List Char) (off size : Nat) (txt : List Char) : List Char × Nat :=
  if size = 0 then (tbuf, txt.length)
  else (buf_write tbuf off (txt.take (size - 1) ++ [Char.ofNat 0]), txt.length)

/-- The histogram loop of `tcpflowspy_sprint`; the first argument counts the
buckets still to print. -/
def sprint_histogram (n : Nat) (hist : List Nat) :
    Nat → Nat → List Char → Nat → Option (List Char × Nat)
  | 0, _, tbuf, size => some (tbuf, size)
  | fuel + 1, index, tbuf, size =>
    if size + 1 < n then
      match hist[index]? with
      | none => none
      | some h =>
        let r := snprintf tbuf size (n - size) (fmt_u h ++ [','])
        sprint_histogram n hist fuel (index + 1) r.1 (size + min (n - size) r.2)
    else some (tbuf, size)

/-- The `do ... while (!p && ++count < bufsize)` scan of `tcpflowspy_sprint`;
the first argument counts the iterations left.  Returns the new
`last_printed_flow_index` and `p`. -/
def live_scan (cfg : Config) (storage : List tcp_flow_log) :
    Nat → Nat → Option (Nat × Option Nat)
  | 0, idx => some (idx, none)
  | k + 1, idx =>
    if cfg.bufsize = 0 then none
    else
      let idx1 := ((idx + 1) % 2 ^ 32) % cfg.bufsize
      match storage[idx1]? with
      | none => none
      | some r =>
        if r.used ≠ 0 ∧ tcpprobe_timespec_larger r.last_packet_tstamp r.last_printed_tstamp = true
        then some (idx1, some idx1)
        else live_scan cfg storage k idx1

/-- The record selection of `tcpflowspy_sprint`: new state (cursor moved), `p`
and the `finished` flag. -/
def sprint_select (cfg : Config) (st : State) : Option (State × Option Nat × Nat) :=
  if st.finished = none ∧ cfg.live ≠ 0 then
    match live_scan cfg st.storage (max 1 cfg.bufsize) st.last_printed_flow_index with
    | none => none
    | some (idx, p) => some ({ st with last_printed_flow_index := idx }, p, 0)
  else some (st, st.finished, 1)

/-- `tcpflowspy_sprint(tbuf, n)`: new state, buffer and returned size. -/
def tcpflowspy_sprint (cfg : Config) (st : State) (now : timespec) (tbuf : List Char) (n : Nat) :
    Option (State × List Char × Nat) :=
  match sprint_select cfg st with
  | none => none
  | some (s1, none, _) => some (s1, tbuf, 0)
  | some (s1, some p, finished) => do
    let s2 ← wr s1 s1.last_printed_flow_index (set_last_printed now)
    let pr ← s2.storage[p]?
    let tv := tcpprobe_timespec_sub pr.last_packet_tstamp s2.start
    let duration := tcpprobe_timespec_sub pr.last_packet_tstamp pr.first_packet_tstamp
    let r1 := snprintf tbuf 0 n (sprint_header cfg tv duration finished pr)
    let r2 ← sprint_histogram n pr.snd_cwnd_histogram cfg.number_of_buckets.toNat 0 r1.1 r1.2
    let tbuf3 := r2.1.set (min (n - 1) r2.2) ' '
    let size3 := if r2.2 < n then r2.2 + 1 else r2.2
    let tbuf4 := tbuf3.set (min (n - 1) size3) '\n'
    let size4 := if size3 < n then size3 + 1 else size3
    some (s2, tbuf4, size4)

/-- What one iteration of the `while (cnt < len)` loop of `tcpflowspy_read`
does to the loop. -/
inductive read_result where
  /-- The wait did not return: the reader stays asleep. -/
  | blocked
  /-- The loop is left with this `error` (`break`). -/
  | stop (error : Int)
  /-- The loop goes on (`continue`, or the end of the body) with this `cnt`
  after these bytes went to the user buffer. -/
  | next (cnt : Nat) (copied : List Char)
deriving DecidableEq, Repr

/-- `ERESTARTSYS`. -/
def ERESTARTSYS : Int := 512

/-- Moving the head of the finished queue to the free list. -/
def recycle_finished (st : State) (newly_printed : Nat) : Option State :=
  match st.storage[newly_printed]? with
  | none => none
  | some r =>
    let s1 : State := { st with finished := r.next }
    match wr s1 newly_printed (set_next s1.available) with
    | none => none
    | some s2 =>
      match wr s2 newly_printed (set_used 0) with
      | none => none
      | some s3 => some { s3 with available := some newly_printed }

/-- One iteration of the loop of `tcpflowspy_read` with `cnt < len`.  `signal`
says whether a signal is pending if the reader has to sleep, `tbuf` is the
initial content of the stack buffer; `copy_to_user` succeeds. -/
def read_step (cfg : Config) (st : State) (signal : Bool) (now_read now_print : timespec)
    (tbuf : List Char) (cnt len : Nat) : Option (State × read_result) :=
  let cond : Bool :=
    st.finished.isSome || tcpprobe_timespec_larger st.last_update st.last_read
  if !cond && !signal then some (st, read_result.blocked)
  else
    let s1 : State := { st with last_read := now_read }
    if !cond then some (s1, read_result.stop (-ERESTARTSYS))
    else if cfg.live = 0 ∧ s1.finished = none then some (s1, read_result.next cnt [])
    else
      match tcpflowspy_sprint cfg s1 now_print tbuf PRINT_BUFF_SIZE with
      | none => none
      | some (s2, tbuf1, width) =>
        if width = 0 then some (s2, read_result.next cnt [])
        else
          let s3o : Option State :=
            match s2.finished with
            | some newly_printed =>
              if cnt + width < len then recycle_finished s2 newly_printed else some s2
            | none => some s2
          match s3o with
          | none => none
          | some s3 =>
            if len ≤ cnt + width then some (s3, read_result.stop 0)
            else some (s3, read_result.next (cnt + width) (tbuf1.take width))

/-! ## Pruning timer -/

/-- The `while (log)` loop of `prune_timer` on bucket `b`; the first argument
bounds the number of loop tests. -/
def prune_walk (now : timespec) (b : Nat) : Nat → State → Option Nat → Option State
  | 0, _, _ => none
  | _ + 1, st, none => some st
  | fuel + 1, st, some log =>
    match st.storage[log]? with
    | none => none
    | some r =>
      let interval := tcpprobe_timespec_sub now r.last_packet_tstamp
      let nextLog := r.next
      if EXPIRE_SKB < interval.tv_sec then
        match remove_from_hashentry st b (some log) with
        | none => none
        | some s1 =>
          match push_finished s1 log with
          | none => none
          | some s2 => prune_walk now b fuel s2 nextLog
      else prune_walk now b fuel st nextLog

/-- The `for (i = 0; i < HASHTABLE_SIZE; i++)` loop of `prune_timer`, from
bucket `i` on; the first argument counts the buckets left. -/
def prune_buckets (now : timespec) : Nat → Nat → State → Option State
  | 0, _, st => some st
  | k + 1, i, st =>
    match st.entries[i]? with
    | none => none
    | some entry =>
      match prune_walk now i (st.storage.length + 1) st entry.head with
      | none => none
      | some s1 => prune_buckets now k (i + 1) s1

/-- `prune_timer`. -/
def prune_timer (cfg : Config) (st : State) (now : timespec) : Option State :=
  prune_buckets now (HASHTABLE_SIZE cfg) 0 st

/-! ## Initialisation -/

/-- Kernel `fls_long`: position of the highest set bit, 0 for 0. -/
def fls_long : Nat → Nat → Nat
  | 0, _ => 0
  | fuel + 1, n => if n = 0 then 0 else fls_long fuel (n / 2) + 1

/-- Kernel `roundup_pow_of_two` on an `unsigned long`. -/
def roundup_pow_of_two (n : Nat) : Nat := 2 ^ fls_long BITS_PER_LONG (n - 1)

/-- A slot of the zeroed pool after the linking loop of `tcpflowspy_init`. -/
def init_log (cfg : Config) (bufsize i : Nat) : tcp_flow_log :=
  { first_packet_tstamp := timespec.zero
    last_packet_tstamp := timespec.zero
    last_printed_tstamp := timespec.zero
    saddr := 0, daddr := 0, sport := 0, dport := 0
    recv_count := 0, snd_count := 0, recv_size := 0, snd_size := 0
    last_recv_seq := 0, last_snd_seq := 0
    out_of_order_packets := 0, total_retransmissions := 0
    snd_cwnd_clamp := 0, ssthresh := 0, srtt := 0, last_cwnd := 0
    used := 0
    next := if i + 1 < bufsize then some (i + 1) else none
    prev := none
    snd_cwnd_histogram := List.replicate cfg.number_of_buckets.toNat 0 }

/-- `tcpflowspy_init` on its success path (every allocation and registration
succeeds): the configuration with `bufsize` rounded up, and the initial state;
`none` is the `-EINVAL` return. -/
def tcpflowspy_init (cfg : Config) : Option (Config × State) :=
  if cfg.bufsize = 0 then none
  else
    let bufsize := roundup_pow_of_two cfg.bufsize % 2 ^ 32
    let cfg1 : Config := { cfg with bufsize := bufsize }
    some (cfg1,
      { start := timespec.zero
        last_update := timespec.zero
        last_read := timespec.zero
        available := some 0
        storage := (List.range bufsize).map (init_log cfg bufsize)
        finished := none
        entries := List.replicate (HASHTABLE_SIZE cfg1) ⟨none, none⟩
        last_printed_flow_index := 0 })

/-! ## Pointer structure -/

/-- Following `next` from `p` visits exactly the slots `l`, then reaches null. -/
def IsPath (s : List tcp_flow_log) : Option Nat → List Nat → Prop
  | p, [] => p = none
  | p, i :: l => p = some i ∧ ∃ r, s[i]? = some r ∧ IsPath s r.next l

/-- A doubly linked walk: as `IsPath`, and every visited slot points back to
the slot visited before it (`pv` for the first). -/
def IsDPath (s : List tcp_flow_log) : Option Nat → Option Nat → List Nat → Prop
  | _, p, [] => p = none
  | pv, p, i :: l => p = some i ∧ ∃ r, s[i]? = some r ∧ r.prev = pv ∧ IsDPath s (some i) r.next l

/-- Bucket `e` heads the well-formed chain `l`. -/
def IsChain (s : List tcp_flow_log) (e : hashtable_entry) (l : List Nat) : Prop :=
  IsDPath s none e.head l ∧ e.tail = l.getLast?

/-- Storage `S1` is storage `S` with the record of every slot `i` replaced by
its image under `g i`. -/
def MapS (g : Nat → tcp_flow_log → tcp_flow_log) (S S1 : List tcp_flow_log) : Prop :=
  ∀ i, S1[i]? = (S[i]?).map (g i)

/-- The fields of the state outside the pool and the buckets agree. -/
def SameGlobals (st st1 : State) : Prop :=
  st1.start = st.start ∧ st1.last_update = st.last_update ∧ st1.last_read = st.last_read ∧
  st1.available = st.available ∧ st1.finished = st.finished ∧
  st1.last_printed_flow_index = st.last_printed_flow_index

/-- What unlinking slot `x` (whose record was `rx`) does to the record in slot `i`. -/
def unlink_rec (x : Nat) (rx : tcp_flow_log) (i : Nat) (r : tcp_flow_log) : tcp_flow_log :=
  if i = x then set_next none (set_prev none r)
  else if rx.prev = some i then set_next rx.next r
  else if rx.next = some i then set_prev rx.prev r
  else r

/-- State `st1` is `st` with buckets `E` and every record `r` of slot `i`
replaced by `g i r`. -/
def Eff (st st1 : State) (E : List hashtable_entry) (g : Nat → tcp_flow_log → tcp_flow_log) :
    Prop :=
  SameGlobals st st1 ∧ st1.entries = E ∧ MapS g st.storage st1.storage

/-- The last slot of `l`, or `pv` when `l` is empty. -/
def lastOr (pv : Option Nat) (l : List Nat) : Option Nat :=
  match l.getLast? with
  | some t => some t
  | none => pv

/-- What linking slot `p` behind the tail `tl` does to the record in slot `i`;
`f` is what happens to the record of `p` before it is linked. -/
def link_rec (p : Nat) (tl : Option Nat) (f : tcp_flow_log → tcp_flow_log) (i : Nat)
    (r : tcp_flow_log) : tcp_flow_log :=
  if i = p then set_next none (set_prev tl (f r))
  else if tl = some i then set_next (some p) r
  else r

/-- Whether the record in slot `i` matches the identity (`is_log_for_skb`). -/
def match_at (S : List tcp_flow_log) (saddr daddr sport dport : Nat) (i : Nat) : Bool :=
  match S[i]? with
  | some r => is_log_for_skb r saddr daddr sport dport
  | none => false

/-- The representation invariant of the flow state: `F` is the free list, `C b`
the chain of bucket `b`, `Q` the finished queue, and together they hold every
pool slot exactly once. -/
structure FlowInv (cfg : Config) (st : State) (F : List Nat) (C : Nat → List Nat) (Q : List Nat) :
    Prop where
  n_pos : 0 < cfg.bufsize
  n_lt : cfg.bufsize < 2 ^ 32
  len_s : st.storage.length = cfg.bufsize
  len_e : st.entries.length = cfg.bufsize
  free : IsPath st.storage st.available F
  chain : ∀ b e, st.entries[b]? = some e → IsChain st.storage e (C b)
  fin : IsPath st.storage st.finished Q
  part : (F ++ (List.range cfg.bufsize).flatMap C ++ Q).Perm (List.range cfg.bufsize)
  hist : ∀ (i : Nat) (r : tcp_flow_log), st.storage[i]? = some r →
    r.snd_cwnd_histogram.length = cfg.number_of_buckets.toNat
  cursor : st.last_printed_flow_index < cfg.bufsize

/-- The record with its two link fields cleared: everything but the links. -/
def strip (r : tcp_flow_log) : tcp_flow_log := set_next none (set_prev none r)

/-- What `allocate_log` does to the record in slot `i` (`tl` is the old tail
of the bucket). -/
def alloc_rec (cfg : Config) (now : timespec) (p : Nat) (tl : Option Nat) (i : Nat)
    (r : tcp_flow_log) : tcp_flow_log :=
  if i = p then set_used 1 (link_rec p tl (reset_log cfg now) i r)
  else link_rec p tl (reset_log cfg now) i r

/-- What retiring slot `p` (whose record was `rp`) does to slot `i`. -/
def retire_rec (fin : Option Nat) (p : Nat) (rp : tcp_flow_log) (i : Nat) (r : tcp_flow_log) :
    tcp_flow_log :=
  if i = p then set_next fin (unlink_rec p rp i r) else unlink_rec p rp i r

/-- Some lists `F`, `C`, `Q` represent the state. -/
def Good (cfg : Config) (st : State) : Prop :=
  ∃ (F : List Nat) (C : Nat → List Nat) (Q : List Nat), FlowInv cfg st F C Q

/-- Whether `prune_timer` at time `now` expires the record in slot `i`. -/
def expired_at (S : List tcp_flow_log) (now : timespec) (i : Nat) : Bool :=
  match S[i]? with
  | some r => decide (EXPIRE_SKB < (tcpprobe_timespec_sub now r.last_packet_tstamp).tv_sec)
  | none => false

/-- Two storages hold the same records up to their links. -/
def SameData (S S1 : List tcp_flow_log) : Prop :=
  ∀ i : Nat, (S1[i]?).map strip = (S[i]?).map strip

/-- What recycling slot `q` onto the free list headed by `av` does to slot `i`. -/
def recycle_rec (av : Option Nat) (q : Nat) (i : Nat) (r : tcp_flow_log) : tcp_flow_log :=
  if i = q then set_used 0 (set_next av r) else r

/-- The states the module can be in: the state `tcpflowspy_init` leaves, and
every state one more successful operation (a receive or transmit probe, a run
of the prune timer, one iteration of the read loop, an open of the proc file)
leads to.  `cfg` is the configuration after initialisation. -/
inductive Reachable (cfg : Config) : State → Prop where
  | init {cfg0 : Config} {st : State} :
      tcpflowspy_init cfg0 = some (cfg, st) → Reachable cfg st
  | rcv {st s : State} (e : rcv_event) :
      Reachable cfg st → jtcp_v4_do_rcv cfg st e = some s → Reachable cfg s
  | xmit {st s : State} (e : xmit_event) :
      Reachable cfg st → jtcp_transmit_skb cfg st e = some s → Reachable cfg s
  | prune {st s : State} (now : timespec) :
      Reachable cfg st → prune_timer cfg st now = some s → Reachable cfg s
  | read {st s : State} (signal : Bool) (now_read now_print : timespec) (tbuf : List Char)
      (cnt len : Nat) (res : read_result) :
      Reachable cfg st →
      read_step cfg st signal now_read now_print tbuf cnt len = some (s, res) → Reachable cfg s
  | opened {st : State} (now_start now_read now_update : timespec) :
      Reachable cfg st → Reachable cfg (tcpflowspy_open st now_start now_read now_update)

/-- The inputs of one iteration of the read loop. -/
structure read_input where
  signal : Bool
  now_read : timespec
  now_print : timespec
  tbuf : List Char
  cnt : Nat
  len : Nat

/-- The finished record whose line an iteration of the read loop handed to the
reader: the head of the finished queue, when bytes were copied. -/
def returned_slot (st : State) (cnt : Nat) (res : read_result) : Option Nat :=
  match res with
  | read_result.next c _ => if c = cnt then none else st.finished
  | _ => none

/-- A script of read-loop iterations with nothing in between: the final state
and the finished records handed to the reader, in order. -/
def drain_script (cfg : Config) : State → List read_input → Option (State × List Nat)
  | st, [] => some (st, [])
  | st, i :: is =>
    match read_step cfg st i.signal i.now_read i.now_print i.tbuf i.cnt i.len with
    | none => none
    | some (s, res) =>
      match drain_script cfg s is with
      | none => none
      | some (s1, out) => some (s1, (returned_slot st i.cnt res).toList ++ out)

/-- A bound on the length of any line of `tcpflowspy_sprint`. -/
def LINE_MAX : Nat := 267

/-- A configuration for worked examples: capacity 4, ten buckets of width 1,
no port filter, batch mode, little-endian host. -/
def demo_cfg : Config :=
  { port := 0, bufsize := 4, bucket_length := 1, number_of_buckets := 10, live := 0,
    big_endian := false }

/-- A receive event of the worked examples: identity `(sa, da, sp, dp)`, the
given flags, socket state and congestion window, every clock reading `t`
seconds. -/
def demo_rcv (sa da sp dp : Nat) (syn fin rst : Bool) (sk_state snd_cwnd : Nat) (t : Int) :
    rcv_event :=
  { saddr := sa, daddr := da, source := sp, dest := dp, seq := 0, syn := syn, fin := fin,
    rst := rst, len := 10, sk_state := sk_state, snd_cwnd := snd_cwnd, snd_cwnd_clamp := 0,
    current_ssthresh := 0, srtt := 0, now_first := ⟨t, 0⟩, now_packet := ⟨t, 0⟩,
    now_update := ⟨t, 0⟩ }

/-- The state after `k` operations of a script, `none` on a fault. -/
def run_rcv (cfg : Config) : State → List rcv_event → Option State
  | st, [] => some st
  | st, e :: es =>
    match jtcp_v4_do_rcv cfg st e with
    | none => none
    | some s => run_rcv cfg s es

/-- The initial state of the worked examples. -/
def demo_init : State :=
  match tcpflowspy_init demo_cfg with
  | some x => x.2
  | none => ⟨timespec.zero, timespec.zero, timespec.zero, none, [], none, [], 0⟩

/-- The worked example of a flow: SYN, established ACK with window 5, FIN. -/
def demo_flow : List rcv_event :=
  [demo_rcv 1 2 3 4 true false false 0 0 1, demo_rcv 1 2 3 4 false false false 1 5 2,
   demo_rcv 1 2 3 4 false true false 0 0 3]

/-- The state after the worked example of a flow. -/
def demo_finished : State :=
  match run_rcv demo_cfg demo_init demo_flow with
  | some s => s
  | none => demo_init

/-- The local address 127.0.0.1 as stored in an IP header read on a
little-endian host. -/
def demo_local : Nat := 16777343

/-- The remote address 10.0.0.1 as stored in an IP header read on a
little-endian host. -/
def demo_remote : Nat := 16777226

/-- A loopback connection `local:3 -> local:4` and a connection
`remote:3 -> local:4` open (two SYNs), then one packet of the reverse
direction of the loopback connection arrives. -/
def demo_loopback : List rcv_event :=
  [demo_rcv demo_local demo_local 3 4 true false false 0 0 1,
   demo_rcv demo_remote demo_local 3 4 true false false 0 0 2,
   demo_rcv demo_local demo_local 4 3 false false false 1 5 3]

/-- The state after `demo_loopback`. -/
def demo_loopback_state : State :=
  match run_rcv demo_cfg demo_init demo_loopback with
  | some s => s
  | none => demo_init

/-- The state after `demo_loopback` and one more packet of the remote
connection. -/
def demo_duplicate_state : State :=
  match jtcp_v4_do_rcv demo_cfg demo_loopback_state
      (demo_rcv demo_remote demo_local 3 4 false false false 1 5 4) with
  | some s => s
  | none => demo_init

/-- The identity stored in a record. -/
def identity (r : tcp_flow_log) : Nat × Nat × Nat × Nat := (r.saddr, r.daddr, r.sport, r.dport)

/-- A transmit event of the worked examples. -/
def demo_xmit (sa da sp dp flags : Nat) (sk_state snd_cwnd : Nat) (t : Int) : xmit_event :=
  { saddr := sa, daddr := da, sport := sp, dport := dp, flags := flags, len := 10,
    sk_state := sk_state, snd_cwnd := snd_cwnd, snd_cwnd_clamp := 0, current_ssthresh := 0,
    srtt := 0, total_retrans := 0, now_first := ⟨t, 0⟩, now_packet := ⟨t, 0⟩,
    now_update := ⟨t, 0⟩ }

/-- Kernel `TCPHDR_RST`. -/
def TCPHDR_RST : Nat := 4

/-- A record that has seen sequence number 7. -/
def demo_seen : tcp_flow_log := { init_log demo_cfg 4 0 with last_recv_seq := 7 }

/-- An event applied to a record: of the receive or of the transmit path. -/
inductive flow_event where
  | rcv (e : rcv_event)
  | xmit (e : xmit_event)

/-- What the event does to the record it resolved. -/
def flow_update (cfg : Config) (ev : flow_event) (r : tcp_flow_log) : Option tcp_flow_log :=
  match ev with
  | flow_event.rcv e => rcv_update cfg e r
  | flow_event.xmit e => xmit_update cfg e r

/-- A sequence of events applied to one record, `none` on a fault. -/
def flow_updates (cfg : Config) : tcp_flow_log → List flow_event → Option tcp_flow_log
  | r, [] => some r
  | r, ev :: evs =>
    match flow_update cfg ev r with
    | none => none
    | some r1 => flow_updates cfg r1 evs

/-- Whether the event was reported in the established state. -/
def flow_event.established (ev : flow_event) : Bool :=
  match ev with
  | flow_event.rcv e => decide (e.sk_state = TCP_ESTABLISHED)
  | flow_event.xmit e => decide (e.sk_state = TCP_ESTABLISHED)

/-- The congestion window the event reports. -/
def flow_event.snd_cwnd (ev : flow_event) : Nat :=
  match ev with
  | flow_event.rcv e => e.snd_cwnd
  | flow_event.xmit e => e.snd_cwnd

/-- Whether the event is an established one sampled into bucket `i`. -/
def flow_event.samples (cfg : Config) (i : Nat) (ev : flow_event) : Bool :=
  ev.established && decide (cwnd_index cfg ev.snd_cwnd = (i : Int))

/-- The window of the event divided by the bucket width fits an `int`. -/
def flow_event.in_range (cfg : Config) (ev : flow_event) : Prop :=
  ev.established = true → ev.snd_cwnd / (cfg.bucket_length % 2 ^ 32).toNat < 2 ^ 31

/-- The idle test in the words of the specification: the elapsed time
`now - last` taken as seconds plus nanoseconds exceeds 120 seconds. -/
def spec_idle_exceeds (now last : timespec) : Bool :=
  decide (120 * 10 ^ 9 < (now.tv_sec - last.tv_sec) * 10 ^ 9 + (now.tv_nsec - last.tv_nsec))

/-- The state after one SYN of the flow `(1, 2, 3, 4)` at second 1. -/
def demo_open : State :=
  match jtcp_v4_do_rcv demo_cfg demo_init (demo_rcv 1 2 3 4 true false false 0 0 1) with
  | some s => s
  | none => demo_init

/-- The bucket test in the words of the specification: the event was reported
established and `min(numBuckets - 1, window / bucketWidth) = i`, in exact
integer arithmetic. -/
def spec_sampled_into (cfg : Config) (i : Nat) (e : rcv_event) : Bool :=
  decide (e.sk_state = TCP_ESTABLISHED) &&
    decide (min (cfg.number_of_buckets - 1) ((e.snd_cwnd / cfg.bucket_length.toNat : Nat) : Int)
      = (i : Int))

/-- The number of packets between SYN and FIN at which a flow's packet counter
is back at zero. -/
def demo_wrap_count : Nat := 2 ^ 32 - 2

/-- A flow of `2^32` packets: SYN, `2^32 - 2` packets, FIN, none established,
all with sequence number 0. -/
def demo_long_flow : List rcv_event :=
  demo_rcv 1 2 3 4 true false false 0 0 1 ::
    List.replicate demo_wrap_count (demo_rcv 1 2 3 4 false false false 0 0 2) ++
      [demo_rcv 1 2 3 4 false true false 0 0 3]

/-- Whether `is_log_for_skb` accepts the identity of event `b` for a record
that holds the identity of event `a` (the expression of `is_log_for_skb` with
`log` holding `a`). -/
def lookup_accepts (a b : rcv_event) : Bool :=
  (b.saddr == a.saddr && b.daddr == a.daddr && b.dest == a.dest && b.source == a.source) ||
  (b.daddr == a.saddr && b.daddr == a.saddr && b.dest == a.source && b.source == a.dest)

/-- The data of slot `i` holds the identity of event `e`. -/
def holds_identity (st : State) (i : Nat) (e : rcv_event) : Prop :=
  (st.storage[i]?).map identity = some (e.saddr, e.daddr, e.source, e.dest)

/-- Five SYN events for the identities `(1, 2, 3, 4)`, `(5, 6, 7, 8)`,
`(9, 10, 11, 12)`, `(13, 14, 15, 16)` and `(2, 1, 4, 3)`, the first one
reversed. -/
def demo_syn_reversed : List rcv_event :=
  [demo_rcv 1 2 3 4 true false false 0 0 1, demo_rcv 5 6 7 8 true false false 0 0 2,
   demo_rcv 9 10 11 12 true false false 0 0 3, demo_rcv 13 14 15 16 true false false 0 0 4,
   demo_rcv 2 1 4 3 true false false 0 0 5]

/-- Five SYN events whose identities the lookup keeps apart. -/
def demo_syn_flood : List rcv_event :=
  [demo_rcv 1 2 3 4 true false false 0 0 1, demo_rcv 5 6 7 8 true false false 0 0 2,
   demo_rcv 9 10 11 12 true false false 0 0 3, demo_rcv 13 14 15 16 true false false 0 0 4,
   demo_rcv 17 18 19 20 true false false 0 0 5]

/-- The identity an event carries. -/
def rcv_event.identity (e : rcv_event) : Nat × Nat × Nat × Nat :=
  (e.saddr, e.daddr, e.source, e.dest)

/-- The elapsed time between two clock readings in nanoseconds, in the words
of the specification. -/
def spec_elapsed_ns (last first : timespec) : Int :=
  (last.tv_sec * 10 ^ 9 + last.tv_nsec) - (first.tv_sec * 10 ^ 9 + first.tv_nsec)

/-- A receive event of the worked examples with its clock readings given as
`timespec`s: `t_first` for the creation stamp, `t` for the packet stamp and
the update stamp. -/
def demo_rcv_at (sa da sp dp : Nat) (syn fin rst : Bool) (sk_state snd_cwnd : Nat)
    (t_first t : timespec) : rcv_event :=
  { saddr := sa, daddr := da, source := sp, dest := dp, seq := 0, syn := syn, fin := fin,
    rst := rst, len := 10, sk_state := sk_state, snd_cwnd := snd_cwnd, snd_cwnd_clamp := 0,
    current_ssthresh := 0, srtt := 0, now_first := t_first, now_packet := t, now_update := t }

/-- A flow created at `5 s + 100 ns` whose last packet, a FIN, is stamped
`7 s + 300 ns`. -/
def demo_timed : State :=
  match run_rcv demo_cfg demo_init
      [demo_rcv_at 1 2 3 4 true false false 0 0 ⟨5, 100⟩ ⟨5, 100⟩,
       demo_rcv_at 1 2 3 4 false true false 0 0 ⟨7, 300⟩ ⟨7, 300⟩] with
  | some s => s
  | none => demo_init

/-- The source address an event carries. -/
def flow_event.saddr : flow_event → Nat
  | flow_event.rcv e => e.saddr
  | flow_event.xmit e => e.saddr

/-- The destination address an event carries. -/
def flow_event.daddr : flow_event → Nat
  | flow_event.rcv e => e.daddr
  | flow_event.xmit e => e.daddr

/-- The source port an event carries. -/
def flow_event.sport : flow_event → Nat
  | flow_event.rcv e => e.source
  | flow_event.xmit e => e.sport

/-- The destination port an event carries. -/
def flow_event.dport : flow_event → Nat
  | flow_event.rcv e => e.dest
  | flow_event.xmit e => e.dport

/-- The port test at the head of each probe. -/
def flow_event.passes (cfg : Config) : flow_event → Prop
  | flow_event.rcv e =>
    cfg.port = 0 ∨ (ntohs cfg e.dest : Int) = cfg.port ∨ (ntohs cfg e.source : Int) = cfg.port
  | flow_event.xmit e =>
    cfg.port = 0 ∨ (ntohs cfg e.sport : Int) = cfg.port ∨ (ntohs cfg e.dport : Int) = cfg.port

/-- Whether the probe may allocate a record for the event: `th->syn`, resp.
`tcb->flags & TCPHDR_SYN`. -/
def flow_event.creates : flow_event → Bool
  | flow_event.rcv e => e.syn
  | flow_event.xmit e => decide ((e.flags &&& TCPHDR_SYN) ≠ 0)

/-- Whether the probe finishes the record of the event: `th->fin || th->rst`,
resp. `tcb->flags & TCPHDR_FIN || tcb->flags & TCPHDR_SYN`. -/
def flow_event.terminates : flow_event → Bool
  | flow_event.rcv e => e.fin || e.rst
  | flow_event.xmit e => decide ((e.flags &&& TCPHDR_FIN) ≠ 0 ∨ (e.flags &&& TCPHDR_SYN) ≠ 0)

/-- The clock reading the probe stores in `last_packet_tstamp`. -/
def flow_event.now_packet : flow_event → timespec
  | flow_event.rcv e => e.now_packet
  | flow_event.xmit e => e.now_packet

/-- The bucket the probe searches for the event. -/
def flow_event.bucket (cfg : Config) (ev : flow_event) : Nat :=
  skb_hash_function cfg ev.saddr ev.daddr ev.sport ev.dport

/-- Whether `is_log_for_skb` accepts the event for the record in slot `i`. -/
def flow_event.hits (S : List tcp_flow_log) (ev : flow_event) (i : Nat) : Bool :=
  match_at S ev.saddr ev.daddr ev.sport ev.dport i

/-- The data of a record the probe has just allocated for the event, before
the update of the event itself. -/
def flow_event.fresh (cfg : Config) : flow_event → tcp_flow_log → tcp_flow_log
  | flow_event.rcv e, r0 => strip (set_used 1 (reset_log cfg e.now_first r0))
  | flow_event.xmit e, r0 =>
    set_identity e.saddr e.daddr e.sport e.dport
      (strip (set_used 1 (reset_log cfg e.now_first r0)))

/-- The probe of the event: `jtcp_v4_do_rcv` or `jtcp_transmit_skb`. -/
def probe (cfg : Config) (st : State) : flow_event → Option State
  | flow_event.rcv e => jtcp_v4_do_rcv cfg st e
  | flow_event.xmit e => jtcp_transmit_skb cfg st e

/-- The three outcomes of a probe that returns `s` on a state represented by
`F`, `C`, `Q`: the event is ignored (it fails the port test, or no record of
its bucket matches and it carries no SYN or no slot is free); or the first
matching record `p` of its bucket is updated, and finished when the event
terminates; or the head `p` of the free list is allocated and updated, and
linked at the tail of the bucket or finished.  The data of every other slot
is unchanged. -/
def EventOutcome (cfg : Config) (st s : State) (F : List Nat) (C : Nat → List Nat)
    (Q : List Nat) (ev : flow_event) : Prop :=
  (s = st ∧ (¬ ev.passes cfg ∨ ((∀ i ∈ C (ev.bucket cfg), ev.hits st.storage i = false) ∧
    (ev.creates = false ∨ F = [])))) ∨
  (ev.passes cfg ∧ ∃ (p : Nat) (l1 l2 : List Nat) (a a1 : tcp_flow_log),
    C (ev.bucket cfg) = l1 ++ p :: l2 ∧ (∀ i ∈ l1, ev.hits st.storage i = false) ∧
    ev.hits st.storage p = true ∧
    (st.storage[p]?).map strip = some a ∧ flow_update cfg ev a = some a1 ∧
    (s.storage[p]?).map strip = some a1 ∧
    (∀ i : Nat, i ≠ p → (s.storage[i]?).map strip = (st.storage[i]?).map strip) ∧
    (ev.terminates = false → FlowInv cfg s F C Q) ∧
    (ev.terminates = true →
      FlowInv cfg s F (Function.update C (ev.bucket cfg) (l1 ++ l2)) (p :: Q))) ∨
  (ev.passes cfg ∧ ev.creates = true ∧
    (∀ i ∈ C (ev.bucket cfg), ev.hits st.storage i = false) ∧
    ∃ (p : Nat) (F1 : List Nat) (r0 a1 : tcp_flow_log),
    F = p :: F1 ∧ st.storage[p]? = some r0 ∧ flow_update cfg ev (ev.fresh cfg r0) = some a1 ∧
    (s.storage[p]?).map strip = some a1 ∧
    (∀ i : Nat, i ≠ p → (s.storage[i]?).map strip = (st.storage[i]?).map strip) ∧
    (ev.terminates = false →
      FlowInv cfg s F1 (Function.update C (ev.bucket cfg) (C (ev.bucket cfg) ++ [p])) Q) ∧
    (ev.terminates = true → FlowInv cfg s F1 C (p :: Q)))

/-- The test of the live scan on slot `i`: the slot is in use and its last
packet is later than its last report. -/
def pending_at (S : List tcp_flow_log) (i : Nat) : Bool :=
  match S[i]? with
  | some r =>
    decide (r.used ≠ 0) && tcpprobe_timespec_larger r.last_packet_tstamp r.last_printed_tstamp
  | none => false

/-- The part of `tcpflowspy_sprint` from `tv = tcpprobe_timespec_sub(...)` to
`ret:`: the text of record `pr` written into `tbuf`, and the returned size. -/
def print_record (cfg : Config) (start : timespec) (finished : Nat) (pr : tcp_flow_log)
    (tbuf : List Char) (n : Nat) : Option (List Char × Nat) :=
  let tv := tcpprobe_timespec_sub pr.last_packet_tstamp start
  let duration := tcpprobe_timespec_sub pr.last_packet_tstamp pr.first_packet_tstamp
  let r1 := snprintf tbuf 0 n (sprint_header cfg tv duration finished pr)
  match sprint_histogram n pr.snd_cwnd_histogram cfg.number_of_buckets.toNat 0 r1.1 r1.2 with
  | none => none
  | some r2 =>
    let tbuf3 := r2.1.set (min (n - 1) r2.2) ' '
    let size3 := if r2.2 < n then r2.2 + 1 else r2.2
    let tbuf4 := tbuf3.set (min (n - 1) size3) '\n'
    let size4 := if size3 < n then size3 + 1 else size3
    some (tbuf4, size4)

/-- The worked configuration in live mode. -/
def demo_live_cfg : Config := { demo_cfg with live := 1 }

/-- The initial state of the live configuration. -/
def demo_live_init : State :=
  match tcpflowspy_init demo_live_cfg with
  | some x => x.2
  | none => ⟨timespec.zero, timespec.zero, timespec.zero, none, [], none, [], 0⟩

/-- The live state after one SYN of the flow `(1, 2, 3, 4)` at second 1. -/
def demo_live_open : State :=
  match jtcp_v4_do_rcv demo_live_cfg demo_live_init (demo_rcv 1 2 3 4 true false false 0 0 1) with
  | some s => s
  | none => demo_live_init

/-- Two storages mark the same slots as in use. -/
def SameUsed (S S1 : List tcp_flow_log) : Prop :=
  ∀ i : Nat, (S1[i]?).map (fun r => r.used) = (S[i]?).map (fun r => r.used)

/-- The `used` marks agree with the representation: the slots of the free list
are unused, every other slot is in use. -/
def UsedInv (st : State) (F : List Nat) : Prop :=
  ∀ (i : Nat) (r : tcp_flow_log), st.storage[i]? = some r →
    (i ∈ F → r.used = 0) ∧ (i ∉ F → r.used = 1)

/-- The live state `demo_live_open` after a drain step at second 2 whose
caller has room for 10 bytes only. -/
def demo_live_short : State :=
  match read_step demo_live_cfg demo_live_open false ⟨2, 0⟩ ⟨2, 0⟩ (List.replicate 256 ' ')
      0 10 with
  | some x => x.1
  | none => demo_live_open

/-- An operation that can finish records: a probe, or a run of the prune
timer. -/
inductive finish_op where
  | event (ev : flow_event)
  | sweep (now : timespec)

/-- The state after the operation, `none` on a fault. -/
def finish_op.apply (cfg : Config) (st : State) : finish_op → Option State
  | finish_op.event ev => probe cfg st ev
  | finish_op.sweep now => prune_timer cfg st now

/-- The state after a sequence of operations with no drain in between. -/
def run_ops (cfg : Config) : State → List finish_op → Option State
  | st, [] => some st
  | st, op :: ops =>
    match op.apply cfg st with
    | none => none
    | some s => run_ops cfg s ops

/-- A decision procedure for `IsPath`. -/
def is_path (S : List tcp_flow_log) : Option Nat → List Nat → Bool
  | p, [] => p.isNone
  | p, i :: l =>
    decide (p = some i) &&
      (match S[i]? with
       | some r => is_path S r.next l
       | none => false)

/-- The state after the SYNs of the flows `(1, 2, 3, 4)` and `(5, 6, 7, 8)` at
second 1. -/
def demo_two_open : State :=
  match run_rcv demo_cfg demo_init
      [demo_rcv 1 2 3 4 true false false 0 0 1, demo_rcv 5 6 7 8 true false false 0 0 1] with
  | some s => s
  | none => demo_init

/-- That state after a FIN of the flow `(1, 2, 3, 4)` at second 2. -/
def demo_two_first : State :=
  match jtcp_v4_do_rcv demo_cfg demo_two_open (demo_rcv 1 2 3 4 false true false 0 0 2) with
  | some s => s
  | none => demo_two_open

/-- And then after a run of the prune timer at second 200. -/
def demo_two_both : State :=
  match prune_timer demo_cfg demo_two_first ⟨200, 0⟩ with
  | some s => s
  | none => demo_two_first

/-- A read-loop iteration of the worked examples: no signal, clock at second
`t`, an empty caller buffer of 1000 bytes. -/
def demo_read (t : Int) : read_input :=
  { signal := false, now_read := ⟨t, 0⟩, now_print := ⟨t, 0⟩,
    tbuf := List.replicate 256 ' ', cnt := 0, len := 1000 }

/-- White space: blank, newline, tab, carriage return. -/
def is_ws (c : Char) : Bool := c == ' ' || c == '\n' || c == '\t' || c == '\r'

/-- Splitting on white space; the first argument is the field being read,
last character first. -/
def spec_fields_go : List Char → List Char → List (List Char)
  | acc, [] => if acc = [] then [] else [acc.reverse]
  | acc, c :: cs =>
    if is_ws c then
      if acc = [] then spec_fields_go [] cs else acc.reverse :: spec_fields_go [] cs
    else spec_fields_go (c :: acc) cs

/-- The fields of a line, split on white space. -/
def spec_fields (line : List Char) : List (List Char) := spec_fields_go [] line

/-- The fields of a line in the words of the specification. -/
def spec_field_names : List String :=
  ["time-since-start", "finished flag", "source address", "source port",
   "destination address", "destination port", "flow duration", "received packet count",
   "received bytes", "sent packet count", "sent bytes", "total retransmissions",
   "out-of-order count", "window clamp", "slow-start threshold", "smoothed RTT",
   "last congestion window", "histogram"]

/-- The text of the histogram loop of `tcpflowspy_sprint`: every count
followed by a comma. -/
def sprint_hist_text (hist : List Nat) : List Char :=
  hist.flatMap (fun h => fmt_u h ++ [','])

/-- The whole line of `tcpflowspy_sprint` for record `pr`: the text of the
first `snprintf`, the histogram counts, a blank and a newline. -/
def sprint_line (cfg : Config) (start : timespec) (finished : Nat) (pr : tcp_flow_log) :
    List Char :=
  sprint_header cfg (tcpprobe_timespec_sub pr.last_packet_tstamp start)
      (tcpprobe_timespec_sub pr.last_packet_tstamp pr.first_packet_tstamp) finished pr ++
    sprint_hist_text (pr.snd_cwnd_histogram.take cfg.number_of_buckets.toNat) ++ [' ', '\n']

/-- The sixteen fields the format of `tcpflowspy_sprint` separates by blanks:
`sec.nsec` since start, the flag in parentheses, `saddr:sport` and
`daddr:dport` (address in hexadecimal), the duration `sec.nsec`, ten counters,
and the histogram counts, each followed by a comma. -/
def sprint_fields (cfg : Config) (start : timespec) (finished : Nat) (pr : tcp_flow_log) :
    List (List Char) :=
  [fmt_lu (tcpprobe_timespec_sub pr.last_packet_tstamp start).tv_sec ++ '.' ::
      fmt_09lu (tcpprobe_timespec_sub pr.last_packet_tstamp start).tv_nsec,
   '(' :: (fmt_u finished ++ [')']),
   fmt_x (ntohl cfg pr.saddr) ++ ':' :: fmt_u (ntohs cfg pr.sport),
   fmt_x (ntohl cfg pr.daddr) ++ ':' :: fmt_u (ntohs cfg pr.dport),
   fmt_lu (tcpprobe_timespec_sub pr.last_packet_tstamp pr.first_packet_tstamp).tv_sec ++ '.' ::
      fmt_09lu (tcpprobe_timespec_sub pr.last_packet_tstamp pr.first_packet_tstamp).tv_nsec,
   fmt_u pr.recv_count, fmt_lu pr.recv_size, fmt_u pr.snd_count, fmt_lu pr.snd_size,
   fmt_u pr.total_retransmissions, fmt_u pr.out_of_order_packets, fmt_u pr.snd_cwnd_clamp,
   fmt_u pr.ssthresh, fmt_u pr.srtt, fmt_u pr.last_cwnd,
   sprint_hist_text (pr.snd_cwnd_histogram.take cfg.number_of_buckets.toNat)]

/-- No character of the text is white space. -/
def NoWs (t : List Char) : Prop := ∀ c ∈ t, is_ws c = false

/-- The configuration with the port filter switched off. -/
def no_filter (cfg : Config) : Config := { cfg with port := 0 }

/-- The worked configuration with the port filter set to 80. -/
def demo_port_cfg : Config := { demo_cfg with port := 80 }

/-- The live state after the SYNs of the flows `(1, 2, 3, 4)` (slot 0) and
`(5, 6, 7, 8)` (slot 1) at second 1 and a FIN of the second flow at second 2:
slot 0 is indexed and not yet reported, slot 1 is the finished queue, and the
cursor is 0. -/
def demo_live_mixed : State :=
  match run_rcv demo_live_cfg demo_live_init
      [demo_rcv 1 2 3 4 true false false 0 0 1, demo_rcv 5 6 7 8 true false false 0 0 1,
       demo_rcv 5 6 7 8 false true false 0 0 2] with
  | some s => s
  | none => demo_live_init

/-- A decision procedure for `IsDPath`. -/
def is_dpath (S : List tcp_flow_log) : Option Nat → Option Nat → List Nat → Bool
  | _, p, [] => p.isNone
  | pv, p, i :: l =>
    decide (p = some i) &&
      (match S[i]? with
       | some r => decide (r.prev = pv) && is_dpath S (some i) r.next l
       | none => false)

/-- The state after the SYNs of three flows of bucket 3: the chain of bucket 3
is slot 0, slot 1, slot 2. -/
def demo_chain : State :=
  match run_rcv demo_cfg demo_init
      [demo_rcv 1 2 3 4 true false false 0 0 1, demo_rcv 1 2 4 3 true false false 0 0 1,
       demo_rcv 1 2 1 6 true false false 0 0 1] with
  | some s => s
  | none => demo_init

/-- Every record linked in a bucket chain hashes, by its stored identity, to
the number of that bucket. -/
def BucketInv (cfg : Config) (st : State) (C : Nat → List Nat) : Prop :=
  ∀ b, b < cfg.bufsize → ∀ i ∈ C b, ∀ r, st.storage[i]? = some r →
    skb_hash_function cfg r.saddr r.daddr r.sport r.dport = b

/-- The state after a SYN of the flow `(1, 2, 3, 4)` and a receive event with
the reversed identity `(2, 1, 4, 3)`: slot 0 stores `(2, 1, 4, 3)`. -/
def demo_flipped : State :=
  match run_rcv demo_cfg demo_init
      [demo_rcv 1 2 3 4 true false false 0 0 1, demo_rcv 2 1 4 3 false false false 0 0 2] with
  | some s => s
  | none => demo_init

/-- The match of the specification: the query 4-tuple is the stored identity
of the record, or the stored identity with source and destination swapped. -/
def spec_matches (r : tcp_flow_log) (sa da sp dp : Nat) : Bool :=
  decide ((sa, da, sp, dp) = identity r) || decide ((da, sa, dp, sp) = identity r)

/-- A receive event of the flow `(1, 2, 3, 4)` of the worked examples with the
sequence field `seq`, not established, at second `t`. -/
def demo_rcv_seq (seq : Nat) (syn : Bool) (t : Int) : rcv_event :=
  { saddr := 1, daddr := 2, source := 3, dest := 4, seq := seq, syn := syn, fin := false,
    rst := false, len := 10, sk_state := 0, snd_cwnd := 0, snd_cwnd_clamp := 0,
    current_ssthresh := 0, srtt := 0, now_first := ⟨t, 0⟩, now_packet := ⟨t, 0⟩,
    now_update := ⟨t, 0⟩ }

/-- The number of out-of-order packets that fills the `u32` counter. -/
def demo_late_count : Nat := 2 ^ 32 - 1

/-- A SYN with sequence number 7 (the field holds the bytes in network order),
then `2^32 - 1` packets with sequence number 0. -/
def demo_late_flow : List rcv_event :=
  demo_rcv_seq (7 * 2 ^ 24) true 1 :: List.replicate demo_late_count (demo_rcv_seq 0 false 2)

/-- The state after one SYN of the flow `(1, 2, 3, 4)` with sequence number 7. -/
def demo_seq_open : State :=
  match jtcp_v4_do_rcv demo_cfg demo_init (demo_rcv_seq (7 * 2 ^ 24) true 1) with
  | some s => s
  | none => demo_init

/-- The finished record whose line an iteration of the read loop handed to the
reader, with the bytes `copy_to_user` copied: the head of the finished queue
and the bytes of the iteration, when bytes were copied. -/
def returned_line (st : State) (cnt : Nat) (res : read_result) : Option (Nat × List Char) :=
  match res with
  | read_result.next c copied => if c = cnt then none else st.finished.map (fun q => (q, copied))
  | _ => none

/-- A script of read-loop iterations with nothing in between: the final state
and, for every finished record handed to the reader, its slot and the bytes
copied to the reader, in order. -/
def drain_lines (cfg : Config) : State → List read_input → Option (State × List (Nat × List Char))
  | st, [] => some (st, [])
  | st, i :: is =>
    match read_step cfg st i.signal i.now_read i.now_print i.tbuf i.cnt i.len with
    | none => none
    | some (s, res) =>
      match drain_lines cfg s is with
      | none => none
      | some (s1, out) => some (s1, (returned_line st i.cnt res).toList ++ out)

/-! ## Storage and walks: basic facts -/

@[simp] theorem set_next_next (v : Option Nat) (r : tcp_flow_log) : (set_next v r).next = v := rfl
@[simp] theorem set_next_prev (v : Option Nat) (r : tcp_flow_log) : (set_next v r).prev = r.prev := rfl
@[simp] theorem set_prev_prev (v : Option Nat) (r : tcp_flow_log) : (set_prev v r).prev = v := rfl
@[simp] theorem set_prev_next (v : Option Nat) (r : tcp_flow_log) : (set_prev v r).next = r.next := rfl

theorem getElem?_set_some {α : Type} {s : List α} {i j : Nat} {r v : α} (h : s[i]? = some r) :
    (s.set i v)[j]? = if i = j then some v else s[j]? := by
  rw [List.getElem?_set]
  have : i < s.length := by
    rcases List.getElem?_eq_some.1 h with ⟨h1, _⟩; exact h1
  simp [this]

theorem MapS.refl_map (S : List tcp_flow_log) : MapS (fun _ r => r) S S := by
  intro i; cases S[i]? <;> rfl

theorem MapS.trans_map {g1 g2 : Nat → tcp_flow_log → tcp_flow_log} {S S1 S2 : List tcp_flow_log}
    (h1 : MapS g1 S S1) (h2 : MapS g2 S1 S2) : MapS (fun i r => g2 i (g1 i r)) S S2 := by
  intro i; rw [h2 i, h1 i]; cases S[i]? <;> rfl

theorem MapS.congr_map {g1 g2 : Nat → tcp_flow_log → tcp_flow_log} {S S1 : List tcp_flow_log}
    (h1 : MapS g1 S S1) (h : ∀ i r, S[i]? = some r → g1 i r = g2 i r) : MapS g2 S S1 := by
  intro i; rw [h1 i]
  cases hr : S[i]? with
  | none => rfl
  | some r => simp [h i r hr]

theorem MapS.length {g : Nat → tcp_flow_log → tcp_flow_log} {S S1 : List tcp_flow_log}
    (h : MapS g S S1) : S1.length = S.length := by
  rcases Nat.lt_trichotomy S1.length S.length with hlt | heq | hgt
  · have h1 := h S1.length
    rw [List.getElem?_eq_none (le_refl _)] at h1
    have : S[S1.length]? = some (S[S1.length]) := List.getElem?_eq_getElem hlt
    rw [this] at h1; simp at h1
  · exact heq
  · have h1 := h S.length
    rw [List.getElem?_eq_none (le_refl _)] at h1
    have : S1[S.length]? = some (S1[S.length]) := List.getElem?_eq_getElem hgt
    rw [this] at h1; simp at h1

theorem MapS.get {g : Nat → tcp_flow_log → tcp_flow_log} {S S1 : List tcp_flow_log}
    (h : MapS g S S1) {i : Nat} {r : tcp_flow_log} (hr : S[i]? = some r) :
    S1[i]? = some (g i r) := by
  rw [h i, hr]; rfl

theorem MapS_set {S : List tcp_flow_log} {i : Nat} {r : tcp_flow_log}
    (f : tcp_flow_log → tcp_flow_log) (h : S[i]? = some r) :
    MapS (fun j x => if j = i then f x else x) S (S.set i (f r)) := by
  intro j
  rw [getElem?_set_some h]
  by_cases hij : i = j
  · subst hij; simp [h]
  · have : ¬ j = i := fun e => hij e.symm
    simp [hij, this]

/-- A successful store. -/
theorem wr_ok {st : State} {i : Nat} {r : tcp_flow_log} (f : tcp_flow_log → tcp_flow_log)
    (h : st.storage[i]? = some r) :
    ∃ st1, wr st i f = some st1 ∧ SameGlobals st st1 ∧ st1.entries = st.entries ∧
      MapS (fun j x => if j = i then f x else x) st.storage st1.storage := by
  refine ⟨{ st with storage := st.storage.set i (f r) }, by simp [wr, h], ?_, rfl, MapS_set f h⟩
  simp [SameGlobals]

/-- A successful bucket store. -/
theorem wr_entry_ok {st : State} {b : Nat} {e : hashtable_entry}
    (f : hashtable_entry → hashtable_entry) (h : st.entries[b]? = some e) :
    ∃ st1, wr_entry st b f = some st1 ∧ SameGlobals st st1 ∧ st1.storage = st.storage ∧
      st1.entries = st.entries.set b (f e) := by
  refine ⟨{ st with entries := st.entries.set b (f e) }, by simp [wr_entry, h], ?_, rfl, rfl⟩
  simp [SameGlobals]

theorem IsPath_map {g : Nat → tcp_flow_log → tcp_flow_log} {S S1 : List tcp_flow_log}
    (h : MapS g S S1) :
    ∀ (l : List Nat) (p : Option Nat),
      (∀ i ∈ l, ∀ r, S[i]? = some r → (g i r).next = r.next) → IsPath S p l → IsPath S1 p l
  | [], _, _, hp => hp
  | i :: l, p, hg, hp => by
    obtain ⟨h1, r, hr, h2⟩ := hp
    refine ⟨h1, g i r, h.get hr, ?_⟩
    rw [hg i (List.mem_cons_self _ _) r hr]
    exact IsPath_map h l _ (fun j hj => hg j (List.mem_cons_of_mem _ hj)) h2

theorem IsDPath_map {g : Nat → tcp_flow_log → tcp_flow_log} {S S1 : List tcp_flow_log}
    (h : MapS g S S1) :
    ∀ (l : List Nat) (pv p : Option Nat),
      (∀ i ∈ l, ∀ r, S[i]? = some r → (g i r).next = r.next ∧ (g i r).prev = r.prev) →
      IsDPath S pv p l → IsDPath S1 pv p l
  | [], _, _, _, hp => hp
  | i :: l, pv, p, hg, hp => by
    obtain ⟨h1, r, hr, h3, h2⟩ := hp
    refine ⟨h1, g i r, h.get hr, ?_, ?_⟩
    · rw [(hg i (List.mem_cons_self _ _) r hr).2]; exact h3
    · rw [(hg i (List.mem_cons_self _ _) r hr).1]
      exact IsDPath_map h l _ _ (fun j hj => hg j (List.mem_cons_of_mem _ hj)) h2

theorem IsDPath.toPath {S : List tcp_flow_log} :
    ∀ (l : List Nat) (pv p : Option Nat), IsDPath S pv p l → IsPath S p l
  | [], _, _, hp => hp
  | _ :: l, _, _, ⟨h1, r, hr, _, h2⟩ => ⟨h1, r, hr, IsDPath.toPath l _ _ h2⟩

theorem IsPath.valid_path {S : List tcp_flow_log} :
    ∀ (l : List Nat) (p : Option Nat), IsPath S p l → ∀ i ∈ l, ∃ r, S[i]? = some r
  | [], _, _, _, hi => by cases hi
  | j :: l, _, ⟨_, r, hr, h2⟩, i, hi => by
    rcases List.mem_cons.1 hi with rfl | hi
    · exact ⟨r, hr⟩
    · exact IsPath.valid_path l _ h2 i hi

/-- The pointer a walk starts from is the head of its list. -/
theorem IsPath.head_eq {S : List tcp_flow_log} {l : List Nat} {p : Option Nat} (h : IsPath S p l) :
    p = l.head? := by
  cases l with
  | nil => exact h
  | cons i l => exact h.1

theorem IsDPath.dhead_eq {S : List tcp_flow_log} {l : List Nat} {pv p : Option Nat}
    (h : IsDPath S pv p l) : p = l.head? := by
  cases l with
  | nil => exact h
  | cons i l => exact h.1

@[simp] theorem set_next_set_next (v w : Option Nat) (r : tcp_flow_log) :
    set_next v (set_next w r) = set_next v r := rfl
@[simp] theorem set_prev_set_prev (v w : Option Nat) (r : tcp_flow_log) :
    set_prev v (set_prev w r) = set_prev v r := rfl

theorem getElem?_lt {α : Type} {s : List α} {i : Nat} {r : α} (h : s[i]? = some r) :
    i < s.length := by
  rcases List.getElem?_eq_some.1 h with ⟨h1, _⟩; exact h1

theorem SameGlobals.refl_glob (st : State) : SameGlobals st st := by simp [SameGlobals]

theorem SameGlobals.trans_glob {a b c : State} (h1 : SameGlobals a b) (h2 : SameGlobals b c) :
    SameGlobals a c := by
  simp only [SameGlobals] at *
  obtain ⟨a1, a2, a3, a4, a5, a6⟩ := h1
  obtain ⟨b1, b2, b3, b4, b5, b6⟩ := h2
  exact ⟨b1.trans a1, b2.trans a2, b3.trans a3, b4.trans a4, b5.trans a5, b6.trans a6⟩

theorem set_self_of_getElem? {α : Type} {l : List α} {i : Nat} {a : α} (h : l[i]? = some a) :
    l.set i a = l := by
  apply List.ext_getElem?
  intro j
  rw [getElem?_set_some h]
  by_cases hij : i = j
  · subst hij; simp [h]
  · simp [hij]

theorem unlink_tail_effect (st : State) (b x : Nat) (e : hashtable_entry) (rx : tcp_flow_log)
    (he : st.entries[b]? = some e) (hx : st.storage[x]? = some rx)
    (ha : ∀ a, rx.prev = some a → ∃ ra, st.storage[a]? = some ra) :
    ∃ st1, unlink_tail st b x = some st1 ∧
      Eff st st1 (st.entries.set b ⟨e.head, if e.tail = some x then rx.prev else e.tail⟩)
        (fun i r => if e.tail = some x ∧ rx.prev = some i then set_next none r else r) := by
  unfold unlink_tail
  rw [he]
  by_cases ht : e.tail = some x
  · simp only [ht, if_true, hx]
    obtain ⟨s, hs, hg, hst, hen⟩ := wr_entry_ok (fun e => { e with tail := rx.prev }) he
    rw [hs]
    rcases hp : rx.prev with _ | a
    · rw [hp] at hen
      refine ⟨s, rfl, hg, hen, ?_⟩
      rw [hst]; simpa using MapS.refl_map st.storage
    · obtain ⟨ra, hra⟩ := ha a hp
      rw [hp] at hen
      rw [← hst] at hra
      obtain ⟨s1, hs1, hg1, hen1, hm⟩ := wr_ok (set_next none) hra
      refine ⟨s1, hs1, hg.trans_glob hg1, hen1.trans hen, ?_⟩
      rw [hst] at hm
      refine hm.congr_map (fun i r _ => ?_)
      by_cases hi : i = a
      · subst hi; simp
      · have : ¬ a = i := fun h => hi h.symm
        simp [hi, this]
  · simp only [ht, if_false]
    refine ⟨st, rfl, SameGlobals.refl_glob st, ?_, ?_⟩
    · have : (⟨e.head, e.tail⟩ : hashtable_entry) = e := rfl
      rw [this, set_self_of_getElem? he]
    · simpa using MapS.refl_map st.storage

theorem unlink_head_effect (st : State) (b x : Nat) (e : hashtable_entry) (rx : tcp_flow_log)
    (he : st.entries[b]? = some e) (hx : st.storage[x]? = some rx)
    (hc : ∀ c, rx.next = some c → ∃ rc, st.storage[c]? = some rc) :
    ∃ st1, unlink_head st b x = some st1 ∧
      Eff st st1 (st.entries.set b ⟨if e.head = some x then rx.next else e.head, e.tail⟩)
        (fun i r => if e.head = some x ∧ rx.next = some i then set_prev none r else r) := by
  unfold unlink_head
  rw [he]
  by_cases ht : e.head = some x
  · simp only [ht, if_true, hx]
    obtain ⟨s, hs, hg, hst, hen⟩ := wr_entry_ok (fun e => { e with head := rx.next }) he
    rw [hs]
    rcases hp : rx.next with _ | c
    · rw [hp] at hen
      refine ⟨s, rfl, hg, hen, ?_⟩
      rw [hst]; simpa using MapS.refl_map st.storage
    · obtain ⟨rc, hrc⟩ := hc c hp
      rw [hp] at hen
      rw [← hst] at hrc
      obtain ⟨s1, hs1, hg1, hen1, hm⟩ := wr_ok (set_prev none) hrc
      refine ⟨s1, hs1, hg.trans_glob hg1, hen1.trans hen, ?_⟩
      rw [hst] at hm
      refine hm.congr_map (fun i r _ => ?_)
      by_cases hi : i = c
      · subst hi; simp
      · have : ¬ c = i := fun h => hi h.symm
        simp [hi, this]
  · simp only [ht, if_false]
    refine ⟨st, rfl, SameGlobals.refl_glob st, ?_, ?_⟩
    · have : (⟨e.head, e.tail⟩ : hashtable_entry) = e := rfl
      rw [this, set_self_of_getElem? he]
    · simpa using MapS.refl_map st.storage

theorem unlink_next_effect (st : State) (x : Nat) (rx : tcp_flow_log)
    (hx : st.storage[x]? = some rx)
    (hc : ∀ c, rx.next = some c → ∃ rc, st.storage[c]? = some rc) :
    ∃ st1, unlink_next st x = some st1 ∧
      Eff st st1 st.entries (fun i r => if rx.next = some i then set_prev rx.prev r else r) := by
  unfold unlink_next
  rcases hp : rx.next with _ | c
  · simp only [hx, hp]
    exact ⟨st, rfl, SameGlobals.refl_glob st, rfl, by simpa using MapS.refl_map st.storage⟩
  · obtain ⟨rc, hrc⟩ := hc c hp
    obtain ⟨s1, hs1, hg1, hen1, hm⟩ := wr_ok (set_prev rx.prev) hrc
    simp only [hx, hp]
    refine ⟨s1, hs1, hg1, hen1, hm.congr_map (fun i r _ => ?_)⟩
    by_cases hi : i = c
    · subst hi; simp
    · have : ¬ c = i := fun h => hi h.symm
      simp [hi, this]

theorem unlink_prev_effect (st : State) (x : Nat) (rx : tcp_flow_log)
    (hx : st.storage[x]? = some rx)
    (ha : ∀ a, rx.prev = some a → ∃ ra, st.storage[a]? = some ra) :
    ∃ st1, unlink_prev st x = some st1 ∧
      Eff st st1 st.entries (fun i r => if rx.prev = some i then set_next rx.next r else r) := by
  unfold unlink_prev
  rcases hp : rx.prev with _ | a
  · simp only [hx, hp]
    exact ⟨st, rfl, SameGlobals.refl_glob st, rfl, by simpa using MapS.refl_map st.storage⟩
  · obtain ⟨ra, hra⟩ := ha a hp
    obtain ⟨s1, hs1, hg1, hen1, hm⟩ := wr_ok (set_next rx.next) hra
    simp only [hx, hp]
    refine ⟨s1, hs1, hg1, hen1, hm.congr_map (fun i r _ => ?_)⟩
    by_cases hi : i = a
    · subst hi; simp
    · have : ¬ a = i := fun h => hi h.symm
      simp [hi, this]

theorem Eff.trans_eff {a b c : State} {E1 E2 : List hashtable_entry}
    {g1 g2 : Nat → tcp_flow_log → tcp_flow_log} (h1 : Eff a b E1 g1) (h2 : Eff b c E2 g2) :
    Eff a c E2 (fun i r => g2 i (g1 i r)) :=
  ⟨h1.1.trans_glob h2.1, h2.2.1, h1.2.2.trans_map h2.2.2⟩

theorem wr_eff {st : State} {i : Nat} {r : tcp_flow_log} (f : tcp_flow_log → tcp_flow_log)
    (h : st.storage[i]? = some r) :
    ∃ st1, wr st i f = some st1 ∧ Eff st st1 st.entries (fun j x => if j = i then f x else x) := by
  obtain ⟨s1, hs1, hg1, hen1, hm⟩ := wr_ok f h
  exact ⟨s1, hs1, hg1, hen1, hm⟩

theorem remove_effect (st : State) (b x : Nat) (e : hashtable_entry) (rx : tcp_flow_log)
    (he : st.entries[b]? = some e) (hx : st.storage[x]? = some rx)
    (hhead : e.head = some x ↔ rx.prev = none) (htail : e.tail = some x ↔ rx.next = none)
    (ha : ∀ a, rx.prev = some a → a ≠ x ∧ ∃ ra, st.storage[a]? = some ra)
    (hc : ∀ c, rx.next = some c → c ≠ x ∧ ∃ rc, st.storage[c]? = some rc)
    (hac : ∀ a c, rx.prev = some a → rx.next = some c → a ≠ c) :
    ∃ st1, remove_from_hashentry st b (some x) = some st1 ∧
      Eff st st1
        (st.entries.set b
            ⟨if rx.prev = none then rx.next else e.head,
             if rx.next = none then rx.prev else e.tail⟩)
        (unlink_rec x rx) := by
  -- first statement
  obtain ⟨s1, h1, e1⟩ := unlink_tail_effect st b x e rx he hx (fun a h => (ha a h).2)
  have hx1 : s1.storage[x]? = some rx := by
    rw [e1.2.2.get hx]
    have : ¬ rx.prev = some x := fun h => (ha x h).1 rfl
    simp [this]
  have he1 : s1.entries[b]? = some ⟨e.head, if e.tail = some x then rx.prev else e.tail⟩ := by
    rw [e1.2.1, getElem?_set_some he]; simp
  have hv1 : ∀ i r, st.storage[i]? = some r → ∃ r1, s1.storage[i]? = some r1 :=
    fun i r h => ⟨_, e1.2.2.get h⟩
  -- second statement
  obtain ⟨s2, h2, e2⟩ := unlink_head_effect s1 b x _ rx he1 hx1
    (fun c h => by obtain ⟨_, rc, hrc⟩ := hc c h; exact hv1 c rc hrc)
  have hx2 : s2.storage[x]? = some rx := by
    rw [e2.2.2.get hx1]
    have : ¬ rx.next = some x := fun h => (hc x h).1 rfl
    simp [this]
  have hv2 : ∀ i r, st.storage[i]? = some r → ∃ r1, s2.storage[i]? = some r1 :=
    fun i r h => by obtain ⟨r1, h1⟩ := hv1 i r h; exact ⟨_, e2.2.2.get h1⟩
  -- third statement
  obtain ⟨s3, h3, e3⟩ := unlink_next_effect s2 x rx hx2
    (fun c h => by obtain ⟨_, rc, hrc⟩ := hc c h; exact hv2 c rc hrc)
  have hx3 : s3.storage[x]? = some rx := by
    rw [e3.2.2.get hx2]
    have : ¬ rx.next = some x := fun h => (hc x h).1 rfl
    simp [this]
  have hv3 : ∀ i r, st.storage[i]? = some r → ∃ r1, s3.storage[i]? = some r1 :=
    fun i r h => by obtain ⟨r1, h1⟩ := hv2 i r h; exact ⟨_, e3.2.2.get h1⟩
  -- fourth statement
  obtain ⟨s4, h4, e4⟩ := unlink_prev_effect s3 x rx hx3
    (fun a h => by obtain ⟨_, ra, hra⟩ := ha a h; exact hv3 a ra hra)
  have hx4 : s4.storage[x]? = some rx := by
    rw [e4.2.2.get hx3]
    have : ¬ rx.prev = some x := fun h => (ha x h).1 rfl
    simp [this]
  -- the two final stores
  obtain ⟨s5, h5, e5⟩ := wr_eff (set_prev none) hx4
  have hx5 : s5.storage[x]? = some (set_prev none rx) := by
    rw [e5.2.2.get hx4]; simp
  obtain ⟨s6, h6, e6⟩ := wr_eff (set_next none) hx5
  refine ⟨s6, ?_, ?_⟩
  · simp only [remove_from_hashentry, h1, h2, h3, h4, h5, h6, Option.bind_eq_bind,
      Option.some_bind]
  · have hall := ((((e1.trans_eff e2).trans_eff e3).trans_eff e4).trans_eff e5).trans_eff e6
    refine ⟨hall.1, ?_, hall.2.2.congr_map (fun i r _ => ?_)⟩
    · rw [e6.2.1, e5.2.1, e4.2.1, e3.2.1, e2.2.1, e1.2.1, List.set_set]
      congr 1
      rcases hp : rx.prev with _ | a <;> rcases hn : rx.next with _ | c <;>
        simp [hhead, htail, hp, hn]
    · unfold unlink_rec
      by_cases hi : i = x
      · subst hi
        have h1 : ¬ rx.prev = some i := fun h => (ha i h).1 rfl
        have h2 : ¬ rx.next = some i := fun h => (hc i h).1 rfl
        simp [h1, h2]
      · simp only [hi, if_false]
        by_cases hpi : rx.prev = some i
        · have hni : ¬ rx.next = some i := fun h => hac i i hpi h rfl
          simp only [hpi, hni, if_true, if_false, and_false, and_true]
          split_ifs <;> simp
        · by_cases hni : rx.next = some i
          · simp only [hpi, hni, if_true, if_false, and_false, and_true]
            split_ifs <;> simp
          · simp [hpi, hni]


@[simp] theorem lastOr_nil (pv : Option Nat) : lastOr pv [] = pv := rfl

theorem lastOr_cons (pv : Option Nat) (i : Nat) (l : List Nat) :
    lastOr pv (i :: l) = lastOr (some i) l := by
  cases l with
  | nil => rfl
  | cons j l =>
    have h : (j :: l).getLast? = some ((j :: l).getLast (by simp)) :=
      List.getLast?_eq_getLast _ _
    simp only [lastOr, List.getLast?_cons_cons, h]

theorem lastOr_mem {pv : Option Nat} {l : List Nat} {t : Nat} (h : lastOr pv l = some t) :
    t ∈ l ∨ pv = some t := by
  unfold lastOr at h
  cases hl : l.getLast? with
  | none => rw [hl] at h; exact Or.inr h
  | some u =>
    rw [hl] at h
    have : u = t := by simpa using h
    subst this
    exact Or.inl (List.mem_of_getLast?_eq_some hl)

theorem lastOr_none_eq (l : List Nat) : lastOr none l = l.getLast? := by
  unfold lastOr; cases l.getLast? <;> rfl

theorem lastOr_ne_nil {pv : Option Nat} {l : List Nat} (h : l ≠ []) :
    lastOr pv l = l.getLast? := by
  unfold lastOr
  cases hl : l.getLast? with
  | none => exact absurd (List.getLast?_eq_none_iff.1 hl) h
  | some u => rfl

theorem IsDPath.at {S : List tcp_flow_log} {x : Nat} {l2 : List Nat} :
    ∀ (l1 : List Nat) (pv hd : Option Nat), IsDPath S pv hd (l1 ++ x :: l2) →
      ∃ rx, S[x]? = some rx ∧ rx.prev = lastOr pv l1 ∧ IsDPath S (some x) rx.next l2
  | [], _, _, ⟨_, r, hr, h3, h2⟩ => ⟨r, hr, h3, h2⟩
  | y :: l1, pv, _, ⟨_, _, _, _, h2⟩ => by
    obtain ⟨rx, h4, h5, h6⟩ := IsDPath.at l1 (some y) _ h2
    exact ⟨rx, h4, by rw [lastOr_cons]; exact h5, h6⟩

theorem IsDPath.valid_dpath {S : List tcp_flow_log} {l : List Nat} {pv p : Option Nat}
    (h : IsDPath S pv p l) : ∀ i ∈ l, ∃ r, S[i]? = some r :=
  IsPath.valid_path l p (IsDPath.toPath l pv p h)

theorem IsDPath_remove {S S1 : List tcp_flow_log} {x : Nat} {rx : tcp_flow_log} {l2 : List Nat}
    (hm : MapS (unlink_rec x rx) S S1) (hx : S[x]? = some rx) :
    ∀ (l1 : List Nat) (pv hd : Option Nat), IsDPath S pv hd (l1 ++ x :: l2) →
      (l1 ++ x :: l2).Nodup → (∀ i ∈ l1 ++ x :: l2, pv ≠ some i) →
      IsDPath S1 pv (if l1 = [] then rx.next else hd) (l1 ++ l2)
  | [], pv, hd, hp, hnd, hpv => by
    obtain ⟨_, r, hr, h3, h2⟩ := hp
    have hrx : r = rx := by rw [hx] at hr; exact (Option.some.inj hr).symm
    subst hrx
    simp only [List.nil_append, if_true] at *
    have hxl2 : x ∉ l2 := (List.nodup_cons.1 hnd).1
    cases l2 with
    | nil => exact h2
    | cons c l2 =>
      obtain ⟨h4, rc, hrc, h5, h6⟩ := h2
      have hcx : c ≠ x := fun h => hxl2 (by simp [h])
      have hpc : ¬ r.prev = some c := by rw [h3]; exact hpv c (by simp)
      have hu : unlink_rec x r c rc = set_prev r.prev rc := by
        simp [unlink_rec, hcx, hpc, h4]
      refine ⟨h4, _, hm.get hrc, ?_, ?_⟩
      · rw [hu]; simpa using h3
      · rw [hu]
        have hnd2 : (c :: l2).Nodup := (List.nodup_cons.1 hnd).2
        refine IsDPath_map hm l2 _ _ (fun i hi r' _ => ?_) h6
        have hix : i ≠ x := fun h => hxl2 (by simp [← h, hi])
        have hic : ¬ c = i := fun h => (List.nodup_cons.1 hnd2).1 (h ▸ hi)
        have hpi : ¬ r.prev = some i := by rw [h3]; exact hpv i (by simp [hi])
        simp [unlink_rec, hix, hpi, h4, hic]
  | y :: l1, pv, hd, hp, hnd, hpv => by
    obtain ⟨h1, ry, hry, h3, h2⟩ := hp
    have hnd1 : (l1 ++ x :: l2).Nodup := (List.nodup_cons.1 hnd).2
    have hy : y ∉ l1 ++ x :: l2 := (List.nodup_cons.1 hnd).1
    have ih := IsDPath_remove hm hx l1 (some y) ry.next h2 hnd1
      (fun i hi h => hy (by rw [Option.some.inj h]; exact hi))
    obtain ⟨rx1, hrx1, hpx, hpn⟩ := IsDPath.at l1 (some y) _ h2
    have hrx : rx1 = rx := by rw [hx] at hrx1; exact (Option.some.inj hrx1).symm
    subst hrx
    have hyx : y ≠ x := fun h => hy (by simp [h])
    have hny : ¬ rx1.next = some y := by
      rw [IsDPath.dhead_eq hpn]
      intro h
      exact hy (by
        have := List.mem_of_mem_head? h
        simp [this])
    simp only [List.cons_append, if_false, reduceCtorEq]
    refine ⟨h1, _, hm.get hry, ?_, ?_⟩
    · by_cases hl : l1 = []
      · subst hl
        have : rx1.prev = some y := by simpa using hpx
        simp [unlink_rec, hyx, this, h3]
      · have : ¬ rx1.prev = some y := by
          rw [hpx, lastOr_ne_nil hl]
          intro h
          exact hy (by simp [List.mem_of_getLast?_eq_some h])
        simp [unlink_rec, hyx, this, hny, h3]
    · by_cases hl : l1 = []
      · subst hl
        have : rx1.prev = some y := by simpa using hpx
        simpa [unlink_rec, hyx, this] using ih
      · have : ¬ rx1.prev = some y := by
          rw [hpx, lastOr_ne_nil hl]
          intro h
          exact hy (by simp [List.mem_of_getLast?_eq_some h])
        simpa [unlink_rec, hyx, this, hny, hl] using ih

theorem IsDPath_snoc {S S1 : List tcp_flow_log} {p : Nat} {rp : tcp_flow_log} {tl : Option Nat}
    {f : tcp_flow_log → tcp_flow_log} (hm : MapS (link_rec p tl f) S S1) (hp : S[p]? = some rp) :
    ∀ (l : List Nat) (pv hd : Option Nat), IsDPath S pv hd l → p ∉ l → l.Nodup →
      tl = lastOr pv l → IsDPath S1 pv (if l = [] then some p else hd) (l ++ [p])
  | [], pv, hd, _, _, _, htl => by
    simp only [if_true, List.nil_append]
    refine ⟨rfl, _, hm.get hp, ?_, ?_⟩
    · simp [link_rec, htl]
    · simp [link_rec, IsDPath]
  | i :: l, pv, hd, hpath, hpl, hnd, htl => by
    obtain ⟨h1, r, hr, h3, h2⟩ := hpath
    have hip : i ≠ p := fun h => hpl (by simp [h])
    have hpl1 : p ∉ l := fun h => hpl (by simp [h])
    have hil : i ∉ l := (List.nodup_cons.1 hnd).1
    have ih := IsDPath_snoc hm hp l (some i) r.next h2 hpl1 (List.nodup_cons.1 hnd).2
      (by rw [htl, lastOr_cons])
    simp only [List.cons_append, if_false, reduceCtorEq]
    refine ⟨h1, _, hm.get hr, ?_, ?_⟩
    · simp only [link_rec, hip, if_false]
      split_ifs <;> simpa using h3
    · by_cases hl : l = []
      · subst hl
        have : tl = some i := by rw [htl]; rfl
        simpa [link_rec, hip, this] using ih
      · have : ¬ tl = some i := by
          rw [htl, lastOr_cons, lastOr_ne_nil hl]
          intro h
          exact hil (List.mem_of_getLast?_eq_some h)
        simpa [link_rec, hip, this, hl] using ih

theorem find_walk_eq {S : List tcp_flow_log} (sa da sp dp : Nat) :
    ∀ (l : List Nat) (p : Option Nat) (fuel : Nat), IsPath S p l → l.length < fuel →
      find_walk S sa da sp dp fuel p = some (l.find? (match_at S sa da sp dp))
  | [], p, fuel, hp, hf => by
    have : p = none := hp
    subst this
    cases fuel with
    | zero => cases hf
    | succ f => rfl
  | i :: l, p, fuel, ⟨h1, r, hr, h2⟩, hf => by
    subst h1
    cases fuel with
    | zero => cases hf
    | succ f =>
      have hf1 : l.length < f := by simpa using hf
      simp only [find_walk, hr, List.find?_cons, match_at]
      by_cases hm : is_log_for_skb r sa da sp dp = true
      · simp [hm]
      · simp only [hm, if_false]
        have := find_walk_eq sa da sp dp l r.next f h2 hf1
        rw [this]
        simp [match_at, hm]

theorem wr_entry_eff {st : State} {b : Nat} {e : hashtable_entry}
    (f : hashtable_entry → hashtable_entry) (h : st.entries[b]? = some e) :
    ∃ st1, wr_entry st b f = some st1 ∧ Eff st st1 (st.entries.set b (f e)) (fun _ r => r) := by
  obtain ⟨s1, hs1, hg1, hst, hen⟩ := wr_entry_ok f h
  refine ⟨s1, hs1, hg1, hen, ?_⟩
  rw [hst]; exact MapS.refl_map _

theorem reinit_effect (cfg : Config) (st : State) (p : Nat) (rp : tcp_flow_log)
    (en : hashtable_entry) (sa da sp dp : Nat) (now : timespec)
    (he : st.entries[skb_hash_function cfg sa da sp dp]? = some en)
    (hp : st.storage[p]? = some rp)
    (ht : ∀ t, en.tail = some t → t ≠ p ∧ ∃ rt, st.storage[t]? = some rt) :
    ∃ st1, reinitialize_tcp_flow_log cfg st p sa da sp dp now = some st1 ∧
      Eff st st1
        (st.entries.set (skb_hash_function cfg sa da sp dp)
          ⟨if en.tail = none then some p else en.head, some p⟩)
        (link_rec p en.tail (reset_log cfg now)) := by
  set b := skb_hash_function cfg sa da sp dp with hb
  obtain ⟨s1, h1, e1⟩ :=
    wr_eff (reset_log cfg now) hp
  have he1 : s1.entries[b]? = some en := by rw [e1.2.1]; exact he
  have hp1 : s1.storage[p]? = some (reset_log cfg now rp) := by
    rw [e1.2.2.get hp]; simp
  rcases hta : en.tail with _ | t
  · obtain ⟨s2, h2, e2⟩ := wr_entry_eff (fun e => { e with head := some p }) he1
    have he2 : s2.entries[b]? = some ⟨some p, en.tail⟩ := by
      rw [e2.2.1, getElem?_set_some he1]; simp
    have hp2 : s2.storage[p]? = some (reset_log cfg now rp) := by
      rw [e2.2.2.get hp1]
    obtain ⟨s3, h3, e3⟩ := wr_eff (set_prev en.tail) hp2
    have hp3 := e3.2.2.get hp2
    obtain ⟨s4, h4, e4⟩ := wr_eff (set_next none) hp3
    have he4 : s4.entries[b]? = some ⟨some p, en.tail⟩ := by
      rw [e4.2.1, e3.2.1]; exact he2
    obtain ⟨s5, h5, e5⟩ := wr_entry_eff (fun e => { e with tail := some p }) he4
    refine ⟨s5, ?_, ?_⟩
    · have h3a := h3
      rw [hta] at h3a
      simp only [reinitialize_tcp_flow_log, ← hb, h1, Option.bind_eq_bind, Option.some_bind, he1,
        hta, h2, he2, h3a, h4, h5]
    · have hall := ((((e1.trans_eff e2).trans_eff e3).trans_eff e4).trans_eff e5)
      refine ⟨hall.1, ?_, hall.2.2.congr_map (fun i r _ => ?_)⟩
      · rw [e5.2.1, e4.2.1, e3.2.1, e2.2.1, e1.2.1, List.set_set]; simp
      · by_cases hi : i = p
        · subst hi; simp [link_rec, hta]
        · simp [link_rec, hi]
  · obtain ⟨htp, rt, hrt⟩ := ht t hta
    have hrt1 : s1.storage[t]? = some rt := by
      rw [e1.2.2.get hrt]; simp [htp]
    obtain ⟨s2, h2, e2⟩ := wr_eff (set_next (some p)) hrt1
    have he2 : s2.entries[b]? = some en := by rw [e2.2.1]; exact he1
    have hp2 : s2.storage[p]? = some (reset_log cfg now rp) := by
      rw [e2.2.2.get hp1]; simp [Ne.symm htp]
    obtain ⟨s3, h3, e3⟩ := wr_eff (set_prev en.tail) hp2
    have hp3 := e3.2.2.get hp2
    obtain ⟨s4, h4, e4⟩ := wr_eff (set_next none) hp3
    have he4 : s4.entries[b]? = some en := by
      rw [e4.2.1, e3.2.1]; exact he2
    obtain ⟨s5, h5, e5⟩ := wr_entry_eff (fun e => { e with tail := some p }) he4
    refine ⟨s5, ?_, ?_⟩
    · have h3a := h3
      rw [hta] at h3a
      simp only [reinitialize_tcp_flow_log, ← hb, h1, Option.bind_eq_bind, Option.some_bind, he1,
        hta, h2, he2, h3a, h4, h5]
    · have hall := ((((e1.trans_eff e2).trans_eff e3).trans_eff e4).trans_eff e5)
      refine ⟨hall.1, ?_, hall.2.2.congr_map (fun i r _ => ?_)⟩
      · rw [e5.2.1, e4.2.1, e3.2.1, e2.2.1, e1.2.1]; simp
      · by_cases hi : i = p
        · subst hi; simp [link_rec, hta, htp, Ne.symm htp]
        · by_cases hit : i = t
          · subst hit; simp [link_rec, hi]
          · have : ¬ t = i := fun h => hit h.symm
            simp [link_rec, hi, hit, this]


@[simp] theorem strip_set_next (v : Option Nat) (r : tcp_flow_log) :
    strip (set_next v r) = strip r := rfl
@[simp] theorem strip_set_prev (v : Option Nat) (r : tcp_flow_log) :
    strip (set_prev v r) = strip r := rfl
@[simp] theorem set_next_hist (v : Option Nat) (r : tcp_flow_log) :
    (set_next v r).snd_cwnd_histogram = r.snd_cwnd_histogram := rfl
@[simp] theorem set_prev_hist (v : Option Nat) (r : tcp_flow_log) :
    (set_prev v r).snd_cwnd_histogram = r.snd_cwnd_histogram := rfl

theorem hist_of_strip {r r1 : tcp_flow_log} (h : strip r1 = strip r) :
    r1.snd_cwnd_histogram = r.snd_cwnd_histogram := by
  have : (strip r1).snd_cwnd_histogram = (strip r).snd_cwnd_histogram := by rw [h]
  exact this

theorem strip_unlink_rec (x : Nat) (rx : tcp_flow_log) (i : Nat) (r : tcp_flow_log) :
    strip (unlink_rec x rx i r) = strip r := by
  unfold unlink_rec; split_ifs <;> rfl

theorem flatMap_update_of_not_mem (C : Nat → List Nat) (b : Nat) (l1 : List Nat) :
    ∀ (L : List Nat), b ∉ L → L.flatMap (Function.update C b l1) = L.flatMap C
  | [], _ => rfl
  | a :: L, h => by
    have hab : a ≠ b := fun e => h (by simp [e])
    have hb : b ∉ L := fun e => h (by simp [e])
    simp [List.flatMap_cons, Function.update_noteq hab, flatMap_update_of_not_mem C b l1 L hb]

theorem flatMap_update_perm (C : Nat → List Nat) (b x : Nat) (l1 : List Nat)
    (hl : l1.Perm (x :: C b)) :
    ∀ (L : List Nat), L.Nodup → b ∈ L →
      (L.flatMap (Function.update C b l1)).Perm (x :: L.flatMap C)
  | [], _, h => by cases h
  | a :: L, hnd, h => by
    by_cases hab : a = b
    · subst hab
      have hb : a ∉ L := (List.nodup_cons.1 hnd).1
      simp only [List.flatMap_cons, Function.update_same, flatMap_update_of_not_mem C a l1 L hb]
      exact (hl.append_right _)
    · have hb : b ∈ L := by
        rcases List.mem_cons.1 h with e | e
        · exact absurd e.symm hab
        · exact e
      have ih := flatMap_update_perm C b x l1 hl L (List.nodup_cons.1 hnd).2 hb
      simp only [List.flatMap_cons, Function.update_noteq hab]
      exact (ih.append_left (C a)).trans List.perm_middle

theorem range_flatMap_update_perm (n : Nat) (C : Nat → List Nat) (b x : Nat) (l1 : List Nat)
    (hb : b < n) (hl : l1.Perm (x :: C b)) :
    ((List.range n).flatMap (Function.update C b l1)).Perm (x :: (List.range n).flatMap C) :=
  flatMap_update_perm C b x l1 hl _ (List.nodup_range n) (List.mem_range.2 hb)

namespace FlowInv

variable {cfg : Config} {st : State} {F : List Nat} {C : Nat → List Nat} {Q : List Nat}

theorem nodup (h : FlowInv cfg st F C Q) :
    (F ++ (List.range cfg.bufsize).flatMap C ++ Q).Nodup :=
  (h.part.nodup_iff).2 (List.nodup_range _)

theorem lt_of_mem (h : FlowInv cfg st F C Q) {i : Nat}
    (hi : i ∈ F ++ (List.range cfg.bufsize).flatMap C ++ Q) : i < cfg.bufsize :=
  List.mem_range.1 ((h.part.mem_iff).1 hi)

theorem mem_chain (_h : FlowInv cfg st F C Q) {b i : Nat} (hb : b < cfg.bufsize) (hi : i ∈ C b) :
    i ∈ F ++ (List.range cfg.bufsize).flatMap C ++ Q := by
  simp only [List.mem_append, List.mem_flatMap, List.mem_range]
  exact Or.inl (Or.inr ⟨b, hb, hi⟩)

theorem nodup_free (h : FlowInv cfg st F C Q) : F.Nodup :=
  (List.nodup_append.1 (List.nodup_append.1 h.nodup).1).1

theorem nodup_fin (h : FlowInv cfg st F C Q) : Q.Nodup :=
  (List.nodup_append.1 h.nodup).2.1

theorem nodup_chain (h : FlowInv cfg st F C Q) {b : Nat} (hb : b < cfg.bufsize) : (C b).Nodup :=
  (List.nodup_flatMap.1 (List.nodup_append.1 (List.nodup_append.1 h.nodup).1).2.1).1 b
    (List.mem_range.2 hb)

theorem free_not_chain (h : FlowInv cfg st F C Q) {b i : Nat} (hb : b < cfg.bufsize) (hi : i ∈ F) :
    i ∉ C b := fun hc =>
  (List.nodup_append.1 (List.nodup_append.1 h.nodup).1).2.2 hi
    (List.mem_flatMap.2 ⟨b, List.mem_range.2 hb, hc⟩)

theorem free_not_fin (h : FlowInv cfg st F C Q) {i : Nat} (hi : i ∈ F) : i ∉ Q := fun hq =>
  (List.nodup_append.1 h.nodup).2.2 (List.mem_append.2 (Or.inl hi)) hq

theorem chain_not_fin (h : FlowInv cfg st F C Q) {b i : Nat} (hb : b < cfg.bufsize) (hi : i ∈ C b) :
    i ∉ Q := fun hq =>
  (List.nodup_append.1 h.nodup).2.2
    (List.mem_append.2 (Or.inr (List.mem_flatMap.2 ⟨b, List.mem_range.2 hb, hi⟩))) hq

theorem chain_disjoint (h : FlowInv cfg st F C Q) {b c i : Nat} (hb : b < cfg.bufsize)
    (hc : c < cfg.bufsize) (hbc : b ≠ c) (hi : i ∈ C b) : i ∉ C c := by
  have hp := (List.nodup_flatMap.1 (List.nodup_append.1 (List.nodup_append.1 h.nodup).1).2.1).2
  have hpw := List.pairwise_iff_getElem.1 hp
  intro hi2
  rcases Nat.lt_or_gt_of_ne hbc with hlt | hgt
  · have := hpw b c (by simpa using hb) (by simpa using hc) hlt
    simp only [List.getElem_range, Function.onFun] at this
    exact this hi hi2
  · have := hpw c b (by simpa using hc) (by simpa using hb) hgt
    simp only [List.getElem_range, Function.onFun] at this
    exact this hi2 hi

theorem chain_length (h : FlowInv cfg st F C Q) {b : Nat} (hb : b < cfg.bufsize) :
    (C b).length ≤ cfg.bufsize := by
  have h1 : (C b).Subperm (List.range cfg.bufsize) :=
    (h.nodup_chain hb).subperm (fun i hi => List.mem_range.2 (h.lt_of_mem (h.mem_chain hb hi)))
  simpa using h1.length_le

theorem count_le (h : FlowInv cfg st F C Q) :
    ((List.range cfg.bufsize).flatMap C).length + Q.length ≤ cfg.bufsize := by
  have := h.part.length_eq
  simp only [List.length_append, List.length_range] at this
  omega

theorem entry (h : FlowInv cfg st F C Q) {b : Nat} (hb : b < cfg.bufsize) :
    ∃ e, st.entries[b]? = some e ∧ IsChain st.storage e (C b) := by
  have hl : b < st.entries.length := by rw [h.len_e]; exact hb
  exact ⟨st.entries[b], List.getElem?_eq_getElem hl, h.chain b _ (List.getElem?_eq_getElem hl)⟩

theorem hash_lt (h : FlowInv cfg st F C Q) (sa da sp dp : Nat) :
    skb_hash_function cfg sa da sp dp < cfg.bufsize := by
  unfold skb_hash_function HASHTABLE_SIZE HASHSIZE_COEF
  have : 1 * cfg.bufsize % 2 ^ 32 = cfg.bufsize := by
    rw [Nat.one_mul]; exact Nat.mod_eq_of_lt h.n_lt
  rw [this]
  exact Nat.mod_lt _ h.n_pos

end FlowInv

theorem FlowInv.congr_state {cfg : Config} {st st1 : State} {F : List Nat} {C : Nat → List Nat}
    {Q : List Nat} (h : FlowInv cfg st F C Q) (h1 : st1.storage = st.storage)
    (h2 : st1.entries = st.entries) (h3 : st1.available = st.available)
    (h4 : st1.finished = st.finished)
    (h5 : st1.last_printed_flow_index = st.last_printed_flow_index) :
    FlowInv cfg st1 F C Q where
  n_pos := h.n_pos
  n_lt := h.n_lt
  len_s := by rw [h1]; exact h.len_s
  len_e := by rw [h2]; exact h.len_e
  free := by rw [h1, h3]; exact h.free
  chain := by rw [h1, h2]; exact h.chain
  fin := by rw [h1, h4]; exact h.fin
  part := h.part
  hist := by rw [h1]; exact h.hist
  cursor := by rw [h5]; exact h.cursor

/-- An update of the records that touches neither links nor histogram sizes
keeps the representation. -/
theorem FlowInv.map {cfg : Config} {st st1 : State} {F : List Nat} {C : Nat → List Nat}
    {Q : List Nat} {g : Nat → tcp_flow_log → tcp_flow_log} (h : FlowInv cfg st F C Q)
    (hm : MapS g st.storage st1.storage)
    (hl : ∀ (i : Nat) (r : tcp_flow_log), st.storage[i]? = some r →
      (g i r).next = r.next ∧ (g i r).prev = r.prev ∧
      (g i r).snd_cwnd_histogram.length = r.snd_cwnd_histogram.length)
    (h2 : st1.entries = st.entries) (h3 : st1.available = st.available)
    (h4 : st1.finished = st.finished)
    (h5 : st1.last_printed_flow_index = st.last_printed_flow_index) :
    FlowInv cfg st1 F C Q where
  n_pos := h.n_pos
  n_lt := h.n_lt
  len_s := by rw [hm.length]; exact h.len_s
  len_e := by rw [h2]; exact h.len_e
  free := by
    rw [h3]
    exact IsPath_map hm _ _ (fun i _ r hr => (hl i r hr).1) h.free
  chain := by
    rw [h2]
    intro b e he
    obtain ⟨hc1, hc2⟩ := h.chain b e he
    exact ⟨IsDPath_map hm _ _ _ (fun i _ r hr => ⟨(hl i r hr).1, (hl i r hr).2.1⟩) hc1, hc2⟩
  fin := by
    rw [h4]
    exact IsPath_map hm _ _ (fun i _ r hr => (hl i r hr).1) h.fin
  part := h.part
  hist := by
    intro i r1 hr1
    have := hm i
    rw [hr1] at this
    cases hr : st.storage[i]? with
    | none => rw [hr] at this; simp at this
    | some r =>
      rw [hr] at this
      have e : r1 = g i r := by simpa using this
      rw [e, (hl i r hr).2.2]
      exact h.hist i r hr
  cursor := by rw [h5]; exact h.cursor

theorem FlowInv.set {cfg : Config} {st : State} {F : List Nat} {C : Nat → List Nat}
    {Q : List Nat} (h : FlowInv cfg st F C Q) {p : Nat} {r r1 : tcp_flow_log}
    (hr : st.storage[p]? = some r) (hn : r1.next = r.next) (hp : r1.prev = r.prev)
    (hh : r1.snd_cwnd_histogram.length = r.snd_cwnd_histogram.length) :
    FlowInv cfg { st with storage := st.storage.set p r1 } F C Q := by
  refine h.map (g := fun j x => if j = p then (fun _ => r1) x else x) (MapS_set (fun _ => r1) hr)
    ?_ rfl rfl rfl rfl
  intro i x hx
  by_cases hi : i = p
  · subst hi
    have : x = r := by rw [hr] at hx; exact (Option.some.inj hx).symm
    subst this
    simp [hn, hp, hh]
  · simp [hi]

theorem FlowInv.find {cfg : Config} {st : State} {F : List Nat} {C : Nat → List Nat}
    {Q : List Nat} (h : FlowInv cfg st F C Q) (sa da sp dp : Nat) :
    find_flow_log_for_skb cfg st sa da sp dp =
      some ((C (skb_hash_function cfg sa da sp dp)).find? (match_at st.storage sa da sp dp)) := by
  have hb := h.hash_lt sa da sp dp
  obtain ⟨e, he, hc⟩ := h.entry hb
  unfold find_flow_log_for_skb
  rw [he]
  refine find_walk_eq sa da sp dp _ _ _ (IsDPath.toPath _ _ _ hc.1) ?_
  have := h.chain_length hb
  rw [h.len_s]
  omega

theorem head?_append_cons_eq {l1 l2 : List Nat} {p : Nat} (hnd : (l1 ++ p :: l2).Nodup) :
    (l1 ++ p :: l2).head? = some p ↔ l1 = [] := by
  cases l1 with
  | nil => simp
  | cons a l1 =>
    simp only [List.cons_append, List.head?_cons, Option.some.injEq, reduceCtorEq, iff_false]
    intro h
    subst h
    exact (List.nodup_cons.1 hnd).1 (by simp)

theorem getLast?_append_cons_eq {l1 l2 : List Nat} {p : Nat} (hnd : (l1 ++ p :: l2).Nodup) :
    (l1 ++ p :: l2).getLast? = some p ↔ l2 = [] := by
  cases l2 with
  | nil => simp
  | cons a l2 =>
    simp only [reduceCtorEq, iff_false]
    have h1 : (l1 ++ p :: a :: l2).getLast? = (a :: l2).getLast? := by
      rw [show l1 ++ p :: a :: l2 = (l1 ++ [p]) ++ (a :: l2) by simp]
      rw [List.getLast?_append_of_ne_nil _ (by simp)]
    rw [h1]
    intro h
    have hm : p ∈ a :: l2 := List.mem_of_getLast?_eq_some h
    have h2 : (p :: a :: l2).Nodup := (List.nodup_append.1 hnd).2.1
    exact (List.nodup_cons.1 h2).1 hm

theorem getLast?_append_remove {l1 l2 : List Nat} (p : Nat) :
    (l1 ++ l2).getLast? = if l2 = [] then l1.getLast? else (l1 ++ p :: l2).getLast? := by
  cases l2 with
  | nil => simp
  | cons a l2 =>
    simp only [reduceCtorEq, if_false]
    rw [List.getLast?_append_of_ne_nil _ (by simp)]
    rw [show l1 ++ p :: a :: l2 = (l1 ++ [p]) ++ (a :: l2) by simp]
    rw [List.getLast?_append_of_ne_nil _ (by simp)]

theorem MapS.strip_eq {g : Nat → tcp_flow_log → tcp_flow_log} {S S1 : List tcp_flow_log}
    (hm : MapS g S S1) (hg : ∀ i r, strip (g i r) = strip r) (i : Nat) :
    (S1[i]?).map strip = (S[i]?).map strip := by
  rw [hm i]
  cases S[i]? with
  | none => rfl
  | some r => simp [hg i r]

/-- Unlinking slot `p` of bucket `b` and pushing it on the finished queue. -/
theorem FlowInv.retire {cfg : Config} {st : State} {F : List Nat} {C : Nat → List Nat}
    {Q : List Nat} (h : FlowInv cfg st F C Q) {b p : Nat} {l1 l2 : List Nat}
    (hb : b < cfg.bufsize) (hC : C b = l1 ++ p :: l2) :
    ∃ s1 s2 rp, st.storage[p]? = some rp ∧ rp.next = l2.head? ∧
      remove_from_hashentry st b (some p) = some s1 ∧ push_finished s1 p = some s2 ∧
      FlowInv cfg s2 F (Function.update C b (l1 ++ l2)) (p :: Q) ∧
      s2.start = st.start ∧ s2.last_update = st.last_update ∧ s2.last_read = st.last_read ∧
      s2.available = st.available ∧ s2.finished = some p ∧
      s2.last_printed_flow_index = st.last_printed_flow_index ∧
      MapS (fun i r => if i = p then set_next st.finished (unlink_rec p rp i r)
        else unlink_rec p rp i r) st.storage s2.storage := by
  obtain ⟨e, he, hd, htl⟩ := h.entry hb
  rw [hC] at hd htl
  have hnd : (l1 ++ p :: l2).Nodup := hC ▸ h.nodup_chain hb
  obtain ⟨rp, hrp, hprev, hnp⟩ := IsDPath.at l1 none e.head hd
  rw [lastOr_none_eq] at hprev
  have hnext : rp.next = l2.head? := IsDPath.dhead_eq hnp
  have hpl1 : p ∉ l1 := fun hm =>
    (List.nodup_append.1 hnd).2.2 hm (List.mem_cons_self _ _)
  have hpl2 : p ∉ l2 := (List.nodup_cons.1 (List.nodup_append.1 hnd).2.1).1
  have hvalid : ∀ i ∈ l1 ++ p :: l2, ∃ r, st.storage[i]? = some r := IsDPath.valid_dpath hd
  have hprev_none : rp.prev = none ↔ l1 = [] := by
    rw [hprev]; exact List.getLast?_eq_none_iff
  have hnext_none : rp.next = none ↔ l2 = [] := by
    rw [hnext]; exact List.head?_eq_none_iff
  have ha : ∀ a, rp.prev = some a → a ∈ l1 := fun a ha => by
    rw [hprev] at ha; exact List.mem_of_getLast?_eq_some ha
  have hc : ∀ c, rp.next = some c → c ∈ l2 := fun c hc => by
    rw [hnext] at hc; exact List.mem_of_mem_head? hc
  have hl12 : ∀ a ∈ l1, ∀ c ∈ l2, a ≠ c := fun a ha c hc hac =>
    (List.nodup_append.1 hnd).2.2 ha (List.mem_cons_of_mem _ (hac ▸ hc))
  obtain ⟨s1, hs1, hg1, hen1, hm1⟩ := remove_effect st b p e rp he hrp
    (by rw [IsDPath.dhead_eq hd, head?_append_cons_eq hnd, hprev_none])
    (by rw [htl, getLast?_append_cons_eq hnd, hnext_none])
    (fun a h1 => ⟨fun h2 => hpl1 (h2 ▸ ha a h1), hvalid a (by simp [ha a h1])⟩)
    (fun c h1 => ⟨fun h2 => hpl2 (h2 ▸ hc c h1), hvalid c (by simp [hc c h1])⟩)
    (fun a c h1 h2 => hl12 a (ha a h1) c (hc c h2))
  have hp1 : s1.storage[p]? = some (unlink_rec p rp p rp) := hm1.get hrp
  obtain ⟨s2, hs2, hg2, hen2, hm2⟩ := wr_eff (set_next s1.finished) hp1
  have hfin1 : s1.finished = st.finished := hg1.2.2.2.2.1
  have hm := hm1.trans_map hm2
  have hm' : MapS (fun i r => if i = p then set_next st.finished (unlink_rec p rp i r)
        else unlink_rec p rp i r) st.storage s2.storage := by
    refine hm.congr_map (fun i r _ => ?_)
    rw [hfin1]
  -- records outside the chain of bucket `b` keep their links
  have hout : ∀ i, i ∉ C b → ∀ r, unlink_rec p rp i r = r := by
    intro i hi r
    rw [hC] at hi
    have h1 : i ≠ p := fun e => hi (by simp [e])
    have h2 : ¬ rp.prev = some i := fun e => hi (by simp [ha i e])
    have h3 : ¬ rp.next = some i := fun e => hi (by simp [hc i e])
    simp [unlink_rec, h1, h2, h3]
  have hpC : p ∈ C b := by rw [hC]; simp
  have hpF : p ∉ F := fun hf => h.free_not_chain hb hf hpC
  have hpQ : p ∉ Q := h.chain_not_fin hb hpC
  have hav : s2.available = st.available := hg2.2.2.2.1.trans hg1.2.2.2.1
  refine ⟨s1, { s2 with finished := some p }, rp, hrp, hnext, hs1, ?_, ?_,
    hg2.1.trans hg1.1, hg2.2.1.trans hg1.2.1, hg2.2.2.1.trans hg1.2.2.1, hav, rfl,
    hg2.2.2.2.2.2.trans hg1.2.2.2.2.2, hm'⟩
  · simp only [push_finished, hs2]
  · refine
      { n_pos := h.n_pos, n_lt := h.n_lt, len_s := ?_, len_e := ?_, free := ?_, chain := ?_,
        fin := ?_, part := ?_, hist := ?_, cursor := ?_ }
    · show s2.storage.length = cfg.bufsize
      rw [hm'.length]; exact h.len_s
    · show s2.entries.length = cfg.bufsize
      rw [hen2, hen1, List.length_set]; exact h.len_e
    · show IsPath s2.storage s2.available F
      rw [hav]
      refine IsPath_map hm' _ _ (fun i hi r _ => ?_) h.free
      have hiC : i ∉ C b := h.free_not_chain hb hi
      have hip : i ≠ p := fun e => hpF (e ▸ hi)
      simp [hip, hout i hiC]
    · show ∀ b1 e1, s2.entries[b1]? = some e1 →
        IsChain s2.storage e1 (Function.update C b (l1 ++ l2) b1)
      intro b1 e1 he1
      rw [hen2, hen1, getElem?_set_some he] at he1
      by_cases hbb : b = b1
      · subst hbb
        simp only [if_true, Option.some.injEq] at he1
        subst he1
        rw [Function.update_same]
        constructor
        · have hr := IsDPath_remove hm1 hrp l1 none e.head hd hnd (fun _ _ hh => by cases hh)
          have hr2 : IsDPath s2.storage none (if l1 = [] then rp.next else e.head) (l1 ++ l2) := by
            refine IsDPath_map hm2 _ _ _ (fun i hi r _ => ?_) hr
            have hip : i ≠ p := fun e => by
              subst e
              rcases List.mem_append.1 hi with h1 | h1
              · exact hpl1 h1
              · exact hpl2 h1
            simp [hip]
          by_cases hl1 : l1 = []
          · simpa [hl1, hprev_none.2 hl1] using hr2
          · have : ¬ rp.prev = none := fun e => hl1 (hprev_none.1 e)
            simpa [hl1, this] using hr2
        · show (if rp.next = none then rp.prev else e.tail) = (l1 ++ l2).getLast?
          rw [getLast?_append_remove p, ← htl, ← hprev]
          by_cases hl2 : l2 = []
          · simp [hl2, hnext_none.2 hl2]
          · have : ¬ rp.next = none := fun e => hl2 (hnext_none.1 e)
            simp [hl2, this]
      · simp only [hbb, if_false] at he1
        have hb1 : b1 < cfg.bufsize := by rw [← h.len_e]; exact getElem?_lt he1
        rw [Function.update_noteq (Ne.symm hbb)]
        obtain ⟨hc1, hc2⟩ := h.chain b1 e1 he1
        refine ⟨IsDPath_map hm' _ _ _ (fun i hi r _ => ?_) hc1, hc2⟩
        have hiC : i ∉ C b := h.chain_disjoint hb1 hb (Ne.symm hbb) hi
        have hip : i ≠ p := fun e => hiC (e ▸ hpC)
        simp [hip, hout i hiC]
    · show IsPath s2.storage (some p) (p :: Q)
      have hq : IsPath s2.storage st.finished Q := by
        refine IsPath_map hm' _ _ (fun i hi r _ => ?_) h.fin
        have hiC : i ∉ C b := fun hc => h.chain_not_fin hb hc hi
        have hip : i ≠ p := fun e => hpQ (e ▸ hi)
        simp [hip, hout i hiC]
      have hp2 : s2.storage[p]? = some (set_next st.finished (unlink_rec p rp p rp)) := by
        rw [hm'.get hrp]; simp
      exact ⟨rfl, _, hp2, by simpa using hq⟩
    · have h1 : (C b).Perm (p :: Function.update C b (l1 ++ l2) b) := by
        rw [Function.update_same, hC]; exact List.perm_middle
      have h2 := range_flatMap_update_perm cfg.bufsize (Function.update C b (l1 ++ l2)) b p
        (C b) hb h1
      rw [Function.update_idem, Function.update_eq_self] at h2
      refine List.Perm.trans ?_ h.part
      have h3 : (F ++ (List.range cfg.bufsize).flatMap C ++ Q).Perm
          (F ++ (p :: (List.range cfg.bufsize).flatMap (Function.update C b (l1 ++ l2))) ++ Q) :=
        (h2.append_left F).append_right Q
      refine List.Perm.trans ?_ h3.symm
      simp only [List.append_assoc, List.cons_append]
      refine List.Perm.append_left F ?_
      exact List.perm_middle
    · intro i r1 hr1
      show r1.snd_cwnd_histogram.length = _
      have hs := hm'.strip_eq (fun i r => by
        by_cases hi : i = p
        · simp [hi, strip_unlink_rec]
        · simp [hi, strip_unlink_rec]) i
      have hr1' : s2.storage[i]? = some r1 := hr1
      rw [hr1'] at hs
      cases hr : st.storage[i]? with
      | none => rw [hr] at hs; simp at hs
      | some r =>
        rw [hr] at hs
        have e : strip r1 = strip r := by simpa using hs
        rw [hist_of_strip e]
        exact h.hist i r hr
    · show s2.last_printed_flow_index < cfg.bufsize
      rw [hg2.2.2.2.2.2.trans hg1.2.2.2.2.2]; exact h.cursor

@[simp] theorem set_used_next (v : Int) (r : tcp_flow_log) : (set_used v r).next = r.next := rfl
@[simp] theorem set_used_prev (v : Int) (r : tcp_flow_log) : (set_used v r).prev = r.prev := rfl
@[simp] theorem set_used_hist (v : Int) (r : tcp_flow_log) :
    (set_used v r).snd_cwnd_histogram = r.snd_cwnd_histogram := rfl
@[simp] theorem reset_log_next (cfg : Config) (now : timespec) (r : tcp_flow_log) :
    (reset_log cfg now r).next = r.next := rfl
@[simp] theorem reset_log_prev (cfg : Config) (now : timespec) (r : tcp_flow_log) :
    (reset_log cfg now r).prev = r.prev := rfl

theorem reset_log_hist_length (cfg : Config) (now : timespec) (r : tcp_flow_log)
    (h : r.snd_cwnd_histogram.length = cfg.number_of_buckets.toNat) :
    (reset_log cfg now r).snd_cwnd_histogram.length = cfg.number_of_buckets.toNat := by
  show (List.replicate cfg.number_of_buckets.toNat 0 ++
    r.snd_cwnd_histogram.drop cfg.number_of_buckets.toNat).length = _
  simp [h]

/-- Taking the head `p` of the free list into the bucket of an identity. -/
theorem FlowInv.allocate {cfg : Config} {st : State} {F : List Nat} {C : Nat → List Nat}
    {Q : List Nat} {p : Nat} (h : FlowInv cfg st (p :: F) C Q) (sa da sp dp : Nat)
    (now : timespec) :
    ∃ s rp, st.storage[p]? = some rp ∧ allocate_log cfg st p sa da sp dp now = some s ∧
      FlowInv cfg s F
        (Function.update C (skb_hash_function cfg sa da sp dp)
          (C (skb_hash_function cfg sa da sp dp) ++ [p])) Q ∧
      s.start = st.start ∧ s.last_update = st.last_update ∧ s.last_read = st.last_read ∧
      s.finished = st.finished ∧ s.last_printed_flow_index = st.last_printed_flow_index ∧
      MapS (alloc_rec cfg now p (C (skb_hash_function cfg sa da sp dp)).getLast?)
        st.storage s.storage := by
  set b := skb_hash_function cfg sa da sp dp with hbdef
  have hb : b < cfg.bufsize := h.hash_lt sa da sp dp
  obtain ⟨hav, rp, hrp, hfree⟩ := h.free
  obtain ⟨e, he, hd, htl⟩ := h.entry hb
  have hpF : p ∈ p :: F := List.mem_cons_self _ _
  have hpC : p ∉ C b := h.free_not_chain hb hpF
  have hndF : (p :: F).Nodup := h.nodup_free
  have hpF' : p ∉ F := (List.nodup_cons.1 hndF).1
  have hndC : (C b).Nodup := h.nodup_chain hb
  let s1 : State := { st with available := rp.next }
  have he1 : s1.entries[skb_hash_function cfg sa da sp dp]? = some e := he
  have hrp1 : s1.storage[p]? = some rp := hrp
  obtain ⟨s2, hs2, hg2, hen2, hm2⟩ := reinit_effect cfg s1 p rp e sa da sp dp now he1 hrp1
    (fun t ht => by
      rw [htl] at ht
      have htC : t ∈ C b := List.mem_of_getLast?_eq_some ht
      exact ⟨fun e => hpC (e ▸ htC), IsDPath.valid_dpath hd t htC⟩)
  have hp2 : s2.storage[p]? = some (link_rec p e.tail (reset_log cfg now) p rp) := hm2.get hrp1
  obtain ⟨s3, hs3, hg3, hen3, hm3⟩ := wr_eff (set_used 1) hp2
  have hm : MapS (alloc_rec cfg now p (C b).getLast?) st.storage s3.storage := by
    refine (hm2.trans_map hm3).congr_map (fun i r _ => ?_)
    rw [← htl]
    unfold alloc_rec
    split_ifs <;> rfl
  have hav3 : s3.available = rp.next := hg3.2.2.2.1.trans hg2.2.2.2.1
  -- records outside the bucket and other than `p` are untouched
  have hout : ∀ i, i ≠ p → i ∉ C b → ∀ r, alloc_rec cfg now p (C b).getLast? i r = r := by
    intro i h1 h2 r
    have h3 : ¬ (C b).getLast? = some i := fun e => h2 (List.mem_of_getLast?_eq_some e)
    simp [alloc_rec, link_rec, h1, h3]
  refine ⟨s3, rp, hrp, ?_, ?_, hg3.1.trans hg2.1, hg3.2.1.trans hg2.2.1,
    hg3.2.2.1.trans hg2.2.2.1, hg3.2.2.2.2.1.trans hg2.2.2.2.2.1,
    hg3.2.2.2.2.2.trans hg2.2.2.2.2.2, hm⟩
  · simp only [allocate_log, hrp, Option.bind_eq_bind, Option.some_bind]
    show (reinitialize_tcp_flow_log cfg s1 p sa da sp dp now).bind _ = _
    rw [hs2]
    exact hs3
  · refine
      { n_pos := h.n_pos, n_lt := h.n_lt, len_s := ?_, len_e := ?_, free := ?_, chain := ?_,
        fin := ?_, part := ?_, hist := ?_, cursor := ?_ }
    · rw [hm.length]; exact h.len_s
    · rw [hen3, hen2, List.length_set]; exact h.len_e
    · rw [hav3]
      refine IsPath_map hm _ _ (fun i hi r _ => ?_) hfree
      have hip : i ≠ p := fun e => hpF' (e ▸ hi)
      have hiC : i ∉ C b := h.free_not_chain hb (List.mem_cons_of_mem _ hi)
      rw [hout i hip hiC]
    · intro b1 e1 he1'
      rw [hen3, hen2, getElem?_set_some he1] at he1'
      by_cases hbb : b = b1
      · subst hbb
        simp only [if_true, Option.some.injEq] at he1'
        subst he1'
        rw [Function.update_same]
        constructor
        · have hr := IsDPath_snoc hm2 hrp1 (C b) none e.head hd hpC hndC
            (by rw [htl, lastOr_none_eq])
          have hr3 : IsDPath s3.storage none (if C b = [] then some p else e.head)
              (C b ++ [p]) :=
            IsDPath_map hm3 _ _ _ (fun i _ r _ => by split_ifs <;> simp) hr
          have : (e.tail = none) ↔ C b = [] := by
            rw [htl]; exact List.getLast?_eq_none_iff
          by_cases hcb : C b = []
          · simpa [hcb, this.2 hcb] using hr3
          · have hne : ¬ e.tail = none := fun e => hcb (this.1 e)
            simpa [hcb, hne] using hr3
        · simp
      · simp only [hbb, if_false] at he1'
        have hb1 : b1 < cfg.bufsize := by rw [← h.len_e]; exact getElem?_lt he1'
        rw [Function.update_noteq (Ne.symm hbb)]
        obtain ⟨hc1, hc2⟩ := h.chain b1 e1 he1'
        refine ⟨IsDPath_map hm _ _ _ (fun i hi r _ => ?_) hc1, hc2⟩
        have hiC : i ∉ C b := h.chain_disjoint hb1 hb (Ne.symm hbb) hi
        have hip : i ≠ p := fun e => h.free_not_chain hb1 hpF (e ▸ hi)
        rw [hout i hip hiC]; exact ⟨rfl, rfl⟩
    · rw [hg3.2.2.2.2.1.trans hg2.2.2.2.2.1]
      refine IsPath_map hm _ _ (fun i hi r _ => ?_) h.fin
      have hiC : i ∉ C b := fun hc => h.chain_not_fin hb hc hi
      have hip : i ≠ p := fun e => h.free_not_fin hpF (e ▸ hi)
      rw [hout i hip hiC]
    · have h1 : (C b ++ [p]).Perm (p :: C b) := List.perm_append_singleton _ _
      have h2 := range_flatMap_update_perm cfg.bufsize C b p (C b ++ [p]) hb h1
      refine List.Perm.trans ?_ h.part
      refine List.Perm.append_right Q ?_
      refine ((h2.append_left F).trans ?_)
      simp only [List.cons_append]
      exact List.perm_middle
    · intro i r1 hr1
      have := hm i
      rw [hr1] at this
      cases hr : st.storage[i]? with
      | none => rw [hr] at this; simp at this
      | some r =>
        rw [hr] at this
        have e1 : r1 = alloc_rec cfg now p (C b).getLast? i r := by simpa using this
        have hh := h.hist i r hr
        rw [e1]
        unfold alloc_rec link_rec
        split_ifs
        · simpa using reset_log_hist_length cfg now r hh
        · simpa using hh
        · simpa using hh
    · rw [hg3.2.2.2.2.2.trans hg2.2.2.2.2.2]; exact h.cursor


theorem sample_cwnd_some {cfg : Config} {w cl ss rt : Nat} {p p1 : tcp_flow_log}
    (h : sample_cwnd cfg w cl ss rt p = some p1) :
    (cfg.bucket_length % 2 ^ 32).toNat ≠ 0 ∧ 0 ≤ cwnd_index cfg w ∧
    ∃ c, p.snd_cwnd_histogram[(cwnd_index cfg w).toNat]? = some c ∧
      p1 = { p with
        snd_cwnd_histogram := p.snd_cwnd_histogram.set (cwnd_index cfg w).toNat ((c + 1) % 2 ^ 32)
        last_cwnd := w
        snd_cwnd_clamp := cl
        ssthresh := ss
        srtt := rt >>> 3 } := by
  unfold sample_cwnd at h
  by_cases hbl : (cfg.bucket_length % 2 ^ 32).toNat = 0
  · rw [if_pos hbl] at h; cases h
  · by_cases hidx : cwnd_index cfg w < 0
    · rw [if_neg hbl, if_pos hidx] at h; cases h
    · simp only [hbl, hidx, if_false] at h
      cases hc : p.snd_cwnd_histogram[(cwnd_index cfg w).toNat]? with
      | none => rw [hc] at h; cases h
      | some c =>
        rw [hc] at h
        exact ⟨hbl, not_lt.1 hidx, c, rfl, (Option.some.inj h).symm⟩

theorem sample_cwnd_eq_some {cfg : Config} {w cl ss rt : Nat} {p : tcp_flow_log} {c : Nat}
    (hbl : (cfg.bucket_length % 2 ^ 32).toNat ≠ 0) (hidx : 0 ≤ cwnd_index cfg w)
    (hc : p.snd_cwnd_histogram[(cwnd_index cfg w).toNat]? = some c) :
    sample_cwnd cfg w cl ss rt p = some { p with
        snd_cwnd_histogram := p.snd_cwnd_histogram.set (cwnd_index cfg w).toNat ((c + 1) % 2 ^ 32)
        last_cwnd := w
        snd_cwnd_clamp := cl
        ssthresh := ss
        srtt := rt >>> 3 } := by
  unfold sample_cwnd
  have : ¬ cwnd_index cfg w < 0 := not_lt.2 hidx
  simp only [hbl, this, if_false, hc]

theorem rcv_account_frame (cfg : Config) (e : rcv_event) (p : tcp_flow_log) :
    (rcv_account cfg e p).next = p.next ∧ (rcv_account cfg e p).prev = p.prev ∧
    (rcv_account cfg e p).snd_cwnd_histogram = p.snd_cwnd_histogram ∧
    (rcv_account cfg e p).saddr = e.saddr ∧ (rcv_account cfg e p).daddr = e.daddr ∧
    (rcv_account cfg e p).sport = e.source ∧ (rcv_account cfg e p).dport = e.dest ∧
    (rcv_account cfg e p).used = p.used := by
  unfold rcv_account
  dsimp only
  split_ifs <;> exact ⟨rfl, rfl, rfl, rfl, rfl, rfl, rfl, rfl⟩

theorem rcv_update_frame {cfg : Config} {e : rcv_event} {p p1 : tcp_flow_log}
    (h : rcv_update cfg e p = some p1) :
    p1.next = p.next ∧ p1.prev = p.prev ∧
    p1.snd_cwnd_histogram.length = p.snd_cwnd_histogram.length ∧
    p1.saddr = e.saddr ∧ p1.daddr = e.daddr ∧ p1.sport = e.source ∧ p1.dport = e.dest ∧
    p1.used = p.used := by
  unfold rcv_update at h
  obtain ⟨c1, c2, c3, c4, c5, c6, c7, c8⟩ := rcv_account_frame cfg e p
  split at h
  · obtain ⟨_, _, c, _, hp1⟩ := sample_cwnd_some h
    subst hp1
    refine ⟨c1, c2, ?_, c4, c5, c6, c7, c8⟩
    simp [c3]
  · have : p1 = rcv_account cfg e p := (Option.some.inj h).symm
    subst this
    exact ⟨c1, c2, by rw [c3], c4, c5, c6, c7, c8⟩

theorem xmit_update_frame {cfg : Config} {e : xmit_event} {p p1 : tcp_flow_log}
    (h : xmit_update cfg e p = some p1) :
    p1.next = p.next ∧ p1.prev = p.prev ∧
    p1.snd_cwnd_histogram.length = p.snd_cwnd_histogram.length ∧
    p1.saddr = p.saddr ∧ p1.daddr = p.daddr ∧ p1.sport = p.sport ∧ p1.dport = p.dport ∧
    p1.used = p.used := by
  unfold xmit_update at h
  split at h
  · obtain ⟨_, _, c, _, hp1⟩ := sample_cwnd_some h
    subst hp1
    exact ⟨rfl, rfl, by simp [xmit_account], rfl, rfl, rfl, rfl, rfl⟩
  · have := (Option.some.inj h).symm
    subst this
    exact ⟨rfl, rfl, rfl, rfl, rfl, rfl, rfl, rfl⟩

theorem is_log_for_skb_self (r : tcp_flow_log) :
    is_log_for_skb r r.saddr r.daddr r.sport r.dport = true := by
  simp [is_log_for_skb]

theorem is_log_for_skb_congr {r r1 : tcp_flow_log} (h1 : r1.saddr = r.saddr)
    (h2 : r1.daddr = r.daddr) (h3 : r1.sport = r.sport) (h4 : r1.dport = r.dport)
    (sa da sp dp : Nat) : is_log_for_skb r1 sa da sp dp = is_log_for_skb r sa da sp dp := by
  simp [is_log_for_skb, h1, h2, h3, h4]

theorem find?_append_cons_eq {f : Nat → Bool} {l1 l2 : List Nat} {p : Nat}
    (h1 : ∀ i ∈ l1, f i = false) (hp : f p = true) : (l1 ++ p :: l2).find? f = some p := by
  induction l1 with
  | nil => simp [List.find?_cons, hp]
  | cons a l1 ih =>
    have ha : f a = false := h1 a (List.mem_cons_self _ _)
    simp only [List.cons_append, List.find?_cons, ha]
    exact ih (fun i hi => h1 i (List.mem_cons_of_mem _ hi))

theorem find?_eq_some_split {f : Nat → Bool} {l : List Nat} {p : Nat}
    (h : l.find? f = some p) :
    f p = true ∧ ∃ l1 l2, l = l1 ++ p :: l2 ∧ ∀ i ∈ l1, f i = false := by
  induction l with
  | nil => simp at h
  | cons a l ih =>
    rw [List.find?_cons] at h
    cases ha : f a with
    | true =>
      rw [ha] at h
      have : a = p := by simpa using h
      subst this
      exact ⟨ha, [], l, rfl, fun i hi => by cases hi⟩
    | false =>
      rw [ha] at h
      obtain ⟨h1, l1, l2, h2, h3⟩ := ih h
      refine ⟨h1, a :: l1, l2, by rw [h2]; rfl, ?_⟩
      intro i hi
      rcases List.mem_cons.1 hi with e | e
      · rw [e]; exact ha
      · exact h3 i e

theorem find?_eq_none_all {f : Nat → Bool} {l : List Nat} (h : l.find? f = none) :
    ∀ i ∈ l, f i = false := by
  intro i hi
  have := List.find?_eq_none.1 h i hi
  simpa using this

/-- A flow found first in its bucket is unlinked and queued as finished. -/
theorem FlowInv.finish {cfg : Config} {st : State} {F : List Nat} {C : Nat → List Nat}
    {Q : List Nat} (h : FlowInv cfg st F C Q) (sa da sp dp : Nat) {p : Nat} {l1 l2 : List Nat}
    (hC : C (skb_hash_function cfg sa da sp dp) = l1 ++ p :: l2)
    (hl1 : ∀ i ∈ l1, match_at st.storage sa da sp dp i = false)
    (hp : match_at st.storage sa da sp dp p = true) :
    ∃ s1 s2 rp, st.storage[p]? = some rp ∧ rp.next = l2.head? ∧
      remove_from_hashtable cfg st sa da sp dp = some s1 ∧ push_finished s1 p = some s2 ∧
      FlowInv cfg s2 F (Function.update C (skb_hash_function cfg sa da sp dp) (l1 ++ l2))
        (p :: Q) ∧
      s2.start = st.start ∧ s2.last_update = st.last_update ∧ s2.last_read = st.last_read ∧
      s2.available = st.available ∧ s2.finished = some p ∧
      s2.last_printed_flow_index = st.last_printed_flow_index ∧
      MapS (fun i r => if i = p then set_next st.finished (unlink_rec p rp i r)
        else unlink_rec p rp i r) st.storage s2.storage := by
  obtain ⟨s1, s2, rp, h1, h2, h3, h4⟩ := h.retire (h.hash_lt sa da sp dp) hC
  refine ⟨s1, s2, rp, h1, h2, ?_, h4⟩
  unfold remove_from_hashtable
  rw [h.find, hC, find?_append_cons_eq hl1 hp]
  exact h3

theorem match_at_set_ne {S : List tcp_flow_log} {p i : Nat} (r1 : tcp_flow_log)
    (sa da sp dp : Nat) (h : i ≠ p) :
    match_at (S.set p r1) sa da sp dp i = match_at S sa da sp dp i := by
  unfold match_at
  rw [List.getElem?_set_ne (Ne.symm h)]

theorem match_at_set_self {S : List tcp_flow_log} {p : Nat} {r r1 : tcp_flow_log}
    (hr : S[p]? = some r) (sa da sp dp : Nat) :
    match_at (S.set p r1) sa da sp dp p = is_log_for_skb r1 sa da sp dp := by
  unfold match_at
  rw [getElem?_set_some hr]; simp

theorem strip_retire_rec (fin : Option Nat) (p : Nat) (rp : tcp_flow_log) (i : Nat)
    (r : tcp_flow_log) : strip (retire_rec fin p rp i r) = strip r := by
  unfold retire_rec
  split_ifs <;> simp [strip_unlink_rec]

/-- The resolved part of the receive path: the record is updated in place;
with FIN or RST it moves to the finished queue. -/
theorem FlowInv.rcv_resolved_ok {cfg : Config} {st : State} {F : List Nat} {C : Nat → List Nat}
    {Q : List Nat} (h : FlowInv cfg st F C Q) (e : rcv_event) {p : Nat} {l1 l2 : List Nat}
    {r r1 : tcp_flow_log}
    (hC : C (skb_hash_function cfg e.saddr e.daddr e.source e.dest) = l1 ++ p :: l2)
    (hl1 : ∀ i ∈ l1, match_at st.storage e.saddr e.daddr e.source e.dest i = false)
    (hr : st.storage[p]? = some r) (hu : rcv_update cfg e r = some r1) :
    ∃ s, rcv_resolved cfg st e p = some s ∧
      ((e.fin || e.rst) = false →
        s = { st with storage := st.storage.set p r1, last_update := e.now_update } ∧
        FlowInv cfg s F C Q) ∧
      ((e.fin || e.rst) = true →
        FlowInv cfg s F
          (Function.update C (skb_hash_function cfg e.saddr e.daddr e.source e.dest) (l1 ++ l2))
          (p :: Q) ∧
        s.start = st.start ∧ s.last_update = e.now_update ∧ s.last_read = st.last_read ∧
        s.available = st.available ∧ s.finished = some p ∧
        s.last_printed_flow_index = st.last_printed_flow_index ∧
        MapS (retire_rec st.finished p r1) (st.storage.set p r1) s.storage) := by
  obtain ⟨f1, f2, f3, f4, f5, f6, f7, f8⟩ := rcv_update_frame hu
  have hinv1 : FlowInv cfg { st with storage := st.storage.set p r1 } F C Q :=
    h.set hr f1 f2 f3
  have hpl1 : p ∉ l1 := by
    have hnd := h.nodup_chain (h.hash_lt e.saddr e.daddr e.source e.dest)
    rw [hC] at hnd
    exact fun hm => (List.nodup_append.1 hnd).2.2 hm (List.mem_cons_self _ _)
  cases hfr : (e.fin || e.rst) with
  | false =>
    refine ⟨{ st with storage := st.storage.set p r1, last_update := e.now_update }, ?_, ?_, ?_⟩
    · unfold rcv_resolved
      simp only [hr, hu, Option.bind_eq_bind, Option.some_bind, hfr]
      rfl
    · intro _
      exact ⟨rfl, hinv1.congr_state rfl rfl rfl rfl rfl⟩
    · intro hh; cases hh
  | true =>
    obtain ⟨s1, s2, rp, g1, g2, g3, g4, g5, g6, g7, g8, g9, g10, g11, g12⟩ :=
      hinv1.finish e.saddr e.daddr e.source e.dest hC
        (fun i hi => by
          have hip : i ≠ p := fun e => hpl1 (e ▸ hi)
          show match_at (st.storage.set p r1) _ _ _ _ i = false
          rw [match_at_set_ne r1 _ _ _ _ hip]; exact hl1 i hi)
        (by
          show match_at (st.storage.set p r1) _ _ _ _ p = true
          rw [match_at_set_self hr, ← f4, ← f5, ← f6, ← f7]
          exact is_log_for_skb_self r1)
    have hrp : rp = r1 := by
      have : (st.storage.set p r1)[p]? = some rp := g1
      rw [getElem?_set_some hr] at this
      simpa using this.symm
    subst hrp
    refine ⟨{ s2 with last_update := e.now_update }, ?_, ?_, ?_⟩
    · unfold rcv_resolved
      simp only [hr, hu, Option.bind_eq_bind, Option.some_bind, hfr, if_true]
      rw [g3]
      simp only [Option.some_bind, g4]
    · intro hh; cases hh
    · intro _
      exact ⟨g5.congr_state rfl rfl rfl rfl rfl, g6, rfl, g8, g9, g10, g11, g12⟩

/-- The resolved part of the transmit path: the record is updated in place;
with FIN or SYN it moves to the finished queue. -/
theorem FlowInv.xmit_resolved_ok {cfg : Config} {st : State} {F : List Nat} {C : Nat → List Nat}
    {Q : List Nat} (h : FlowInv cfg st F C Q) (e : xmit_event) {p : Nat} {l1 l2 : List Nat}
    {r r1 : tcp_flow_log}
    (hC : C (skb_hash_function cfg e.saddr e.daddr e.sport e.dport) = l1 ++ p :: l2)
    (hl1 : ∀ i ∈ l1, match_at st.storage e.saddr e.daddr e.sport e.dport i = false)
    (hp : match_at st.storage e.saddr e.daddr e.sport e.dport p = true)
    (hr : st.storage[p]? = some r) (hu : xmit_update cfg e r = some r1) :
    ∃ s, xmit_resolved cfg st e p = some s ∧
      (¬ ((e.flags &&& TCPHDR_FIN) ≠ 0 ∨ (e.flags &&& TCPHDR_SYN) ≠ 0) →
        s = { st with storage := st.storage.set p r1, last_update := e.now_update } ∧
        FlowInv cfg s F C Q) ∧
      (((e.flags &&& TCPHDR_FIN) ≠ 0 ∨ (e.flags &&& TCPHDR_SYN) ≠ 0) →
        FlowInv cfg s F
          (Function.update C (skb_hash_function cfg e.saddr e.daddr e.sport e.dport) (l1 ++ l2))
          (p :: Q) ∧
        s.start = st.start ∧ s.last_update = e.now_update ∧ s.last_read = st.last_read ∧
        s.available = st.available ∧ s.finished = some p ∧
        s.last_printed_flow_index = st.last_printed_flow_index ∧
        MapS (retire_rec st.finished p r1) (st.storage.set p r1) s.storage) := by
  obtain ⟨f1, f2, f3, f4, f5, f6, f7, f8⟩ := xmit_update_frame hu
  have hinv1 : FlowInv cfg { st with storage := st.storage.set p r1 } F C Q :=
    h.set hr f1 f2 f3
  have hpl1 : p ∉ l1 := by
    have hnd := h.nodup_chain (h.hash_lt e.saddr e.daddr e.sport e.dport)
    rw [hC] at hnd
    exact fun hm => (List.nodup_append.1 hnd).2.2 hm (List.mem_cons_self _ _)
  by_cases hfr : (e.flags &&& TCPHDR_FIN) ≠ 0 ∨ (e.flags &&& TCPHDR_SYN) ≠ 0
  · obtain ⟨s1, s2, rp, g1, g2, g3, g4, g5, g6, g7, g8, g9, g10, g11, g12⟩ :=
      hinv1.finish e.saddr e.daddr e.sport e.dport hC
        (fun i hi => by
          have hip : i ≠ p := fun e => hpl1 (e ▸ hi)
          show match_at (st.storage.set p r1) _ _ _ _ i = false
          rw [match_at_set_ne r1 _ _ _ _ hip]; exact hl1 i hi)
        (by
          show match_at (st.storage.set p r1) _ _ _ _ p = true
          rw [match_at_set_self hr, is_log_for_skb_congr f4 f5 f6 f7]
          have := hp
          unfold match_at at this
          rw [hr] at this
          exact this)
    have hrp : rp = r1 := by
      have : (st.storage.set p r1)[p]? = some rp := g1
      rw [getElem?_set_some hr] at this
      simpa using this.symm
    subst hrp
    refine ⟨{ s2 with last_update := e.now_update }, ?_, ?_, ?_⟩
    · unfold xmit_resolved
      simp only [hr, hu, Option.bind_eq_bind, Option.some_bind, hfr, if_true]
      rw [g3]
      simp only [Option.some_bind, g4]
    · intro hh; exact absurd hfr hh
    · intro _
      exact ⟨g5.congr_state rfl rfl rfl rfl rfl, g6, rfl, g8, g9, g10, g11, g12⟩
  · refine ⟨{ st with storage := st.storage.set p r1, last_update := e.now_update }, ?_, ?_, ?_⟩
    · unfold xmit_resolved
      simp only [hr, hu, Option.bind_eq_bind, Option.some_bind, hfr, if_false]
    · intro _
      exact ⟨rfl, hinv1.congr_state rfl rfl rfl rfl rfl⟩
    · intro hh; exact absurd hh hfr

theorem FlowInv.is_good {cfg : Config} {st : State} {F : List Nat} {C : Nat → List Nat}
    {Q : List Nat} (h : FlowInv cfg st F C Q) : Good cfg st := ⟨F, C, Q, h⟩

theorem FlowInv.valid_chain {cfg : Config} {st : State} {F : List Nat} {C : Nat → List Nat}
    {Q : List Nat} (h : FlowInv cfg st F C Q) {b i : Nat} (hb : b < cfg.bufsize)
    (hi : i ∈ C b) : ∃ r, st.storage[i]? = some r := by
  obtain ⟨e, _, hd, _⟩ := h.entry hb
  exact IsDPath.valid_dpath hd i hi

theorem rcv_resolved_none {cfg : Config} {st : State} {e : rcv_event} {p : Nat}
    {r : tcp_flow_log} (hr : st.storage[p]? = some r) (hu : rcv_update cfg e r = none) :
    rcv_resolved cfg st e p = none := by
  unfold rcv_resolved
  simp only [hr, hu, Option.bind_eq_bind, Option.some_bind, Option.none_bind]

theorem xmit_resolved_none {cfg : Config} {st : State} {e : xmit_event} {p : Nat}
    {r : tcp_flow_log} (hr : st.storage[p]? = some r) (hu : xmit_update cfg e r = none) :
    xmit_resolved cfg st e p = none := by
  unfold xmit_resolved
  simp only [hr, hu, Option.bind_eq_bind, Option.some_bind, Option.none_bind]

/-- A receive event either yields a represented state, or faults in the
congestion sample of a record with a well-sized histogram. -/
theorem FlowInv.rcv {cfg : Config} {st : State} {F : List Nat} {C : Nat → List Nat}
    {Q : List Nat} (h : FlowInv cfg st F C Q) (e : rcv_event) :
    (∃ s, jtcp_v4_do_rcv cfg st e = some s ∧ Good cfg s) ∨
    (jtcp_v4_do_rcv cfg st e = none ∧
      ∃ r : tcp_flow_log, r.snd_cwnd_histogram.length = cfg.number_of_buckets.toNat ∧
        rcv_update cfg e r = none) := by
  unfold jtcp_v4_do_rcv
  by_cases hport : cfg.port = 0 ∨ (ntohs cfg e.dest : Int) = cfg.port ∨
      (ntohs cfg e.source : Int) = cfg.port
  swap
  · rw [if_neg hport]
    exact Or.inl ⟨st, rfl, h.is_good⟩
  rw [if_pos hport]
  have hb := h.hash_lt e.saddr e.daddr e.source e.dest
  rw [h.find]
  cases hf : (C (skb_hash_function cfg e.saddr e.daddr e.source e.dest)).find?
      (match_at st.storage e.saddr e.daddr e.source e.dest) with
  | some p =>
    obtain ⟨_, l1, l2, hC, hl1⟩ := find?_eq_some_split hf
    obtain ⟨r, hr⟩ := h.valid_chain hb (by rw [hC]; simp : p ∈ C _)
    simp only
    cases hu : rcv_update cfg e r with
    | none => exact Or.inr ⟨rcv_resolved_none hr hu, r, h.hist p r hr, hu⟩
    | some r1 =>
      obtain ⟨s, hs, hk, hfin⟩ := h.rcv_resolved_ok e hC hl1 hr hu
      refine Or.inl ⟨s, hs, ?_⟩
      cases hfr : (e.fin || e.rst) with
      | false => exact (hk hfr).2.is_good
      | true => exact (hfin hfr).1.is_good
  | none =>
    simp only
    cases hsyn : e.syn with
    | false => exact Or.inl ⟨st, by simp, h.is_good⟩
    | true =>
      simp only [Bool.not_true, Bool.false_eq_true, if_false]
      show (∃ s, (match st.available with
        | none => some st
        | some p =>
          match allocate_log cfg st p e.saddr e.daddr e.source e.dest e.now_first with
          | none => none
          | some s => rcv_resolved cfg s e p) = some s ∧ Good cfg s) ∨ _
      cases F with
      | nil =>
        have : st.available = none := h.free
        rw [this]
        exact Or.inl ⟨st, rfl, h.is_good⟩
      | cons p F =>
        have hav : st.available = some p := h.free.1
        rw [hav]
        simp only
        obtain ⟨s, rp, hrp, hs, hinv, _, _, _, _, _, hm⟩ :=
          h.allocate e.saddr e.daddr e.source e.dest e.now_first
        rw [hs]
        simp only
        have hC : Function.update C (skb_hash_function cfg e.saddr e.daddr e.source e.dest)
            (C (skb_hash_function cfg e.saddr e.daddr e.source e.dest) ++ [p])
            (skb_hash_function cfg e.saddr e.daddr e.source e.dest) =
            C (skb_hash_function cfg e.saddr e.daddr e.source e.dest) ++ p :: [] := by
          rw [Function.update_same]
        have hpC : p ∉ C (skb_hash_function cfg e.saddr e.daddr e.source e.dest) :=
          h.free_not_chain hb (List.mem_cons_self _ _)
        have hl1 : ∀ i ∈ C (skb_hash_function cfg e.saddr e.daddr e.source e.dest),
            match_at s.storage e.saddr e.daddr e.source e.dest i = false := by
          intro i hi
          have h0 := find?_eq_none_all hf i hi
          obtain ⟨ri, hri⟩ := h.valid_chain hb hi
          have hip : i ≠ p := fun e => hpC (e ▸ hi)
          unfold match_at at h0 ⊢
          rw [hm.get hri]
          rw [hri] at h0
          simp only at h0 ⊢
          rw [← h0]
          apply is_log_for_skb_congr <;>
            · unfold alloc_rec link_rec
              simp only [hip, if_false]
              split_ifs <;> rfl
        have hr2 := hm.get hrp
        cases hu : rcv_update cfg e (alloc_rec cfg e.now_first p
            (C (skb_hash_function cfg e.saddr e.daddr e.source e.dest)).getLast? p rp) with
        | none =>
          exact Or.inr ⟨rcv_resolved_none hr2 hu, _, hinv.hist p _ hr2, hu⟩
        | some r1 =>
          obtain ⟨s2, hs2, hk, hfin⟩ := hinv.rcv_resolved_ok e hC hl1 hr2 hu
          refine Or.inl ⟨s2, hs2, ?_⟩
          cases hfr : (e.fin || e.rst) with
          | false => exact (hk hfr).2.is_good
          | true => exact (hfin hfr).1.is_good

@[simp] theorem set_identity_next (sa da sp dp : Nat) (r : tcp_flow_log) :
    (set_identity sa da sp dp r).next = r.next := rfl
@[simp] theorem set_identity_prev (sa da sp dp : Nat) (r : tcp_flow_log) :
    (set_identity sa da sp dp r).prev = r.prev := rfl
@[simp] theorem set_identity_hist (sa da sp dp : Nat) (r : tcp_flow_log) :
    (set_identity sa da sp dp r).snd_cwnd_histogram = r.snd_cwnd_histogram := rfl

theorem is_log_for_skb_set_identity (sa da sp dp : Nat) (r : tcp_flow_log) :
    is_log_for_skb (set_identity sa da sp dp r) sa da sp dp = true :=
  is_log_for_skb_self (set_identity sa da sp dp r)

/-- A transmit event either yields a represented state, or faults in the
congestion sample of a record with a well-sized histogram. -/
theorem FlowInv.xmit {cfg : Config} {st : State} {F : List Nat} {C : Nat → List Nat}
    {Q : List Nat} (h : FlowInv cfg st F C Q) (e : xmit_event) :
    (∃ s, jtcp_transmit_skb cfg st e = some s ∧ Good cfg s) ∨
    (jtcp_transmit_skb cfg st e = none ∧
      ∃ r : tcp_flow_log, r.snd_cwnd_histogram.length = cfg.number_of_buckets.toNat ∧
        xmit_update cfg e r = none) := by
  unfold jtcp_transmit_skb
  by_cases hport : cfg.port = 0 ∨ (ntohs cfg e.sport : Int) = cfg.port ∨
      (ntohs cfg e.dport : Int) = cfg.port
  swap
  · rw [if_neg hport]
    exact Or.inl ⟨st, rfl, h.is_good⟩
  rw [if_pos hport]
  have hb := h.hash_lt e.saddr e.daddr e.sport e.dport
  rw [h.find]
  cases hf : (C (skb_hash_function cfg e.saddr e.daddr e.sport e.dport)).find?
      (match_at st.storage e.saddr e.daddr e.sport e.dport) with
  | some p =>
    obtain ⟨hpm, l1, l2, hC, hl1⟩ := find?_eq_some_split hf
    obtain ⟨r, hr⟩ := h.valid_chain hb (by rw [hC]; simp : p ∈ C _)
    simp only
    cases hu : xmit_update cfg e r with
    | none => exact Or.inr ⟨xmit_resolved_none hr hu, r, h.hist p r hr, hu⟩
    | some r1 =>
      obtain ⟨s, hs, hk, hfin⟩ := h.xmit_resolved_ok e hC hl1 hpm hr hu
      refine Or.inl ⟨s, hs, ?_⟩
      by_cases hfr : (e.flags &&& TCPHDR_FIN) ≠ 0 ∨ (e.flags &&& TCPHDR_SYN) ≠ 0
      · exact (hfin hfr).1.is_good
      · exact (hk hfr).2.is_good
  | none =>
    simp only
    by_cases hsyn : (e.flags &&& TCPHDR_SYN) = 0
    · rw [if_pos hsyn]; exact Or.inl ⟨st, rfl, h.is_good⟩
    · rw [if_neg hsyn]
      cases F with
      | nil =>
        have : st.available = none := h.free
        rw [this]
        exact Or.inl ⟨st, rfl, h.is_good⟩
      | cons p F =>
        have hav : st.available = some p := h.free.1
        rw [hav]
        simp only
        obtain ⟨s, rp, hrp, hs, hinv, _, _, _, _, _, hm⟩ :=
          h.allocate e.saddr e.daddr e.sport e.dport e.now_first
        rw [hs]
        simp only
        have hC : Function.update C (skb_hash_function cfg e.saddr e.daddr e.sport e.dport)
            (C (skb_hash_function cfg e.saddr e.daddr e.sport e.dport) ++ [p])
            (skb_hash_function cfg e.saddr e.daddr e.sport e.dport) =
            C (skb_hash_function cfg e.saddr e.daddr e.sport e.dport) ++ p :: [] := by
          rw [Function.update_same]
        have hpC : p ∉ C (skb_hash_function cfg e.saddr e.daddr e.sport e.dport) :=
          h.free_not_chain hb (List.mem_cons_self _ _)
        have hr2 := hm.get hrp
        obtain ⟨s1, hs1, hg1, hen1, hm1⟩ :=
          wr_eff (set_identity e.saddr e.daddr e.sport e.dport) hr2
        rw [hs1]
        simp only
        have hinv1 : FlowInv cfg s1 F _ Q :=
          hinv.map hm1 (fun i r _ => by split_ifs <;> simp) hen1 hg1.2.2.2.1 hg1.2.2.2.2.1
            hg1.2.2.2.2.2
        have hl1 : ∀ i ∈ C (skb_hash_function cfg e.saddr e.daddr e.sport e.dport),
            match_at s1.storage e.saddr e.daddr e.sport e.dport i = false := by
          intro i hi
          have h0 := find?_eq_none_all hf i hi
          obtain ⟨ri, hri⟩ := h.valid_chain hb hi
          have hip : i ≠ p := fun e => hpC (e ▸ hi)
          unfold match_at at h0 ⊢
          rw [hm1.get (hm.get hri)]
          rw [hri] at h0
          simp only [hip, if_false] at h0 ⊢
          rw [← h0]
          apply is_log_for_skb_congr <;>
            · unfold alloc_rec link_rec
              simp only [hip, if_false]
              split_ifs <;> rfl
        have hr3 := hm1.get hr2
        simp only [if_true] at hr3
        have hpm : match_at s1.storage e.saddr e.daddr e.sport e.dport p = true := by
          unfold match_at
          rw [hr3]
          exact is_log_for_skb_set_identity _ _ _ _ _
        cases hu : xmit_update cfg e (set_identity e.saddr e.daddr e.sport e.dport
            (alloc_rec cfg e.now_first p
            (C (skb_hash_function cfg e.saddr e.daddr e.sport e.dport)).getLast? p rp)) with
        | none =>
          refine Or.inr ⟨xmit_resolved_none hr3 hu, _, ?_, hu⟩
          exact hinv1.hist p _ hr3
        | some r1 =>
          obtain ⟨s2, hs2, hk, hfin⟩ := hinv1.xmit_resolved_ok e hC hl1 hpm hr3 hu
          refine Or.inl ⟨s2, hs2, ?_⟩
          by_cases hfr : (e.flags &&& TCPHDR_FIN) ≠ 0 ∨ (e.flags &&& TCPHDR_SYN) ≠ 0
          · exact (hfin hfr).1.is_good
          · exact (hk hfr).2.is_good

theorem SameData.refl_data (S : List tcp_flow_log) : SameData S S := fun _ => rfl

theorem SameData.trans_data {S S1 S2 : List tcp_flow_log} (h1 : SameData S S1) (h2 : SameData S1 S2) :
    SameData S S2 := fun i => (h2 i).trans (h1 i)

theorem strip_last_packet {r r1 : tcp_flow_log} (h : strip r1 = strip r) :
    r1.last_packet_tstamp = r.last_packet_tstamp := by
  have : (strip r1).last_packet_tstamp = (strip r).last_packet_tstamp := by rw [h]
  exact this

theorem SameData.expired {S S1 : List tcp_flow_log} (h : SameData S S1) (now : timespec)
    (i : Nat) : expired_at S1 now i = expired_at S now i := by
  have := h i
  unfold expired_at
  cases h1 : S1[i]? with
  | none =>
    rw [h1] at this
    cases h0 : S[i]? with
    | none => rfl
    | some r => rw [h0] at this; simp at this
  | some r1 =>
    rw [h1] at this
    cases h0 : S[i]? with
    | none => rw [h0] at this; simp at this
    | some r =>
      rw [h0] at this
      have e : strip r1 = strip r := by simpa using this
      simp only [strip_last_packet e]

theorem FlowInv.congrC {cfg : Config} {st : State} {F : List Nat} {C C1 : Nat → List Nat}
    {Q : List Nat} (h : FlowInv cfg st F C Q) (hc : ∀ b, b < cfg.bufsize → C1 b = C b) :
    FlowInv cfg st F C1 Q where
  n_pos := h.n_pos
  n_lt := h.n_lt
  len_s := h.len_s
  len_e := h.len_e
  free := h.free
  chain := by
    intro b e he
    have hb : b < cfg.bufsize := by rw [← h.len_e]; exact getElem?_lt he
    rw [hc b hb]; exact h.chain b e he
  fin := h.fin
  part := by
    have : (List.range cfg.bufsize).flatMap C1 = (List.range cfg.bufsize).flatMap C := by
      apply List.flatMap_congr
      intro b hb
      exact hc b (List.mem_range.1 hb)
    rw [this]; exact h.part
  hist := h.hist
  cursor := h.cursor

theorem MapS.sameData {g : Nat → tcp_flow_log → tcp_flow_log} {S S1 : List tcp_flow_log}
    (hm : MapS g S S1) (hg : ∀ i r, strip (g i r) = strip r) : SameData S S1 :=
  fun i => hm.strip_eq hg i

/-- The walk of `prune_timer` over the rest of one bucket: the expired slots of
`rest` go to the finished queue, last expired first. -/
theorem FlowInv.prune_walk_ok (cfg : Config) (now : timespec) (b : Nat) (F : List Nat) :
    ∀ (rest kept : List Nat) (st : State) (C : Nat → List Nat) (Q : List Nat) (fuel : Nat),
      FlowInv cfg st F C Q → b < cfg.bufsize → C b = kept ++ rest → rest.length < fuel →
      ∃ s, prune_walk now b fuel st rest.head? = some s ∧
        FlowInv cfg s F
          (Function.update C b (kept ++ rest.filter (fun i => !expired_at st.storage now i)))
          ((rest.filter (expired_at st.storage now)).reverse ++ Q) ∧
        SameData st.storage s.storage ∧
        s.start = st.start ∧ s.last_update = st.last_update ∧ s.last_read = st.last_read ∧
        s.available = st.available ∧
        s.last_printed_flow_index = st.last_printed_flow_index
  | [], kept, st, C, Q, fuel, h, hb, hC, hf => by
    cases fuel with
    | zero => cases hf
    | succ f =>
      refine ⟨st, rfl, ?_, SameData.refl_data _, rfl, rfl, rfl, rfl, rfl⟩
      simp only [List.filter_nil, List.append_nil, List.reverse_nil, List.nil_append]
      rw [List.append_nil] at hC
      rw [← hC, Function.update_eq_self]
      exact h
  | x :: rest, kept, st, C, Q, fuel, h, hb, hC, hf => by
    cases fuel with
    | zero => cases hf
    | succ f =>
      have hf1 : rest.length < f := by simpa using hf
      obtain ⟨s1, s2, rp, hrp, hnext, hs1, hs2, hinv2, g1, g2, g3, g4, g5, g6, hm⟩ :=
        h.retire hb hC
      have hsd : SameData st.storage s2.storage :=
        hm.sameData (fun i r => by split_ifs <;> simp [strip_unlink_rec])
      simp only [List.head?_cons, prune_walk, hrp]
      by_cases hex : EXPIRE_SKB < (tcpprobe_timespec_sub now rp.last_packet_tstamp).tv_sec
      · have hexp : expired_at st.storage now x = true := by
          simp [expired_at, hrp, hex]
        rw [if_pos hex, hs1]
        simp only [hs2, hnext]
        obtain ⟨s, hs, hinv, hd, k1, k2, k3, k4, k5⟩ :=
          FlowInv.prune_walk_ok cfg now b F rest kept s2 _ _ f hinv2 hb
            (by rw [Function.update_same]) hf1
        refine ⟨s, hs, ?_, hsd.trans_data hd, k1.trans g1, k2.trans g2, k3.trans g3, k4.trans g4,
          k5.trans g6⟩
        rw [Function.update_idem] at hinv
        have e1 : rest.filter (fun i => !expired_at s2.storage now i) =
            rest.filter (fun i => !expired_at st.storage now i) := by
          apply List.filter_congr
          intro i _
          rw [hsd.expired]
        have e2 : rest.filter (expired_at s2.storage now) =
            rest.filter (expired_at st.storage now) := by
          apply List.filter_congr
          intro i _
          rw [hsd.expired]
        rw [e1, e2] at hinv
        simpa [List.filter_cons, hexp] using hinv
      · have hexp : expired_at st.storage now x = false := by
          simp [expired_at, hrp, hex]
        rw [if_neg hex, hnext]
        obtain ⟨s, hs, hinv, hd, k1, k2, k3, k4, k5⟩ :=
          FlowInv.prune_walk_ok cfg now b F rest (kept ++ [x]) st C Q f h hb
            (by rw [hC]; simp) hf1
        refine ⟨s, hs, ?_, hd, k1, k2, k3, k4, k5⟩
        simpa [List.filter_cons, hexp] using hinv

theorem HASHTABLE_SIZE_eq {cfg : Config} (h : cfg.bufsize < 2 ^ 32) :
    HASHTABLE_SIZE cfg = cfg.bufsize := by
  unfold HASHTABLE_SIZE HASHSIZE_COEF
  rw [Nat.one_mul]; exact Nat.mod_eq_of_lt h

/-- The bucket loop of `prune_timer` from bucket `i` on: in every bucket from
`i` the expired slots leave the chain and enter the finished queue. -/
theorem FlowInv.prune_buckets_ok (cfg : Config) (now : timespec) (F : List Nat) :
    ∀ (k i : Nat) (st : State) (C : Nat → List Nat) (Q : List Nat),
      FlowInv cfg st F C Q → i + k = cfg.bufsize →
      ∃ s P, prune_buckets now k i st = some s ∧
        FlowInv cfg s F
          (fun b => if i ≤ b then (C b).filter (fun x => !expired_at st.storage now x) else C b)
          (P ++ Q) ∧
        (∀ x, x ∈ P ↔ ∃ b, i ≤ b ∧ b < cfg.bufsize ∧ x ∈ C b ∧
          expired_at st.storage now x = true) ∧
        SameData st.storage s.storage ∧
        s.start = st.start ∧ s.last_update = st.last_update ∧ s.last_read = st.last_read ∧
        s.available = st.available ∧
        s.last_printed_flow_index = st.last_printed_flow_index
  | 0, i, st, C, Q, h, hik => by
    refine ⟨st, [], rfl, ?_, ?_, SameData.refl_data _, rfl, rfl, rfl, rfl, rfl⟩
    · refine h.congrC (fun b hb => ?_)
      have : ¬ i ≤ b := by omega
      simp [this]
    · intro x
      simp only [List.not_mem_nil, false_iff, not_exists, not_and]
      intro b h1 h2
      omega
  | k + 1, i, st, C, Q, h, hik => by
    have hi : i < cfg.bufsize := by omega
    obtain ⟨e, he, hd, _⟩ := h.entry hi
    have hlen : (C i).length < st.storage.length + 1 := by
      have := h.chain_length hi
      rw [h.len_s]; omega
    obtain ⟨s1, hs1, hinv1, hd1, a1, a2, a3, a4, a5⟩ :=
      FlowInv.prune_walk_ok cfg now i F (C i) [] st C Q _ h hi (by simp) hlen
    rw [← IsDPath.dhead_eq hd] at hs1
    obtain ⟨s, P, hs, hinv, hP, hd2, b1, b2, b3, b4, b5⟩ :=
      FlowInv.prune_buckets_ok cfg now F k (i + 1) s1 _ _ hinv1 (by omega)
    refine ⟨s, P ++ ((C i).filter (expired_at st.storage now)).reverse, ?_, ?_, ?_,
      hd1.trans_data hd2, b1.trans a1, b2.trans a2, b3.trans a3, b4.trans a4, b5.trans a5⟩
    · simp only [prune_buckets, he, hs1, hs]
    · rw [List.append_assoc]
      refine hinv.congrC (fun b _ => ?_)
      by_cases hbi : b = i
      · subst hbi
        simp
      · by_cases hle : i ≤ b
        · have h1 : i + 1 ≤ b := by omega
          simp only [hle, h1, if_true, Function.update_noteq hbi]
          apply List.filter_congr
          intro x _
          rw [hd1.expired]
        · have h1 : ¬ i + 1 ≤ b := by omega
          simp only [hle, h1, if_false, Function.update_noteq hbi]
    · intro x
      rw [List.mem_append, hP]
      constructor
      · rintro (⟨b, h1, h2, h3, h4⟩ | h1)
        · have hbi : b ≠ i := by omega
          rw [Function.update_noteq hbi] at h3
          rw [hd1.expired] at h4
          exact ⟨b, by omega, h2, h3, h4⟩
        · rw [List.mem_reverse, List.mem_filter] at h1
          exact ⟨i, le_refl _, hi, h1.1, h1.2⟩
      · rintro ⟨b, h1, h2, h3, h4⟩
        by_cases hbi : b = i
        · subst hbi
          right
          rw [List.mem_reverse, List.mem_filter]
          exact ⟨h3, h4⟩
        · left
          refine ⟨b, by omega, h2, ?_, ?_⟩
          · rw [Function.update_noteq hbi]; exact h3
          · rw [hd1.expired]; exact h4

/-- One run of `prune_timer`: in every bucket the expired slots leave the chain
and enter the finished queue, in front of the slots already there. -/
theorem FlowInv.prune {cfg : Config} {st : State} {F : List Nat} {C : Nat → List Nat}
    {Q : List Nat} (h : FlowInv cfg st F C Q) (now : timespec) :
    ∃ s P, prune_timer cfg st now = some s ∧
      FlowInv cfg s F (fun b => (C b).filter (fun x => !expired_at st.storage now x))
        (P ++ Q) ∧
      (∀ x, x ∈ P ↔ ∃ b, b < cfg.bufsize ∧ x ∈ C b ∧ expired_at st.storage now x = true) ∧
      SameData st.storage s.storage ∧
      s.start = st.start ∧ s.last_update = st.last_update ∧ s.last_read = st.last_read ∧
      s.available = st.available ∧
      s.last_printed_flow_index = st.last_printed_flow_index := by
  obtain ⟨s, P, hs, hinv, hP, hd, g⟩ :=
    FlowInv.prune_buckets_ok cfg now F cfg.bufsize 0 st C Q h (by omega)
  refine ⟨s, P, ?_, ?_, ?_, hd, g⟩
  · unfold prune_timer
    rw [HASHTABLE_SIZE_eq h.n_lt]; exact hs
  · simpa using hinv
  · intro x
    rw [hP]
    simp

@[simp] theorem set_last_printed_next (v : timespec) (r : tcp_flow_log) :
    (set_last_printed v r).next = r.next := rfl
@[simp] theorem set_last_printed_prev (v : timespec) (r : tcp_flow_log) :
    (set_last_printed v r).prev = r.prev := rfl
@[simp] theorem set_last_printed_hist (v : timespec) (r : tcp_flow_log) :
    (set_last_printed v r).snd_cwnd_histogram = r.snd_cwnd_histogram := rfl

/-- The head of the finished queue goes back to the head of the free list. -/
theorem FlowInv.recycle {cfg : Config} {st : State} {F : List Nat} {C : Nat → List Nat}
    {Q : List Nat} {q : Nat} (h : FlowInv cfg st F C (q :: Q)) :
    ∃ s, recycle_finished st q = some s ∧ FlowInv cfg s (q :: F) C Q ∧
      s.start = st.start ∧ s.last_update = st.last_update ∧ s.last_read = st.last_read ∧
      s.entries = st.entries ∧ s.available = some q ∧
      s.last_printed_flow_index = st.last_printed_flow_index ∧
      MapS (recycle_rec st.available q) st.storage s.storage := by
  obtain ⟨hfin, rq, hrq, hQ⟩ := h.fin
  let s1 : State := { st with finished := rq.next }
  have hrq1 : s1.storage[q]? = some rq := hrq
  obtain ⟨s2, hs2, hg2, hen2, hm2⟩ := wr_eff (set_next s1.available) hrq1
  have hrq2 := hm2.get hrq1
  obtain ⟨s3, hs3, hg3, hen3, hm3⟩ := wr_eff (set_used 0) hrq2
  have hm : MapS (recycle_rec st.available q) st.storage s3.storage := by
    refine (hm2.trans_map hm3).congr_map (fun i r _ => ?_)
    unfold recycle_rec
    split_ifs <;> rfl
  have hnd : (q :: Q).Nodup := h.nodup_fin
  have hqQ : q ∉ Q := (List.nodup_cons.1 hnd).1
  have hqF : q ∉ F := fun hf => h.free_not_fin hf (List.mem_cons_self _ _)
  refine ⟨{ s3 with available := some q }, ?_, ?_, hg3.1.trans hg2.1, hg3.2.1.trans hg2.2.1,
    hg3.2.2.1.trans hg2.2.2.1, hen3.trans hen2, rfl, hg3.2.2.2.2.2.trans hg2.2.2.2.2.2, hm⟩
  · unfold recycle_finished
    simp only [hrq]
    show (match wr s1 q (set_next s1.available) with
      | none => none
      | some s2 =>
        match wr s2 q (set_used 0) with
        | none => none
        | some s3 => some { s3 with available := some q }) = _
    rw [hs2]
    simp only [hs3]
  · refine
      { n_pos := h.n_pos, n_lt := h.n_lt, len_s := ?_, len_e := ?_, free := ?_, chain := ?_,
        fin := ?_, part := ?_, hist := ?_, cursor := ?_ }
    · show s3.storage.length = _
      rw [hm.length]; exact h.len_s
    · show s3.entries.length = _
      rw [hen3, hen2]; exact h.len_e
    · show IsPath s3.storage (some q) (q :: F)
      refine ⟨rfl, _, hm.get hrq, ?_⟩
      have : (recycle_rec st.available q q rq).next = st.available := by simp [recycle_rec]
      rw [this]
      refine IsPath_map hm _ _ (fun i hi r _ => ?_) h.free
      have : i ≠ q := fun e => hqF (e ▸ hi)
      simp [recycle_rec, this]
    · show ∀ b e, s3.entries[b]? = some e → IsChain s3.storage e (C b)
      rw [hen3, hen2]
      intro b e he
      have hb : b < cfg.bufsize := by rw [← h.len_e]; exact getElem?_lt he
      obtain ⟨hc1, hc2⟩ := h.chain b e he
      refine ⟨IsDPath_map hm _ _ _ (fun i hi r _ => ?_) hc1, hc2⟩
      have : i ≠ q := fun e => h.chain_not_fin hb hi (e ▸ List.mem_cons_self _ _)
      simp [recycle_rec, this]
    · show IsPath s3.storage s3.finished Q
      have : s3.finished = rq.next := hg3.2.2.2.2.1.trans hg2.2.2.2.2.1
      rw [this]
      refine IsPath_map hm _ _ (fun i hi r _ => ?_) hQ
      have : i ≠ q := fun e => hqQ (e ▸ hi)
      simp [recycle_rec, this]
    · refine List.Perm.trans ?_ h.part
      show (q :: ((F ++ (List.range cfg.bufsize).flatMap C) ++ Q)).Perm
        ((F ++ (List.range cfg.bufsize).flatMap C) ++ q :: Q)
      exact List.perm_middle.symm
    · intro i r1 hr1
      have := hm i
      have hr1' : s3.storage[i]? = some r1 := hr1
      rw [hr1'] at this
      cases hr : st.storage[i]? with
      | none => rw [hr] at this; simp at this
      | some r =>
        rw [hr] at this
        have e1 : r1 = recycle_rec st.available q i r := by simpa using this
        rw [e1]
        unfold recycle_rec
        split_ifs
        · simpa using h.hist i r hr
        · exact h.hist i r hr
    · show s3.last_printed_flow_index < _
      rw [hg3.2.2.2.2.2.trans hg2.2.2.2.2.2]; exact h.cursor

theorem live_scan_ok (cfg : Config) (S : List tcp_flow_log) (hn : 0 < cfg.bufsize)
    (hl : S.length = cfg.bufsize) :
    ∀ (k idx : Nat), ∃ idx1 p, live_scan cfg S k idx = some (idx1, p) ∧
      (0 < k → idx1 < cfg.bufsize) ∧ (k = 0 → idx1 = idx) ∧ (p = none ∨ p = some idx1)
  | 0, idx => ⟨idx, none, rfl, fun h => absurd h (lt_irrefl _), fun _ => rfl, Or.inl rfl⟩
  | k + 1, idx => by
    have hne : cfg.bufsize ≠ 0 := Nat.pos_iff_ne_zero.1 hn
    have hlt : (idx + 1) % 2 ^ 32 % cfg.bufsize < cfg.bufsize := Nat.mod_lt _ hn
    have hget : S[(idx + 1) % 2 ^ 32 % cfg.bufsize]? =
        some (S.get ⟨(idx + 1) % 2 ^ 32 % cfg.bufsize, by rw [hl]; exact hlt⟩) :=
      List.getElem?_eq_getElem _
    simp only [live_scan, hne, if_false, hget]
    split_ifs with hc
    · exact ⟨_, _, rfl, fun _ => hlt, fun h => h.elim, Or.inr rfl⟩
    · obtain ⟨idx1, p, h1, h2, h3, h4⟩ :=
        live_scan_ok cfg S hn hl k ((idx + 1) % 2 ^ 32 % cfg.bufsize)
      refine ⟨idx1, p, h1, fun _ => ?_, fun h => h.elim, h4⟩
      rcases Nat.eq_zero_or_pos k with hk | hk
      · rw [h3 hk]; exact hlt
      · exact h2 hk

theorem sprint_histogram_ok (n : Nat) (hist : List Nat) :
    ∀ (fuel index : Nat) (tbuf : List Char) (size : Nat), index + fuel ≤ hist.length →
      ∃ tb w, sprint_histogram n hist fuel index tbuf size = some (tb, w) ∧ size ≤ w
  | 0, _, tbuf, size, _ => ⟨tbuf, size, rfl, le_refl _⟩
  | fuel + 1, index, tbuf, size, h => by
    have hlt : index < hist.length := by omega
    have hget : hist[index]? = some hist[index] := List.getElem?_eq_getElem hlt
    simp only [sprint_histogram, hget]
    split_ifs with hc
    · obtain ⟨tb, w, h1, h2⟩ := sprint_histogram_ok n hist fuel (index + 1)
        (snprintf tbuf size (n - size) (fmt_u hist[index] ++ [','])).1
        (size + min (n - size) (snprintf tbuf size (n - size) (fmt_u hist[index] ++ [','])).2)
        (by omega)
      exact ⟨tb, w, h1, by omega⟩
    · exact ⟨tbuf, size, rfl, le_refl _⟩

theorem sprint_header_pos (cfg : Config) (tv d : timespec) (f : Nat) (p : tcp_flow_log) :
    0 < (sprint_header cfg tv d f p).length := by
  unfold sprint_header
  simp only [List.length_append, List.length_cons, List.length_nil]
  omega

theorem FlowInv.get_of_lt {cfg : Config} {st : State} {F : List Nat} {C : Nat → List Nat}
    {Q : List Nat} (h : FlowInv cfg st F C Q) {i : Nat} (hi : i < cfg.bufsize) :
    ∃ r, st.storage[i]? = some r :=
  ⟨st.storage.get ⟨i, by rw [h.len_s]; exact hi⟩, List.getElem?_eq_getElem _⟩

theorem FlowInv.head_fin_lt {cfg : Config} {st : State} {F : List Nat} {C : Nat → List Nat}
    {Q : List Nat} (h : FlowInv cfg st F C Q) {q : Nat} (hq : st.finished = some q) :
    q < cfg.bufsize ∧ ∃ Q1, Q = q :: Q1 := by
  have hf := h.fin
  cases Q with
  | nil =>
    have : st.finished = none := hf
    rw [this] at hq; cases hq
  | cons a Q1 =>
    have : st.finished = some a := hf.1
    rw [this] at hq
    have e : a = q := Option.some.inj hq
    subst e
    exact ⟨h.lt_of_mem (by simp), Q1, rfl⟩

/-- The record selection of `tcpflowspy_sprint` moves at most the cursor. -/
theorem FlowInv.sprint_select_ok {cfg : Config} {st : State} {F : List Nat}
    {C : Nat → List Nat} {Q : List Nat} (h : FlowInv cfg st F C Q) :
    ∃ s1 p f, sprint_select cfg st = some (s1, p, f) ∧ FlowInv cfg s1 F C Q ∧
      (∃ idx, s1 = { st with last_printed_flow_index := idx }) ∧
      (∀ q, p = some q → q < cfg.bufsize) ∧
      (st.finished ≠ none → p = st.finished ∧ s1 = st) := by
  unfold sprint_select
  by_cases hc : st.finished = none ∧ cfg.live ≠ 0
  · rw [if_pos hc]
    have hk : 0 < max 1 cfg.bufsize := by omega
    obtain ⟨idx1, p, h1, h2, _, h4⟩ :=
      live_scan_ok cfg st.storage h.n_pos h.len_s (max 1 cfg.bufsize) st.last_printed_flow_index
    rw [h1]
    refine ⟨_, p, 0, rfl, ?_, ⟨idx1, rfl⟩, ?_, fun hne => absurd hc.1 hne⟩
    · exact
        { n_pos := h.n_pos, n_lt := h.n_lt, len_s := h.len_s, len_e := h.len_e, free := h.free,
          chain := h.chain, fin := h.fin, part := h.part, hist := h.hist, cursor := h2 hk }
    · intro q hq
      rcases h4 with h4 | h4
      · rw [h4] at hq; cases hq
      · rw [h4] at hq
        have : idx1 = q := Option.some.inj hq
        rw [← this]; exact h2 hk
  · rw [if_neg hc]
    refine ⟨st, st.finished, 1, rfl, h, ⟨st.last_printed_flow_index, rfl⟩, ?_, fun _ => ⟨rfl, rfl⟩⟩
    intro q hq
    exact (h.head_fin_lt hq).1

theorem snprintf_snd (tbuf : List Char) (off size : Nat) (txt : List Char) :
    (snprintf tbuf off size txt).2 = txt.length := by
  unfold snprintf; split_ifs <;> rfl

/-- `tcpflowspy_sprint` returns, changes at most the cursor and the
`last_printed_tstamp` under the cursor, and writes at least one byte for a
finished record. -/
theorem FlowInv.sprint {cfg : Config} {st : State} {F : List Nat} {C : Nat → List Nat}
    {Q : List Nat} (h : FlowInv cfg st F C Q) (now : timespec) (tbuf : List Char) (n : Nat) :
    ∃ s tb w, tcpflowspy_sprint cfg st now tbuf n = some (s, tb, w) ∧ FlowInv cfg s F C Q ∧
      s.start = st.start ∧ s.last_update = st.last_update ∧ s.last_read = st.last_read ∧
      s.available = st.available ∧ s.finished = st.finished ∧ s.entries = st.entries ∧
      (st.finished ≠ none →
        0 < w ∧ s.last_printed_flow_index = st.last_printed_flow_index) ∧
      MapS (fun i r => if w ≠ 0 ∧ i = s.last_printed_flow_index then set_last_printed now r
        else r) st.storage s.storage := by
  obtain ⟨s1, p, f, hsel, hinv1, ⟨idx, hs1⟩, hp, hfin⟩ := h.sprint_select_ok
  unfold tcpflowspy_sprint
  rw [hsel]
  cases p with
  | none =>
    refine ⟨s1, tbuf, 0, rfl, hinv1, by rw [hs1], by rw [hs1], by rw [hs1], by rw [hs1],
      by rw [hs1], by rw [hs1], ?_, ?_⟩
    · intro hne
      have := (hfin hne).1
      exact absurd this.symm hne
    · rw [hs1]
      simpa using MapS.refl_map st.storage
  | some q =>
    obtain ⟨rc, hrc⟩ := hinv1.get_of_lt hinv1.cursor
    obtain ⟨s2, hs2, hg2, hen2, hm2⟩ := wr_eff (set_last_printed now) hrc
    have hinv2 : FlowInv cfg s2 F C Q :=
      hinv1.map hm2 (fun i r _ => by split_ifs <;> simp) hen2 hg2.2.2.2.1 hg2.2.2.2.2.1
        hg2.2.2.2.2.2
    obtain ⟨pr, hpr⟩ := hinv2.get_of_lt (hp q rfl)
    generalize htxt : sprint_header cfg (tcpprobe_timespec_sub pr.last_packet_tstamp s2.start)
        (tcpprobe_timespec_sub pr.last_packet_tstamp pr.first_packet_tstamp) f pr = txt
    have htpos : 0 < txt.length := by rw [← htxt]; exact sprint_header_pos _ _ _ _ _
    obtain ⟨tb, w, hh, hw⟩ := sprint_histogram_ok n pr.snd_cwnd_histogram
      cfg.number_of_buckets.toNat 0 (snprintf tbuf 0 n txt).1 (snprintf tbuf 0 n txt).2
      (by rw [hinv2.hist q pr hpr]; omega)
    rw [snprintf_snd] at hw
    have hpos : 0 < w := by omega
    have hcur : s2.last_printed_flow_index = s1.last_printed_flow_index := hg2.2.2.2.2.2
    simp only [hs2, Option.bind_eq_bind, Option.some_bind, hpr, htxt, hh]
    have hw4 : (if (if w < n then w + 1 else w) < n then (if w < n then w + 1 else w) + 1
        else (if w < n then w + 1 else w)) ≠ 0 := by
      split_ifs <;> omega
    refine ⟨s2, _, _, rfl, hinv2, ?_, ?_, ?_, ?_, ?_, ?_, ?_, ?_⟩
    · rw [hg2.1, hs1]
    · rw [hg2.2.1, hs1]
    · rw [hg2.2.2.1, hs1]
    · rw [hg2.2.2.2.1, hs1]
    · rw [hg2.2.2.2.2.1, hs1]
    · rw [hen2, hs1]
    · intro hne
      refine ⟨Nat.pos_of_ne_zero hw4, ?_⟩
      rw [hcur, (hfin hne).2]
    · have hst : s1.storage = st.storage := by rw [hs1]
      rw [hst] at hm2
      refine hm2.congr_map (fun i r _ => ?_)
      rw [hcur]
      simp only [hw4, ne_eq, not_false_eq_true, true_and]

theorem FlowInv.set_last_read {cfg : Config} {st : State} {F : List Nat} {C : Nat → List Nat}
    {Q : List Nat} (h : FlowInv cfg st F C Q) (t : timespec) :
    FlowInv cfg { st with last_read := t } F C Q :=
  h.congr_state rfl rfl rfl rfl rfl

/-- A drain step on a state with an empty finished queue keeps the
representation. -/
theorem FlowInv.read_step_empty {cfg : Config} {st : State} {F : List Nat}
    {C : Nat → List Nat} (h : FlowInv cfg st F C []) (signal : Bool)
    (now_read now_print : timespec) (tbuf : List Char) (cnt len : Nat) :
    ∃ s res, read_step cfg st signal now_read now_print tbuf cnt len = some (s, res) ∧
      FlowInv cfg s F C [] := by
  have hfin : st.finished = none := h.fin
  have hcond : (st.finished.isSome || tcpprobe_timespec_larger st.last_update st.last_read) =
      tcpprobe_timespec_larger st.last_update st.last_read := by rw [hfin]; rfl
  unfold read_step
  simp only [hcond]
  by_cases hb : (!tcpprobe_timespec_larger st.last_update st.last_read && !signal) = true
  · rw [if_pos hb]; exact ⟨_, _, rfl, h⟩
  rw [if_neg hb]
  by_cases hc : (!tcpprobe_timespec_larger st.last_update st.last_read) = true
  · rw [if_pos hc]; exact ⟨_, _, rfl, h.set_last_read now_read⟩
  rw [if_neg hc]
  by_cases hl : cfg.live = 0 ∧ st.finished = none
  · rw [if_pos hl]; exact ⟨_, _, rfl, h.set_last_read now_read⟩
  rw [if_neg hl]
  obtain ⟨s2, tb, w, hs, hinv, _, _, _, _, hf2, _, _, _⟩ :=
    (h.set_last_read now_read).sprint now_print tbuf PRINT_BUFF_SIZE
  rw [hs]
  have hf2' : s2.finished = none := hf2.trans hfin
  simp only [hf2']
  by_cases hw : w = 0
  · rw [if_pos hw]; exact ⟨_, _, rfl, hinv⟩
  rw [if_neg hw]
  by_cases hlen : len ≤ cnt + w
  · rw [if_pos hlen]; exact ⟨_, _, rfl, hinv⟩
  · rw [if_neg hlen]; exact ⟨_, _, rfl, hinv⟩

/-- A drain step on a state with a finished record: the record is serialised;
it is recycled exactly when the line fits the rest of the caller's buffer. -/
theorem FlowInv.read_step_finished {cfg : Config} {st : State} {F : List Nat}
    {C : Nat → List Nat} {Q : List Nat} {q : Nat} (h : FlowInv cfg st F C (q :: Q))
    (signal : Bool) (now_read now_print : timespec) (tbuf : List Char) (cnt len : Nat) :
    ∃ s2 tb w, tcpflowspy_sprint cfg { st with last_read := now_read } now_print tbuf
        PRINT_BUFF_SIZE = some (s2, tb, w) ∧ 0 < w ∧ FlowInv cfg s2 F C (q :: Q) ∧
      (cnt + w < len → ∃ s, recycle_finished s2 q = some s ∧
        read_step cfg st signal now_read now_print tbuf cnt len =
          some (s, read_result.next (cnt + w) (tb.take w)) ∧
        FlowInv cfg s (q :: F) C Q) ∧
      (len ≤ cnt + w →
        read_step cfg st signal now_read now_print tbuf cnt len =
          some (s2, read_result.stop 0)) := by
  have hfin : st.finished = some q := h.fin.1
  obtain ⟨s2, tb, w, hs, hinv, _, _, _, _, hf2, _, hw, _⟩ :=
    (h.set_last_read now_read).sprint now_print tbuf PRINT_BUFF_SIZE
  have hwpos : 0 < w := (hw (by simp [hfin])).1
  have hf2' : s2.finished = some q := hf2.trans hfin
  have hne : ¬ (cfg.live = 0 ∧ st.finished = none) := by simp [hfin]
  have hcond : (st.finished.isSome || tcpprobe_timespec_larger st.last_update st.last_read) =
      true := by rw [hfin]; rfl
  have hw0 : ¬ w = 0 := by omega
  refine ⟨s2, tb, w, hs, hwpos, hinv, ?_, ?_⟩
  · intro hlt
    obtain ⟨s, hrec, hinv3, _⟩ := hinv.recycle
    refine ⟨s, hrec, ?_, hinv3⟩
    unfold read_step
    simp only [hcond, Bool.not_true, Bool.false_and, Bool.false_eq_true, if_false]
    rw [if_neg hne]
    simp only [hs, hw0, if_false, hf2', hlt, if_true, hrec]
    rw [if_neg (by omega)]
  · intro hge
    unfold read_step
    simp only [hcond, Bool.not_true, Bool.false_and, Bool.false_eq_true, if_false]
    rw [if_neg hne]
    have : ¬ cnt + w < len := by omega
    simp only [hs, hw0, if_false, hf2', this, hge, if_true]

/-- A drain step keeps the state represented. -/
theorem FlowInv.read_step_good {cfg : Config} {st : State} {F : List Nat}
    {C : Nat → List Nat} {Q : List Nat} (h : FlowInv cfg st F C Q) (signal : Bool)
    (now_read now_print : timespec) (tbuf : List Char) (cnt len : Nat) :
    ∃ s res, read_step cfg st signal now_read now_print tbuf cnt len = some (s, res) ∧
      Good cfg s := by
  cases Q with
  | nil =>
    obtain ⟨s, res, h1, h2⟩ := h.read_step_empty signal now_read now_print tbuf cnt len
    exact ⟨s, res, h1, h2.is_good⟩
  | cons q Q =>
    obtain ⟨s2, tb, w, _, _, hinv2, h1, h2⟩ :=
      h.read_step_finished signal now_read now_print tbuf cnt len
    by_cases hlt : cnt + w < len
    · obtain ⟨s, _, hr, hinv⟩ := h1 hlt
      exact ⟨s, _, hr, hinv.is_good⟩
    · exact ⟨s2, _, h2 (by omega), hinv2.is_good⟩

theorem FlowInv.open_ok {cfg : Config} {st : State} {F : List Nat} {C : Nat → List Nat}
    {Q : List Nat} (h : FlowInv cfg st F C Q) (t1 t2 t3 : timespec) :
    FlowInv cfg (tcpflowspy_open st t1 t2 t3) F C Q :=
  h.congr_state rfl rfl rfl rfl rfl

theorem sample_cwnd_seq {cfg : Config} {w cl ss rt : Nat} {p p1 : tcp_flow_log}
    (h : sample_cwnd cfg w cl ss rt p = some p1) :
    p1.out_of_order_packets = p.out_of_order_packets ∧ p1.last_recv_seq = p.last_recv_seq ∧
    p1.recv_count = p.recv_count ∧ p1.snd_count = p.snd_count := by
  obtain ⟨_, _, c, _, hp1⟩ := sample_cwnd_some h
  subst hp1
  exact ⟨rfl, rfl, rfl, rfl⟩

theorem rcv_account_seq (cfg : Config) (e : rcv_event) (p : tcp_flow_log) :
    (p.last_recv_seq ≤ ntohl cfg e.seq →
      (rcv_account cfg e p).out_of_order_packets = p.out_of_order_packets ∧
      (rcv_account cfg e p).last_recv_seq = ntohl cfg e.seq) ∧
    (ntohl cfg e.seq < p.last_recv_seq →
      (rcv_account cfg e p).out_of_order_packets = (p.out_of_order_packets + 1) % 2 ^ 32 ∧
      (rcv_account cfg e p).last_recv_seq = p.last_recv_seq) ∧
    (rcv_account cfg e p).recv_count = (p.recv_count + 1) % 2 ^ 32 := by
  unfold rcv_account
  dsimp only
  refine ⟨fun h => ?_, fun h => ?_, ?_⟩
  · rw [if_pos h]; exact ⟨rfl, rfl⟩
  · rw [if_neg (by omega)]; exact ⟨rfl, rfl⟩
  · split_ifs <;> rfl


theorem IsPath_init (cfg : Config) (n : Nat) :
    ∀ (m k : Nat), k + m = n →
      IsPath ((List.range n).map (init_log cfg n)) (if k < n then some k else none)
        (List.range' k m)
  | 0, k, h => by
    have : ¬ k < n := by omega
    simp [IsPath, this]
  | m + 1, k, h => by
    have hk : k < n := by omega
    have hget : ((List.range n).map (init_log cfg n))[k]? = some (init_log cfg n k) := by
      rw [List.getElem?_map, List.getElem?_range hk]; rfl
    refine ⟨by simp [hk], init_log cfg n k, hget, ?_⟩
    have := IsPath_init cfg n m (k + 1) (by omega)
    exact this

theorem flatMap_nil_fun (L : List Nat) : L.flatMap (fun _ => ([] : List Nat)) = [] := by
  induction L with
  | nil => rfl
  | cons a L ih => simp [List.flatMap_cons, ih]

/-- The state left by `tcpflowspy_init`: every slot on the free list, in
order. -/
theorem init_inv {cfg0 cfg : Config} {st : State} (h : tcpflowspy_init cfg0 = some (cfg, st))
    (hcap : 1 ≤ cfg.bufsize) :
    FlowInv cfg st (List.range cfg.bufsize) (fun _ => []) [] := by
  unfold tcpflowspy_init at h
  by_cases h0 : cfg0.bufsize = 0
  · rw [if_pos h0] at h; cases h
  rw [if_neg h0] at h
  simp only [Option.some.injEq, Prod.mk.injEq] at h
  obtain ⟨hcfg, hst⟩ := h
  have hn : cfg.bufsize = roundup_pow_of_two cfg0.bufsize % 2 ^ 32 := by rw [← hcfg]
  have hnb : cfg.number_of_buckets = cfg0.number_of_buckets := by rw [← hcfg]
  have hlt : cfg.bufsize < 2 ^ 32 := by rw [hn]; exact Nat.mod_lt _ (by norm_num)
  have hht : HASHTABLE_SIZE cfg = cfg.bufsize := HASHTABLE_SIZE_eq hlt
  rw [hcfg, ← hn] at hst
  subst hst
  refine
    { n_pos := hcap, n_lt := hlt, len_s := by simp, len_e := by simp [hht], free := ?_,
      chain := ?_, fin := rfl, part := ?_, hist := ?_, cursor := hcap }
  · have := IsPath_init cfg0 cfg.bufsize cfg.bufsize 0 (by omega)
    have hpos : 0 < cfg.bufsize := hcap
    rw [if_pos hpos, ← List.range_eq_range'] at this
    exact this
  · intro b e he
    simp only [hht] at he
    rw [List.getElem?_replicate] at he
    split_ifs at he
    have : e = ⟨none, none⟩ := (Option.some.inj he).symm
    subst this
    exact ⟨rfl, rfl⟩
  · simp [flatMap_nil_fun]
  · intro i r hr
    simp only at hr
    rw [List.getElem?_map] at hr
    cases hi : (List.range cfg.bufsize)[i]? with
    | none => rw [hi] at hr; cases hr
    | some j =>
      rw [hi] at hr
      have : r = init_log cfg0 cfg.bufsize j := by simpa using hr.symm
      subst this
      simp [init_log, hnb]

/-- Every reachable state with a non-empty pool is represented. -/
theorem Reachable.good {cfg : Config} {st : State} (hr : Reachable cfg st)
    (hcap : 1 ≤ cfg.bufsize) : Good cfg st := by
  induction hr with
  | init h => exact (init_inv h hcap).is_good
  | rcv e _ hs ih =>
    obtain ⟨F, C, Q, h⟩ := ih
    rcases h.rcv e with ⟨s1, h1, h2⟩ | ⟨h1, _⟩
    · rw [hs] at h1; cases h1; exact h2
    · rw [hs] at h1; cases h1
  | xmit e _ hs ih =>
    obtain ⟨F, C, Q, h⟩ := ih
    rcases h.xmit e with ⟨s1, h1, h2⟩ | ⟨h1, _⟩
    · rw [hs] at h1; cases h1; exact h2
    · rw [hs] at h1; cases h1
  | prune now _ hs ih =>
    obtain ⟨F, C, Q, h⟩ := ih
    obtain ⟨s1, P, h1, h2, _⟩ := h.prune now
    rw [hs] at h1; cases h1; exact h2.is_good
  | read signal now_read now_print tbuf cnt len res _ hs ih =>
    obtain ⟨F, C, Q, h⟩ := ih
    obtain ⟨s1, res1, h1, h2⟩ := h.read_step_good signal now_read now_print tbuf cnt len
    rw [hs] at h1; cases h1; exact h2
  | opened t1 t2 t3 _ ih =>
    obtain ⟨F, C, Q, h⟩ := ih
    exact (h.open_ok t1 t2 t3).is_good

theorem render_digits_length (base : Nat) :
    ∀ (fuel n : Nat) (acc : List Char),
      (render_digits base fuel n acc).length ≤ fuel + acc.length
  | 0, _, acc => by simp [render_digits]
  | fuel + 1, n, acc => by
    unfold render_digits
    split_ifs
    · simp; omega
    · have := render_digits_length base fuel (n / base) (digit_char (n % base) :: acc)
      simp at this
      omega

theorem fmt_u_length (n : Nat) : (fmt_u n).length ≤ 10 := by
  have := render_digits_length 10 10 (n % 2 ^ 32) []
  simpa [fmt_u] using this

theorem fmt_x_length (n : Nat) : (fmt_x n).length ≤ 8 := by
  have := render_digits_length 16 8 (n % 2 ^ 32) []
  simpa [fmt_x] using this

theorem fmt_lu_length (x : Int) : (fmt_lu x).length ≤ 20 := by
  have := render_digits_length 10 20 (x % 2 ^ BITS_PER_LONG).toNat []
  simpa [fmt_lu] using this

theorem fmt_09lu_length (x : Int) : (fmt_09lu x).length ≤ 20 := by
  have := fmt_lu_length x
  unfold fmt_09lu
  simp only [List.length_append, List.length_replicate]
  omega

theorem sprint_header_length (cfg : Config) (tv d : timespec) (f : Nat) (p : tcp_flow_log) :
    (sprint_header cfg tv d f p).length ≤ LINE_MAX := by
  unfold sprint_header LINE_MAX
  simp only [List.length_append, List.length_cons, List.length_nil]
  have a1 := fmt_lu_length tv.tv_sec
  have a2 := fmt_09lu_length tv.tv_nsec
  have a3 := fmt_u_length f
  have a4 := fmt_x_length (ntohl cfg p.saddr)
  have a5 := fmt_u_length (ntohs cfg p.sport)
  have a6 := fmt_x_length (ntohl cfg p.daddr)
  have a7 := fmt_u_length (ntohs cfg p.dport)
  have a8 := fmt_lu_length d.tv_sec
  have a9 := fmt_09lu_length d.tv_nsec
  have b1 := fmt_u_length p.recv_count
  have b2 := fmt_lu_length p.recv_size
  have b3 := fmt_u_length p.snd_count
  have b4 := fmt_lu_length p.snd_size
  have b5 := fmt_u_length p.total_retransmissions
  have b6 := fmt_u_length p.out_of_order_packets
  have b7 := fmt_u_length p.snd_cwnd_clamp
  have b8 := fmt_u_length p.ssthresh
  have b9 := fmt_u_length p.srtt
  have c1 := fmt_u_length p.last_cwnd
  omega

theorem sprint_histogram_le (n : Nat) (hist : List Nat) :
    ∀ (fuel index : Nat) (tbuf : List Char) (size : Nat) (tb : List Char) (w : Nat),
      sprint_histogram n hist fuel index tbuf size = some (tb, w) → w ≤ max size n
  | 0, _, tbuf, size, tb, w, h => by
    simp only [sprint_histogram, Option.some.injEq, Prod.mk.injEq] at h
    omega
  | fuel + 1, index, tbuf, size, tb, w, h => by
    unfold sprint_histogram at h
    split_ifs at h with hc
    · cases hg : hist[index]? with
      | none => rw [hg] at h; cases h
      | some c =>
        rw [hg] at h
        have := sprint_histogram_le n hist fuel (index + 1) _ _ tb w h
        have h2 : size + min (n - size) (snprintf tbuf size (n - size) (fmt_u c ++ [','])).2 ≤ n := by
          omega
        omega
    · simp only [Option.some.injEq, Prod.mk.injEq] at h
      omega

/-- No line of the read path is longer than `LINE_MAX`. -/
theorem sprint_width_le {cfg : Config} {st s : State} {now : timespec} {tbuf tb : List Char}
    {w : Nat} (h : tcpflowspy_sprint cfg st now tbuf PRINT_BUFF_SIZE = some (s, tb, w)) :
    w ≤ LINE_MAX := by
  unfold tcpflowspy_sprint at h
  cases hsel : sprint_select cfg st with
  | none => rw [hsel] at h; cases h
  | some x =>
    obtain ⟨s1, p, f⟩ := x
    rw [hsel] at h
    cases p with
    | none =>
      simp only [Option.some.injEq, Prod.mk.injEq] at h
      omega
    | some q =>
      simp only [Option.bind_eq_bind] at h
      cases h2 : wr s1 s1.last_printed_flow_index (set_last_printed now) with
      | none => rw [h2] at h; cases h
      | some s2 =>
        rw [h2] at h
        simp only [Option.some_bind] at h
        cases h3 : s2.storage[q]? with
        | none => rw [h3] at h; cases h
        | some pr =>
          rw [h3] at h
          simp only [Option.some_bind] at h
          generalize htxt : sprint_header cfg
            (tcpprobe_timespec_sub pr.last_packet_tstamp s2.start)
            (tcpprobe_timespec_sub pr.last_packet_tstamp pr.first_packet_tstamp) f pr = txt at h
          have hl : txt.length ≤ LINE_MAX := by
            rw [← htxt]; exact sprint_header_length _ _ _ _ _
          cases h4 : sprint_histogram PRINT_BUFF_SIZE pr.snd_cwnd_histogram
              cfg.number_of_buckets.toNat 0 (snprintf tbuf 0 PRINT_BUFF_SIZE txt).1
              (snprintf tbuf 0 PRINT_BUFF_SIZE txt).2 with
          | none => rw [h4] at h; cases h
          | some r2 =>
            obtain ⟨tb2, w2⟩ := r2
            rw [h4] at h
            have hle := sprint_histogram_le _ _ _ _ _ _ _ _ h4
            rw [snprintf_snd] at hle
            simp only [Option.some_bind, Option.some.injEq, Prod.mk.injEq] at h
            obtain ⟨_, _, hw⟩ := h
            rw [← hw]
            unfold LINE_MAX PRINT_BUFF_SIZE at *
            split_ifs <;> omega

theorem Reachable.of_run_rcv {cfg : Config} :
    ∀ (es : List rcv_event) (st s : State), Reachable cfg st →
      TcpFlowSpy.run_rcv cfg st es = some s → Reachable cfg s
  | [], st, s, hr, h => by
    have : st = s := Option.some.inj h
    rw [← this]; exact hr
  | e :: es, st, s, hr, h => by
    unfold TcpFlowSpy.run_rcv at h
    cases h1 : jtcp_v4_do_rcv cfg st e with
    | none => rw [h1] at h; cases h
    | some s1 =>
      rw [h1] at h
      exact Reachable.of_run_rcv es s1 s (Reachable.rcv e hr h1) h

theorem demo_init_eq : tcpflowspy_init demo_cfg = some (demo_cfg, demo_init) := by decide

theorem demo_finished_eq : run_rcv demo_cfg demo_init demo_flow = some demo_finished := by
  decide

theorem FlowInv.read_step_empty_slot {cfg : Config} {st : State} {F : List Nat}
    {C : Nat → List Nat} (h : FlowInv cfg st F C []) (cnt : Nat) (res : read_result) :
    returned_slot st cnt res = none := by
  have hfin : st.finished = none := h.fin
  unfold returned_slot
  cases res with
  | blocked => rfl
  | stop e => rfl
  | next c d => simp only [hfin]; split_ifs <;> rfl

/-- A script of drain steps hands out a prefix of the finished queue, each
record once, and recycles exactly what it hands out. -/
theorem FlowInv.drain_script_ok {cfg : Config} {C : Nat → List Nat} :
    ∀ (script : List read_input) (st : State) (F Q : List Nat), FlowInv cfg st F C Q →
      ∃ s out Qr, drain_script cfg st script = some (s, out) ∧ Q = out ++ Qr ∧
        FlowInv cfg s (out.reverse ++ F) C Qr
  | [], st, F, Q, h => ⟨st, [], Q, rfl, rfl, h⟩
  | i :: is, st, F, Q, h => by
    cases Q with
    | nil =>
      obtain ⟨s, res, h1, h2⟩ :=
        h.read_step_empty i.signal i.now_read i.now_print i.tbuf i.cnt i.len
      obtain ⟨s1, out, Qr, h3, h4, h5⟩ := FlowInv.drain_script_ok is s F [] h2
      refine ⟨s1, out, Qr, ?_, h4, h5⟩
      simp only [drain_script, h1, h3, h.read_step_empty_slot, Option.toList, List.nil_append]
    | cons q Q =>
      have hfin : st.finished = some q := h.fin.1
      obtain ⟨s2, tb, w, _, hw, hinv2, hfit, hno⟩ :=
        h.read_step_finished i.signal i.now_read i.now_print i.tbuf i.cnt i.len
      by_cases hlt : i.cnt + w < i.len
      · obtain ⟨s, _, hr, hinv⟩ := hfit hlt
        obtain ⟨s1, out, Qr, h3, h4, h5⟩ := FlowInv.drain_script_ok is s (q :: F) Q hinv
        refine ⟨s1, q :: out, Qr, ?_, by rw [h4]; rfl, ?_⟩
        · have hne : ¬ i.cnt + w = i.cnt := by omega
          simp only [drain_script, hr, h3, returned_slot, hne, if_false, hfin, Option.toList,
            List.singleton_append]
        · simpa using h5
      · have hr := hno (by omega)
        obtain ⟨s1, out, Qr, h3, h4, h5⟩ := FlowInv.drain_script_ok is s2 F (q :: Q) hinv2
        refine ⟨s1, out, Qr, ?_, h4, h5⟩
        simp only [drain_script, hr, h3, returned_slot, Option.toList, List.nil_append]

/-- With buffers large enough for any line, a script of drain steps hands out
the finished queue from its head, one record per step. -/
theorem FlowInv.drain_script_fit {cfg : Config} {C : Nat → List Nat} :
    ∀ (script : List read_input) (st : State) (F Q : List Nat), FlowInv cfg st F C Q →
      (∀ i ∈ script, i.cnt + LINE_MAX < i.len) →
      ∃ s, drain_script cfg st script = some (s, Q.take script.length) ∧
        FlowInv cfg s ((Q.take script.length).reverse ++ F) C (Q.drop script.length)
  | [], st, F, Q, h, _ => ⟨st, by simp [drain_script], by simpa using h⟩
  | i :: is, st, F, Q, h, hf => by
    cases Q with
    | nil =>
      obtain ⟨s, res, h1, h2⟩ :=
        h.read_step_empty i.signal i.now_read i.now_print i.tbuf i.cnt i.len
      obtain ⟨s1, h3, h5⟩ := FlowInv.drain_script_fit is s F [] h2
        (fun j hj => hf j (List.mem_cons_of_mem _ hj))
      refine ⟨s1, ?_, by simpa using h5⟩
      simp only [List.take_nil] at h3
      simp only [drain_script, h1, h3, h.read_step_empty_slot, Option.toList, List.nil_append,
        List.take_nil]
    | cons q Q =>
      have hfin : st.finished = some q := h.fin.1
      obtain ⟨s2, tb, w, hsp, hw, hinv2, hfit, hno⟩ :=
        h.read_step_finished i.signal i.now_read i.now_print i.tbuf i.cnt i.len
      have hwle := sprint_width_le hsp
      have hlt : i.cnt + w < i.len := by
        have := hf i (List.mem_cons_self _ _)
        omega
      obtain ⟨s, _, hr, hinv⟩ := hfit hlt
      obtain ⟨s1, h3, h5⟩ := FlowInv.drain_script_fit is s (q :: F) Q hinv
        (fun j hj => hf j (List.mem_cons_of_mem _ hj))
      refine ⟨s1, ?_, by simpa using h5⟩
      have hne : ¬ i.cnt + w = i.cnt := by omega
      simp only [drain_script, hr, h3, returned_slot, hne, if_false, hfin, Option.toList,
        List.singleton_append, List.length_cons, List.take_succ_cons]

theorem demo_finished_reachable : Reachable demo_cfg demo_finished :=
  Reachable.of_run_rcv demo_flow demo_init demo_finished (Reachable.init demo_init_eq)
    demo_finished_eq

theorem flow_update_hist {cfg : Config} {ev : flow_event} {r r1 : tcp_flow_log}
    (h : flow_update cfg ev r = some r1) :
    (ev.established = false ∧ r1.snd_cwnd_histogram = r.snd_cwnd_histogram) ∨
    (ev.established = true ∧ 0 ≤ cwnd_index cfg ev.snd_cwnd ∧
      ∃ c, r.snd_cwnd_histogram[(cwnd_index cfg ev.snd_cwnd).toNat]? = some c ∧
        r1.snd_cwnd_histogram =
          r.snd_cwnd_histogram.set (cwnd_index cfg ev.snd_cwnd).toNat ((c + 1) % 2 ^ 32)) := by
  cases ev with
  | rcv e =>
    simp only [flow_update, rcv_update] at h
    by_cases hs : e.sk_state = TCP_ESTABLISHED
    · rw [if_pos hs] at h
      obtain ⟨_, h2, c, hc, hp1⟩ := sample_cwnd_some h
      rw [(rcv_account_frame cfg e r).2.2.1] at hc
      refine Or.inr ⟨by simp [flow_event.established, hs], h2, c, hc, ?_⟩
      rw [hp1]
      show (rcv_account cfg e r).snd_cwnd_histogram.set _ _ = _
      rw [(rcv_account_frame cfg e r).2.2.1]
      rfl
    · rw [if_neg hs] at h
      refine Or.inl ⟨by simp [flow_event.established, hs], ?_⟩
      rw [← Option.some.inj h]
      exact (rcv_account_frame cfg e r).2.2.1
  | xmit e =>
    simp only [flow_update, xmit_update] at h
    by_cases hs : e.sk_state = TCP_ESTABLISHED
    · rw [if_pos hs] at h
      obtain ⟨_, h2, c, hc, hp1⟩ := sample_cwnd_some h
      refine Or.inr ⟨by simp [flow_event.established, hs], h2, c, hc, ?_⟩
      rw [hp1]
      rfl
    · rw [if_neg hs] at h
      refine Or.inl ⟨by simp [flow_event.established, hs], ?_⟩
      rw [← Option.some.inj h]
      rfl

theorem sum_set_succ : ∀ (l : List Nat) (i c : Nat), l[i]? = some c →
    (l.set i (c + 1)).sum = l.sum + 1
  | [], i, c, h => by simp at h
  | a :: l, 0, c, h => by
    have : a = c := by simpa using h
    subst this
    simp [List.set]; omega
  | a :: l, i + 1, c, h => by
    have h1 : l[i]? = some c := by simpa using h
    have := sum_set_succ l i c h1
    simp only [List.set, List.sum_cons, this]
    omega

theorem le_sum_of_getElem? : ∀ (l : List Nat) (i c : Nat), l[i]? = some c → c ≤ l.sum
  | [], i, c, h => by simp at h
  | a :: l, 0, c, h => by
    have : a = c := by simpa using h
    subst this
    simp
  | a :: l, i + 1, c, h => by
    have h1 : l[i]? = some c := by simpa using h
    have := le_sum_of_getElem? l i c h1
    simp only [List.sum_cons]
    omega

/-- The bucket sum counts the established events, as long as it stays below
`2^32`. -/
theorem flow_updates_sum (cfg : Config) :
    ∀ (evs : List flow_event) (r r1 : tcp_flow_log), flow_updates cfg r evs = some r1 →
      r.snd_cwnd_histogram.sum + evs.countP flow_event.established < 2 ^ 32 →
      r1.snd_cwnd_histogram.sum =
        r.snd_cwnd_histogram.sum + evs.countP flow_event.established
  | [], r, r1, h, _ => by
    have : r = r1 := Option.some.inj h
    subst this
    simp
  | ev :: evs, r, r1, h, hb => by
    unfold flow_updates at h
    cases hu : flow_update cfg ev r with
    | none => rw [hu] at h; cases h
    | some r2 =>
      rw [hu] at h
      rw [List.countP_cons] at hb ⊢
      rcases flow_update_hist hu with ⟨he, hh⟩ | ⟨he, _, c, hc, hh⟩
      · simp only [he, Bool.false_eq_true, if_false, Nat.add_zero] at hb ⊢
        have := flow_updates_sum cfg evs r2 r1 h (by rw [hh]; exact hb)
        rw [this, hh]
      · simp only [he, if_true] at hb ⊢
        have hcle := le_sum_of_getElem? _ _ _ hc
        have hmod : (c + 1) % 2 ^ 32 = c + 1 := Nat.mod_eq_of_lt (by omega)
        have hs2 : r2.snd_cwnd_histogram.sum = r.snd_cwnd_histogram.sum + 1 := by
          rw [hh, hmod]; exact sum_set_succ _ _ _ hc
        have := flow_updates_sum cfg evs r2 r1 h (by rw [hs2]; omega)
        rw [this, hs2]; omega

/-- Each bucket counts the established events sampled into it, modulo `2^32`. -/
theorem flow_updates_bucket (cfg : Config) (i : Nat) :
    ∀ (evs : List flow_event) (r r1 : tcp_flow_log) (c : Nat),
      flow_updates cfg r evs = some r1 → r.snd_cwnd_histogram[i]? = some c → c < 2 ^ 32 →
      r1.snd_cwnd_histogram[i]? = some ((c + evs.countP (flow_event.samples cfg i)) % 2 ^ 32)
  | [], r, r1, c, h, hc, hlt => by
    have : r = r1 := Option.some.inj h
    subst this
    rw [List.countP_nil, Nat.add_zero, Nat.mod_eq_of_lt hlt]
    exact hc
  | ev :: evs, r, r1, c, h, hc, hlt => by
    unfold flow_updates at h
    cases hu : flow_update cfg ev r with
    | none => rw [hu] at h; cases h
    | some r2 =>
      rw [hu] at h
      rw [List.countP_cons]
      rcases flow_update_hist hu with ⟨he, hh⟩ | ⟨he, h0, c1, hc1, hh⟩
      · have hs : flow_event.samples cfg i ev = false := by simp [flow_event.samples, he]
        rw [flow_updates_bucket cfg i evs r2 r1 c h (by rw [hh]; exact hc) hlt]
        simp [hs]
      · by_cases hi : (cwnd_index cfg ev.snd_cwnd).toNat = i
        · have hidx : cwnd_index cfg ev.snd_cwnd = (i : Int) := by
            rw [← hi]; exact (Int.toNat_of_nonneg h0).symm
          have hs : flow_event.samples cfg i ev = true := by
            simp [flow_event.samples, he, hidx]
          rw [hi] at hc1 hh
          have hcc : c1 = c := by rw [hc] at hc1; exact (Option.some.inj hc1).symm
          subst hcc
          have h2 : r2.snd_cwnd_histogram[i]? = some ((c1 + 1) % 2 ^ 32) := by
            rw [hh, getElem?_set_some hc]; simp
          rw [flow_updates_bucket cfg i evs r2 r1 _ h h2 (Nat.mod_lt _ (by norm_num))]
          simp only [hs, if_true]
          congr 1
          rw [Nat.add_mod, Nat.mod_mod, ← Nat.add_mod]
          congr 1
          omega
        · have hidx : ¬ cwnd_index cfg ev.snd_cwnd = (i : Int) := by
            intro e; apply hi; rw [e]; rfl
          have hs : flow_event.samples cfg i ev = false := by
            simp [flow_event.samples, he, hidx]
          have h2 : r2.snd_cwnd_histogram[i]? = some c := by
            rw [hh, List.getElem?_set_ne hi]; exact hc
          rw [flow_updates_bucket cfg i evs r2 r1 c h h2 hlt]
          simp [hs]

/-- The length of the histogram is kept by every update. -/
theorem flow_update_length {cfg : Config} {ev : flow_event} {r r1 : tcp_flow_log}
    (h : flow_update cfg ev r = some r1) :
    r1.snd_cwnd_histogram.length = r.snd_cwnd_histogram.length := by
  rcases flow_update_hist h with ⟨_, hh⟩ | ⟨_, _, _, _, hh⟩
  · rw [hh]
  · rw [hh, List.length_set]

/-- In range the index is the exact minimum and names a bucket. -/
theorem cwnd_index_in_range {cfg : Config} {w : Nat} (hnb : 1 ≤ cfg.number_of_buckets)
    (hq : w / (cfg.bucket_length % 2 ^ 32).toNat < 2 ^ 31) :
    cwnd_index cfg w =
        min (cfg.number_of_buckets - 1) ((w / (cfg.bucket_length % 2 ^ 32).toNat : Nat) : Int) ∧
      0 ≤ cwnd_index cfg w ∧ (cwnd_index cfg w).toNat < cfg.number_of_buckets.toNat := by
  have h1 : cwnd_index cfg w =
      min (cfg.number_of_buckets - 1) ((w / (cfg.bucket_length % 2 ^ 32).toNat : Nat) : Int) := by
    unfold cwnd_index
    simp only []
    rw [if_pos hq]
  refine ⟨h1, ?_, ?_⟩
  · rw [h1, min_def]; clear h1
    generalize w / (cfg.bucket_length % 2 ^ 32).toNat = q
    split_ifs <;> omega
  · rw [h1, min_def]; clear h1
    generalize w / (cfg.bucket_length % 2 ^ 32).toNat = q
    split_ifs <;> omega

/-- An update with a window in range on a histogram of the configured length
does not fault. -/
theorem flow_update_total {cfg : Config} (hnb : 1 ≤ cfg.number_of_buckets)
    (hbl : 1 ≤ cfg.bucket_length) (hbl2 : cfg.bucket_length < 2 ^ 32)
    (ev : flow_event) (hev : ev.in_range cfg) (r : tcp_flow_log)
    (hlen : r.snd_cwnd_histogram.length = cfg.number_of_buckets.toNat) :
    ∃ r1, flow_update cfg ev r = some r1 := by
  have hbl0 : ¬ (cfg.bucket_length % 2 ^ 32).toNat = 0 := by omega
  cases ev with
  | rcv e =>
    simp only [flow_update, rcv_update]
    by_cases hs : e.sk_state = TCP_ESTABLISHED
    · rw [if_pos hs]
      have hq : e.snd_cwnd / (cfg.bucket_length % 2 ^ 32).toNat < 2 ^ 31 :=
        hev (by simp [flow_event.established, hs])
      obtain ⟨_, h0, hlt⟩ := cwnd_index_in_range hnb hq
      have hl2 : (cwnd_index cfg e.snd_cwnd).toNat <
          (rcv_account cfg e r).snd_cwnd_histogram.length := by
        rw [(rcv_account_frame cfg e r).2.2.1, hlen]; exact hlt
      unfold sample_cwnd
      rw [if_neg hbl0, if_neg (not_lt.mpr h0), List.getElem?_eq_getElem hl2]
      exact ⟨_, rfl⟩
    · rw [if_neg hs]; exact ⟨_, rfl⟩
  | xmit e =>
    simp only [flow_update, xmit_update]
    by_cases hs : e.sk_state = TCP_ESTABLISHED
    · rw [if_pos hs]
      have hq : e.snd_cwnd / (cfg.bucket_length % 2 ^ 32).toNat < 2 ^ 31 :=
        hev (by simp [flow_event.established, hs])
      obtain ⟨_, h0, hlt⟩ := cwnd_index_in_range hnb hq
      have hl2 : (cwnd_index cfg e.snd_cwnd).toNat <
          (xmit_account e r).snd_cwnd_histogram.length := by
        show _ < r.snd_cwnd_histogram.length
        rw [hlen]; exact hlt
      unfold sample_cwnd
      rw [if_neg hbl0, if_neg (not_lt.mpr h0), List.getElem?_eq_getElem hl2]
      exact ⟨_, rfl⟩
    · rw [if_neg hs]; exact ⟨_, rfl⟩

/-- A sequence of updates with windows in range does not fault. -/
theorem flow_updates_total {cfg : Config} (hnb : 1 ≤ cfg.number_of_buckets)
    (hbl : 1 ≤ cfg.bucket_length) (hbl2 : cfg.bucket_length < 2 ^ 32) :
    ∀ (evs : List flow_event) (r : tcp_flow_log),
      (∀ ev ∈ evs, flow_event.in_range cfg ev) →
      r.snd_cwnd_histogram.length = cfg.number_of_buckets.toNat →
      ∃ r1, flow_updates cfg r evs = some r1
  | [], r, _, _ => ⟨r, rfl⟩
  | ev :: evs, r, hev, hlen => by
    obtain ⟨r2, h2⟩ := flow_update_total hnb hbl hbl2 ev (hev ev (List.mem_cons_self _ _)) r hlen
    obtain ⟨r1, h1⟩ := flow_updates_total hnb hbl hbl2 evs r2
      (fun x hx => hev x (List.mem_cons_of_mem _ hx)) (by rw [flow_update_length h2, hlen])
    exact ⟨r1, by unfold flow_updates; rw [h2]; exact h1⟩

theorem demo_open_eq :
    run_rcv demo_cfg demo_init [demo_rcv 1 2 3 4 true false false 0 0 1] = some demo_open := by
  decide

theorem demo_open_reachable : Reachable demo_cfg demo_open :=
  Reachable.of_run_rcv _ demo_init demo_open (Reachable.init demo_init_eq) demo_open_eq

theorem expired_at_eq {S : List tcp_flow_log} {i : Nat} {r : tcp_flow_log} (now : timespec)
    (h : S[i]? = some r) :
    expired_at S now i = decide (EXPIRE_SKB < now.tv_sec - r.last_packet_tstamp.tv_sec) := by
  unfold expired_at
  rw [h]
  rfl

/-- After a complete drain nothing more is handed out. -/
theorem FlowInv.drain_script_empty {cfg : Config} {C : Nat → List Nat} {st : State}
    {F : List Nat} (h : FlowInv cfg st F C []) (script : List read_input) :
    ∃ s, drain_script cfg st script = some (s, []) := by
  obtain ⟨s, out, Qr, h1, h2, _⟩ := FlowInv.drain_script_ok script st F [] h
  have : out = [] := (List.append_eq_nil.1 h2.symm).1
  subst this
  exact ⟨s, h1⟩

theorem rcv_account_strip (cfg : Config) (e : rcv_event) (r : tcp_flow_log) :
    rcv_account cfg e (strip r) = strip (rcv_account cfg e r) := by
  unfold rcv_account strip set_next set_prev
  dsimp only
  split_ifs <;> rfl

theorem sample_cwnd_strip (cfg : Config) (w cl ss rt : Nat) (r : tcp_flow_log) :
    sample_cwnd cfg w cl ss rt (strip r) = (sample_cwnd cfg w cl ss rt r).map strip := by
  unfold sample_cwnd
  by_cases h1 : (cfg.bucket_length % 2 ^ 32).toNat = 0
  · rw [if_pos h1, if_pos h1]; rfl
  rw [if_neg h1, if_neg h1]
  by_cases h2 : cwnd_index cfg w < 0
  · rw [if_pos h2, if_pos h2]; rfl
  rw [if_neg h2, if_neg h2]
  show (match r.snd_cwnd_histogram[(cwnd_index cfg w).toNat]? with
    | none => none
    | some c => _) = _
  cases r.snd_cwnd_histogram[(cwnd_index cfg w).toNat]? with
  | none => rfl
  | some c => rfl

/-- The update of a record does not look at its links. -/
theorem rcv_update_strip (cfg : Config) (e : rcv_event) (r : tcp_flow_log) :
    rcv_update cfg e (strip r) = (rcv_update cfg e r).map strip := by
  unfold rcv_update
  by_cases h : e.sk_state = TCP_ESTABLISHED
  · rw [if_pos h, if_pos h, rcv_account_strip, sample_cwnd_strip]
  · rw [if_neg h, if_neg h, rcv_account_strip]; rfl

theorem strip_strip (r : tcp_flow_log) : strip (strip r) = strip r := rfl

theorem is_log_for_skb_strip (r : tcp_flow_log) (sa da sp dp : Nat) :
    is_log_for_skb (strip r) sa da sp dp = is_log_for_skb r sa da sp dp := rfl

/-- Whether a record matches depends on its data only. -/
theorem match_at_data {S S1 : List tcp_flow_log} {i : Nat}
    (h : (S1[i]?).map strip = (S[i]?).map strip) (sa da sp dp : Nat) :
    match_at S1 sa da sp dp i = match_at S sa da sp dp i := by
  unfold match_at
  cases h1 : S1[i]? with
  | none =>
    rw [h1] at h
    cases h0 : S[i]? with
    | none => rfl
    | some r => rw [h0] at h; simp at h
  | some r1 =>
    rw [h1] at h
    cases h0 : S[i]? with
    | none => rw [h0] at h; simp at h
    | some r =>
      rw [h0] at h
      have hs : strip r1 = strip r := by simpa using h
      show is_log_for_skb r1 sa da sp dp = is_log_for_skb r sa da sp dp
      rw [← is_log_for_skb_strip r1, ← is_log_for_skb_strip r, hs]

theorem strip_alloc_rec (cfg : Config) (now : timespec) (p : Nat) (tl : Option Nat) (i : Nat)
    (r : tcp_flow_log) :
    strip (alloc_rec cfg now p tl i r) =
      if i = p then strip (set_used 1 (reset_log cfg now r)) else strip r := by
  unfold alloc_rec link_rec
  split_ifs <;> rfl

theorem map_strip_eq_some {o : Option tcp_flow_log} {a : tcp_flow_log}
    (h : o.map strip = some a) : ∃ r, o = some r ∧ strip r = a := by
  cases o with
  | none => cases h
  | some r => exact ⟨r, rfl, Option.some.inj h⟩

/-- A receive event whose flow is in the index: the first matching record of
the bucket is updated, and retired when the event carries FIN or RST. -/
theorem FlowInv.rcv_found_pass {cfg : Config} {st : State} {F : List Nat} {C : Nat → List Nat}
    {Q : List Nat} (h : FlowInv cfg st F C Q) (e : rcv_event)
    (hport : cfg.port = 0 ∨ (ntohs cfg e.dest : Int) = cfg.port ∨
      (ntohs cfg e.source : Int) = cfg.port)
    {p : Nat} {l1 l2 : List Nat} {a a1 : tcp_flow_log}
    (hC : C (skb_hash_function cfg e.saddr e.daddr e.source e.dest) = l1 ++ p :: l2)
    (hl1 : ∀ i ∈ l1, match_at st.storage e.saddr e.daddr e.source e.dest i = false)
    (hp : match_at st.storage e.saddr e.daddr e.source e.dest p = true)
    (ha : (st.storage[p]?).map strip = some a) (hu : rcv_update cfg e a = some a1) :
    ∃ s, jtcp_v4_do_rcv cfg st e = some s ∧
      (s.storage[p]?).map strip = some a1 ∧
      (∀ i : Nat, i ≠ p → (s.storage[i]?).map strip = (st.storage[i]?).map strip) ∧
      ((e.fin || e.rst) = false → FlowInv cfg s F C Q) ∧
      ((e.fin || e.rst) = true →
        FlowInv cfg s F
          (Function.update C (skb_hash_function cfg e.saddr e.daddr e.source e.dest) (l1 ++ l2))
          (p :: Q)) := by
  obtain ⟨r, hr, hra⟩ := map_strip_eq_some ha
  rw [← hra, rcv_update_strip] at hu
  obtain ⟨r1, hu1, hr1⟩ := map_strip_eq_some hu
  obtain ⟨s, hs, hk, hfin⟩ := h.rcv_resolved_ok e hC hl1 hr hu1
  have hdata : ∀ i : Nat, (s.storage[i]?).map strip = ((st.storage.set p r1)[i]?).map strip := by
    intro i
    cases hfr : (e.fin || e.rst) with
    | false => rw [(hk hfr).1]
    | true =>
      obtain ⟨_, _, _, _, _, _, _, hm⟩ := hfin hfr
      exact hm.strip_eq (strip_retire_rec st.finished p r1) i
  refine ⟨s, ?_, ?_, ?_, fun hfr => (hk hfr).2, fun hfr => (hfin hfr).1⟩
  · unfold jtcp_v4_do_rcv
    rw [if_pos hport, h.find, hC, find?_append_cons_eq hl1 hp]
    exact hs
  · rw [hdata p, getElem?_set_some hr, if_pos rfl]
    exact congrArg some hr1
  · intro i hi
    rw [hdata i, getElem?_set_some hr, if_neg (fun e => hi e.symm)]

/-- The same with no port filter. -/
theorem FlowInv.rcv_found {cfg : Config} {st : State} {F : List Nat} {C : Nat → List Nat}
    {Q : List Nat} (h : FlowInv cfg st F C Q) (hport : cfg.port = 0) (e : rcv_event)
    {p : Nat} {l1 l2 : List Nat} {a a1 : tcp_flow_log}
    (hC : C (skb_hash_function cfg e.saddr e.daddr e.source e.dest) = l1 ++ p :: l2)
    (hl1 : ∀ i ∈ l1, match_at st.storage e.saddr e.daddr e.source e.dest i = false)
    (hp : match_at st.storage e.saddr e.daddr e.source e.dest p = true)
    (ha : (st.storage[p]?).map strip = some a) (hu : rcv_update cfg e a = some a1) :
    ∃ s, jtcp_v4_do_rcv cfg st e = some s ∧
      (s.storage[p]?).map strip = some a1 ∧
      (∀ i : Nat, i ≠ p → (s.storage[i]?).map strip = (st.storage[i]?).map strip) ∧
      ((e.fin || e.rst) = false → FlowInv cfg s F C Q) ∧
      ((e.fin || e.rst) = true →
        FlowInv cfg s F
          (Function.update C (skb_hash_function cfg e.saddr e.daddr e.source e.dest) (l1 ++ l2))
          (p :: Q)) :=
  h.rcv_found_pass e (Or.inl hport) hC hl1 hp ha hu

/-- A SYN event whose flow is not in the index while a slot is free: the head
of the free list is reset, linked at the tail of the bucket and updated. -/
theorem FlowInv.rcv_new_pass {cfg : Config} {st : State} {F : List Nat} {C : Nat → List Nat}
    {Q : List Nat} {p : Nat} (h : FlowInv cfg st (p :: F) C Q) (e : rcv_event)
    (hport : cfg.port = 0 ∨ (ntohs cfg e.dest : Int) = cfg.port ∨
      (ntohs cfg e.source : Int) = cfg.port) (hsyn : e.syn = true)
    (hno : ∀ i ∈ C (skb_hash_function cfg e.saddr e.daddr e.source e.dest),
      match_at st.storage e.saddr e.daddr e.source e.dest i = false)
    {r0 a1 : tcp_flow_log} (hr0 : st.storage[p]? = some r0)
    (hu : rcv_update cfg e (strip (set_used 1 (reset_log cfg e.now_first r0))) = some a1) :
    ∃ s, jtcp_v4_do_rcv cfg st e = some s ∧
      (s.storage[p]?).map strip = some a1 ∧
      (∀ i : Nat, i ≠ p → (s.storage[i]?).map strip = (st.storage[i]?).map strip) ∧
      ((e.fin || e.rst) = false →
        FlowInv cfg s F
          (Function.update C (skb_hash_function cfg e.saddr e.daddr e.source e.dest)
            (C (skb_hash_function cfg e.saddr e.daddr e.source e.dest) ++ [p])) Q) ∧
      ((e.fin || e.rst) = true → FlowInv cfg s F C (p :: Q)) := by
  have hb := h.hash_lt e.saddr e.daddr e.source e.dest
  have hav : st.available = some p := h.free.1
  obtain ⟨s, rp, hrp, hs, hinv, _, _, _, _, _, hm⟩ :=
    h.allocate e.saddr e.daddr e.source e.dest e.now_first
  have hrp0 : rp = r0 := by rw [hr0] at hrp; exact (Option.some.inj hrp).symm
  subst hrp0
  have hpC : p ∉ C (skb_hash_function cfg e.saddr e.daddr e.source e.dest) :=
    h.free_not_chain hb (List.mem_cons_self _ _)
  have hdata0 : ∀ i : Nat, (s.storage[i]?).map strip =
      if i = p then some (strip (set_used 1 (reset_log cfg e.now_first rp)))
      else (st.storage[i]?).map strip := by
    intro i
    rw [hm i]
    by_cases hi : i = p
    · subst hi
      rw [hrp, if_pos rfl]
      show some (strip (alloc_rec _ _ _ _ _ _)) = _
      rw [strip_alloc_rec, if_pos rfl]
    · rw [if_neg hi]
      cases st.storage[i]? with
      | none => rfl
      | some r =>
        show some (strip (alloc_rec _ _ _ _ _ _)) = some (strip r)
        rw [strip_alloc_rec, if_neg hi]
  have hC : Function.update C (skb_hash_function cfg e.saddr e.daddr e.source e.dest)
      (C (skb_hash_function cfg e.saddr e.daddr e.source e.dest) ++ [p])
      (skb_hash_function cfg e.saddr e.daddr e.source e.dest) =
      C (skb_hash_function cfg e.saddr e.daddr e.source e.dest) ++ p :: [] := by
    rw [Function.update_same]
  have hl1 : ∀ i ∈ C (skb_hash_function cfg e.saddr e.daddr e.source e.dest),
      match_at s.storage e.saddr e.daddr e.source e.dest i = false := by
    intro i hi
    have hip : i ≠ p := fun e => hpC (e ▸ hi)
    have hd := hdata0 i
    rw [if_neg hip] at hd
    rw [match_at_data hd]
    exact hno i hi
  have hap : (s.storage[p]?).map strip =
      some (strip (set_used 1 (reset_log cfg e.now_first rp))) := by
    rw [hdata0 p, if_pos rfl]
  obtain ⟨ra, hra, hras⟩ := map_strip_eq_some hap
  rw [← hras, rcv_update_strip] at hu
  obtain ⟨r1, hu1, hr1⟩ := map_strip_eq_some hu
  obtain ⟨s2, hs2, hk, hfin⟩ := hinv.rcv_resolved_ok e hC hl1 hra hu1
  have hdata : ∀ i : Nat, (s2.storage[i]?).map strip = ((s.storage.set p r1)[i]?).map strip := by
    intro i
    cases hfr : (e.fin || e.rst) with
    | false => rw [(hk hfr).1]
    | true =>
      obtain ⟨_, _, _, _, _, _, _, hm2⟩ := hfin hfr
      exact hm2.strip_eq (strip_retire_rec s.finished p r1) i
  refine ⟨s2, ?_, ?_, ?_, fun hfr => (hk hfr).2, fun hfr => ?_⟩
  · unfold jtcp_v4_do_rcv
    rw [if_pos hport, h.find, List.find?_eq_none.2 (fun i hi => by simp [hno i hi])]
    simp only [hsyn, Bool.not_true, Bool.false_eq_true, if_false, hav, hs]
    exact hs2
  · rw [hdata p, getElem?_set_some hra, if_pos rfl]
    exact congrArg some hr1
  · intro i hi
    rw [hdata i, getElem?_set_some hra, if_neg (fun e => hi e.symm), hdata0 i, if_neg hi]
  · refine (hfin hfr).1.congrC ?_
    intro b _
    by_cases hbb : b = skb_hash_function cfg e.saddr e.daddr e.source e.dest
    · subst hbb
      rw [Function.update_same, List.append_nil]
    · rw [Function.update_noteq hbb, Function.update_noteq hbb]

/-- The same with no port filter. -/
theorem FlowInv.rcv_new {cfg : Config} {st : State} {F : List Nat} {C : Nat → List Nat}
    {Q : List Nat} {p : Nat} (h : FlowInv cfg st (p :: F) C Q) (hport : cfg.port = 0)
    (e : rcv_event) (hsyn : e.syn = true)
    (hno : ∀ i ∈ C (skb_hash_function cfg e.saddr e.daddr e.source e.dest),
      match_at st.storage e.saddr e.daddr e.source e.dest i = false)
    {r0 a1 : tcp_flow_log} (hr0 : st.storage[p]? = some r0)
    (hu : rcv_update cfg e (strip (set_used 1 (reset_log cfg e.now_first r0))) = some a1) :
    ∃ s, jtcp_v4_do_rcv cfg st e = some s ∧
      (s.storage[p]?).map strip = some a1 ∧
      (∀ i : Nat, i ≠ p → (s.storage[i]?).map strip = (st.storage[i]?).map strip) ∧
      ((e.fin || e.rst) = false →
        FlowInv cfg s F
          (Function.update C (skb_hash_function cfg e.saddr e.daddr e.source e.dest)
            (C (skb_hash_function cfg e.saddr e.daddr e.source e.dest) ++ [p])) Q) ∧
      ((e.fin || e.rst) = true → FlowInv cfg s F C (p :: Q)) :=
  h.rcv_new_pass e (Or.inl hport) hsyn hno hr0 hu

/-- A receive event whose flow is not in the index is ignored when it carries
no SYN, and dropped when no slot is free. -/
theorem FlowInv.rcv_ignored {cfg : Config} {st : State} {F : List Nat} {C : Nat → List Nat}
    {Q : List Nat} (h : FlowInv cfg st F C Q) (e : rcv_event)
    (hno : ∀ i ∈ C (skb_hash_function cfg e.saddr e.daddr e.source e.dest),
      match_at st.storage e.saddr e.daddr e.source e.dest i = false)
    (hdrop : e.syn = false ∨ F = []) :
    jtcp_v4_do_rcv cfg st e = some st := by
  unfold jtcp_v4_do_rcv
  by_cases hport : cfg.port = 0 ∨ (ntohs cfg e.dest : Int) = cfg.port ∨
      (ntohs cfg e.source : Int) = cfg.port
  · rw [if_pos hport, h.find, List.find?_eq_none.2 (fun i hi => by simp [hno i hi])]
    rcases hdrop with hsyn | hF
    · simp only [hsyn, Bool.not_false, if_true]
    · subst hF
      have hav : st.available = none := h.free
      simp only [hav]
      split_ifs <;> rfl
  · rw [if_neg hport]

/-- The same with no port filter and an empty free list. -/
theorem FlowInv.rcv_dropped {cfg : Config} {st : State} {C : Nat → List Nat} {Q : List Nat}
    (h : FlowInv cfg st [] C Q) (_hport : cfg.port = 0) (e : rcv_event)
    (hno : ∀ i ∈ C (skb_hash_function cfg e.saddr e.daddr e.source e.dest),
      match_at st.storage e.saddr e.daddr e.source e.dest i = false) :
    jtcp_v4_do_rcv cfg st e = some st :=
  h.rcv_ignored e hno (Or.inr rfl)

theorem run_rcv_append (cfg : Config) :
    ∀ (l1 l2 : List rcv_event) (st : State),
      run_rcv cfg st (l1 ++ l2) = (run_rcv cfg st l1).bind (fun s => run_rcv cfg s l2)
  | [], l2, st => rfl
  | e :: l1, l2, st => by
    simp only [List.cons_append, run_rcv]
    cases jtcp_v4_do_rcv cfg st e with
    | none => rfl
    | some s => exact run_rcv_append cfg l1 l2 s

theorem flow_updates_append (cfg : Config) :
    ∀ (l1 l2 : List flow_event) (r : tcp_flow_log),
      flow_updates cfg r (l1 ++ l2) = (flow_updates cfg r l1).bind (fun x => flow_updates cfg x l2)
  | [], l2, r => rfl
  | e :: l1, l2, r => by
    simp only [List.cons_append, flow_updates]
    cases flow_update cfg e r with
    | none => rfl
    | some x => exact flow_updates_append cfg l1 l2 x

/-- What `is_log_for_skb` computes. -/
theorem is_log_for_skb_iff (r : tcp_flow_log) (sa da sp dp : Nat) :
    is_log_for_skb r sa da sp dp = true ↔
      (sa = r.saddr ∧ da = r.daddr ∧ dp = r.dport ∧ sp = r.sport) ∨
      (da = r.saddr ∧ dp = r.sport ∧ sp = r.dport) := by
  simp only [is_log_for_skb, Bool.or_eq_true, Bool.and_eq_true, beq_iff_eq]
  tauto

/-- The data of a record with a histogram of the configured length. -/
theorem FlowInv.data_hist {cfg : Config} {st : State} {F : List Nat} {C : Nat → List Nat}
    {Q : List Nat} (h : FlowInv cfg st F C Q) {p : Nat} {a : tcp_flow_log}
    (ha : (st.storage[p]?).map strip = some a) :
    a.snd_cwnd_histogram.length = cfg.number_of_buckets.toNat := by
  obtain ⟨r, hr, hra⟩ := map_strip_eq_some ha
  rw [← hra]
  exact h.hist p r hr

/-- A receive event for the only indexed flow, held by slot `p`. -/
theorem FlowInv.rcv_single {cfg : Config} {st : State} {F Q : List Nat} {p : Nat}
    (e : rcv_event)
    (h : FlowInv cfg st F
      (Function.update (fun _ => []) (skb_hash_function cfg e.saddr e.daddr e.source e.dest) [p])
      Q)
    (hport : cfg.port = 0) {a a1 : tcp_flow_log}
    (ha : (st.storage[p]?).map strip = some a)
    (hid : a.saddr = e.saddr ∧ a.daddr = e.daddr ∧ a.sport = e.source ∧ a.dport = e.dest)
    (hu : rcv_update cfg e a = some a1) :
    ∃ s, jtcp_v4_do_rcv cfg st e = some s ∧ (s.storage[p]?).map strip = some a1 ∧
      ((e.fin || e.rst) = false →
        FlowInv cfg s F
          (Function.update (fun _ => [])
            (skb_hash_function cfg e.saddr e.daddr e.source e.dest) [p]) Q) ∧
      ((e.fin || e.rst) = true → FlowInv cfg s F (fun _ => []) (p :: Q)) := by
  have hC : Function.update (fun _ => ([] : List Nat))
      (skb_hash_function cfg e.saddr e.daddr e.source e.dest) [p]
      (skb_hash_function cfg e.saddr e.daddr e.source e.dest) = [] ++ p :: [] := by
    rw [Function.update_same]; rfl
  have hp : match_at st.storage e.saddr e.daddr e.source e.dest p = true := by
    obtain ⟨r, hr, hra⟩ := map_strip_eq_some ha
    unfold match_at
    rw [hr]
    show is_log_for_skb r _ _ _ _ = true
    rw [← is_log_for_skb_strip, hra, is_log_for_skb_iff]
    exact Or.inl ⟨hid.1.symm, hid.2.1.symm, hid.2.2.2.symm, hid.2.2.1.symm⟩
  obtain ⟨s, hs, hd, _, hk, hfin⟩ :=
    h.rcv_found hport e hC (fun i hi => by cases hi) hp ha hu
  refine ⟨s, hs, hd, hk, fun hfr => (hfin hfr).congrC ?_⟩
  intro b _
  by_cases hbb : b = skb_hash_function cfg e.saddr e.daddr e.source e.dest
  · subst hbb; rw [Function.update_same]; rfl
  · rw [Function.update_noteq hbb, Function.update_noteq hbb]

theorem rcv_update_identity {cfg : Config} {e : rcv_event} {a a1 : tcp_flow_log}
    (h : rcv_update cfg e a = some a1) :
    a1.saddr = e.saddr ∧ a1.daddr = e.daddr ∧ a1.sport = e.source ∧ a1.dport = e.dest := by
  obtain ⟨_, _, _, h4, h5, h6, h7, _⟩ := rcv_update_frame h
  exact ⟨h4, h5, h6, h7⟩

/-- In-range receive updates do not fault. -/
theorem rcv_update_total {cfg : Config} (hnb : 1 ≤ cfg.number_of_buckets)
    (hbl : 1 ≤ cfg.bucket_length) (hbl2 : cfg.bucket_length < 2 ^ 32) (e : rcv_event)
    (hev : flow_event.in_range cfg (flow_event.rcv e)) (r : tcp_flow_log)
    (hlen : r.snd_cwnd_histogram.length = cfg.number_of_buckets.toNat) :
    ∃ r1, rcv_update cfg e r = some r1 :=
  flow_update_total hnb hbl hbl2 (flow_event.rcv e) hev r hlen

/-- A run of events without FIN or RST for the only indexed flow: the record
of slot `p` takes every update and stays in the index. -/
theorem FlowInv.rcv_single_run {cfg : Config} {F Q : List Nat} {p sa da sp dp : Nat}
    (hport : cfg.port = 0) (hnb : 1 ≤ cfg.number_of_buckets) (hbl : 1 ≤ cfg.bucket_length)
    (hbl2 : cfg.bucket_length < 2 ^ 32) :
    ∀ (mid : List rcv_event) (st : State) (a : tcp_flow_log),
      FlowInv cfg st F (Function.update (fun _ => []) (skb_hash_function cfg sa da sp dp) [p]) Q →
      (st.storage[p]?).map strip = some a →
      (a.saddr = sa ∧ a.daddr = da ∧ a.sport = sp ∧ a.dport = dp) →
      (∀ e ∈ mid, (e.saddr = sa ∧ e.daddr = da ∧ e.source = sp ∧ e.dest = dp) ∧
        (e.fin || e.rst) = false ∧ flow_event.in_range cfg (flow_event.rcv e)) →
      ∃ s a1, run_rcv cfg st mid = some s ∧
        flow_updates cfg a (mid.map flow_event.rcv) = some a1 ∧
        FlowInv cfg s F
          (Function.update (fun _ => []) (skb_hash_function cfg sa da sp dp) [p]) Q ∧
        (s.storage[p]?).map strip = some a1 ∧
        (a1.saddr = sa ∧ a1.daddr = da ∧ a1.sport = sp ∧ a1.dport = dp)
  | [], st, a, h, ha, hid, _ => ⟨st, a, rfl, rfl, h, ha, hid⟩
  | e :: mid, st, a, h, ha, hid, hev => by
    obtain ⟨⟨e1, e2, e3, e4⟩, hfr, hin⟩ := hev e (List.mem_cons_self _ _)
    obtain ⟨a1, hu⟩ := rcv_update_total hnb hbl hbl2 e hin a (h.data_hist ha)
    have h' : FlowInv cfg st F
        (Function.update (fun _ => [])
          (skb_hash_function cfg e.saddr e.daddr e.source e.dest) [p]) Q := by
      rw [e1, e2, e3, e4]; exact h
    obtain ⟨s, hs, hd, hk, _⟩ := h'.rcv_single e hport ha
      (by rw [e1, e2, e3, e4]; exact hid) hu
    have hinv := hk hfr
    rw [e1, e2, e3, e4] at hinv
    have hid1 := rcv_update_identity hu
    rw [e1, e2, e3, e4] at hid1
    obtain ⟨s2, a2, hs2, hf2, hinv2, hd2, hid2⟩ :=
      FlowInv.rcv_single_run hport hnb hbl hbl2 mid s a1 hinv hd hid1
        (fun x hx => hev x (List.mem_cons_of_mem _ hx))
    refine ⟨s2, a2, ?_, ?_, hinv2, hd2, hid2⟩
    · simp only [run_rcv, hs]; exact hs2
    · simp only [List.map_cons, flow_updates]
      show (match rcv_update cfg e a with
        | none => none
        | some r1 => flow_updates cfg r1 (List.map flow_event.rcv mid)) = some a2
      rw [hu]; exact hf2

theorem range_eq_cons_tail {n : Nat} (h : 0 < n) : List.range n = 0 :: (List.range n).tail := by
  cases n with
  | zero => cases h
  | succ m => rw [List.range_succ_eq_map]; rfl

/-- What a receive update does to the packet counter and the sequence state. -/
theorem rcv_update_seq {cfg : Config} {e : rcv_event} {r r1 : tcp_flow_log}
    (h : rcv_update cfg e r = some r1) :
    r1.recv_count = (r.recv_count + 1) % 2 ^ 32 ∧
    (r.last_recv_seq ≤ ntohl cfg e.seq →
      r1.out_of_order_packets = r.out_of_order_packets ∧ r1.last_recv_seq = ntohl cfg e.seq) := by
  obtain ⟨a1, _, a3⟩ := rcv_account_seq cfg e r
  have hr1 : r1.out_of_order_packets = (rcv_account cfg e r).out_of_order_packets ∧
      r1.last_recv_seq = (rcv_account cfg e r).last_recv_seq ∧
      r1.recv_count = (rcv_account cfg e r).recv_count := by
    unfold rcv_update at h
    split_ifs at h
    · exact ⟨(sample_cwnd_seq h).1, (sample_cwnd_seq h).2.1, (sample_cwnd_seq h).2.2.1⟩
    · have := Option.some.inj h
      rw [← this]; exact ⟨rfl, rfl, rfl⟩
  refine ⟨by rw [hr1.2.2, a3], fun hle => ?_⟩
  rw [hr1.1, hr1.2.1]
  exact a1 hle

theorem flow_updates_cons_rcv {cfg : Config} {e : rcv_event} {es : List flow_event}
    {r r1 : tcp_flow_log} (h : flow_updates cfg r (flow_event.rcv e :: es) = some r1) :
    ∃ r2, rcv_update cfg e r = some r2 ∧ flow_updates cfg r2 es = some r1 := by
  unfold flow_updates at h
  cases hu : flow_update cfg (flow_event.rcv e) r with
  | none => rw [hu] at h; cases h
  | some r2 => rw [hu] at h; exact ⟨r2, hu, h⟩

/-- The packet counter after a run of receive events, modulo `2^32`. -/
theorem flow_updates_recv_count (cfg : Config) :
    ∀ (es : List rcv_event) (r r1 : tcp_flow_log),
      flow_updates cfg r (es.map flow_event.rcv) = some r1 → r.recv_count < 2 ^ 32 →
      r1.recv_count = (r.recv_count + es.length) % 2 ^ 32
  | [], r, r1, h, hlt => by
    have : r = r1 := Option.some.inj h
    subst this
    rw [List.length_nil, Nat.add_zero, Nat.mod_eq_of_lt hlt]
  | e :: es, r, r1, h, _ => by
    obtain ⟨r2, hu, h2⟩ := flow_updates_cons_rcv h
    have hc := (rcv_update_seq hu).1
    rw [flow_updates_recv_count cfg es r2 r1 h2 (by rw [hc]; exact Nat.mod_lt _ (by norm_num)),
      hc, List.length_cons, Nat.add_mod, Nat.mod_mod, ← Nat.add_mod]
    congr 1
    omega

/-- No event of a run with non-decreasing sequence numbers is out of order. -/
theorem flow_updates_in_order (cfg : Config) :
    ∀ (es : List rcv_event) (r r1 : tcp_flow_log),
      flow_updates cfg r (es.map flow_event.rcv) = some r1 →
      List.Chain (fun x y => x ≤ y) r.last_recv_seq (es.map (fun e => ntohl cfg e.seq)) →
      r1.out_of_order_packets = r.out_of_order_packets
  | [], r, r1, h, _ => by
    have : r = r1 := Option.some.inj h
    subst this
    rfl
  | e :: es, r, r1, h, hch => by
    obtain ⟨r2, hu, h2⟩ := flow_updates_cons_rcv h
    rw [List.map_cons, List.chain_cons] at hch
    obtain ⟨ho, hl⟩ := (rcv_update_seq hu).2 hch.1
    rw [flow_updates_in_order cfg es r2 r1 h2 (by rw [hl]; exact hch.2), ho]

/-- One whole flow from the initial state: a SYN, events without FIN or RST
and a final FIN or RST event, all with the same identity and windows in range,
leave slot 0 alone in the finished queue, holding the data of the fresh record
after every update. -/
theorem single_flow_run {cfg0 cfg : Config} {st : State}
    (hinit : tcpflowspy_init cfg0 = some (cfg, st)) (hcap : 1 ≤ cfg.bufsize)
    (hport : cfg.port = 0) (hnb : 1 ≤ cfg.number_of_buckets) (hbl : 1 ≤ cfg.bucket_length)
    (hbl2 : cfg.bucket_length < 2 ^ 32) (e0 : rcv_event) (mid : List rcv_event) (ef : rcv_event)
    (h0 : e0.syn = true ∧ (e0.fin || e0.rst) = false)
    (hmid : ∀ e ∈ mid, (e.fin || e.rst) = false)
    (hf : (ef.fin || ef.rst) = true)
    (hid : ∀ e ∈ mid ++ [ef], e.saddr = e0.saddr ∧ e.daddr = e0.daddr ∧ e.source = e0.source ∧
      e.dest = e0.dest)
    (hin : ∀ e ∈ e0 :: mid ++ [ef], flow_event.in_range cfg (flow_event.rcv e)) :
    ∃ s r0 af, st.storage[0]? = some r0 ∧
      r0.snd_cwnd_histogram.length = cfg.number_of_buckets.toNat ∧
      run_rcv cfg st (e0 :: mid ++ [ef]) = some s ∧
      FlowInv cfg s (List.range cfg.bufsize).tail (fun _ => []) [0] ∧
      (s.storage[0]?).map strip = some af ∧
      flow_updates cfg (strip (set_used 1 (reset_log cfg e0.now_first r0)))
        ((e0 :: mid ++ [ef]).map flow_event.rcv) = some af := by
  have hinv := init_inv hinit hcap
  rw [range_eq_cons_tail hcap] at hinv
  have hlen0 : 0 < st.storage.length := by rw [hinv.len_s]; exact hcap
  have hr0 : st.storage[0]? = some st.storage[0] := List.getElem?_eq_getElem hlen0
  have hh0 := hinv.hist 0 _ hr0
  have hlena : (strip (set_used 1 (reset_log cfg e0.now_first st.storage[0]))).snd_cwnd_histogram.length
      = cfg.number_of_buckets.toNat := by
    show (List.replicate cfg.number_of_buckets.toNat 0 ++
      (st.storage[0]).snd_cwnd_histogram.drop cfg.number_of_buckets.toNat).length = _
    rw [List.length_append, List.length_replicate, List.length_drop, hh0]
    omega
  obtain ⟨a1, hu1⟩ := rcv_update_total hnb hbl hbl2 e0 (hin e0 (List.mem_cons_self _ _)) _ hlena
  obtain ⟨s1, hs1, hd1, _, hk1, _⟩ :=
    hinv.rcv_new hport e0 h0.1 (fun i hi => by cases hi) hr0 hu1
  have hinv1 : FlowInv cfg s1 (List.range cfg.bufsize).tail
      (Function.update (fun _ => [])
        (skb_hash_function cfg e0.saddr e0.daddr e0.source e0.dest) [0]) [] := hk1 h0.2
  have hid1 := rcv_update_identity hu1
  obtain ⟨s2, a2, hs2, hf2, hinv2, hd2, hid2⟩ :=
    FlowInv.rcv_single_run hport hnb hbl hbl2 mid s1 a1 hinv1 hd1 hid1
      (fun e he => ⟨hid e (List.mem_append.2 (Or.inl he)), hmid e he,
        hin e (List.mem_cons_of_mem _ (List.mem_append.2 (Or.inl he)))⟩)
  have hidf := hid ef (List.mem_append.2 (Or.inr (List.mem_singleton_self _)))
  obtain ⟨a3, hu3⟩ := rcv_update_total hnb hbl hbl2 ef
    (hin ef (List.mem_cons_of_mem _ (List.mem_append.2 (Or.inr (List.mem_singleton_self _)))))
    a2 (hinv2.data_hist hd2)
  have hinv2' : FlowInv cfg s2 (List.range cfg.bufsize).tail
      (Function.update (fun _ => [])
        (skb_hash_function cfg ef.saddr ef.daddr ef.source ef.dest) [0]) [] := by
    rw [hidf.1, hidf.2.1, hidf.2.2.1, hidf.2.2.2]; exact hinv2
  obtain ⟨s3, hs3, hd3, _, hfin3⟩ := hinv2'.rcv_single ef hport hd2
    (by rw [hidf.1, hidf.2.1, hidf.2.2.1, hidf.2.2.2]; exact hid2) hu3
  refine ⟨s3, _, a3, hr0, hh0, ?_, hfin3 hf, hd3, ?_⟩
  · show run_rcv cfg st (e0 :: (mid ++ [ef])) = some s3
    simp only [run_rcv, hs1]
    rw [run_rcv_append, hs2]
    simp only [Option.some_bind, run_rcv, hs3]
  · show flow_updates cfg _ ((e0 :: (mid ++ [ef])).map flow_event.rcv) = some a3
    rw [List.map_cons, List.map_append]
    unfold flow_updates
    show (match rcv_update cfg e0 _ with
      | none => none
      | some r1 => flow_updates cfg r1 _) = some a3
    rw [hu1]
    show flow_updates cfg a1 _ = some a3
    rw [flow_updates_append, hf2]
    show flow_updates cfg a2 [flow_event.rcv ef] = some a3
    unfold flow_updates
    show (match rcv_update cfg ef a2 with
      | none => none
      | some r1 => flow_updates cfg r1 []) = some a3
    rw [hu3]
    rfl

theorem toNat_mod_of_range {b : Int} (h1 : 1 ≤ b) (h2 : b < 2 ^ 31) :
    (b % 2 ^ 32).toNat = b.toNat := by
  rw [Int.emod_eq_of_lt (by omega) (by omega)]

/-- For an event in range the sampled bucket is the one the specification
names. -/
theorem samples_eq_spec {cfg : Config} (hnb : 1 ≤ cfg.number_of_buckets)
    (hbl : 1 ≤ cfg.bucket_length) (hbl2 : cfg.bucket_length < 2 ^ 31) (i : Nat) (e : rcv_event)
    (hw : e.sk_state = TCP_ESTABLISHED → e.snd_cwnd / cfg.bucket_length.toNat < 2 ^ 31) :
    flow_event.samples cfg i (flow_event.rcv e) = spec_sampled_into cfg i e := by
  unfold flow_event.samples spec_sampled_into
  show (decide (e.sk_state = TCP_ESTABLISHED) && decide (cwnd_index cfg e.snd_cwnd = (i : Int))) = _
  by_cases hs : e.sk_state = TCP_ESTABLISHED
  · have hq : e.snd_cwnd / (cfg.bucket_length % 2 ^ 32).toNat < 2 ^ 31 := by
      rw [toNat_mod_of_range hbl hbl2]; exact hw hs
    rw [(cwnd_index_in_range hnb hq).1, toNat_mod_of_range hbl hbl2]
  · simp [hs]

theorem in_range_of_window {cfg : Config} (hbl : 1 ≤ cfg.bucket_length)
    (hbl2 : cfg.bucket_length < 2 ^ 31) (e : rcv_event)
    (hw : e.sk_state = TCP_ESTABLISHED → e.snd_cwnd / cfg.bucket_length.toNat < 2 ^ 31) :
    flow_event.in_range cfg (flow_event.rcv e) := by
  intro hest
  show e.snd_cwnd / (cfg.bucket_length % 2 ^ 32).toNat < 2 ^ 31
  rw [toNat_mod_of_range hbl hbl2]
  apply hw
  simpa [flow_event.established] using hest

theorem reset_log_fields (cfg : Config) (now : timespec) (r0 : tcp_flow_log)
    (hlen : r0.snd_cwnd_histogram.length = cfg.number_of_buckets.toNat) :
    (strip (set_used 1 (reset_log cfg now r0))).recv_count = 0 ∧
    (strip (set_used 1 (reset_log cfg now r0))).last_recv_seq = 0 ∧
    (strip (set_used 1 (reset_log cfg now r0))).out_of_order_packets = 0 ∧
    (strip (set_used 1 (reset_log cfg now r0))).snd_cwnd_histogram =
      List.replicate cfg.number_of_buckets.toNat 0 := by
  refine ⟨rfl, rfl, rfl, ?_⟩
  show List.replicate cfg.number_of_buckets.toNat 0 ++
    r0.snd_cwnd_histogram.drop cfg.number_of_buckets.toNat = _
  rw [List.drop_eq_nil_of_le (by omega), List.append_nil]

theorem strip_fields {r a : tcp_flow_log} (h : strip r = a) :
    r.recv_count = a.recv_count ∧ r.out_of_order_packets = a.out_of_order_packets ∧
    r.snd_cwnd_histogram = a.snd_cwnd_histogram := by
  subst h
  exact ⟨rfl, rfl, rfl⟩

theorem is_log_for_skb_eq_accepts {r : tcp_flow_log} {a : rcv_event}
    (h : identity r = (a.saddr, a.daddr, a.source, a.dest)) (b : rcv_event) :
    is_log_for_skb r b.saddr b.daddr b.source b.dest = lookup_accepts a b := by
  simp only [identity, Prod.mk.injEq] at h
  obtain ⟨h1, h2, h3, h4⟩ := h
  unfold is_log_for_skb lookup_accepts
  rw [h1, h2, h3, h4]

theorem mem_drop_range {n j i : Nat} : i ∈ (List.range n).drop j ↔ j ≤ i ∧ i < n := by
  constructor
  · intro h
    obtain ⟨k, hk, rfl⟩ := List.getElem_of_mem h
    rw [List.getElem_drop, List.getElem_range]
    rw [List.length_drop, List.length_range] at hk
    omega
  · intro ⟨h1, h2⟩
    have hk : i - j < ((List.range n).drop j).length := by
      rw [List.length_drop, List.length_range]; omega
    have : ((List.range n).drop j)[i - j] = i := by
      rw [List.getElem_drop, List.getElem_range]; omega
    rw [← this]
    exact List.getElem_mem _

theorem drop_range_cons {n j : Nat} (h : j < n) :
    (List.range n).drop j = j :: (List.range n).drop (j + 1) := by
  have hl : j < (List.range n).length := by rw [List.length_range]; exact h
  rw [List.drop_eq_getElem_cons hl, List.getElem_range]

theorem holds_identity_of_data {st st1 : State} {i : Nat} {e : rcv_event}
    (h : (st1.storage[i]?).map strip = (st.storage[i]?).map strip)
    (hi : holds_identity st i e) : holds_identity st1 i e := by
  unfold holds_identity at hi ⊢
  cases h1 : st1.storage[i]? with
  | none =>
    rw [h1] at h
    cases h0 : st.storage[i]? with
    | none => rw [h0] at hi; cases hi
    | some r => rw [h0] at h; cases h
  | some r1 =>
    rw [h1] at h
    cases h0 : st.storage[i]? with
    | none => rw [h0] at h; cases h
    | some r =>
      rw [h0] at h hi
      have hs : strip r1 = strip r := Option.some.inj h
      have : identity r1 = identity r := by
        show identity (strip r1) = identity (strip r)
        rw [hs]
      show some (identity r1) = _
      rw [this]; exact hi

theorem match_at_of_holds {st : State} {i : Nat} {a : rcv_event} (h : holds_identity st i a)
    (b : rcv_event) :
    match_at st.storage b.saddr b.daddr b.source b.dest i = lookup_accepts a b := by
  unfold holds_identity at h
  unfold match_at
  cases h0 : st.storage[i]? with
  | none => rw [h0] at h; cases h
  | some r =>
    rw [h0] at h
    exact is_log_for_skb_eq_accepts (Option.some.inj h) b

/-- The state after the first `j` SYN events of a list whose identities the
lookup keeps apart: slots `0..j-1` are in the index, slot `i` holding the
identity of event `i`; the other slots are free. -/
theorem syn_run {cfg0 cfg : Config} {st : State}
    (hinit : tcpflowspy_init cfg0 = some (cfg, st)) (hcap : 1 ≤ cfg.bufsize)
    (hport : cfg.port = 0) (hnb : 1 ≤ cfg.number_of_buckets) (hbl : 1 ≤ cfg.bucket_length)
    (hbl2 : cfg.bucket_length < 2 ^ 32) (es : List rcv_event)
    (hsyn : ∀ e ∈ es, e.syn = true ∧ (e.fin || e.rst) = false ∧
      flow_event.in_range cfg (flow_event.rcv e))
    (hdist : ∀ (i j : Nat) (a b : rcv_event), i ≠ j → es[i]? = some a → es[j]? = some b →
      lookup_accepts a b = false) :
    ∀ j, j ≤ cfg.bufsize → j ≤ es.length →
      ∃ s C, run_rcv cfg st (es.take j) = some s ∧
        FlowInv cfg s ((List.range cfg.bufsize).drop j) C [] ∧
        ∀ i, i < j → ∃ e, es[i]? = some e ∧
          i ∈ C (skb_hash_function cfg e.saddr e.daddr e.source e.dest) ∧ holds_identity s i e
  | 0, _, _ => ⟨st, fun _ => [], rfl, init_inv hinit hcap, fun i hi => by cases hi⟩
  | j + 1, hj, hjl => by
    obtain ⟨s, C, hrun, hinv, hI⟩ := syn_run hinit hcap hport hnb hbl hbl2 es hsyn hdist j
      (by omega) (by omega)
    have hjn : j < cfg.bufsize := by omega
    have hjl' : j < es.length := by omega
    have hej : es[j]? = some es[j] := List.getElem?_eq_getElem hjl'
    obtain ⟨hs1, hs2, hs3⟩ := hsyn es[j] (List.getElem_mem _)
    rw [drop_range_cons hjn] at hinv
    have hb := hinv.hash_lt es[j].saddr es[j].daddr es[j].source es[j].dest
    have hlt : ∀ b i, b < cfg.bufsize → i ∈ C b → i < j := by
      intro b i hb hi
      have h1 : i < cfg.bufsize := hinv.lt_of_mem (hinv.mem_chain hb hi)
      by_contra hge
      have hne : i ≠ j := fun e => hinv.free_not_chain hb (e ▸ List.mem_cons_self _ _) hi
      exact hinv.free_not_chain hb
        (List.mem_cons_of_mem _ (mem_drop_range.2 ⟨by omega, h1⟩)) hi
    have hno : ∀ i ∈ C (skb_hash_function cfg es[j].saddr es[j].daddr es[j].source es[j].dest),
        match_at s.storage es[j].saddr es[j].daddr es[j].source es[j].dest i = false := by
      intro i hi
      have hij := hlt _ i hb hi
      obtain ⟨e, he, _, hh⟩ := hI i hij
      rw [match_at_of_holds hh]
      exact hdist i j e es[j] (by omega) he hej
    have hlen : j < s.storage.length := by rw [hinv.len_s]; exact hjn
    have hr0 : s.storage[j]? = some s.storage[j] := List.getElem?_eq_getElem hlen
    have hh0 := hinv.hist j _ hr0
    obtain ⟨a1, hu⟩ := rcv_update_total hnb hbl hbl2 es[j] hs3
      (strip (set_used 1 (reset_log cfg es[j].now_first s.storage[j])))
      (by rw [(reset_log_fields cfg _ _ hh0).2.2.2, List.length_replicate])
    obtain ⟨s1, hs1', hd, hother, hk, _⟩ := hinv.rcv_new hport es[j] hs1 hno hr0 hu
    refine ⟨s1, _, ?_, hk hs2, ?_⟩
    · rw [List.take_succ, hej, run_rcv_append, hrun]
      show run_rcv cfg s [es[j]] = some s1
      simp only [run_rcv, hs1']
    · intro i hi
      by_cases hij : i = j
      · subst hij
        refine ⟨es[i], hej, ?_, ?_⟩
        · rw [Function.update_same]; simp
        · obtain ⟨r1, hr1, hra⟩ := map_strip_eq_some hd
          obtain ⟨i1, i2, i3, i4⟩ := rcv_update_identity hu
          unfold holds_identity
          rw [hr1]
          show some (identity (strip r1)) = _
          rw [hra]
          simp only [identity, i1, i2, i3, i4, Option.map_some']
      · obtain ⟨e, he, hmem, hh⟩ := hI i (by omega)
        refine ⟨e, he, ?_, holds_identity_of_data (hother i hij) hh⟩
        by_cases hbb : skb_hash_function cfg e.saddr e.daddr e.source e.dest =
            skb_hash_function cfg es[j].saddr es[j].daddr es[j].source es[j].dest
        · rw [hbb, Function.update_same]
          rw [hbb] at hmem
          exact List.mem_append.2 (Or.inl hmem)
        · rw [Function.update_noteq hbb]; exact hmem

theorem xmit_account_strip (e : xmit_event) (r : tcp_flow_log) :
    xmit_account e (strip r) = strip (xmit_account e r) := rfl

/-- The transmit update of a record does not look at its links. -/
theorem xmit_update_strip (cfg : Config) (e : xmit_event) (r : tcp_flow_log) :
    xmit_update cfg e (strip r) = (xmit_update cfg e r).map strip := by
  unfold xmit_update
  by_cases h : e.sk_state = TCP_ESTABLISHED
  · rw [if_pos h, if_pos h, xmit_account_strip, sample_cwnd_strip]
  · rw [if_neg h, if_neg h, xmit_account_strip]; rfl

/-- A transmit event whose flow is in the index: the first matching record of
the bucket is updated, and retired when the event carries FIN or SYN. -/
theorem FlowInv.xmit_found_pass {cfg : Config} {st : State} {F : List Nat}
    {C : Nat → List Nat} {Q : List Nat} (h : FlowInv cfg st F C Q) (e : xmit_event)
    (hport : cfg.port = 0 ∨ (ntohs cfg e.sport : Int) = cfg.port ∨
      (ntohs cfg e.dport : Int) = cfg.port)
    {p : Nat} {l1 l2 : List Nat} {a a1 : tcp_flow_log}
    (hC : C (skb_hash_function cfg e.saddr e.daddr e.sport e.dport) = l1 ++ p :: l2)
    (hl1 : ∀ i ∈ l1, match_at st.storage e.saddr e.daddr e.sport e.dport i = false)
    (hp : match_at st.storage e.saddr e.daddr e.sport e.dport p = true)
    (ha : (st.storage[p]?).map strip = some a) (hu : xmit_update cfg e a = some a1) :
    ∃ s, jtcp_transmit_skb cfg st e = some s ∧
      (s.storage[p]?).map strip = some a1 ∧
      (∀ i : Nat, i ≠ p → (s.storage[i]?).map strip = (st.storage[i]?).map strip) ∧
      (¬ ((e.flags &&& TCPHDR_FIN) ≠ 0 ∨ (e.flags &&& TCPHDR_SYN) ≠ 0) →
        FlowInv cfg s F C Q ∧ s.last_printed_flow_index = st.last_printed_flow_index) ∧
      (((e.flags &&& TCPHDR_FIN) ≠ 0 ∨ (e.flags &&& TCPHDR_SYN) ≠ 0) →
        FlowInv cfg s F
          (Function.update C (skb_hash_function cfg e.saddr e.daddr e.sport e.dport) (l1 ++ l2))
          (p :: Q)) := by
  obtain ⟨r, hr, hra⟩ := map_strip_eq_some ha
  rw [← hra, xmit_update_strip] at hu
  obtain ⟨r1, hu1, hr1⟩ := map_strip_eq_some hu
  obtain ⟨s, hs, hk, hfin⟩ := h.xmit_resolved_ok e hC hl1 hp hr hu1
  have hdata : ∀ i : Nat, (s.storage[i]?).map strip = ((st.storage.set p r1)[i]?).map strip := by
    intro i
    by_cases hfr : (e.flags &&& TCPHDR_FIN) ≠ 0 ∨ (e.flags &&& TCPHDR_SYN) ≠ 0
    · obtain ⟨_, _, _, _, _, _, _, hm⟩ := hfin hfr
      exact hm.strip_eq (strip_retire_rec st.finished p r1) i
    · rw [(hk hfr).1]
  refine ⟨s, ?_, ?_, ?_, fun hfr => ⟨(hk hfr).2, by rw [(hk hfr).1]⟩, fun hfr => (hfin hfr).1⟩
  · unfold jtcp_transmit_skb
    rw [if_pos hport, h.find, hC, find?_append_cons_eq hl1 hp]
    exact hs
  · rw [hdata p, getElem?_set_some hr, if_pos rfl]
    exact congrArg some hr1
  · intro i hi
    rw [hdata i, getElem?_set_some hr, if_neg (fun e => hi e.symm)]

theorem strip_set_identity (sa da sp dp : Nat) (r : tcp_flow_log) :
    strip (set_identity sa da sp dp r) = set_identity sa da sp dp (strip r) := rfl

/-- A transmit SYN event whose flow is not in the index while a slot is free:
the head of the free list is reset, linked, given the identity, updated, and
(the event carrying SYN) moved to the finished queue at once. -/
theorem FlowInv.xmit_new_pass {cfg : Config} {st : State} {F : List Nat} {C : Nat → List Nat}
    {Q : List Nat} {p : Nat} (h : FlowInv cfg st (p :: F) C Q) (e : xmit_event)
    (hport : cfg.port = 0 ∨ (ntohs cfg e.sport : Int) = cfg.port ∨
      (ntohs cfg e.dport : Int) = cfg.port)
    (hsyn : (e.flags &&& TCPHDR_SYN) ≠ 0)
    (hno : ∀ i ∈ C (skb_hash_function cfg e.saddr e.daddr e.sport e.dport),
      match_at st.storage e.saddr e.daddr e.sport e.dport i = false)
    {r0 a1 : tcp_flow_log} (hr0 : st.storage[p]? = some r0)
    (hu : xmit_update cfg e (set_identity e.saddr e.daddr e.sport e.dport
      (strip (set_used 1 (reset_log cfg e.now_first r0)))) = some a1) :
    ∃ s, jtcp_transmit_skb cfg st e = some s ∧
      (s.storage[p]?).map strip = some a1 ∧
      (∀ i : Nat, i ≠ p → (s.storage[i]?).map strip = (st.storage[i]?).map strip) ∧
      FlowInv cfg s F C (p :: Q) := by
  have hb := h.hash_lt e.saddr e.daddr e.sport e.dport
  have hav : st.available = some p := h.free.1
  obtain ⟨s, rp, hrp, hs, hinv, _, _, _, _, _, hm⟩ :=
    h.allocate e.saddr e.daddr e.sport e.dport e.now_first
  have hrp0 : rp = r0 := by rw [hr0] at hrp; exact (Option.some.inj hrp).symm
  subst hrp0
  have hpC : p ∉ C (skb_hash_function cfg e.saddr e.daddr e.sport e.dport) :=
    h.free_not_chain hb (List.mem_cons_self _ _)
  have hr2 := hm.get hrp
  obtain ⟨s1, hs1, hg1, hen1, hm1⟩ :=
    wr_eff (set_identity e.saddr e.daddr e.sport e.dport) hr2
  have hinv1 : FlowInv cfg s1 F _ Q :=
    hinv.map hm1 (fun i r _ => by split_ifs <;> simp) hen1 hg1.2.2.2.1 hg1.2.2.2.2.1
      hg1.2.2.2.2.2
  have hdata0 : ∀ i : Nat, (s1.storage[i]?).map strip =
      if i = p then some (set_identity e.saddr e.daddr e.sport e.dport
        (strip (set_used 1 (reset_log cfg e.now_first rp))))
      else (st.storage[i]?).map strip := by
    intro i
    rw [hm1 i, hm i]
    by_cases hi : i = p
    · subst hi
      rw [hrp, if_pos rfl]
      simp only [Option.map_some', eq_self_iff_true, if_true]
      rw [strip_set_identity, strip_alloc_rec, if_pos rfl]
    · rw [if_neg hi]
      cases st.storage[i]? with
      | none => rfl
      | some r =>
        simp only [Option.map_some', hi, if_false]
        rw [strip_alloc_rec, if_neg hi]
  have hC : Function.update C (skb_hash_function cfg e.saddr e.daddr e.sport e.dport)
      (C (skb_hash_function cfg e.saddr e.daddr e.sport e.dport) ++ [p])
      (skb_hash_function cfg e.saddr e.daddr e.sport e.dport) =
      C (skb_hash_function cfg e.saddr e.daddr e.sport e.dport) ++ p :: [] := by
    rw [Function.update_same]
  have hl1 : ∀ i ∈ C (skb_hash_function cfg e.saddr e.daddr e.sport e.dport),
      match_at s1.storage e.saddr e.daddr e.sport e.dport i = false := by
    intro i hi
    have hip : i ≠ p := fun e => hpC (e ▸ hi)
    have hd := hdata0 i
    rw [if_neg hip] at hd
    rw [match_at_data hd]
    exact hno i hi
  have hr3 := hm1.get hr2
  simp only [if_true] at hr3
  have hpm : match_at s1.storage e.saddr e.daddr e.sport e.dport p = true := by
    unfold match_at
    rw [hr3]
    exact is_log_for_skb_set_identity _ _ _ _ _
  have hap : (s1.storage[p]?).map strip = some (set_identity e.saddr e.daddr e.sport e.dport
      (strip (set_used 1 (reset_log cfg e.now_first rp)))) := by
    rw [hdata0 p, if_pos rfl]
  obtain ⟨ra, hra, hras⟩ := map_strip_eq_some hap
  rw [← hras, xmit_update_strip] at hu
  obtain ⟨r1, hu1, hr1⟩ := map_strip_eq_some hu
  have hfr : (e.flags &&& TCPHDR_FIN) ≠ 0 ∨ (e.flags &&& TCPHDR_SYN) ≠ 0 := Or.inr hsyn
  obtain ⟨s2, hs2, _, hfin⟩ := hinv1.xmit_resolved_ok e hC hl1 hpm hra hu1
  obtain ⟨hinv2, _, _, _, _, _, _, hm2⟩ := hfin hfr
  have hdata : ∀ i : Nat, (s2.storage[i]?).map strip = ((s1.storage.set p r1)[i]?).map strip :=
    fun i => hm2.strip_eq (strip_retire_rec s1.finished p r1) i
  refine ⟨s2, ?_, ?_, ?_, ?_⟩
  · unfold jtcp_transmit_skb
    rw [if_pos hport, h.find, List.find?_eq_none.2 (fun i hi => by simp [hno i hi])]
    simp only [hsyn, if_false, hav, hs, hs1]
    exact hs2
  · rw [hdata p, getElem?_set_some hra, if_pos rfl]
    exact congrArg some hr1
  · intro i hi
    rw [hdata i, getElem?_set_some hra, if_neg (fun e => hi e.symm), hdata0 i, if_neg hi]
  · refine hinv2.congrC ?_
    intro b _
    by_cases hbb : b = skb_hash_function cfg e.saddr e.daddr e.sport e.dport
    · subst hbb
      rw [Function.update_same, List.append_nil]
    · rw [Function.update_noteq hbb, Function.update_noteq hbb]

/-- A transmit event whose flow is not in the index is ignored when it carries
no SYN, and dropped when no slot is free. -/
theorem FlowInv.xmit_ignored {cfg : Config} {st : State} {F : List Nat} {C : Nat → List Nat}
    {Q : List Nat} (h : FlowInv cfg st F C Q) (e : xmit_event)
    (hno : ∀ i ∈ C (skb_hash_function cfg e.saddr e.daddr e.sport e.dport),
      match_at st.storage e.saddr e.daddr e.sport e.dport i = false)
    (hdrop : (e.flags &&& TCPHDR_SYN) = 0 ∨ F = []) :
    jtcp_transmit_skb cfg st e = some st := by
  unfold jtcp_transmit_skb
  by_cases hport : cfg.port = 0 ∨ (ntohs cfg e.sport : Int) = cfg.port ∨
      (ntohs cfg e.dport : Int) = cfg.port
  · rw [if_pos hport, h.find, List.find?_eq_none.2 (fun i hi => by simp [hno i hi])]
    rcases hdrop with hsyn | hF
    · simp only [hsyn, if_true]
    · subst hF
      have hav : st.available = none := h.free
      simp only [hav]
      split_ifs <;> rfl
  · rw [if_neg hport]

theorem map_strip_eq_none {o : Option tcp_flow_log} (h : o.map strip = none) : o = none := by
  cases o with
  | none => rfl
  | some r => cases h

/-- Every successful receive event has one of the three outcomes. -/
theorem FlowInv.rcv_cases {cfg : Config} {st s : State} {F : List Nat} {C : Nat → List Nat}
    {Q : List Nat} (h : FlowInv cfg st F C Q) (e : rcv_event)
    (hs : jtcp_v4_do_rcv cfg st e = some s) :
    EventOutcome cfg st s F C Q (flow_event.rcv e) := by
  by_cases hport : cfg.port = 0 ∨ (ntohs cfg e.dest : Int) = cfg.port ∨
      (ntohs cfg e.source : Int) = cfg.port
  swap
  · unfold jtcp_v4_do_rcv at hs
    rw [if_neg hport] at hs
    exact Or.inl ⟨(Option.some.inj hs).symm, Or.inl hport⟩
  have hb := h.hash_lt e.saddr e.daddr e.source e.dest
  cases hf : (C (skb_hash_function cfg e.saddr e.daddr e.source e.dest)).find?
      (match_at st.storage e.saddr e.daddr e.source e.dest) with
  | some p =>
    obtain ⟨hpm, l1, l2, hC, hl1⟩ := find?_eq_some_split hf
    obtain ⟨r, hr⟩ := h.valid_chain hb (by rw [hC]; simp : p ∈ C _)
    have ha : (st.storage[p]?).map strip = some (strip r) := by rw [hr]; rfl
    cases hu : rcv_update cfg e (strip r) with
    | none =>
      exfalso
      rw [rcv_update_strip] at hu
      have hu0 := map_strip_eq_none hu
      unfold jtcp_v4_do_rcv at hs
      rw [if_pos hport, h.find, hf] at hs
      simp only [rcv_resolved_none hr hu0] at hs
      cases hs
    | some a1 =>
      obtain ⟨s1, hs1, hd, ho, hk, hfin⟩ := h.rcv_found_pass e hport hC hl1 hpm ha hu
      have : s1 = s := by rw [hs] at hs1; exact (Option.some.inj hs1).symm
      subst this
      exact Or.inr (Or.inl ⟨hport, p, l1, l2, strip r, a1, hC, hl1, hpm, ha, hu, hd, ho, hk,
        hfin⟩)
  | none =>
    have hno := find?_eq_none_all hf
    by_cases hdrop : e.syn = false ∨ F = []
    · have := h.rcv_ignored e hno hdrop
      rw [hs] at this
      exact Or.inl ⟨Option.some.inj this, Or.inr ⟨hno, hdrop⟩⟩
    · have hsyn : e.syn = true := by
        cases hx : e.syn with
        | true => rfl
        | false => exact absurd (Or.inl hx) hdrop
      cases F with
      | nil => exact absurd (Or.inr rfl) hdrop
      | cons p F1 =>
        obtain ⟨r0, hr0⟩ := h.get_of_lt (h.lt_of_mem (by simp : p ∈ _))
        cases hu : rcv_update cfg e (strip (set_used 1 (reset_log cfg e.now_first r0))) with
        | none =>
          exfalso
          have hav : st.available = some p := h.free.1
          obtain ⟨sa, rp, hrp, hsa, hinv, _, _, _, _, _, hm⟩ :=
            h.allocate e.saddr e.daddr e.source e.dest e.now_first
          have hrp0 : rp = r0 := by rw [hr0] at hrp; exact (Option.some.inj hrp).symm
          subst hrp0
          have hr2 := hm.get hrp
          have hu2 : rcv_update cfg e (alloc_rec cfg e.now_first p
              (C (skb_hash_function cfg e.saddr e.daddr e.source e.dest)).getLast? p rp) =
              none := by
            apply map_strip_eq_none
            rw [← rcv_update_strip, strip_alloc_rec, if_pos rfl]
            exact hu
          unfold jtcp_v4_do_rcv at hs
          rw [if_pos hport, h.find, hf] at hs
          simp only [hsyn, Bool.not_true, Bool.false_eq_true, if_false, hav, hsa,
            rcv_resolved_none hr2 hu2] at hs
          cases hs
        | some a1 =>
          obtain ⟨s1, hs1, hd, ho, hk, hfin⟩ := h.rcv_new_pass e hport hsyn hno hr0 hu
          have : s1 = s := by rw [hs] at hs1; exact (Option.some.inj hs1).symm
          subst this
          exact Or.inr (Or.inr ⟨hport, hsyn, hno, p, F1, r0, a1, rfl, hr0, hu, hd, ho, hk,
            hfin⟩)

/-- Every successful transmit event has one of the three outcomes. -/
theorem FlowInv.xmit_cases {cfg : Config} {st s : State} {F : List Nat} {C : Nat → List Nat}
    {Q : List Nat} (h : FlowInv cfg st F C Q) (e : xmit_event)
    (hs : jtcp_transmit_skb cfg st e = some s) :
    EventOutcome cfg st s F C Q (flow_event.xmit e) := by
  by_cases hport : cfg.port = 0 ∨ (ntohs cfg e.sport : Int) = cfg.port ∨
      (ntohs cfg e.dport : Int) = cfg.port
  swap
  · unfold jtcp_transmit_skb at hs
    rw [if_neg hport] at hs
    exact Or.inl ⟨(Option.some.inj hs).symm, Or.inl hport⟩
  have hb := h.hash_lt e.saddr e.daddr e.sport e.dport
  cases hf : (C (skb_hash_function cfg e.saddr e.daddr e.sport e.dport)).find?
      (match_at st.storage e.saddr e.daddr e.sport e.dport) with
  | some p =>
    obtain ⟨hpm, l1, l2, hC, hl1⟩ := find?_eq_some_split hf
    obtain ⟨r, hr⟩ := h.valid_chain hb (by rw [hC]; simp : p ∈ C _)
    have ha : (st.storage[p]?).map strip = some (strip r) := by rw [hr]; rfl
    cases hu : xmit_update cfg e (strip r) with
    | none =>
      exfalso
      rw [xmit_update_strip] at hu
      have hu0 := map_strip_eq_none hu
      unfold jtcp_transmit_skb at hs
      rw [if_pos hport, h.find, hf] at hs
      simp only [xmit_resolved_none hr hu0] at hs
      cases hs
    | some a1 =>
      obtain ⟨s1, hs1, hd, ho, hk, hfin⟩ := h.xmit_found_pass e hport hC hl1 hpm ha hu
      have : s1 = s := by rw [hs] at hs1; exact (Option.some.inj hs1).symm
      subst this
      refine Or.inr (Or.inl ⟨hport, p, l1, l2, strip r, a1, hC, hl1, hpm, ha, hu, hd, ho,
        fun ht => (hk (of_decide_eq_false ht)).1, fun ht => hfin (of_decide_eq_true ht)⟩)
  | none =>
    have hno := find?_eq_none_all hf
    by_cases hdrop : (e.flags &&& TCPHDR_SYN) = 0 ∨ F = []
    · have := h.xmit_ignored e hno hdrop
      rw [hs] at this
      refine Or.inl ⟨Option.some.inj this, Or.inr ⟨hno, ?_⟩⟩
      rcases hdrop with h0 | h0
      · exact Or.inl (decide_eq_false (fun hx => hx h0))
      · exact Or.inr h0
    · have hsyn : (e.flags &&& TCPHDR_SYN) ≠ 0 := fun hx => hdrop (Or.inl hx)
      cases F with
      | nil => exact absurd (Or.inr rfl) hdrop
      | cons p F1 =>
        obtain ⟨r0, hr0⟩ := h.get_of_lt (h.lt_of_mem (by simp : p ∈ _))
        cases hu : xmit_update cfg e (set_identity e.saddr e.daddr e.sport e.dport
            (strip (set_used 1 (reset_log cfg e.now_first r0)))) with
        | none =>
          exfalso
          have hav : st.available = some p := h.free.1
          obtain ⟨sa, rp, hrp, hsa, hinv, _, _, _, _, _, hm⟩ :=
            h.allocate e.saddr e.daddr e.sport e.dport e.now_first
          have hrp0 : rp = r0 := by rw [hr0] at hrp; exact (Option.some.inj hrp).symm
          subst hrp0
          have hr2 := hm.get hrp
          obtain ⟨s1, hs1, hg1, hen1, hm1⟩ :=
            wr_eff (set_identity e.saddr e.daddr e.sport e.dport) hr2
          have hr3 := hm1.get hr2
          simp only [if_true] at hr3
          have hu2 : xmit_update cfg e (set_identity e.saddr e.daddr e.sport e.dport
              (alloc_rec cfg e.now_first p
              (C (skb_hash_function cfg e.saddr e.daddr e.sport e.dport)).getLast? p rp)) =
              none := by
            apply map_strip_eq_none
            rw [← xmit_update_strip, strip_set_identity, strip_alloc_rec, if_pos rfl]
            exact hu
          unfold jtcp_transmit_skb at hs
          rw [if_pos hport, h.find, hf] at hs
          simp only [hsyn, if_false, hav, hsa, hs1, xmit_resolved_none hr3 hu2] at hs
          cases hs
        | some a1 =>
          obtain ⟨s1, hs1, hd, ho, hinv⟩ := h.xmit_new_pass e hport hsyn hno hr0 hu
          have : s1 = s := by rw [hs] at hs1; exact (Option.some.inj hs1).symm
          subst this
          have hterm : (flow_event.xmit e).terminates = true :=
            decide_eq_true (Or.inr hsyn)
          refine Or.inr (Or.inr ⟨hport, decide_eq_true hsyn, hno, p, F1, r0, a1, rfl, hr0, hu,
            hd, ho, fun ht => ?_, fun _ => hinv⟩)
          rw [hterm] at ht
          cases ht

/-- Every successful probe has one of the three outcomes. -/
theorem FlowInv.probe_cases {cfg : Config} {st s : State} {F : List Nat} {C : Nat → List Nat}
    {Q : List Nat} (h : FlowInv cfg st F C Q) (ev : flow_event)
    (hs : probe cfg st ev = some s) : EventOutcome cfg st s F C Q ev := by
  cases ev with
  | rcv e => exact h.rcv_cases e hs
  | xmit e => exact h.xmit_cases e hs

theorem live_scan_succ {cfg : Config} {S : List tcp_flow_log} (hn : 0 < cfg.bufsize)
    (hn32 : cfg.bufsize < 2 ^ 32) (hl : S.length = cfg.bufsize) (k : Nat) {idx : Nat}
    (hidx : idx < cfg.bufsize) :
    live_scan cfg S (k + 1) idx =
      if pending_at S ((idx + 1) % cfg.bufsize) = true then
        some ((idx + 1) % cfg.bufsize, some ((idx + 1) % cfg.bufsize))
      else live_scan cfg S k ((idx + 1) % cfg.bufsize) := by
  have hne : cfg.bufsize ≠ 0 := Nat.pos_iff_ne_zero.1 hn
  have h32 : (idx + 1) % 2 ^ 32 = idx + 1 := Nat.mod_eq_of_lt (by omega)
  have hlt : (idx + 1) % cfg.bufsize < S.length := by rw [hl]; exact Nat.mod_lt _ hn
  have hget : S[(idx + 1) % cfg.bufsize]? = some S[(idx + 1) % cfg.bufsize] :=
    List.getElem?_eq_getElem hlt
  simp only [live_scan, hne, if_false, h32, hget, pending_at, Bool.and_eq_true,
    decide_eq_true_eq]

/-- A scan that meets no pending slot selects nothing and ends `k` slots
further. -/
theorem live_scan_miss {cfg : Config} {S : List tcp_flow_log} (hn : 0 < cfg.bufsize)
    (hn32 : cfg.bufsize < 2 ^ 32) (hl : S.length = cfg.bufsize) :
    ∀ (k idx : Nat), idx < cfg.bufsize →
      (∀ j, 1 ≤ j → j ≤ k → pending_at S ((idx + j) % cfg.bufsize) = false) →
      live_scan cfg S k idx = some ((idx + k) % cfg.bufsize, none)
  | 0, idx, hidx, _ => by
    rw [Nat.add_zero, Nat.mod_eq_of_lt hidx]; rfl
  | k + 1, idx, hidx, hno => by
    rw [live_scan_succ hn hn32 hl k hidx]
    have h1 := hno 1 (le_refl _) (by omega)
    rw [if_neg (by rw [h1]; exact Bool.false_ne_true)]
    rw [live_scan_miss hn hn32 hl k ((idx + 1) % cfg.bufsize) (Nat.mod_lt _ hn) ?_]
    · congr 2
      rw [Nat.mod_add_mod]
      congr 1
      omega
    · intro j hj1 hjk
      have := hno (j + 1) (by omega) (by omega)
      rw [Nat.mod_add_mod]
      rw [← this]
      congr 2
      omega

/-- A scan selects the first pending slot it meets. -/
theorem live_scan_first {cfg : Config} {S : List tcp_flow_log} (hn : 0 < cfg.bufsize)
    (hn32 : cfg.bufsize < 2 ^ 32) (hl : S.length = cfg.bufsize) :
    ∀ (k idx j : Nat), idx < cfg.bufsize → 1 ≤ j → j ≤ k →
      pending_at S ((idx + j) % cfg.bufsize) = true →
      (∀ j1, 1 ≤ j1 → j1 < j → pending_at S ((idx + j1) % cfg.bufsize) = false) →
      live_scan cfg S k idx =
        some ((idx + j) % cfg.bufsize, some ((idx + j) % cfg.bufsize))
  | 0, _, j, _, h1, h2, _, _ => by omega
  | k + 1, idx, j, hidx, h1, h2, hp, hmin => by
    rw [live_scan_succ hn hn32 hl k hidx]
    rcases Nat.eq_or_lt_of_le h1 with hj | hj
    · subst hj
      rw [if_pos hp]
    · have h1' := hmin 1 (le_refl _) hj
      rw [if_neg (by rw [h1']; exact Bool.false_ne_true)]
      have e1 : ∀ x, ((idx + 1) % cfg.bufsize + x) % cfg.bufsize =
          (idx + (x + 1)) % cfg.bufsize := by
        intro x
        rw [Nat.mod_add_mod]
        congr 1
        omega
      have := live_scan_first hn hn32 hl k ((idx + 1) % cfg.bufsize) (j - 1)
        (Nat.mod_lt _ hn) (by omega) (by omega)
        (by rw [e1, Nat.sub_add_cancel (by omega)]; exact hp)
        (fun j1 hj1 hj1j => by rw [e1]; exact hmin (j1 + 1) (by omega) (by omega))
      rw [this, e1, Nat.sub_add_cancel (by omega)]

/-- Every slot is met by a scan of `capacity` steps. -/
theorem scan_covers {n c i : Nat} (hc : c < n) (hi : i < n) :
    ∃ j, 1 ≤ j ∧ j ≤ n ∧ (c + j) % n = i := by
  rcases Nat.lt_or_ge c i with h | h
  · exact ⟨i - c, by omega, by omega, by
      rw [Nat.add_sub_cancel' (by omega)]; exact Nat.mod_eq_of_lt hi⟩
  · refine ⟨n - c + i, by omega, by omega, ?_⟩
    have : c + (n - c + i) = i + n := by omega
    rw [this, Nat.add_mod_right, Nat.mod_eq_of_lt hi]

theorem State.eta_cursor (st : State) :
    { st with last_printed_flow_index := st.last_printed_flow_index } = st := rfl

/-- With an empty finished queue in batch mode, `tcpflowspy_sprint` writes
nothing and changes nothing. -/
theorem sprint_batch_idle (cfg : Config) (st : State) (hlive : cfg.live = 0)
    (hfin : st.finished = none) (now : timespec) (tbuf : List Char) (n : Nat) :
    tcpflowspy_sprint cfg st now tbuf n = some (st, tbuf, 0) := by
  unfold tcpflowspy_sprint sprint_select
  rw [if_neg (fun h => h.2 hlive), hfin]

/-- With an empty finished queue in live mode and no pending slot,
`tcpflowspy_sprint` writes nothing and changes nothing: the cursor goes once
round the pool. -/
theorem FlowInv.sprint_live_idle {cfg : Config} {st : State} {F : List Nat}
    {C : Nat → List Nat} {Q : List Nat} (h : FlowInv cfg st F C Q) (hlive : cfg.live ≠ 0)
    (hfin : st.finished = none)
    (hno : ∀ i, i < cfg.bufsize → pending_at st.storage i = false)
    (now : timespec) (tbuf : List Char) (n : Nat) :
    tcpflowspy_sprint cfg st now tbuf n = some (st, tbuf, 0) := by
  unfold tcpflowspy_sprint sprint_select
  rw [if_pos ⟨hfin, hlive⟩]
  have hmax : max 1 cfg.bufsize = cfg.bufsize := max_eq_right h.n_pos
  rw [hmax, live_scan_miss h.n_pos h.n_lt h.len_s cfg.bufsize st.last_printed_flow_index h.cursor
    (fun j _ _ => hno _ (Nat.mod_lt _ h.n_pos))]
  simp only [Nat.add_mod_right, Nat.mod_eq_of_lt h.cursor]

/-- `tcpflowspy_sprint` is the selection, the stamp under the cursor and
`print_record`. -/
theorem tcpflowspy_sprint_eq (cfg : Config) (st : State) (now : timespec) (tbuf : List Char)
    (n : Nat) :
    tcpflowspy_sprint cfg st now tbuf n =
      match sprint_select cfg st with
      | none => none
      | some (s1, none, _) => some (s1, tbuf, 0)
      | some (s1, some p, finished) =>
        match wr s1 s1.last_printed_flow_index (set_last_printed now) with
        | none => none
        | some s2 =>
          match s2.storage[p]? with
          | none => none
          | some pr =>
            match print_record cfg s2.start finished pr tbuf n with
            | none => none
            | some x => some (s2, x.1, x.2) := by
  unfold tcpflowspy_sprint
  cases hsel : sprint_select cfg st with
  | none => rfl
  | some x =>
    obtain ⟨s1, p, f⟩ := x
    cases p with
    | none => rfl
    | some p =>
      simp only [Option.bind_eq_bind]
      cases h2 : wr s1 s1.last_printed_flow_index (set_last_printed now) with
      | none => rfl
      | some s2 =>
        simp only [Option.some_bind]
        cases h3 : s2.storage[p]? with
        | none => rfl
        | some pr =>
          simp only [Option.some_bind, print_record]
          cases sprint_histogram n pr.snd_cwnd_histogram cfg.number_of_buckets.toNat 0
            (snprintf tbuf 0 n (sprint_header cfg (tcpprobe_timespec_sub pr.last_packet_tstamp
              s2.start) (tcpprobe_timespec_sub pr.last_packet_tstamp pr.first_packet_tstamp)
              f pr)).1
            (snprintf tbuf 0 n (sprint_header cfg (tcpprobe_timespec_sub pr.last_packet_tstamp
              s2.start) (tcpprobe_timespec_sub pr.last_packet_tstamp pr.first_packet_tstamp)
              f pr)).2 with
          | none => rfl
          | some r2 => rfl

/-- Printing a record with a histogram of at least `numBuckets` cells returns,
with at least one byte. -/
theorem print_record_pos (cfg : Config) (start : timespec) (f : Nat) (pr : tcp_flow_log)
    (tbuf : List Char) (n : Nat)
    (hh : cfg.number_of_buckets.toNat ≤ pr.snd_cwnd_histogram.length) :
    ∃ tb w, print_record cfg start f pr tbuf n = some (tb, w) ∧ 0 < w := by
  unfold print_record
  dsimp only
  generalize htxt : sprint_header cfg (tcpprobe_timespec_sub pr.last_packet_tstamp start)
      (tcpprobe_timespec_sub pr.last_packet_tstamp pr.first_packet_tstamp) f pr = txt
  have htpos : 0 < txt.length := by rw [← htxt]; exact sprint_header_pos _ _ _ _ _
  obtain ⟨tb, w, hh1, hw⟩ := sprint_histogram_ok n pr.snd_cwnd_histogram
    cfg.number_of_buckets.toNat 0 (snprintf tbuf 0 n txt).1 (snprintf tbuf 0 n txt).2
    (by omega)
  rw [snprintf_snd] at hw
  simp only [hh1]
  refine ⟨_, _, rfl, ?_⟩
  split_ifs <;> omega

/-- The text of a record does not depend on its `last_printed_tstamp`. -/
theorem print_record_set_last_printed (cfg : Config) (start now : timespec) (f : Nat)
    (pr : tcp_flow_log) (tbuf : List Char) (n : Nat) :
    print_record cfg start f (set_last_printed now pr) tbuf n =
      print_record cfg start f pr tbuf n := rfl

theorem wr_eq {st : State} {i : Nat} {r : tcp_flow_log} (f : tcp_flow_log → tcp_flow_log)
    (h : st.storage[i]? = some r) :
    wr st i f = some { st with storage := st.storage.set i (f r) } := by
  unfold wr
  rw [h]

theorem pending_at_eq {S : List tcp_flow_log} {i : Nat} {r : tcp_flow_log} (h : S[i]? = some r) :
    pending_at S i = (decide (r.used ≠ 0) &&
      tcpprobe_timespec_larger r.last_packet_tstamp r.last_printed_tstamp) := by
  unfold pending_at
  rw [h]

/-- In live mode with an empty finished queue, `tcpflowspy_sprint` reports the
first pending slot after the cursor in place: the cursor moves to it, its
`last_printed_tstamp` is stamped, and its text is written with flag 0. -/
theorem FlowInv.sprint_live_hit {cfg : Config} {st : State} {F : List Nat}
    {C : Nat → List Nat} {Q : List Nat} (h : FlowInv cfg st F C Q) (hlive : cfg.live ≠ 0)
    (hfin : st.finished = none) {j : Nat} (hj1 : 1 ≤ j) (hjn : j ≤ cfg.bufsize)
    (hp : pending_at st.storage ((st.last_printed_flow_index + j) % cfg.bufsize) = true)
    (hmin : ∀ j1, 1 ≤ j1 → j1 < j →
      pending_at st.storage ((st.last_printed_flow_index + j1) % cfg.bufsize) = false)
    (now : timespec) (tbuf : List Char) (n : Nat) :
    ∃ r tb w, st.storage[(st.last_printed_flow_index + j) % cfg.bufsize]? = some r ∧
      r.used ≠ 0 ∧ tcpprobe_timespec_larger r.last_packet_tstamp r.last_printed_tstamp = true ∧
      print_record cfg st.start 0 r tbuf n = some (tb, w) ∧ 0 < w ∧
      tcpflowspy_sprint cfg st now tbuf n =
        some ({ st with
                last_printed_flow_index := (st.last_printed_flow_index + j) % cfg.bufsize
                storage := (st.storage.set ((st.last_printed_flow_index + j) % cfg.bufsize)
                  (set_last_printed now r)) }, tb, w) := by
  have hplt : (st.last_printed_flow_index + j) % cfg.bufsize < cfg.bufsize :=
    Nat.mod_lt _ h.n_pos
  obtain ⟨r, hr⟩ := h.get_of_lt hplt
  have hpe := pending_at_eq hr
  rw [hp] at hpe
  have hboth := Bool.and_eq_true_iff.1 hpe.symm
  have hused : r.used ≠ 0 := of_decide_eq_true hboth.1
  have hlarger : tcpprobe_timespec_larger r.last_packet_tstamp r.last_printed_tstamp = true :=
    hboth.2
  obtain ⟨tb, w, hpr, hw⟩ := print_record_pos cfg st.start 0 r tbuf n (by rw [h.hist _ r hr])
  refine ⟨r, tb, w, hr, hused, hlarger, hpr, hw, ?_⟩
  have hsel : sprint_select cfg st = some ({ st with
      last_printed_flow_index := (st.last_printed_flow_index + j) % cfg.bufsize },
      some ((st.last_printed_flow_index + j) % cfg.bufsize), 0) := by
    unfold sprint_select
    rw [if_pos ⟨hfin, hlive⟩, max_eq_right h.n_pos,
      live_scan_first h.n_pos h.n_lt h.len_s cfg.bufsize st.last_printed_flow_index j h.cursor
        hj1 hjn hp hmin]
  rw [tcpflowspy_sprint_eq, hsel]
  simp only
  rw [@wr_eq { st with last_printed_flow_index :=
      (st.last_printed_flow_index + j) % cfg.bufsize } _ r (set_last_printed now) hr]
  simp only
  rw [getElem?_set_some hr, if_pos rfl]
  simp only
  rw [print_record_set_last_printed, hpr]

/-- With a non-empty finished queue, `tcpflowspy_sprint` writes the text of
the head of the queue with flag 1, and stamps the `last_printed_tstamp` of the
slot under the cursor. -/
theorem FlowInv.sprint_finished {cfg : Config} {st : State} {F : List Nat}
    {C : Nat → List Nat} {Q : List Nat} {q : Nat} (h : FlowInv cfg st F C (q :: Q))
    (now : timespec) (tbuf : List Char) (n : Nat) :
    ∃ rc rq tb w, st.storage[st.last_printed_flow_index]? = some rc ∧
      st.storage[q]? = some rq ∧
      print_record cfg st.start 1 rq tbuf n = some (tb, w) ∧ 0 < w ∧
      tcpflowspy_sprint cfg st now tbuf n =
        some ({ st with storage :=
          (st.storage.set st.last_printed_flow_index (set_last_printed now rc)) }, tb, w) := by
  have hfin : st.finished = some q := h.fin.1
  obtain ⟨rc, hrc⟩ := h.get_of_lt h.cursor
  obtain ⟨rq, hrq⟩ := h.get_of_lt (h.head_fin_lt hfin).1
  obtain ⟨tb, w, hpr, hw⟩ := print_record_pos cfg st.start 1 rq tbuf n (by rw [h.hist _ rq hrq])
  refine ⟨rc, rq, tb, w, hrc, hrq, hpr, hw, ?_⟩
  have hsel : sprint_select cfg st = some (st, some q, 1) := by
    unfold sprint_select
    rw [if_neg (fun hc => by rw [hfin] at hc; cases hc.1), hfin]
  rw [tcpflowspy_sprint_eq, hsel]
  simp only
  rw [wr_eq (set_last_printed now) hrc]
  simp only
  rw [getElem?_set_some hrc]
  by_cases hcq : st.last_printed_flow_index = q
  · rw [if_pos hcq]
    simp only
    have : rc = rq := by rw [hcq, hrq] at hrc; exact (Option.some.inj hrc).symm
    rw [this, print_record_set_last_printed, hpr]
  · rw [if_neg hcq, hrq]
    simp only
    rw [hpr]

theorem demo_live_init_eq :
    tcpflowspy_init demo_live_cfg = some (demo_live_cfg, demo_live_init) := by decide

theorem demo_live_init_reachable : Reachable demo_live_cfg demo_live_init :=
  Reachable.init demo_live_init_eq

theorem demo_live_open_reachable : Reachable demo_live_cfg demo_live_open :=
  Reachable.rcv (demo_rcv 1 2 3 4 true false false 0 0 1) demo_live_init_reachable
    (by decide)

theorem not_pending_of_idle {S : List tcp_flow_log}
    (h : ∀ (i : Nat) (r : tcp_flow_log), S[i]? = some r → r.used ≠ 0 →
      tcpprobe_timespec_larger r.last_packet_tstamp r.last_printed_tstamp = false)
    (i : Nat) : pending_at S i = false := by
  unfold pending_at
  cases hr : S[i]? with
  | none => rfl
  | some r =>
    simp only
    by_cases hu : r.used ≠ 0
    · rw [h i r hr hu, Bool.and_false]
    · rw [decide_eq_false hu, Bool.false_and]

theorem idle_of_not_pending {S : List tcp_flow_log} (h : ∀ i, i < S.length → pending_at S i = false)
    (i : Nat) (r : tcp_flow_log) (hr : S[i]? = some r) (hu : r.used ≠ 0) :
    tcpprobe_timespec_larger r.last_packet_tstamp r.last_printed_tstamp = false := by
  have := h i (getElem?_lt hr)
  rw [pending_at_eq hr, decide_eq_true hu, Bool.true_and] at this
  exact this

/-- A walk from a given start is determined by the storage. -/
theorem IsPath.unique {S : List tcp_flow_log} :
    ∀ {l l1 : List Nat} {p : Option Nat}, IsPath S p l → IsPath S p l1 → l = l1
  | [], [], _, _, _ => rfl
  | [], _ :: _, _, h, h1 => by
    have h0 : _ = none := h
    rw [h0] at h1
    exact absurd h1.1 (by simp)
  | _ :: _, [], _, h, h1 => by
    have h0 : _ = none := h1
    rw [h0] at h
    exact absurd h.1 (by simp)
  | i :: l, j :: l1, p, h, h1 => by
    obtain ⟨hp, r, hr, hrest⟩ := h
    obtain ⟨hp1, r1, hr1, hrest1⟩ := h1
    have hij : i = j := by rw [hp] at hp1; exact Option.some.inj hp1
    subst hij
    have : r = r1 := by rw [hr] at hr1; exact Option.some.inj hr1
    subst this
    rw [IsPath.unique hrest hrest1]

/-- The free list and the finished queue of a state are determined by it. -/
theorem FlowInv.unique_lists {cfg : Config} {st : State} {F F1 Q Q1 : List Nat}
    {C C1 : Nat → List Nat} (h : FlowInv cfg st F C Q) (h1 : FlowInv cfg st F1 C1 Q1) :
    F = F1 ∧ Q = Q1 :=
  ⟨IsPath.unique h.free h1.free, IsPath.unique h.fin h1.fin⟩

theorem SameUsed.refl_used (S : List tcp_flow_log) : SameUsed S S := fun _ => rfl

theorem SameUsed.trans_used {S S1 S2 : List tcp_flow_log} (h1 : SameUsed S S1)
    (h2 : SameUsed S1 S2) : SameUsed S S2 := fun i => (h2 i).trans (h1 i)

theorem SameUsed.get_used {S S1 : List tcp_flow_log} (h : SameUsed S S1) {i : Nat}
    {r1 : tcp_flow_log} (hr : S1[i]? = some r1) : ∃ r, S[i]? = some r ∧ r1.used = r.used := by
  have := h i
  rw [hr] at this
  cases hs : S[i]? with
  | none => rw [hs] at this; cases this
  | some r =>
    rw [hs] at this
    exact ⟨r, rfl, Option.some.inj this⟩

theorem MapS.sameUsed {g : Nat → tcp_flow_log → tcp_flow_log} {S S1 : List tcp_flow_log}
    (hm : MapS g S S1) (hg : ∀ i r, (g i r).used = r.used) : SameUsed S S1 := by
  intro i
  rw [hm i]
  cases S[i]? with
  | none => rfl
  | some r => simp [hg i r]

theorem used_of_strip_eq {o o1 : Option tcp_flow_log}
    (h : o1.map strip = o.map strip) :
    o1.map (fun r => r.used) = o.map (fun r => r.used) := by
  have := congrArg (Option.map (fun r : tcp_flow_log => r.used)) h
  simpa [Option.map_map, Function.comp_def, strip, set_next, set_prev] using this

theorem SameData.used_of_data {S S1 : List tcp_flow_log} (h : SameData S S1) : SameUsed S S1 :=
  fun i => used_of_strip_eq (h i)

theorem UsedInv.of_same {st s : State} {F : List Nat} (hu : UsedInv st F)
    (h : SameUsed st.storage s.storage) : UsedInv s F := by
  intro i r1 hr1
  obtain ⟨r, hr, he⟩ := h.get_used hr1
  rw [he]
  exact hu i r hr

theorem flow_update_used {cfg : Config} {ev : flow_event} {a a1 : tcp_flow_log}
    (h : flow_update cfg ev a = some a1) : a1.used = a.used := by
  cases ev with
  | rcv e => exact (rcv_update_frame h).2.2.2.2.2.2.2
  | xmit e => exact (xmit_update_frame h).2.2.2.2.2.2.2

theorem flow_event.fresh_used (cfg : Config) (ev : flow_event) (r0 : tcp_flow_log) :
    (ev.fresh cfg r0).used = 1 := by
  cases ev <;> rfl

/-- A probe keeps the `used` marks in line with the representation. -/
theorem EventOutcome.used {cfg : Config} {st s : State} {F : List Nat} {C : Nat → List Nat}
    {Q : List Nat} {ev : flow_event} (h : FlowInv cfg st F C Q) (hu : UsedInv st F)
    (ho : EventOutcome cfg st s F C Q ev) :
    ∃ (F1 : List Nat) (C1 : Nat → List Nat) (Q1 : List Nat),
      FlowInv cfg s F1 C1 Q1 ∧ UsedInv s F1 := by
  rcases ho with ⟨rfl, _⟩ | ⟨_, p, l1, l2, a, a1, hC, _, _, ha, hupd, ha1, ho, hk, hf⟩ |
    ⟨_, _, _, p, F1, r0, a1, hF, hr0, hupd, ha1, ho, hk, hf⟩
  · exact ⟨F, C, Q, h, hu⟩
  · have hsame : SameUsed st.storage s.storage := by
      intro i
      by_cases hi : i = p
      · subst hi
        obtain ⟨r, hr, hra⟩ := map_strip_eq_some ha
        obtain ⟨r1, hr1, hra1⟩ := map_strip_eq_some ha1
        rw [hr, hr1]
        have e1 : r1.used = a1.used := by rw [← hra1]; rfl
        have e2 : r.used = a.used := by rw [← hra]; rfl
        simp [e1, e2, flow_update_used hupd]
      · exact used_of_strip_eq (ho i hi)
    have hu1 := hu.of_same hsame
    cases ht : ev.terminates with
    | false => exact ⟨F, C, Q, hk ht, hu1⟩
    | true => exact ⟨F, _, _, hf ht, hu1⟩
  · subst hF
    have hnd : p ∉ F1 := (List.nodup_cons.1 h.nodup_free).1
    have hu1 : UsedInv s F1 := by
      intro i r1 hr1
      by_cases hi : i = p
      · subst hi
        rw [hr1] at ha1
        have e1 : r1.used = a1.used := by
          have := Option.some.inj ha1
          rw [← this]; rfl
        rw [e1, flow_update_used hupd, flow_event.fresh_used]
        exact ⟨fun hm => absurd hm hnd, fun _ => rfl⟩
      · have := used_of_strip_eq (ho i hi)
        rw [hr1] at this
        cases hs : st.storage[i]? with
        | none => rw [hs] at this; cases this
        | some r =>
          rw [hs] at this
          have e : r1.used = r.used := Option.some.inj this
          rw [e]
          obtain ⟨u1, u2⟩ := hu i r hs
          exact ⟨fun hm => u1 (List.mem_cons_of_mem _ hm),
            fun hm => u2 (fun hc => by
              rcases List.mem_cons.1 hc with hc | hc
              · exact hi hc
              · exact hm hc)⟩
    cases ht : ev.terminates with
    | false => exact ⟨F1, _, _, hk ht, hu1⟩
    | true => exact ⟨F1, _, _, hf ht, hu1⟩

/-- One iteration of the read loop, on the data: either the representation is
kept and so are the `used` marks, or the head of the finished queue moved to
the free list and was marked unused. -/
theorem FlowInv.read_step_used {cfg : Config} {st s : State} {F : List Nat}
    {C : Nat → List Nat} {Q : List Nat} (h : FlowInv cfg st F C Q) (hu : UsedInv st F)
    {signal : Bool} {now_read now_print : timespec} {tbuf : List Char} {cnt len : Nat}
    {res : read_result}
    (hs : read_step cfg st signal now_read now_print tbuf cnt len = some (s, res)) :
    ∃ (F1 : List Nat) (Q1 : List Nat), FlowInv cfg s F1 C Q1 ∧ UsedInv s F1 := by
  have hfin : IsPath st.storage st.finished Q := h.fin
  have h1 := h.set_last_read now_read
  have hu1 : UsedInv { st with last_read := now_read } F := hu
  obtain ⟨s2, tb, w, hsp, hinv2, _, _, _, hav2, hf2, _, hw, hm⟩ :=
    h1.sprint now_print tbuf PRINT_BUFF_SIZE
  have hu2 : UsedInv s2 F := by
    apply hu1.of_same
    apply hm.sameUsed
    intro i r
    split_ifs <;> rfl
  unfold read_step at hs
  simp only at hs
  split_ifs at hs with c1 c2 c3
  · cases hs; exact ⟨F, Q, h, hu⟩
  · cases hs; exact ⟨F, Q, h1, hu1⟩
  · cases hs; exact ⟨F, Q, h1, hu1⟩
  · rw [hsp] at hs
    simp only at hs
    by_cases c4 : w = 0
    · rw [if_pos c4] at hs
      cases hs; exact ⟨F, Q, hinv2, hu2⟩
    rw [if_neg c4] at hs
    cases Q with
    | nil =>
      have hn : s2.finished = none := hf2.trans hfin
      rw [hn] at hs
      simp only at hs
      by_cases hlen : len ≤ cnt + w
      · rw [if_pos hlen] at hs; cases hs; exact ⟨F, [], hinv2, hu2⟩
      · rw [if_neg hlen] at hs; cases hs; exact ⟨F, [], hinv2, hu2⟩
    | cons q Q1 =>
      have hq : s2.finished = some q := hf2.trans hfin.1
      rw [hq] at hs
      simp only at hs
      by_cases hlt : cnt + w < len
      · rw [if_pos hlt] at hs
        obtain ⟨s3, hrec, hinv3, _, _, _, _, _, _, hm3⟩ := hinv2.recycle
        rw [hrec] at hs
        simp only at hs
        rw [if_neg (by omega)] at hs
        have hs3 : s = s3 := by cases hs; rfl
        subst hs3
        refine ⟨q :: F, Q1, hinv3, ?_⟩
        intro i r1 hr1
        have hmi := hm3 i
        rw [hr1] at hmi
        cases hsi : s2.storage[i]? with
        | none => rw [hsi] at hmi; cases hmi
        | some r =>
          rw [hsi] at hmi
          have hr1e : r1 = recycle_rec s2.available q i r := Option.some.inj hmi
          obtain ⟨u1, u2⟩ := hu2 i r hsi
          by_cases hi : i = q
          · subst hi
            have : r1.used = 0 := by rw [hr1e]; simp [recycle_rec, set_used, set_next]
            exact ⟨fun _ => this, fun hn => absurd (List.mem_cons_self _ _) hn⟩
          · have : r1.used = r.used := by rw [hr1e]; simp [recycle_rec, hi]
            rw [this]
            exact ⟨fun hmem => u1 (by
              rcases List.mem_cons.1 hmem with hc | hc
              · exact absurd hc hi
              · exact hc),
              fun hn => u2 (fun hc => hn (List.mem_cons_of_mem _ hc))⟩
      · rw [if_neg hlt] at hs
        simp only at hs
        rw [if_pos (by omega)] at hs
        cases hs; exact ⟨F, q :: Q1, hinv2, hu2⟩

/-- In every reachable state the `used` marks agree with the free list. -/
theorem Reachable.used_inv {cfg : Config} {st : State} (hr : Reachable cfg st)
    (hcap : 1 ≤ cfg.bufsize) :
    ∃ (F : List Nat) (C : Nat → List Nat) (Q : List Nat),
      FlowInv cfg st F C Q ∧ UsedInv st F := by
  induction hr with
  | init h =>
    refine ⟨_, _, _, init_inv h hcap, ?_⟩
    intro i r hri
    have hlen := (init_inv h hcap).len_s
    unfold tcpflowspy_init at h
    split_ifs at h
    simp only [Option.some.injEq, Prod.mk.injEq] at h
    obtain ⟨_, hst⟩ := h
    subst hst
    simp only at hri hlen
    rw [List.getElem?_map] at hri
    cases hi : (List.range (roundup_pow_of_two _ % 2 ^ 32))[i]? with
    | none => rw [hi] at hri; cases hri
    | some j =>
      rw [hi] at hri
      have hr0 : r = init_log _ _ j := (Option.some.inj hri).symm
      have hil : i < cfg.bufsize := by
        have := (List.getElem?_eq_some_iff.1 hi).1
        simp at hlen
        rw [← hlen]
        simpa using this
      exact ⟨fun _ => by rw [hr0]; rfl, fun hn => absurd (List.mem_range.2 hil) hn⟩
  | rcv e _ hs ih =>
    obtain ⟨F, C, Q, h, hu⟩ := ih
    exact EventOutcome.used h hu (h.rcv_cases e hs)
  | xmit e _ hs ih =>
    obtain ⟨F, C, Q, h, hu⟩ := ih
    exact EventOutcome.used h hu (h.xmit_cases e hs)
  | prune now _ hs ih =>
    obtain ⟨F, C, Q, h, hu⟩ := ih
    obtain ⟨s1, P, h1, h2, _, hd, _⟩ := h.prune now
    rw [hs] at h1; cases h1
    exact ⟨F, _, _, h2, hu.of_same hd.used_of_data⟩
  | read signal now_read now_print tbuf cnt len res _ hs ih =>
    obtain ⟨F, C, Q, h, hu⟩ := ih
    obtain ⟨F1, Q1, h1, hu1⟩ := h.read_step_used hu hs
    exact ⟨F1, C, Q1, h1, hu1⟩
  | opened t1 t2 t3 _ ih =>
    obtain ⟨F, C, Q, h, hu⟩ := ih
    exact ⟨F, C, Q, h.open_ok t1 t2 t3, hu⟩

theorem identity_of_strip_eq {o o1 : Option tcp_flow_log} (h : o1.map strip = o.map strip) :
    o1.map identity = o.map identity := by
  have := congrArg (Option.map identity) h
  simpa [Option.map_map, Function.comp_def, strip, set_next, set_prev, identity] using this

theorem identity_of_data {o : Option tcp_flow_log} {a : tcp_flow_log}
    (h : o.map strip = some a) : o.map identity = some (identity a) := by
  obtain ⟨r, hr, hra⟩ := map_strip_eq_some h
  rw [hr, ← hra]
  rfl

theorem is_path_iff {S : List tcp_flow_log} :
    ∀ (l : List Nat) (p : Option Nat), is_path S p l = true ↔ IsPath S p l
  | [], p => by
    cases p <;> simp [is_path, IsPath]
  | i :: l, p => by
    unfold is_path IsPath
    cases hs : S[i]? with
    | none => simp
    | some r =>
      simp only [Bool.and_eq_true, decide_eq_true_eq, is_path_iff l r.next]
      constructor
      · rintro ⟨h1, h2⟩
        exact ⟨h1, r, rfl, h2⟩
      · rintro ⟨h1, r1, hr1, h2⟩
        cases hr1
        exact ⟨h1, h2⟩

/-- One operation pushes the records it finishes in front of the finished
queue; a probe pushes at most one. -/
theorem FlowInv.finish_op_queue {cfg : Config} {st s : State} {F : List Nat}
    {C : Nat → List Nat} {Q : List Nat} (h : FlowInv cfg st F C Q) (op : finish_op)
    (hs : op.apply cfg st = some s) :
    ∃ (F1 : List Nat) (C1 : Nat → List Nat) (P : List Nat), FlowInv cfg s F1 C1 (P ++ Q) ∧
      (∀ ev, op = finish_op.event ev → P.length ≤ 1) := by
  cases op with
  | event ev =>
    rcases h.probe_cases ev hs with ⟨rfl, _⟩ |
      ⟨_, p, l1, l2, a, a1, _, _, _, _, _, _, _, hk, hf⟩ |
      ⟨_, _, _, p, F1, r0, a1, _, _, _, _, _, hk, hf⟩
    · exact ⟨F, C, [], h, fun _ _ => Nat.zero_le _⟩
    · cases ht : ev.terminates with
      | false => exact ⟨F, C, [], hk ht, fun _ _ => Nat.zero_le _⟩
      | true => exact ⟨F, _, [p], hf ht, fun _ _ => le_refl _⟩
    · cases ht : ev.terminates with
      | false => exact ⟨F1, _, [], hk ht, fun _ _ => Nat.zero_le _⟩
      | true => exact ⟨F1, _, [p], hf ht, fun _ _ => le_refl _⟩
  | sweep now =>
    obtain ⟨s1, P, h1, h2, _⟩ := h.prune now
    have : s1 = s := by
      have hs2 : prune_timer cfg st now = some s := hs
      rw [hs2] at h1
      exact (Option.some.inj h1).symm
    subst this
    exact ⟨F, _, P, h2, fun ev hev => by cases hev⟩

/-- A sequence of operations with no drain in between pushes the records it
finishes in front of the finished queue. -/
theorem FlowInv.run_ops_queue {cfg : Config} :
    ∀ (ops : List finish_op) {st s : State} {F : List Nat} {C : Nat → List Nat}
      {Q : List Nat}, FlowInv cfg st F C Q → run_ops cfg st ops = some s →
      ∃ (F1 : List Nat) (C1 : Nat → List Nat) (P : List Nat), FlowInv cfg s F1 C1 (P ++ Q) ∧
        (∀ ev, ops = [finish_op.event ev] → P.length ≤ 1)
  | [], st, s, F, C, Q, h, hs => by
    have : st = s := Option.some.inj hs
    subst this
    exact ⟨F, C, [], h, fun _ _ => Nat.zero_le _⟩
  | op :: ops, st, s, F, C, Q, h, hs => by
    unfold run_ops at hs
    cases h1 : op.apply cfg st with
    | none => rw [h1] at hs; cases hs
    | some s1 =>
      rw [h1] at hs
      simp only at hs
      obtain ⟨F1, C1, P1, hinv1, hlen1⟩ := h.finish_op_queue op h1
      obtain ⟨F2, C2, P2, hinv2, _⟩ := FlowInv.run_ops_queue ops hinv1 hs
      refine ⟨F2, C2, P2 ++ P1, by rw [List.append_assoc]; exact hinv2, ?_⟩
      intro ev hev
      have hop : op = finish_op.event ev := (List.cons.inj hev).1
      have hops : ops = [] := (List.cons.inj hev).2
      subst hops
      have : s1 = s := Option.some.inj hs
      subst this
      have hP2 : P2 = [] := by
        have := (hinv2.unique_lists hinv1).2
        simpa using this
      rw [hP2]
      exact hlen1 ev hop

theorem demo_two_open_reachable : Reachable demo_cfg demo_two_open :=
  Reachable.of_run_rcv
    [demo_rcv 1 2 3 4 true false false 0 0 1, demo_rcv 5 6 7 8 true false false 0 0 1]
    demo_init demo_two_open (Reachable.init demo_init_eq) (by decide)

theorem skb_hash_function_swap (cfg : Config) (sa da sp dp : Nat) :
    skb_hash_function cfg da sa dp sp = skb_hash_function cfg sa da sp dp := by
  unfold skb_hash_function
  congr 2
  omega

theorem digit_char_not_ws : ∀ d, d < 16 → is_ws (digit_char d) = false := by decide

theorem NoWs.append {a b : List Char} (ha : NoWs a) (hb : NoWs b) : NoWs (a ++ b) := by
  intro c hc
  rcases List.mem_append.1 hc with h | h
  · exact ha c h
  · exact hb c h

theorem NoWs.cons {c : Char} {a : List Char} (hc : is_ws c = false) (ha : NoWs a) :
    NoWs (c :: a) := by
  intro d hd
  rcases List.mem_cons.1 hd with h | h
  · rw [h]; exact hc
  · exact ha d h

theorem NoWs.nil : NoWs [] := fun _ h => by cases h

theorem render_digits_nows {base : Nat} (hb0 : 0 < base) (hb : base ≤ 16) :
    ∀ (fuel n : Nat) (acc : List Char), NoWs acc → NoWs (render_digits base fuel n acc)
  | 0, _, acc, h => h
  | fuel + 1, n, acc, h => by
    have hd : is_ws (digit_char (n % base)) = false :=
      digit_char_not_ws _ (lt_of_lt_of_le (Nat.mod_lt _ hb0) hb)
    unfold render_digits
    split_ifs
    · exact NoWs.cons hd h
    · exact render_digits_nows hb0 hb fuel _ _ (NoWs.cons hd h)

theorem render_digits_ne_nil (base : Nat) :
    ∀ (fuel n : Nat) (acc : List Char), (acc ≠ [] ∨ 0 < fuel) → render_digits base fuel n acc ≠ []
  | 0, _, acc, h => by
    rcases h with h | h
    · exact h
    · omega
  | fuel + 1, n, acc, _ => by
    unfold render_digits
    split_ifs
    · simp
    · exact render_digits_ne_nil base fuel _ _ (Or.inl (by simp))

theorem fmt_u_nows (n : Nat) : NoWs (fmt_u n) :=
  render_digits_nows (by norm_num) (by norm_num) _ _ _ NoWs.nil

theorem fmt_x_nows (n : Nat) : NoWs (fmt_x n) :=
  render_digits_nows (by norm_num) (by norm_num) _ _ _ NoWs.nil

theorem fmt_lu_nows (x : Int) : NoWs (fmt_lu x) :=
  render_digits_nows (by norm_num) (by norm_num) _ _ _ NoWs.nil

theorem fmt_09lu_nows (x : Int) : NoWs (fmt_09lu x) := by
  unfold fmt_09lu
  apply NoWs.append _ (fmt_lu_nows x)
  intro c hc
  rw [List.eq_of_mem_replicate hc]
  decide

theorem fmt_u_ne_nil (n : Nat) : fmt_u n ≠ [] :=
  render_digits_ne_nil _ _ _ _ (Or.inr (by norm_num))

theorem fmt_lu_ne_nil (x : Int) : fmt_lu x ≠ [] :=
  render_digits_ne_nil _ _ _ _ (Or.inr (by norm_num))

theorem fmt_x_ne_nil (n : Nat) : fmt_x n ≠ [] :=
  render_digits_ne_nil _ _ _ _ (Or.inr (by norm_num))

theorem sprint_hist_text_nows : ∀ hist : List Nat, NoWs (sprint_hist_text hist)
  | [] => NoWs.nil
  | h :: hist => by
    unfold sprint_hist_text
    rw [List.flatMap_cons]
    exact NoWs.append (NoWs.append (fmt_u_nows h) (NoWs.cons (by decide) NoWs.nil))
      (sprint_hist_text_nows hist)

theorem spec_fields_go_token :
    ∀ (tok acc rest : List Char), NoWs tok →
      spec_fields_go acc (tok ++ rest) = spec_fields_go (tok.reverse ++ acc) rest
  | [], acc, rest, _ => rfl
  | c :: tok, acc, rest, h => by
    have hc : is_ws c = false := h c (List.mem_cons_self _ _)
    have ht : NoWs tok := fun d hd => h d (List.mem_cons_of_mem _ hd)
    rw [List.cons_append, spec_fields_go, hc]
    simp only [Bool.false_eq_true, if_false]
    rw [spec_fields_go_token tok (c :: acc) rest ht]
    simp

/-- A field followed by a white-space character is the first field of the
text. -/
theorem spec_fields_token {tok : List Char} (c : Char) (rest : List Char) (h : NoWs tok)
    (hne : tok ≠ []) (hc : is_ws c = true) :
    spec_fields (tok ++ c :: rest) = tok :: spec_fields rest := by
  unfold spec_fields
  rw [spec_fields_go_token tok [] (c :: rest) h, List.append_nil, spec_fields_go, hc]
  have : tok.reverse ≠ [] := by simpa using hne
  simp [this]

/-- The fields of the whole line are the sixteen fields of the format. -/
theorem sprint_line_fields (cfg : Config) (start : timespec) (fl : Nat) (pr : tcp_flow_log)
    (hh : sprint_hist_text (pr.snd_cwnd_histogram.take cfg.number_of_buckets.toNat) ≠ []) :
    spec_fields (sprint_line cfg start fl pr) = sprint_fields cfg start fl pr := by
  have hdot : is_ws '.' = false := by decide
  have hcol : is_ws ':' = false := by decide
  have hlp : is_ws '(' = false := by decide
  have hrp : is_ws ')' = false := by decide
  have hsp : is_ws ' ' = true := by decide
  have e : sprint_line cfg start fl pr =
      (fmt_lu (tcpprobe_timespec_sub pr.last_packet_tstamp start).tv_sec ++ '.' ::
        fmt_09lu (tcpprobe_timespec_sub pr.last_packet_tstamp start).tv_nsec) ++ ' ' ::
      (('(' :: (fmt_u fl ++ [')'])) ++ ' ' ::
      ((fmt_x (ntohl cfg pr.saddr) ++ ':' :: fmt_u (ntohs cfg pr.sport)) ++ ' ' ::
      ((fmt_x (ntohl cfg pr.daddr) ++ ':' :: fmt_u (ntohs cfg pr.dport)) ++ ' ' ::
      ((fmt_lu (tcpprobe_timespec_sub pr.last_packet_tstamp
          pr.first_packet_tstamp).tv_sec ++ '.' ::
        fmt_09lu (tcpprobe_timespec_sub pr.last_packet_tstamp
          pr.first_packet_tstamp).tv_nsec) ++ ' ' ::
      (fmt_u pr.recv_count ++ ' ' :: (fmt_lu pr.recv_size ++ ' ' ::
      (fmt_u pr.snd_count ++ ' ' :: (fmt_lu pr.snd_size ++ ' ' ::
      (fmt_u pr.total_retransmissions ++ ' ' :: (fmt_u pr.out_of_order_packets ++ ' ' ::
      (fmt_u pr.snd_cwnd_clamp ++ ' ' :: (fmt_u pr.ssthresh ++ ' ' ::
      (fmt_u pr.srtt ++ ' ' :: (fmt_u pr.last_cwnd ++ ' ' ::
      (sprint_hist_text (pr.snd_cwnd_histogram.take cfg.number_of_buckets.toNat) ++ ' ' ::
        ['\n']))))))))))))))) := by
    simp only [sprint_line, sprint_header, List.append_assoc, List.cons_append,
      List.nil_append, List.singleton_append]
  rw [e]
  rw [spec_fields_token _ _ (NoWs.append (fmt_lu_nows _) (NoWs.cons hdot (fmt_09lu_nows _)))
    (by simp) hsp]
  rw [spec_fields_token _ _ (NoWs.cons hlp (NoWs.append (fmt_u_nows _) (NoWs.cons hrp NoWs.nil)))
    (by simp) hsp]
  rw [spec_fields_token _ _ (NoWs.append (fmt_x_nows _) (NoWs.cons hcol (fmt_u_nows _)))
    (by simp) hsp]
  rw [spec_fields_token _ _ (NoWs.append (fmt_x_nows _) (NoWs.cons hcol (fmt_u_nows _)))
    (by simp) hsp]
  rw [spec_fields_token _ _ (NoWs.append (fmt_lu_nows _) (NoWs.cons hdot (fmt_09lu_nows _)))
    (by simp) hsp]
  rw [spec_fields_token _ _ (fmt_u_nows _) (fmt_u_ne_nil _) hsp]
  rw [spec_fields_token _ _ (fmt_lu_nows _) (fmt_lu_ne_nil _) hsp]
  rw [spec_fields_token _ _ (fmt_u_nows _) (fmt_u_ne_nil _) hsp]
  rw [spec_fields_token _ _ (fmt_lu_nows _) (fmt_lu_ne_nil _) hsp]
  rw [spec_fields_token _ _ (fmt_u_nows _) (fmt_u_ne_nil _) hsp]
  rw [spec_fields_token _ _ (fmt_u_nows _) (fmt_u_ne_nil _) hsp]
  rw [spec_fields_token _ _ (fmt_u_nows _) (fmt_u_ne_nil _) hsp]
  rw [spec_fields_token _ _ (fmt_u_nows _) (fmt_u_ne_nil _) hsp]
  rw [spec_fields_token _ _ (fmt_u_nows _) (fmt_u_ne_nil _) hsp]
  rw [spec_fields_token _ _ (fmt_u_nows _) (fmt_u_ne_nil _) hsp]
  rw [spec_fields_token _ _ (sprint_hist_text_nows _) hh hsp]
  rfl

theorem sprint_hist_text_ne_nil {hist : List Nat} (h : hist ≠ []) : sprint_hist_text hist ≠ [] := by
  cases hist with
  | nil => exact absurd rfl h
  | cons a l =>
    unfold sprint_hist_text
    rw [List.flatMap_cons]
    simp

theorem buf_write_length {tbuf txt : List Char} {off : Nat}
    (h : off + txt.length ≤ tbuf.length) : (buf_write tbuf off txt).length = tbuf.length := by
  unfold buf_write
  simp only [List.length_take, List.length_append, List.length_drop]
  omega

theorem buf_write_take {tbuf txt : List Char} {off : Nat}
    (h : off + txt.length ≤ tbuf.length) :
    (buf_write tbuf off txt).take (off + txt.length) = tbuf.take off ++ txt := by
  unfold buf_write
  rw [List.take_take, min_eq_left h]
  have hl : (tbuf.take off ++ txt).length = off + txt.length := by
    simp only [List.length_append, List.length_take]
    omega
  rw [← hl, List.take_left]

/-- A `snprintf` whose text and NUL fit the given size and the array. -/
theorem snprintf_fit {tbuf txt : List Char} {off size : Nat} (h1 : txt.length < size)
    (h2 : off + size ≤ tbuf.length) :
    (snprintf tbuf off size txt).1.length = tbuf.length ∧
    (snprintf tbuf off size txt).1.take (off + txt.length) = tbuf.take off ++ txt ∧
    (snprintf tbuf off size txt).2 = txt.length := by
  unfold snprintf
  rw [if_neg (by omega)]
  simp only
  have ht : txt.take (size - 1) = txt := List.take_of_length_le (by omega)
  rw [ht]
  have hw : off + (txt ++ [Char.ofNat 0]).length ≤ tbuf.length := by
    simp only [List.length_append, List.length_cons, List.length_nil]
    omega
  refine ⟨buf_write_length hw, ?_, trivial⟩
  have h3 := buf_write_take hw
  have h4 : (buf_write tbuf off (txt ++ [Char.ofNat 0])).take (off + txt.length) =
      ((buf_write tbuf off (txt ++ [Char.ofNat 0])).take
        (off + (txt ++ [Char.ofNat 0]).length)).take (off + txt.length) := by
    rw [List.take_take]
    congr 1
    simp only [List.length_append, List.length_cons, List.length_nil]
    omega
  rw [h4, h3, ← List.append_assoc]
  have hl : (tbuf.take off ++ txt).length = off + txt.length := by
    simp only [List.length_append, List.length_take]
    omega
  rw [← hl, List.take_left]

theorem take_set_succ {α : Type} :
    ∀ (l : List α) (i : Nat) (c : α), i < l.length → (l.set i c).take (i + 1) = l.take i ++ [c]
  | [], _, _, h => by simp at h
  | _ :: l, 0, c, _ => by simp
  | a :: l, i + 1, c, h => by
    simp only [List.set_cons_succ, List.take_succ_cons, List.cons_append]
    rw [take_set_succ l i c (by simpa using h)]

/-- The histogram loop with room for all its text. -/
theorem sprint_histogram_fit (n : Nat) (hist : List Nat) :
    ∀ (fuel index : Nat) (tbuf : List Char) (size : Nat), index + fuel ≤ hist.length →
      n ≤ tbuf.length →
      size + (sprint_hist_text ((hist.drop index).take fuel)).length + 2 ≤ n →
      ∃ tb, sprint_histogram n hist fuel index tbuf size =
          some (tb, size + (sprint_hist_text ((hist.drop index).take fuel)).length) ∧
        tb.length = tbuf.length ∧
        tb.take (size + (sprint_hist_text ((hist.drop index).take fuel)).length) =
          tbuf.take size ++ sprint_hist_text ((hist.drop index).take fuel)
  | 0, index, tbuf, size, _, _, _ => by
    refine ⟨tbuf, ?_, rfl, ?_⟩
    · simp [sprint_histogram, sprint_hist_text]
    · simp [sprint_hist_text]
  | fuel + 1, index, tbuf, size, hidx, hbuf, hroom => by
    have hlt : index < hist.length := by omega
    have hget : hist[index]? = some hist[index] := List.getElem?_eq_getElem hlt
    have hdrop : (hist.drop index).take (fuel + 1) =
        hist[index] :: (hist.drop (index + 1)).take fuel := by
      rw [List.drop_eq_getElem_cons hlt, List.take_succ_cons]
    have htext : sprint_hist_text ((hist.drop index).take (fuel + 1)) =
        (fmt_u hist[index] ++ [',']) ++ sprint_hist_text ((hist.drop (index + 1)).take fuel) := by
      rw [hdrop]
      unfold sprint_hist_text
      rw [List.flatMap_cons]
    rw [htext] at hroom ⊢
    rw [List.length_append] at hroom ⊢
    have hpos : 0 < (fmt_u hist[index] ++ [',']).length := by simp
    obtain ⟨f1, f2, f3⟩ := @snprintf_fit tbuf (fmt_u hist[index] ++ [',']) size (n - size)
      (by omega) (by omega)
    unfold sprint_histogram
    rw [if_pos (by omega), hget]
    simp only
    rw [f3, min_eq_right (by omega)]
    obtain ⟨tb, g1, g2, g3⟩ := sprint_histogram_fit n hist fuel (index + 1)
      (snprintf tbuf size (n - size) (fmt_u hist[index] ++ [','])).1
      (size + (fmt_u hist[index] ++ [',']).length) (by omega) (by rw [f1]; exact hbuf)
      (by omega)
    refine ⟨tb, ?_, g2.trans f1, ?_⟩
    · rw [g1, Nat.add_assoc]
    · rw [← Nat.add_assoc, g3, f2, List.append_assoc]

/-- With room for the whole line, `tcpflowspy_sprint` writes exactly the line
and returns its length. -/
theorem print_record_line (cfg : Config) (start : timespec) (fl : Nat) (pr : tcp_flow_log)
    (tbuf : List Char) (n : Nat)
    (hh : cfg.number_of_buckets.toNat ≤ pr.snd_cwnd_histogram.length)
    (hn : (sprint_line cfg start fl pr).length ≤ n) (hbuf : n ≤ tbuf.length) :
    ∃ tb, print_record cfg start fl pr tbuf n =
        some (tb, (sprint_line cfg start fl pr).length) ∧
      tb.take (sprint_line cfg start fl pr).length = sprint_line cfg start fl pr := by
  unfold sprint_line at hn ⊢
  simp only [List.length_append, List.length_cons, List.length_nil] at hn ⊢
  unfold print_record
  simp only
  generalize sprint_header cfg (tcpprobe_timespec_sub pr.last_packet_tstamp start)
    (tcpprobe_timespec_sub pr.last_packet_tstamp pr.first_packet_tstamp) fl pr = H at hn ⊢
  have hd0 : pr.snd_cwnd_histogram.take cfg.number_of_buckets.toNat =
      (pr.snd_cwnd_histogram.drop 0).take cfg.number_of_buckets.toNat := by
    rw [List.drop_zero]
  rw [hd0] at hn ⊢
  obtain ⟨f1, f2, f3⟩ := @snprintf_fit tbuf H 0 n (by omega) (by omega)
  rw [f3]
  obtain ⟨tb, g1, g2, g3⟩ := sprint_histogram_fit n pr.snd_cwnd_histogram
    cfg.number_of_buckets.toNat 0 (snprintf tbuf 0 n H).1 H.length (by omega)
    (by rw [f1]; exact hbuf) (by omega)
  rw [g1]
  simp only
  generalize (sprint_hist_text
    ((pr.snd_cwnd_histogram.drop 0).take cfg.number_of_buckets.toNat)) = T at hn g1 g3 ⊢
  have hlen : tb.length = tbuf.length := g2.trans f1
  have e3 : tb.take (H.length + T.length) = H ++ T := by
    rw [g3]
    have := f2
    simp only [Nat.zero_add, List.take_zero, List.nil_append] at this
    rw [this]
  rw [if_pos (by omega), if_pos (by omega)]
  rw [min_eq_right (by omega), min_eq_right (by omega)]
  refine ⟨_, rfl, ?_⟩
  have h1 := take_set_succ (tb.set (H.length + T.length) ' ') (H.length + T.length + 1) '\n'
    (by rw [List.length_set]; omega)
  have h2 := take_set_succ tb (H.length + T.length) ' ' (by omega)
  rw [h1, h2, e3]
  simp

/-- A call of `tcpflowspy_sprint` that returns a positive size has written the
text of one record: with flag 1 the head of the finished queue, with flag 0 a
record selected by the live scan. -/
theorem tcpflowspy_sprint_print {cfg : Config} {st s : State} {now : timespec}
    {tbuf tb : List Char} {n w : Nat}
    (hs : tcpflowspy_sprint cfg st now tbuf n = some (s, tb, w)) (hw : w ≠ 0) :
    ∃ (p : Nat) (pr : tcp_flow_log) (fl : Nat), s.storage[p]? = some pr ∧
      ((fl = 1 ∧ st.finished = some p) ∨ (fl = 0 ∧ st.finished = none ∧ cfg.live ≠ 0)) ∧
      print_record cfg st.start fl pr tbuf n = some (tb, w) := by
  rw [tcpflowspy_sprint_eq] at hs
  cases hsel : sprint_select cfg st with
  | none => rw [hsel] at hs; cases hs
  | some x =>
    obtain ⟨s1, po, fl⟩ := x
    rw [hsel] at hs
    have hfacts : s1.start = st.start ∧
        ((fl = 1 ∧ st.finished = po) ∨ (fl = 0 ∧ st.finished = none ∧ cfg.live ≠ 0)) := by
      unfold sprint_select at hsel
      by_cases hc : st.finished = none ∧ cfg.live ≠ 0
      · rw [if_pos hc] at hsel
        cases hl : live_scan cfg st.storage (max 1 cfg.bufsize) st.last_printed_flow_index with
        | none => rw [hl] at hsel; cases hsel
        | some y =>
          obtain ⟨idx, q⟩ := y
          rw [hl] at hsel
          simp only [Option.some.injEq, Prod.mk.injEq] at hsel
          obtain ⟨e1, _, e3⟩ := hsel
          exact ⟨by rw [← e1], Or.inr ⟨e3.symm, hc.1, hc.2⟩⟩
      · rw [if_neg hc] at hsel
        simp only [Option.some.injEq, Prod.mk.injEq] at hsel
        obtain ⟨e1, e2, e3⟩ := hsel
        exact ⟨by rw [← e1], Or.inl ⟨e3.symm, e2⟩⟩
    cases po with
    | none =>
      simp only [Option.some.injEq, Prod.mk.injEq] at hs
      exact absurd hs.2.2.symm hw
    | some p =>
      simp only at hs
      cases hwr : wr s1 s1.last_printed_flow_index (set_last_printed now) with
      | none => rw [hwr] at hs; cases hs
      | some s2 =>
        rw [hwr] at hs
        simp only at hs
        have hstart : s2.start = s1.start := by
          unfold wr at hwr
          cases hg : s1.storage[s1.last_printed_flow_index]? with
          | none => rw [hg] at hwr; cases hwr
          | some r =>
            rw [hg] at hwr
            have := Option.some.inj hwr
            rw [← this]
        cases hpr : s2.storage[p]? with
        | none => rw [hpr] at hs; cases hs
        | some pr =>
          rw [hpr] at hs
          simp only at hs
          cases hp : print_record cfg s2.start fl pr tbuf n with
          | none => rw [hp] at hs; cases hs
          | some x =>
            rw [hp] at hs
            simp only [Option.some.injEq, Prod.mk.injEq] at hs
            obtain ⟨e1, e2, e3⟩ := hs
            subst e1
            refine ⟨p, pr, fl, hpr, ?_, ?_⟩
            · rcases hfacts.2 with ⟨a, b⟩ | ⟨a, b, c⟩
              · exact Or.inl ⟨a, b⟩
              · exact Or.inr ⟨a, b, c⟩
            · rw [← hfacts.1, ← hstart, hp, ← e2, ← e3]

theorem demo_timed_reachable : Reachable demo_cfg demo_timed :=
  Reachable.of_run_rcv
    [demo_rcv_at 1 2 3 4 true false false 0 0 ⟨5, 100⟩ ⟨5, 100⟩,
     demo_rcv_at 1 2 3 4 false true false 0 0 ⟨7, 300⟩ ⟨7, 300⟩]
    demo_init demo_timed (Reachable.init demo_init_eq) (by decide)

theorem jtcp_v4_do_rcv_pass {cfg : Config} (st : State) (e : rcv_event)
    (h : cfg.port = 0 ∨ (ntohs cfg e.dest : Int) = cfg.port ∨
      (ntohs cfg e.source : Int) = cfg.port) :
    jtcp_v4_do_rcv cfg st e = jtcp_v4_do_rcv (no_filter cfg) st e := by
  have h0 : (no_filter cfg).port = 0 := rfl
  unfold jtcp_v4_do_rcv
  rw [if_pos h, if_pos (Or.inl h0)]
  rfl

theorem jtcp_transmit_skb_pass {cfg : Config} (st : State) (e : xmit_event)
    (h : cfg.port = 0 ∨ (ntohs cfg e.sport : Int) = cfg.port ∨
      (ntohs cfg e.dport : Int) = cfg.port) :
    jtcp_transmit_skb cfg st e = jtcp_transmit_skb (no_filter cfg) st e := by
  have h0 : (no_filter cfg).port = 0 := rfl
  unfold jtcp_transmit_skb
  rw [if_pos h, if_pos (Or.inl h0)]
  rfl

theorem is_dpath_iff {S : List tcp_flow_log} :
    ∀ (l : List Nat) (pv p : Option Nat), is_dpath S pv p l = true ↔ IsDPath S pv p l
  | [], pv, p => by
    cases p <;> simp [is_dpath, IsDPath]
  | i :: l, pv, p => by
    unfold is_dpath IsDPath
    cases hs : S[i]? with
    | none => simp
    | some r =>
      simp only [Bool.and_eq_true, decide_eq_true_eq, is_dpath_iff l (some i) r.next]
      constructor
      · rintro ⟨h1, h2, h3⟩
        exact ⟨h1, r, rfl, h2, h3⟩
      · rintro ⟨h1, r1, hr1, h2, h3⟩
        cases hr1
        exact ⟨h1, h2, h3⟩

theorem IsPath.at_suffix {S : List tcp_flow_log} {x : Nat} {l2 : List Nat} :
    ∀ (l1 : List Nat) (p : Option Nat), IsPath S p (l1 ++ x :: l2) →
      ∃ rx, S[x]? = some rx ∧ IsPath S rx.next l2
  | [], _, ⟨_, r, hr, h2⟩ => ⟨r, hr, h2⟩
  | _ :: l1, _, ⟨_, _, _, h2⟩ => IsPath.at_suffix l1 _ h2

/-- A walk that ends visits no slot twice. -/
theorem IsPath.nodup_path {S : List tcp_flow_log} :
    ∀ (l : List Nat) (p : Option Nat), IsPath S p l → l.Nodup
  | [], _, _ => List.nodup_nil
  | i :: l, _, ⟨_, r, hr, h2⟩ => by
    refine List.nodup_cons.2 ⟨?_, IsPath.nodup_path l _ h2⟩
    intro hi
    obtain ⟨a, c, hl⟩ := List.append_of_mem hi
    rw [hl] at h2
    obtain ⟨rx, hrx, hc⟩ := IsPath.at_suffix a _ h2
    have hrr : rx = r := by rw [hr] at hrx; exact (Option.some.inj hrx).symm
    subst hrr
    have := congrArg List.length (IsPath.unique h2 hc)
    simp at this
    omega

/-- When some slot is pending, the ring walk from the cursor meets a first
pending slot within `bufsize` steps. -/
theorem first_pending_exists {cfg : Config} {st : State} {F : List Nat} {C : Nat → List Nat}
    {Q : List Nat} (h : FlowInv cfg st F C Q) {i : Nat} (hi : i < cfg.bufsize)
    (hp : pending_at st.storage i = true) :
    ∃ k, 1 ≤ k ∧ k ≤ cfg.bufsize ∧
      pending_at st.storage ((st.last_printed_flow_index + k) % cfg.bufsize) = true ∧
      ∀ k1, 1 ≤ k1 → k1 < k →
        pending_at st.storage ((st.last_printed_flow_index + k1) % cfg.bufsize) = false := by
  obtain ⟨k0, h1, h2, h3⟩ := scan_covers h.cursor hi
  have hex : ∃ k, 1 ≤ k ∧ k ≤ cfg.bufsize ∧
      pending_at st.storage ((st.last_printed_flow_index + k) % cfg.bufsize) = true :=
    ⟨k0, h1, h2, by rw [h3]; exact hp⟩
  refine ⟨Nat.find hex, (Nat.find_spec hex).1, (Nat.find_spec hex).2.1,
    (Nat.find_spec hex).2.2, ?_⟩
  intro k1 hk1 hlt
  have hmin := Nat.find_min hex hlt
  have hle : k1 ≤ cfg.bufsize := le_trans (le_of_lt hlt) (Nat.find_spec hex).2.1
  cases hb : pending_at st.storage ((st.last_printed_flow_index + k1) % cfg.bufsize) with
  | false => rfl
  | true => exact absurd ⟨hk1, hle, hb⟩ hmin

/-- One iteration of the read loop keeps every quantity of a record that does
not depend on `last_printed_tstamp`, `used` and `next`. -/
theorem FlowInv.read_step_keeps {α : Type} (f : tcp_flow_log → α)
    (f1 : ∀ t r, f (set_last_printed t r) = f r) (f2 : ∀ u r, f (set_used u r) = f r)
    (f3 : ∀ nx r, f (set_next nx r) = f r)
    {cfg : Config} {st s : State} {F : List Nat}
    {C : Nat → List Nat} {Q : List Nat} (h : FlowInv cfg st F C Q)
    {signal : Bool} {now_read now_print : timespec} {tbuf : List Char} {cnt len : Nat}
    {res : read_result}
    (hs : read_step cfg st signal now_read now_print tbuf cnt len = some (s, res)) :
    ∃ (F1 : List Nat) (Q1 : List Nat), FlowInv cfg s F1 C Q1 ∧
      ∀ i : Nat, (s.storage[i]?).map f = (st.storage[i]?).map f := by
  have hfin : IsPath st.storage st.finished Q := h.fin
  have h1 := h.set_last_read now_read
  obtain ⟨s2, tb, w, hsp, hinv2, _, _, _, hav2, hf2, _, hw, hm⟩ :=
    h1.sprint now_print tbuf PRINT_BUFF_SIZE
  have hk2 : ∀ i : Nat, (s2.storage[i]?).map f = (st.storage[i]?).map f := by
    intro i
    rw [hm i]
    show Option.map f (Option.map _ st.storage[i]?) = _
    cases st.storage[i]? with
    | none => rfl
    | some r =>
      simp only [Option.map_some']
      by_cases hc : w ≠ 0 ∧ i = s2.last_printed_flow_index
      · rw [if_pos hc, f1]
      · rw [if_neg hc]
  unfold read_step at hs
  simp only at hs
  split_ifs at hs with c1 c2 c3
  · cases hs; exact ⟨F, Q, h, fun _ => rfl⟩
  · cases hs; exact ⟨F, Q, h1, fun _ => rfl⟩
  · cases hs; exact ⟨F, Q, h1, fun _ => rfl⟩
  · rw [hsp] at hs
    simp only at hs
    by_cases c4 : w = 0
    · rw [if_pos c4] at hs
      cases hs; exact ⟨F, Q, hinv2, hk2⟩
    rw [if_neg c4] at hs
    cases Q with
    | nil =>
      have hn : s2.finished = none := hf2.trans hfin
      rw [hn] at hs
      simp only at hs
      by_cases hlen : len ≤ cnt + w
      · rw [if_pos hlen] at hs; cases hs; exact ⟨F, [], hinv2, hk2⟩
      · rw [if_neg hlen] at hs; cases hs; exact ⟨F, [], hinv2, hk2⟩
    | cons q Q1 =>
      have hq : s2.finished = some q := hf2.trans hfin.1
      rw [hq] at hs
      simp only at hs
      by_cases hlt : cnt + w < len
      · rw [if_pos hlt] at hs
        obtain ⟨s3, hrec, hinv3, _, _, _, _, _, _, hm3⟩ := hinv2.recycle
        rw [hrec] at hs
        simp only at hs
        rw [if_neg (by omega)] at hs
        have hs3 : s = s3 := by cases hs; rfl
        subst hs3
        refine ⟨q :: F, Q1, hinv3, ?_⟩
        intro i
        rw [← hk2 i, hm3 i]
        cases s2.storage[i]? with
        | none => rfl
        | some r =>
          simp only [Option.map_some']
          unfold recycle_rec
          by_cases hc : i = q
          · rw [if_pos hc, f2, f3]
          · rw [if_neg hc]
      · rw [if_neg hlt] at hs
        simp only at hs
        rw [if_pos (by omega)] at hs
        cases hs; exact ⟨F, q :: Q1, hinv2, hk2⟩

theorem flow_update_identity {cfg : Config} {ev : flow_event} {a a1 : tcp_flow_log}
    (h : flow_update cfg ev a = some a1) :
    identity a1 = identity a ∨ identity a1 = (ev.saddr, ev.daddr, ev.sport, ev.dport) := by
  cases ev with
  | rcv e =>
    obtain ⟨h4, h5, h6, h7⟩ := rcv_update_identity h
    right
    unfold identity
    rw [h4, h5, h6, h7]
    rfl
  | xmit e =>
    obtain ⟨_, _, _, h4, h5, h6, h7, _⟩ := xmit_update_frame h
    left
    unfold identity
    rw [h4, h5, h6, h7]

theorem flow_update_identity_fresh {cfg : Config} {ev : flow_event} {r0 a1 : tcp_flow_log}
    (h : flow_update cfg ev (ev.fresh cfg r0) = some a1) :
    identity a1 = (ev.saddr, ev.daddr, ev.sport, ev.dport) := by
  rcases flow_update_identity h with h1 | h1
  · cases ev with
    | rcv e =>
      obtain ⟨h4, h5, h6, h7⟩ := rcv_update_identity h
      unfold identity
      rw [h4, h5, h6, h7]
      rfl
    | xmit e => rw [h1]; rfl
  · exact h1

theorem hash_of_identity {cfg : Config} {r : tcp_flow_log} {sa da sp dp : Nat}
    (h : identity r = (sa, da, sp, dp)) :
    skb_hash_function cfg r.saddr r.daddr r.sport r.dport = skb_hash_function cfg sa da sp dp := by
  unfold identity at h
  simp only [Prod.mk.injEq] at h
  rw [h.1, h.2.1, h.2.2.1, h.2.2.2]

theorem hash_of_identity_eq {cfg : Config} {r r1 : tcp_flow_log}
    (h : identity r1 = identity r) :
    skb_hash_function cfg r1.saddr r1.daddr r1.sport r1.dport =
      skb_hash_function cfg r.saddr r.daddr r.sport r.dport :=
  hash_of_identity h

theorem hash_same_of_strip {cfg : Config} {S S1 : List tcp_flow_log} {i : Nat}
    {r1 : tcp_flow_log} (hd : (S1[i]?).map strip = (S[i]?).map strip)
    (hr1 : S1[i]? = some r1) :
    ∃ r, S[i]? = some r ∧
      skb_hash_function cfg r1.saddr r1.daddr r1.sport r1.dport =
        skb_hash_function cfg r.saddr r.daddr r.sport r.dport := by
  have := identity_of_strip_eq hd
  rw [hr1] at this
  cases hs : S[i]? with
  | none => rw [hs] at this; cases this
  | some r =>
    rw [hs] at this
    exact ⟨r, rfl, hash_of_identity_eq (Option.some.inj this)⟩

/-- A storage with the same stored identities keeps the invariant for chains
that only lost records. -/
theorem BucketInv.of_same_identity {cfg : Config} {st s : State} {C C1 : Nat → List Nat}
    (hb : BucketInv cfg st C) (hsub : ∀ b, b < cfg.bufsize → ∀ i ∈ C1 b, i ∈ C b)
    (hid : ∀ i : Nat, (s.storage[i]?).map identity = (st.storage[i]?).map identity) :
    BucketInv cfg s C1 := by
  intro b hbl i hi r1 hr1
  have := hid i
  rw [hr1] at this
  cases hs : st.storage[i]? with
  | none => rw [hs] at this; cases this
  | some r =>
    rw [hs] at this
    have e : identity r1 = identity r := Option.some.inj this
    rw [hash_of_identity_eq e]
    exact hb b hbl i (hsub b hbl i hi) r hs

/-- A probe keeps every indexed record in the bucket of its stored
identity. -/
theorem EventOutcome.bucket {cfg : Config} {st s : State} {F : List Nat} {C : Nat → List Nat}
    {Q : List Nat} {ev : flow_event} (h : FlowInv cfg st F C Q) (hb : BucketInv cfg st C)
    (ho : EventOutcome cfg st s F C Q ev) :
    ∃ (F1 : List Nat) (C1 : Nat → List Nat) (Q1 : List Nat),
      FlowInv cfg s F1 C1 Q1 ∧ BucketInv cfg s C1 := by
  have hbl : ev.bucket cfg < cfg.bufsize := h.hash_lt _ _ _ _
  rcases ho with ⟨rfl, _⟩ | ⟨_, p, l1, l2, a, a1, hC, _, _, ha, hupd, ha1, ho, hk, hf⟩ |
    ⟨_, _, _, p, F1, r0, a1, hF, hr0, hupd, ha1, ho, hk, hf⟩
  · exact ⟨F, C, Q, h, hb⟩
  · have hpC : p ∈ C (ev.bucket cfg) := by rw [hC]; simp
    -- the invariant on the old chains, in the new storage
    have hnew : BucketInv cfg s C := by
      intro b hbb i hi r1 hr1
      by_cases hip : i = p
      · subst hip
        have hbe : b = ev.bucket cfg := by
          by_contra hne
          exact h.chain_disjoint hbb hbl hne hi hpC
        subst hbe
        rw [hr1] at ha1
        have e1 : identity r1 = identity a1 := by
          rw [← Option.some.inj ha1]; rfl
        obtain ⟨r, hr, hra⟩ := map_strip_eq_some ha
        have e0 : identity r = identity a := by rw [← hra]; rfl
        rcases flow_update_identity hupd with h1 | h1
        · rw [hash_of_identity_eq (e1.trans (h1.trans e0.symm))]
          exact hb _ hbl i hpC r hr
        · rw [hash_of_identity (e1.trans h1)]
          rfl
      · obtain ⟨r, hr, he⟩ := hash_same_of_strip (ho i hip) hr1
        rw [he]
        exact hb b hbb i hi r hr
    cases ht : ev.terminates with
    | false => exact ⟨F, C, Q, hk ht, hnew⟩
    | true =>
      refine ⟨F, _, _, hf ht, ?_⟩
      intro b hbb i hi r1 hr1
      refine hnew b hbb i ?_ r1 hr1
      by_cases hbe : b = ev.bucket cfg
      · subst hbe
        rw [Function.update_same] at hi
        rw [hC]
        rcases List.mem_append.1 hi with hx | hx
        · exact List.mem_append.2 (Or.inl hx)
        · exact List.mem_append.2 (Or.inr (List.mem_cons_of_mem _ hx))
      · rw [Function.update_noteq hbe] at hi
        exact hi
  · subst hF
    have hpF : p ∈ p :: F1 := List.mem_cons_self _ _
    have hold : ∀ b, b < cfg.bufsize → ∀ i ∈ C b, ∀ r1, s.storage[i]? = some r1 →
        skb_hash_function cfg r1.saddr r1.daddr r1.sport r1.dport = b := by
      intro b hbb i hi r1 hr1
      have hip : i ≠ p := fun e => h.free_not_chain hbb hpF (e ▸ hi)
      obtain ⟨r, hr, he⟩ := hash_same_of_strip (ho i hip) hr1
      rw [he]
      exact hb b hbb i hi r hr
    cases ht : ev.terminates with
    | false =>
      refine ⟨F1, _, _, hk ht, ?_⟩
      intro b hbb i hi r1 hr1
      by_cases hbe : b = ev.bucket cfg
      · subst hbe
        rw [Function.update_same] at hi
        rcases List.mem_append.1 hi with hx | hx
        · exact hold _ hbb i hx r1 hr1
        · have hip : i = p := List.mem_singleton.1 hx
          subst hip
          rw [hr1] at ha1
          have e1 : identity r1 = identity a1 := by
            rw [← Option.some.inj ha1]; rfl
          rw [hash_of_identity (e1.trans (flow_update_identity_fresh hupd))]
          rfl
      · rw [Function.update_noteq hbe] at hi
        exact hold b hbb i hi r1 hr1
    | true => exact ⟨F1, C, _, hf ht, hold⟩

/-- In every reachable state every indexed record is in the bucket of its
stored identity. -/
theorem Reachable.bucket_inv {cfg : Config} {st : State} (hr : Reachable cfg st)
    (hcap : 1 ≤ cfg.bufsize) :
    ∃ (F : List Nat) (C : Nat → List Nat) (Q : List Nat),
      FlowInv cfg st F C Q ∧ BucketInv cfg st C := by
  induction hr with
  | init h => exact ⟨_, _, _, init_inv h hcap, fun b _ i hi => by cases hi⟩
  | rcv e _ hs ih =>
    obtain ⟨F, C, Q, h, hb⟩ := ih
    exact EventOutcome.bucket h hb (h.rcv_cases e hs)
  | xmit e _ hs ih =>
    obtain ⟨F, C, Q, h, hb⟩ := ih
    exact EventOutcome.bucket h hb (h.xmit_cases e hs)
  | prune now _ hs ih =>
    obtain ⟨F, C, Q, h, hb⟩ := ih
    obtain ⟨s1, P, h1, h2, _, hd, _⟩ := h.prune now
    rw [hs] at h1; cases h1
    exact ⟨F, _, _, h2, hb.of_same_identity (fun _ _ _ hx => (List.mem_filter.1 hx).1)
      (fun i => identity_of_strip_eq (hd i))⟩
  | read signal now_read now_print tbuf cnt len res _ hs ih =>
    obtain ⟨F, C, Q, h, hb⟩ := ih
    obtain ⟨F1, Q1, h1, hid⟩ := FlowInv.read_step_keeps identity (fun _ _ => rfl)
      (fun _ _ => rfl) (fun _ _ => rfl) h hs
    exact ⟨F1, C, Q1, h1, hb.of_same_identity (fun _ _ _ hx => hx) hid⟩
  | opened t1 t2 t3 _ ih =>
    obtain ⟨F, C, Q, h, hb⟩ := ih
    exact ⟨F, C, Q, h.open_ok t1 t2 t3, hb⟩

theorem demo_flipped_reachable : Reachable demo_cfg demo_flipped :=
  Reachable.of_run_rcv
    [demo_rcv 1 2 3 4 true false false 0 0 1, demo_rcv 2 1 4 3 false false false 0 0 2]
    demo_init demo_flipped (Reachable.init demo_init_eq) (by decide)

/-- The sequence test of the receive path on one record.  For every record
`r` (its out-of-order counter a `u32`) and every receive event `e`, with
`s = ntohl(th->seq)` and `L = r.last_recv_seq`: the accounting `rcv_account`
increments the out-of-order counter (as a `u32`, and by exactly one when it is
below `2^32 - 1`) if and only if `s < L`; when `s >= L` the counter is
unchanged and `last_recv_seq` becomes `s`; when `s < L`, `last_recv_seq` stays
`L`.  The established block that follows changes neither field, and the
update returns when the event is not reported established, and when the
histogram has the configured length and `window / bucketWidth < 2^31`. -/
theorem rcv_account_order (cfg : Config) (e : rcv_event) (r : tcp_flow_log)
    (hwf : r.out_of_order_packets < 2 ^ 32) :
    (((rcv_account cfg e r).out_of_order_packets = (r.out_of_order_packets + 1) % 2 ^ 32 ↔
        ntohl cfg e.seq < r.last_recv_seq) ∧
      (r.out_of_order_packets + 1 < 2 ^ 32 →
        ((rcv_account cfg e r).out_of_order_packets = r.out_of_order_packets + 1 ↔
          ntohl cfg e.seq < r.last_recv_seq)) ∧
      (r.last_recv_seq ≤ ntohl cfg e.seq →
        (rcv_account cfg e r).out_of_order_packets = r.out_of_order_packets ∧
        (rcv_account cfg e r).last_recv_seq = ntohl cfg e.seq) ∧
      (ntohl cfg e.seq < r.last_recv_seq →
        (rcv_account cfg e r).last_recv_seq = r.last_recv_seq)) ∧
    (∀ r1, rcv_update cfg e r = some r1 →
      r1.out_of_order_packets = (rcv_account cfg e r).out_of_order_packets ∧
      r1.last_recv_seq = (rcv_account cfg e r).last_recv_seq) ∧
    (e.sk_state ≠ TCP_ESTABLISHED → rcv_update cfg e r = some (rcv_account cfg e r)) ∧
    (1 ≤ cfg.number_of_buckets → 1 ≤ cfg.bucket_length → cfg.bucket_length < 2 ^ 31 →
      r.snd_cwnd_histogram.length = cfg.number_of_buckets.toNat →
      e.snd_cwnd / cfg.bucket_length.toNat < 2 ^ 31 →
      ∃ r1, rcv_update cfg e r = some r1) := by
  obtain ⟨a1, a2, _⟩ := rcv_account_seq cfg e r
  have hne : (r.out_of_order_packets + 1) % 2 ^ 32 ≠ r.out_of_order_packets := by
    rcases Nat.lt_or_ge (r.out_of_order_packets + 1) (2 ^ 32) with h1 | h1
    · rw [Nat.mod_eq_of_lt h1]; omega
    · have : r.out_of_order_packets + 1 = 2 ^ 32 := by omega
      rw [this, Nat.mod_self]; omega
  refine ⟨⟨?_, ?_, a1, fun hlt => (a2 hlt).2⟩, ?_, ?_, ?_⟩
  · constructor
    · intro heq
      by_contra hge
      have := (a1 (by omega)).1
      rw [this] at heq
      exact hne heq.symm
    · intro hlt; exact (a2 hlt).1
  · intro hnw
    constructor
    · intro heq
      by_contra hge
      have := (a1 (by omega)).1
      rw [this] at heq
      omega
    · intro hlt
      rw [(a2 hlt).1, Nat.mod_eq_of_lt hnw]
  · intro r1 h
    unfold rcv_update at h
    split_ifs at h
    · exact ⟨(sample_cwnd_seq h).1, (sample_cwnd_seq h).2.1⟩
    · have := Option.some.inj h
      rw [← this]; exact ⟨rfl, rfl⟩
  · intro hs
    unfold rcv_update
    rw [if_neg hs]
  · intro hnb hbl hbl2 hlen hw
    exact rcv_update_total hnb hbl (by omega) e
      (in_range_of_window hbl hbl2 e (fun _ => hw)) r hlen

/-- An established event with sequence number 0 and window 5 applied to a
record that has seen sequence number 7: the event is out of order, and the
update returns. -/
theorem rcv_account_order_demo :
    demo_seen.out_of_order_packets < 2 ^ 32 ∧
    ((rcv_account demo_cfg (demo_rcv 1 2 3 4 false false false 1 5 2)
        demo_seen).out_of_order_packets = (demo_seen.out_of_order_packets + 1) % 2 ^ 32 ↔
      ntohl demo_cfg (demo_rcv 1 2 3 4 false false false 1 5 2).seq < demo_seen.last_recv_seq) ∧
    ntohl demo_cfg (demo_rcv 1 2 3 4 false false false 1 5 2).seq < demo_seen.last_recv_seq ∧
    ∃ r1, rcv_update demo_cfg (demo_rcv 1 2 3 4 false false false 1 5 2) demo_seen = some r1 :=
  ⟨by decide,
    (rcv_account_order demo_cfg (demo_rcv 1 2 3 4 false false false 1 5 2) demo_seen (by decide)).1.1,
    by decide,
    (rcv_account_order demo_cfg (demo_rcv 1 2 3 4 false false false 1 5 2) demo_seen (by decide)).2.2.2
      (by decide) (by decide) (by decide) (by decide) (by decide)⟩

/-- For every reachable state (capacity at least 1), represented by the free
list `F`, the chains `C` and the finished queue `Q`, and every receive or
transmit event whose identity `is_log_for_skb` accepts for no record linked in
a bucket chain: if the event carries no SYN, or the free list is empty, the
probe returns the state it was given, unchanged in every field (pool, buckets,
free list, finished queue, timestamps, cursor). -/
theorem unmatched_event_leaves_state {cfg : Config} {st : State} (hr : Reachable cfg st)
    (hcap : 1 ≤ cfg.bufsize) :
    ∃ (F : List Nat) (C : Nat → List Nat) (Q : List Nat), FlowInv cfg st F C Q ∧
      (∀ e : rcv_event,
        (∀ b i, b < cfg.bufsize → i ∈ C b →
          match_at st.storage e.saddr e.daddr e.source e.dest i = false) →
        (e.syn = false ∨ F = []) → jtcp_v4_do_rcv cfg st e = some st) ∧
      (∀ e : xmit_event,
        (∀ b i, b < cfg.bufsize → i ∈ C b →
          match_at st.storage e.saddr e.daddr e.sport e.dport i = false) →
        ((e.flags &&& TCPHDR_SYN) = 0 ∨ F = []) → jtcp_transmit_skb cfg st e = some st) := by
  obtain ⟨F, C, Q, h⟩ := hr.good hcap
  refine ⟨F, C, Q, h, fun e hno hdrop => ?_, fun e hno hdrop => ?_⟩
  · exact h.rcv_ignored e (fun i hi => hno _ i (h.hash_lt _ _ _ _) hi) hdrop
  · exact h.xmit_ignored e (fun i hi => hno _ i (h.hash_lt _ _ _ _) hi) hdrop

/-- On the state after one SYN of the flow `(1, 2, 3, 4)`, a receive event and
a transmit event for `(9, 9, 9, 9)` without SYN leave the state as it is. -/
theorem unmatched_event_leaves_state_demo :
    1 ≤ demo_cfg.bufsize ∧
    jtcp_v4_do_rcv demo_cfg demo_open (demo_rcv 9 9 9 9 false false false 0 0 5) =
      some demo_open ∧
    jtcp_transmit_skb demo_cfg demo_open (demo_xmit 9 9 9 9 0 0 0 5) = some demo_open := by
  obtain ⟨F, C, Q, h, hrcv, hxmit⟩ :=
    unmatched_event_leaves_state demo_open_reachable (by decide)
  have hlt : ∀ b i, b < demo_cfg.bufsize → i ∈ C b → i < 4 := fun b i hb hi =>
    h.lt_of_mem (h.mem_chain hb hi)
  have hno : ∀ i, i < 4 → match_at demo_open.storage 9 9 9 9 i = false := by decide
  exact ⟨by decide, hrcv _ (fun b i hb hi => hno i (hlt b i hb hi)) (Or.inl rfl),
    hxmit _ (fun b i hb hi => hno i (hlt b i hb hi)) (Or.inl (by decide))⟩

/-- What the probes do to the stored identity.  In every reachable state
(capacity at least 1), for every record in use: a transmit probe that returns
leaves its stored identity unchanged; a receive probe that returns leaves its
stored identity unchanged unless the event passes the port test and the lookup
resolves the event to that record, and then the stored identity is the
identity the event carries (`saddr`, `daddr`, `source`, `dest` of the
packet). -/
theorem stored_identity_after_event {cfg : Config} {st : State} (hr : Reachable cfg st)
    (hcap : 1 ≤ cfg.bufsize) :
    (∀ (e : xmit_event) (s : State), jtcp_transmit_skb cfg st e = some s →
      ∀ (i : Nat) (r : tcp_flow_log), st.storage[i]? = some r → r.used ≠ 0 →
        (s.storage[i]?).map identity = some (identity r)) ∧
    (∀ (e : rcv_event) (s : State), jtcp_v4_do_rcv cfg st e = some s →
      ∀ (i : Nat) (r : tcp_flow_log), st.storage[i]? = some r → r.used ≠ 0 →
        (s.storage[i]?).map identity =
          some (if (cfg.port = 0 ∨ (ntohs cfg e.dest : Int) = cfg.port ∨
                (ntohs cfg e.source : Int) = cfg.port) ∧
              find_flow_log_for_skb cfg st e.saddr e.daddr e.source e.dest = some (some i)
            then (e.saddr, e.daddr, e.source, e.dest) else identity r)) := by
  obtain ⟨F, C, Q, h, hu⟩ := hr.used_inv hcap
  constructor
  · intro e s hs i r hri hused
    have hid : (st.storage[i]?).map identity = some (identity r) := by rw [hri]; rfl
    rcases h.xmit_cases e hs with ⟨rfl, _⟩ |
      ⟨_, p, l1, l2, a, a1, hC, _, _, ha, hupd, ha1, ho, _, _⟩ |
      ⟨_, _, _, p, F1, r0, a1, hF, hr0, hupd, ha1, ho, _, _⟩
    · exact hid
    · by_cases hi : i = p
      · subst hi
        rw [identity_of_data ha1]
        have e1 := identity_of_data ha
        rw [hid] at e1
        rw [Option.some.inj e1]
        obtain ⟨_, _, _, h4, h5, h6, h7, _⟩ := xmit_update_frame hupd
        simp only [identity, h4, h5, h6, h7]
      · rw [identity_of_strip_eq (ho i hi), hid]
    · by_cases hi : i = p
      · subst hi
        exfalso
        exact hused ((hu i r hri).1 (by rw [hF]; exact List.mem_cons_self _ _))
      · rw [identity_of_strip_eq (ho i hi), hid]
  · intro e s hs i r hri hused
    have hid : (st.storage[i]?).map identity = some (identity r) := by rw [hri]; rfl
    rw [h.find]
    rcases h.rcv_cases e hs with ⟨rfl, hig⟩ |
      ⟨hpass, p, l1, l2, a, a1, hC, hl1, hp, ha, hupd, ha1, ho, _, _⟩ |
      ⟨_, _, hno, p, F1, r0, a1, hF, hr0, hupd, ha1, ho, _, _⟩
    · rw [hid, if_neg]
      rintro ⟨hpass, hfind⟩
      rcases hig with hnp | ⟨hno, _⟩
      · exact hnp hpass
      · obtain ⟨hm, l1, l2, hC, _⟩ := find?_eq_some_split (Option.some.inj hfind)
        have := hno i (by
          show i ∈ C (skb_hash_function cfg e.saddr e.daddr e.source e.dest)
          rw [hC]; simp)
        have hm2 : match_at _ e.saddr e.daddr e.source e.dest i = false := this
        rw [hm] at hm2
        cases hm2
    · have hfind : (C (skb_hash_function cfg e.saddr e.daddr e.source e.dest)).find?
          (match_at st.storage e.saddr e.daddr e.source e.dest) = some p := by
        have hC2 : C (skb_hash_function cfg e.saddr e.daddr e.source e.dest) = l1 ++ p :: l2 :=
          hC
        rw [hC2]
        exact find?_append_cons_eq hl1 hp
      rw [hfind]
      by_cases hi : i = p
      · subst hi
        rw [if_pos ⟨hpass, rfl⟩, identity_of_data ha1]
        obtain ⟨h4, h5, h6, h7⟩ := rcv_update_identity hupd
        simp only [identity, h4, h5, h6, h7]
      · rw [if_neg (fun hc => hi (Option.some.inj (Option.some.inj hc.2)).symm),
          identity_of_strip_eq (ho i hi), hid]
    · have hfind : (C (skb_hash_function cfg e.saddr e.daddr e.source e.dest)).find?
          (match_at st.storage e.saddr e.daddr e.source e.dest) = none :=
        List.find?_eq_none.2 (fun j hj => by
          have : match_at st.storage e.saddr e.daddr e.source e.dest j = false := hno j hj
          simp [this])
      rw [hfind, if_neg (fun hc => by cases hc.2)]
      by_cases hi : i = p
      · subst hi
        exfalso
        exact hused ((hu i r hri).1 (by rw [hF]; exact List.mem_cons_self _ _))
      · rw [identity_of_strip_eq (ho i hi), hid]

/-- On the state after one SYN of the flow `(1, 2, 3, 4)`, a transmit event of
the flow leaves the stored identity `(1, 2, 3, 4)` of slot 0, and the receive
event with the reversed identity leaves `(2, 1, 4, 3)`. -/
theorem stored_identity_after_event_demo :
    1 ≤ demo_cfg.bufsize ∧
    (∃ s, jtcp_transmit_skb demo_cfg demo_open (demo_xmit 2 1 4 3 0 0 0 2) = some s ∧
      (s.storage[0]?).map identity = some (1, 2, 3, 4)) ∧
    (∃ s, jtcp_v4_do_rcv demo_cfg demo_open (demo_rcv 2 1 4 3 false false false 0 0 2) =
        some s ∧
      (s.storage[0]?).map identity = some (2, 1, 4, 3)) := by
  have hx : ∃ s, jtcp_transmit_skb demo_cfg demo_open (demo_xmit 2 1 4 3 0 0 0 2) = some s :=
    Option.isSome_iff_exists.1 (by decide)
  have hv : ∃ s, jtcp_v4_do_rcv demo_cfg demo_open
      (demo_rcv 2 1 4 3 false false false 0 0 2) = some s :=
    Option.isSome_iff_exists.1 (by decide)
  have hr0 : ∃ r, demo_open.storage[0]? = some r ∧ r.used ≠ 0 ∧ identity r = (1, 2, 3, 4) :=
    ⟨_, rfl, by decide, by decide⟩
  obtain ⟨sx, hsx⟩ := hx
  obtain ⟨sv, hsv⟩ := hv
  obtain ⟨r, hr, hused, hid⟩ := hr0
  refine ⟨by decide, ⟨sx, hsx, ?_⟩, ⟨sv, hsv, ?_⟩⟩
  · have := (stored_identity_after_event demo_open_reachable (by decide)).1 _ sx hsx 0 r hr hused
    rw [this, hid]
  · have := (stored_identity_after_event demo_open_reachable (by decide)).2 _ sv hsv 0 r hr hused
    rw [this, if_pos ⟨by decide, by decide⟩]
    rfl

/-- What a receive update does to the out-of-order counter and the last
sequence number, in both cases of the sequence test. -/
theorem rcv_update_order {cfg : Config} {e : rcv_event} {r r1 : tcp_flow_log}
    (h : rcv_update cfg e r = some r1) :
    (ntohl cfg e.seq < r.last_recv_seq →
      r1.out_of_order_packets = (r.out_of_order_packets + 1) % 2 ^ 32 ∧
      r1.last_recv_seq = r.last_recv_seq) ∧
    (r.last_recv_seq ≤ ntohl cfg e.seq →
      r1.out_of_order_packets = r.out_of_order_packets ∧ r1.last_recv_seq = ntohl cfg e.seq) := by
  obtain ⟨a1, a2, _⟩ := rcv_account_seq cfg e r
  have hr1 : r1.out_of_order_packets = (rcv_account cfg e r).out_of_order_packets ∧
      r1.last_recv_seq = (rcv_account cfg e r).last_recv_seq := by
    unfold rcv_update at h
    split_ifs at h
    · exact ⟨(sample_cwnd_seq h).1, (sample_cwnd_seq h).2.1⟩
    · have := Option.some.inj h
      rw [← this]; exact ⟨rfl, rfl⟩
  rw [hr1.1, hr1.2]
  exact ⟨a2, a1⟩

/-- The out-of-order counter after a run of receive events that all come
before the last sequence number of the record, modulo `2^32`. -/
theorem flow_updates_late (cfg : Config) :
    ∀ (es : List rcv_event) (r r1 : tcp_flow_log),
      flow_updates cfg r (es.map flow_event.rcv) = some r1 → r.out_of_order_packets < 2 ^ 32 →
      (∀ e ∈ es, ntohl cfg e.seq < r.last_recv_seq) →
      r1.out_of_order_packets = (r.out_of_order_packets + es.length) % 2 ^ 32 ∧
      r1.last_recv_seq = r.last_recv_seq
  | [], r, r1, h, hlt, _ => by
    have : r = r1 := Option.some.inj h
    subst this
    rw [List.length_nil, Nat.add_zero, Nat.mod_eq_of_lt hlt]
    exact ⟨rfl, rfl⟩
  | e :: es, r, r1, h, _, hl => by
    obtain ⟨r2, hu, h2⟩ := flow_updates_cons_rcv h
    obtain ⟨ho, hs⟩ := (rcv_update_order hu).1 (hl e (List.mem_cons_self _ _))
    obtain ⟨ho2, hs2⟩ := flow_updates_late cfg es r2 r1 h2
      (by rw [ho]; exact Nat.mod_lt _ (by norm_num))
      (fun x hx => by rw [hs]; exact hl x (List.mem_cons_of_mem _ hx))
    refine ⟨?_, by rw [hs2, hs]⟩
    rw [ho2, ho, List.length_cons, Nat.add_mod, Nat.mod_mod, ← Nat.add_mod]
    congr 1
    omega

/-- A record whose data holds an identity is accepted for that identity. -/
theorem match_at_of_identity {S : List tcp_flow_log} {p sa da sp dp : Nat} {a : tcp_flow_log}
    (ha : (S[p]?).map strip = some a)
    (hid : a.saddr = sa ∧ a.daddr = da ∧ a.sport = sp ∧ a.dport = dp) :
    match_at S sa da sp dp p = true := by
  obtain ⟨r, hr, hra⟩ := map_strip_eq_some ha
  unfold match_at
  rw [hr]
  show is_log_for_skb r _ _ _ _ = true
  rw [← is_log_for_skb_strip, hra, is_log_for_skb_iff]
  exact Or.inl ⟨hid.1.symm, hid.2.1.symm, hid.2.2.2.symm, hid.2.2.1.symm⟩

/-- An open flow from the initial state: a SYN and events without FIN or RST,
all with the same identity and windows in range, leave slot 0 alone in the
index, holding the data of the fresh record after every update. -/
theorem open_flow_run {cfg0 cfg : Config} {st : State}
    (hinit : tcpflowspy_init cfg0 = some (cfg, st)) (hcap : 1 ≤ cfg.bufsize)
    (hport : cfg.port = 0) (hnb : 1 ≤ cfg.number_of_buckets) (hbl : 1 ≤ cfg.bucket_length)
    (hbl2 : cfg.bucket_length < 2 ^ 32) (e0 : rcv_event) (mid : List rcv_event)
    (h0 : e0.syn = true ∧ (e0.fin || e0.rst) = false)
    (hmid : ∀ e ∈ mid, (e.fin || e.rst) = false)
    (hid : ∀ e ∈ mid, e.saddr = e0.saddr ∧ e.daddr = e0.daddr ∧ e.source = e0.source ∧
      e.dest = e0.dest)
    (hin : ∀ e ∈ e0 :: mid, flow_event.in_range cfg (flow_event.rcv e)) :
    ∃ s r0 a1 a2, st.storage[0]? = some r0 ∧
      r0.snd_cwnd_histogram.length = cfg.number_of_buckets.toNat ∧
      run_rcv cfg st (e0 :: mid) = some s ∧
      FlowInv cfg s (List.range cfg.bufsize).tail
        (Function.update (fun _ => [])
          (skb_hash_function cfg e0.saddr e0.daddr e0.source e0.dest) [0]) [] ∧
      (s.storage[0]?).map strip = some a2 ∧
      (a2.saddr = e0.saddr ∧ a2.daddr = e0.daddr ∧ a2.sport = e0.source ∧ a2.dport = e0.dest) ∧
      rcv_update cfg e0 (strip (set_used 1 (reset_log cfg e0.now_first r0))) = some a1 ∧
      flow_updates cfg a1 (mid.map flow_event.rcv) = some a2 := by
  have hinv := init_inv hinit hcap
  rw [range_eq_cons_tail hcap] at hinv
  have hlen0 : 0 < st.storage.length := by rw [hinv.len_s]; exact hcap
  have hr0 : st.storage[0]? = some st.storage[0] := List.getElem?_eq_getElem hlen0
  have hh0 := hinv.hist 0 _ hr0
  have hlena : (strip (set_used 1 (reset_log cfg e0.now_first st.storage[0]))).snd_cwnd_histogram.length
      = cfg.number_of_buckets.toNat := by
    show (List.replicate cfg.number_of_buckets.toNat 0 ++
      (st.storage[0]).snd_cwnd_histogram.drop cfg.number_of_buckets.toNat).length = _
    rw [List.length_append, List.length_replicate, List.length_drop, hh0]
    omega
  obtain ⟨a1, hu1⟩ := rcv_update_total hnb hbl hbl2 e0 (hin e0 (List.mem_cons_self _ _)) _ hlena
  obtain ⟨s1, hs1, hd1, _, hk1, _⟩ :=
    hinv.rcv_new hport e0 h0.1 (fun i hi => by cases hi) hr0 hu1
  have hinv1 : FlowInv cfg s1 (List.range cfg.bufsize).tail
      (Function.update (fun _ => [])
        (skb_hash_function cfg e0.saddr e0.daddr e0.source e0.dest) [0]) [] := hk1 h0.2
  have hid1 := rcv_update_identity hu1
  obtain ⟨s2, a2, hs2, hf2, hinv2, hd2, hid2⟩ :=
    FlowInv.rcv_single_run hport hnb hbl hbl2 mid s1 a1 hinv1 hd1 hid1
      (fun e he => ⟨hid e he, hmid e he, hin e (List.mem_cons_of_mem _ he)⟩)
  refine ⟨s2, _, a1, a2, hr0, hh0, ?_, hinv2, hd2, hid2, hu1, hf2⟩
  simp only [run_rcv, hs1]
  exact hs2

/-- The sequence state of a record is part of its data. -/
theorem seq_of_strip_eq {r r1 : tcp_flow_log} (h : strip r1 = strip r) :
    r1.out_of_order_packets = r.out_of_order_packets ∧ r1.last_recv_seq = r.last_recv_seq :=
  ⟨congrArg (fun x => x.out_of_order_packets) h, congrArg (fun x => x.last_recv_seq) h⟩

theorem demo_seq_open_reachable : Reachable demo_cfg demo_seq_open :=
  Reachable.rcv (demo_rcv_seq (7 * 2 ^ 24) true 1) (Reachable.init demo_init_eq) (by decide)

theorem returned_line_slot (st : State) (cnt : Nat) (res : read_result) :
    (returned_line st cnt res).map Prod.fst = returned_slot st cnt res := by
  cases res with
  | blocked => rfl
  | stop e => rfl
  | next c copied =>
    simp only [returned_line, returned_slot]
    by_cases hc : c = cnt
    · rw [if_pos hc, if_pos hc]; rfl
    · rw [if_neg hc, if_neg hc]
      cases st.finished <;> rfl

/-- The slots of `drain_lines` are the records of `drain_script`. -/
theorem drain_lines_slots (cfg : Config) :
    ∀ (script : List read_input) (st : State),
      drain_script cfg st script =
        (drain_lines cfg st script).map (fun x => (x.1, x.2.map Prod.fst))
  | [], st => rfl
  | i :: is, st => by
    unfold drain_script drain_lines
    cases hr : read_step cfg st i.signal i.now_read i.now_print i.tbuf i.cnt i.len with
    | none => rfl
    | some x =>
      obtain ⟨s, res⟩ := x
      simp only
      rw [drain_lines_slots cfg is s]
      cases hd : drain_lines cfg s is with
      | none => rfl
      | some y =>
        obtain ⟨s1, out⟩ := y
        simp only [Option.map_some', List.map_append]
        rw [← returned_line_slot]
        cases returned_line st i.cnt res <;> rfl

/-- One iteration of the read loop keeps the start time. -/
theorem FlowInv.read_step_start {cfg : Config} {st s : State} {F : List Nat}
    {C : Nat → List Nat} {Q : List Nat} (h : FlowInv cfg st F C Q)
    {signal : Bool} {now_read now_print : timespec} {tbuf : List Char} {cnt len : Nat}
    {res : read_result}
    (hs : read_step cfg st signal now_read now_print tbuf cnt len = some (s, res)) :
    s.start = st.start := by
  have hfin : IsPath st.storage st.finished Q := h.fin
  have h1 := h.set_last_read now_read
  obtain ⟨s2, tb, w, hsp, hinv2, hst2, _, _, _, hf2, _, _, _⟩ :=
    h1.sprint now_print tbuf PRINT_BUFF_SIZE
  have hst2' : s2.start = st.start := hst2
  unfold read_step at hs
  simp only at hs
  split_ifs at hs with c1 c2 c3
  · cases hs; rfl
  · cases hs; rfl
  · cases hs; rfl
  · rw [hsp] at hs
    simp only at hs
    by_cases c4 : w = 0
    · rw [if_pos c4] at hs
      cases hs; exact hst2'
    rw [if_neg c4] at hs
    cases Q with
    | nil =>
      have hn : s2.finished = none := hf2.trans hfin
      rw [hn] at hs
      simp only at hs
      by_cases hlen : len ≤ cnt + w
      · rw [if_pos hlen] at hs; cases hs; exact hst2'
      · rw [if_neg hlen] at hs; cases hs; exact hst2'
    | cons q Q1 =>
      have hq : s2.finished = some q := hf2.trans hfin.1
      rw [hq] at hs
      simp only at hs
      by_cases hlt : cnt + w < len
      · rw [if_pos hlt] at hs
        obtain ⟨s3, hrec, _, hst3, _⟩ := hinv2.recycle
        rw [hrec] at hs
        simp only at hs
        rw [if_neg (by omega)] at hs
        have hs3 : s = s3 := by cases hs; rfl
        subst hs3
        exact hst3.trans hst2'
      · rw [if_neg hlt] at hs
        simp only at hs
        rw [if_pos (by omega)] at hs
        cases hs; exact hst2'

/-- A drain step with room for the line on a state with a finished record:
the bytes copied are the text of the head of the finished queue, the record is
recycled, and the text of every record is as before. -/
theorem FlowInv.read_step_line {cfg : Config} {st : State} {F : List Nat}
    {C : Nat → List Nat} {Q : List Nat} {q : Nat} (h : FlowInv cfg st F C (q :: Q))
    (signal : Bool) (now_read now_print : timespec) (tbuf : List Char) (cnt len : Nat)
    (hfit : cnt + LINE_MAX < len) :
    ∃ s rq tb w, st.storage[q]? = some rq ∧
      print_record cfg st.start 1 rq tbuf PRINT_BUFF_SIZE = some (tb, w) ∧ 0 < w ∧
      read_step cfg st signal now_read now_print tbuf cnt len =
        some (s, read_result.next (cnt + w) (tb.take w)) ∧
      FlowInv cfg s (q :: F) C Q ∧ s.start = st.start ∧
      ∀ (i : Nat) (tb0 : List Char) (r1 : tcp_flow_log), s.storage[i]? = some r1 →
        ∃ r, st.storage[i]? = some r ∧
          print_record cfg st.start 1 r tb0 PRINT_BUFF_SIZE =
            print_record cfg st.start 1 r1 tb0 PRINT_BUFF_SIZE := by
  obtain ⟨s2, tb, w, hsp, hw, hinv2, hrec, _⟩ :=
    h.read_step_finished signal now_read now_print tbuf cnt len
  obtain ⟨rc, rq, tb1, w1, _, hrq, hpr, _, hsp1⟩ :=
    (h.set_last_read now_read).sprint_finished now_print tbuf PRINT_BUFF_SIZE
  rw [hsp1] at hsp
  simp only [Option.some.injEq, Prod.mk.injEq] at hsp
  obtain ⟨hs2, htb, hww⟩ := hsp
  subst htb hww
  have hwle : w1 ≤ LINE_MAX := sprint_width_le hsp1
  obtain ⟨s, hr1, hrs, hinv⟩ := hrec (by omega)
  obtain ⟨s', hr1', _, hst, _⟩ := hinv2.recycle
  rw [hr1] at hr1'
  have hss : s = s' := Option.some.inj hr1'
  subst hss
  have hstart : s.start = st.start := by rw [hst, ← hs2]
  refine ⟨s, rq, tb1, w1, hrq, hpr, hw, hrs, hinv, hstart, ?_⟩
  intro i tb0 r1 hi
  obtain ⟨_, _, _, hk⟩ := FlowInv.read_step_keeps
    (fun r => print_record cfg st.start 1 r tb0 PRINT_BUFF_SIZE)
    (fun _ _ => rfl) (fun _ _ => rfl) (fun _ _ => rfl) h hrs
  have hki := hk i
  rw [hi] at hki
  cases hsi : st.storage[i]? with
  | none => rw [hsi] at hki; cases hki
  | some r =>
    rw [hsi] at hki
    exact ⟨r, rfl, (Option.some.inj hki).symm⟩

/-- With buffers large enough for any line, a script of drain steps hands out
the finished queue from its head, one record per step, and the bytes copied
in step `j` are the text of the `j`-th record of the queue as it was before
the script. -/
theorem FlowInv.drain_lines_fit {cfg : Config} {C : Nat → List Nat} :
    ∀ (script : List read_input) (st : State) (F Q : List Nat), FlowInv cfg st F C Q →
      (∀ i ∈ script, i.cnt + LINE_MAX < i.len) →
      ∃ s lines, drain_lines cfg st script = some (s, lines) ∧
        lines.map Prod.fst = Q.take script.length ∧
        FlowInv cfg s ((Q.take script.length).reverse ++ F) C (Q.drop script.length) ∧
        s.start = st.start ∧
        ∀ (j q : Nat), Q[j]? = some q → j < script.length →
          ∃ i r tb w, script[j]? = some i ∧ st.storage[q]? = some r ∧
            print_record cfg st.start 1 r i.tbuf PRINT_BUFF_SIZE = some (tb, w) ∧
            lines[j]? = some (q, tb.take w)
  | [], st, F, Q, h, _ =>
    ⟨st, [], rfl, by simp, by simpa using h, rfl, fun j q _ hj => by simp at hj⟩
  | i :: is, st, F, Q, h, hf => by
    cases Q with
    | nil =>
      obtain ⟨s, res, h1, h2⟩ :=
        h.read_step_empty i.signal i.now_read i.now_print i.tbuf i.cnt i.len
      have hslot : returned_line st i.cnt res = none := by
        have := returned_line_slot st i.cnt res
        rw [h.read_step_empty_slot] at this
        cases hrl : returned_line st i.cnt res with
        | none => rfl
        | some x => rw [hrl] at this; cases this
      obtain ⟨s1, lines, h3, h4, h5, h6, _⟩ := FlowInv.drain_lines_fit is s F [] h2
        (fun j hj => hf j (List.mem_cons_of_mem _ hj))
      refine ⟨s1, lines, ?_, by simpa using h4, by simpa using h5,
        h6.trans (h.read_step_start h1),
        fun j q hq _ => by simp at hq⟩
      simp only [drain_lines, h1, h3, hslot, Option.toList, List.nil_append]
    | cons q Q =>
      have hfin : st.finished = some q := h.fin.1
      obtain ⟨s, rq, tb, w, hrq, hpr, hw, hrs, hinv, hstart, hkeep⟩ :=
        h.read_step_line i.signal i.now_read i.now_print i.tbuf i.cnt i.len
          (hf i (List.mem_cons_self _ _))
      obtain ⟨s1, lines, h3, h4, h5, h6, h7⟩ := FlowInv.drain_lines_fit is s (q :: F) Q hinv
        (fun j hj => hf j (List.mem_cons_of_mem _ hj))
      have hne : ¬ i.cnt + w = i.cnt := by omega
      refine ⟨s1, (q, tb.take w) :: lines, ?_, ?_, by simpa using h5, h6.trans hstart, ?_⟩
      · simp only [drain_lines, hrs, h3, returned_line, hne, if_false, hfin, Option.map_some',
          Option.toList, List.singleton_append]
      · simp only [List.map_cons, h4, List.length_cons, List.take_succ_cons]
      · intro j q1 hq1 hj
        cases j with
        | zero =>
          have : q = q1 := by simpa using hq1
          subst this
          exact ⟨i, rq, tb, w, List.getElem?_cons_zero, hrq, hpr, List.getElem?_cons_zero⟩
        | succ j =>
          have hq1' : Q[j]? = some q1 := by simpa using hq1
          obtain ⟨i1, r1, tb1, w1, e1, e2, e3, e4⟩ := h7 j q1 hq1'
            (by simp only [List.length_cons] at hj; omega)
          obtain ⟨r, hr, hpe⟩ := hkeep q1 i1.tbuf r1 e2
          refine ⟨i1, r, tb1, w1, by simpa using e1, hr, ?_, by simpa using e4⟩
          rw [hpe, ← hstart]
          exact e3


/-! ## The claims -/

/-- C1. In every state reachable from initialisation with capacity at least 1
(by receive events, transmit events, runs of the prune timer, iterations of
the read loop and opens), the pool has exactly `capacity` slots and there are
a free list `F`, bucket chains `C b` and a finished queue `Q`, each the list of
slots the code reaches by following its pointers, such that every slot is in
exactly one of: `F`, `Q`, or exactly one chain `C b`; no slot occurs twice in
its list; and the indexed slots plus the finished slots are at most
`capacity`.  (An operation that faults, writing a histogram cell outside the
array, has no successor state.) -/
theorem C1_pool_partition {cfg : Config} {st : State} (hr : Reachable cfg st)
    (hcap : 1 ≤ cfg.bufsize) :
    ∃ (F : List Nat) (C : Nat → List Nat) (Q : List Nat),
      st.storage.length = cfg.bufsize ∧
      IsPath st.storage st.available F ∧
      (∀ b, b < cfg.bufsize → ∃ e, st.entries[b]? = some e ∧ IsChain st.storage e (C b)) ∧
      IsPath st.storage st.finished Q ∧
      (∀ i, i < cfg.bufsize →
        (i ∈ F ∧ i ∉ Q ∧ ∀ b, b < cfg.bufsize → i ∉ C b) ∨
        (i ∉ F ∧ i ∈ Q ∧ ∀ b, b < cfg.bufsize → i ∉ C b) ∨
        (i ∉ F ∧ i ∉ Q ∧ ∃ b, b < cfg.bufsize ∧ i ∈ C b ∧
          ∀ c, c < cfg.bufsize → i ∈ C c → c = b)) ∧
      F.Nodup ∧ Q.Nodup ∧ (∀ b, b < cfg.bufsize → (C b).Nodup) ∧
      ((List.range cfg.bufsize).flatMap C).length + Q.length ≤ cfg.bufsize := by
  obtain ⟨F, C, Q, h⟩ := hr.good hcap
  refine ⟨F, C, Q, h.len_s, h.free, fun b hb => h.entry hb, h.fin, ?_, h.nodup_free,
    h.nodup_fin, fun b hb => h.nodup_chain hb, h.count_le⟩
  intro i hi
  have hmem : i ∈ F ++ (List.range cfg.bufsize).flatMap C ++ Q :=
    (h.part.mem_iff).2 (List.mem_range.2 hi)
  rcases List.mem_append.1 hmem with h1 | h1
  · rcases List.mem_append.1 h1 with h2 | h2
    · exact Or.inl ⟨h2, h.free_not_fin h2, fun b hb => h.free_not_chain hb h2⟩
    · obtain ⟨b, hb, hib⟩ := List.mem_flatMap.1 h2
      have hb' : b < cfg.bufsize := List.mem_range.1 hb
      refine Or.inr (Or.inr ⟨fun hf => h.free_not_chain hb' hf hib, h.chain_not_fin hb' hib,
        b, hb', hib, ?_⟩)
      intro c hc hic
      by_contra hne
      exact h.chain_disjoint hc hb' hne hic hib
  · exact Or.inr (Or.inl ⟨fun hf => h.free_not_fin hf h1, h1,
      fun b hb hc => h.chain_not_fin hb hc h1⟩)

/-- C1 at the state after the worked example (SYN, established ACK, FIN). -/
theorem C1_pool_partition_witness :
    1 ≤ demo_cfg.bufsize ∧
    ∃ (F : List Nat) (C : Nat → List Nat) (Q : List Nat),
      demo_finished.storage.length = demo_cfg.bufsize ∧
      IsPath demo_finished.storage demo_finished.available F ∧
      (∀ b, b < demo_cfg.bufsize →
        ∃ e, demo_finished.entries[b]? = some e ∧ IsChain demo_finished.storage e (C b)) ∧
      IsPath demo_finished.storage demo_finished.finished Q ∧
      (∀ i, i < demo_cfg.bufsize →
        (i ∈ F ∧ i ∉ Q ∧ ∀ b, b < demo_cfg.bufsize → i ∉ C b) ∨
        (i ∉ F ∧ i ∈ Q ∧ ∀ b, b < demo_cfg.bufsize → i ∉ C b) ∨
        (i ∉ F ∧ i ∉ Q ∧ ∃ b, b < demo_cfg.bufsize ∧ i ∈ C b ∧
          ∀ c, c < demo_cfg.bufsize → i ∈ C c → c = b)) ∧
      F.Nodup ∧ Q.Nodup ∧ (∀ b, b < demo_cfg.bufsize → (C b).Nodup) ∧
      ((List.range demo_cfg.bufsize).flatMap C).length + Q.length ≤ demo_cfg.bufsize :=
  ⟨by decide, C1_pool_partition demo_finished_reachable (by decide)⟩

/-- C2 (code bug). After a loopback SYN `local:3 -> local:4`, a SYN
`remote:3 -> local:4`, a reverse packet `local:4 -> local:3` of the loopback
connection and one more packet `remote:3 -> local:4`, the two records of
slots 0 and 1 are both linked in the chain of bucket 1 and both hold the
identity `(remote, local, 3, 4)`. -/
theorem C2_duplicate_identity :
    run_rcv demo_cfg demo_init
      (demo_loopback ++ [demo_rcv demo_remote demo_local 3 4 false false false 1 5 4]) =
      some demo_duplicate_state ∧
    (∃ e, demo_duplicate_state.entries[1]? = some e ∧
      IsChain demo_duplicate_state.storage e [0, 1]) ∧
    demo_duplicate_state.storage.map identity =
      [(demo_remote, demo_local, 3, 4), (demo_remote, demo_local, 3, 4), (0, 0, 0, 0),
       (0, 0, 0, 0)] := by
  refine ⟨by decide, ⟨⟨some 0, some 1⟩, by decide, ?_⟩, by decide⟩
  refine ⟨⟨rfl, demo_duplicate_state.storage.get ⟨0, by decide⟩, by decide, by decide,
    rfl, demo_duplicate_state.storage.get ⟨1, by decide⟩, by decide, by decide, ?_⟩, rfl⟩
  show (demo_duplicate_state.storage.get ⟨1, by decide⟩).next = none
  decide

/-- C3 (code bug). After a loopback SYN `local:3 -> local:4`, a SYN
`remote:3 -> local:4` and a reverse packet `local:4 -> local:3` of the
loopback connection, slot 1 is linked in bucket 1 with identity
`(remote, local, 3, 4)`, and `find_flow_log_for_skb` called with that identity
returns slot 0, the loopback record. -/
theorem C3_lookup_returns_other_record :
    run_rcv demo_cfg demo_init demo_loopback = some demo_loopback_state ∧
    (∃ e, demo_loopback_state.entries[1]? = some e ∧
      IsChain demo_loopback_state.storage e [0, 1]) ∧
    (demo_loopback_state.storage[1]?).map identity = some (demo_remote, demo_local, 3, 4) ∧
    find_flow_log_for_skb demo_cfg demo_loopback_state demo_remote demo_local 3 4 =
      some (some 0) := by
  refine ⟨by decide, ⟨⟨some 0, some 1⟩, by decide, ?_⟩, by decide, by decide⟩
  refine ⟨⟨rfl, demo_loopback_state.storage.get ⟨0, by decide⟩, by decide, by decide,
    rfl, demo_loopback_state.storage.get ⟨1, by decide⟩, by decide, by decide, ?_⟩, rfl⟩
  show (demo_loopback_state.storage.get ⟨1, by decide⟩).next = none
  decide

/-- C4 (code bug). A record with identity `(1, 2, 3, 4)` is matched by the
query `(99, 1, 4, 3)`, which is neither `(1, 2, 3, 4)` nor the reversed
`(2, 1, 4, 3)`: the second clause of `is_log_for_skb` never looks at the
query's source address. -/
theorem C4_matches_foreign_source :
    is_log_for_skb (set_identity 1 2 3 4 (init_log demo_cfg 4 0)) 99 1 4 3 = true ∧
    ((99, 1, 4, 3) : Nat × Nat × Nat × Nat) ≠ (1, 2, 3, 4) ∧
    ((99, 1, 4, 3) : Nat × Nat × Nat × Nat) ≠ (2, 1, 4, 3) := by
  decide

/-- C5 (code bug). On the transmit path a SYN-only event creates the record of
slot 0 and moves it to the finished queue at once (bucket 3 is empty
afterwards), and an RST-only event for a record in the index leaves it there
(bucket 3 still holds slot 0, the finished queue is empty). -/
theorem C5_transmit_syn_finishes_rst_does_not :
    (∃ s, jtcp_transmit_skb demo_cfg demo_init (demo_xmit 1 2 3 4 TCPHDR_SYN 0 0 1) = some s ∧
      s.finished = some 0 ∧ s.entries[3]? = some ⟨none, none⟩) ∧
    (∃ s1 s2, jtcp_v4_do_rcv demo_cfg demo_init (demo_rcv 1 2 3 4 true false false 0 0 1) =
        some s1 ∧
      jtcp_transmit_skb demo_cfg s1 (demo_xmit 1 2 3 4 TCPHDR_RST 0 0 2) = some s2 ∧
      s2.finished = none ∧ s2.entries[3]? = some ⟨some 0, some 0⟩) := by
  constructor
  · exact ⟨(jtcp_transmit_skb demo_cfg demo_init (demo_xmit 1 2 3 4 TCPHDR_SYN 0 0 1)).getD
      demo_init, by decide, by decide, by decide⟩
  · refine ⟨(jtcp_v4_do_rcv demo_cfg demo_init (demo_rcv 1 2 3 4 true false false 0 0 1)).getD
      demo_init, (jtcp_transmit_skb demo_cfg
        ((jtcp_v4_do_rcv demo_cfg demo_init (demo_rcv 1 2 3 4 true false false 0 0 1)).getD
          demo_init) (demo_xmit 1 2 3 4 TCPHDR_RST 0 0 2)).getD demo_init,
      by decide, by decide, by decide, by decide⟩

/-- C6, counterexample: a flow whose last packet is stamped `1 s` is swept at
`121.5 s`.  Its idle time, 120.5 seconds, exceeds 120 seconds, yet after the
run of `prune_timer` the record is still the chain of bucket 3 and the
finished queue is empty. -/
theorem C6_half_second_over_stays_indexed :
    (demo_open.storage[0]?).map tcp_flow_log.last_packet_tstamp = some ⟨1, 0⟩ ∧
    (∃ e, demo_open.entries[3]? = some e ∧ IsChain demo_open.storage e [0]) ∧
    spec_idle_exceeds ⟨121, 500000000⟩ ⟨1, 0⟩ = true ∧
    ∃ s, prune_timer demo_cfg demo_open ⟨121, 500000000⟩ = some s ∧ s.finished = none ∧
      ∃ e, s.entries[3]? = some e ∧ IsChain s.storage e [0] := by
  refine ⟨by decide, ⟨⟨some 0, some 0⟩, by decide, ?_⟩, by decide,
    (prune_timer demo_cfg demo_open ⟨121, 500000000⟩).getD demo_init, by decide, by decide,
    ⟨some 0, some 0⟩, by decide, ?_⟩
  · refine ⟨⟨rfl, demo_open.storage.get ⟨0, by decide⟩, by decide, by decide, ?_⟩, rfl⟩
    show (demo_open.storage.get ⟨0, by decide⟩).next = none
    decide
  · refine ⟨⟨rfl, ((prune_timer demo_cfg demo_open ⟨121, 500000000⟩).getD demo_init).storage.get
      ⟨0, by decide⟩, by decide, by decide, ?_⟩, rfl⟩
    show (((prune_timer demo_cfg demo_open ⟨121, 500000000⟩).getD demo_init).storage.get
      ⟨0, by decide⟩).next = none
    decide

/-- C6, amended. For every reachable state (capacity at least 1), represented
by the free list `F`, the chains `C` and the finished queue `Q`, and every
sweep time `now`, `prune_timer` returns a state represented by `F`, chains `C1`
and a queue `Q1` such that every record in the index for which the difference
of whole seconds `now.tv_sec - last_packet_tstamp.tv_sec` exceeds 120 is in no
chain any more and is in the finished queue exactly once, and every indexed
record for which that difference is at most 120 is still in its chain and not
in the finished queue.  A drain of `Q1.length` read-loop iterations, each with
room for a line, hands out exactly the records of `Q1`, each once, leaves the
finished queue empty, and any further drain hands out nothing. -/
theorem C6_prune_whole_seconds {cfg : Config} {st : State} (hr : Reachable cfg st)
    (hcap : 1 ≤ cfg.bufsize) (now : timespec) :
    ∃ (F : List Nat) (C : Nat → List Nat) (Q : List Nat) (s : State) (C1 : Nat → List Nat)
        (Q1 : List Nat),
      FlowInv cfg st F C Q ∧ prune_timer cfg st now = some s ∧ FlowInv cfg s F C1 Q1 ∧
      (∀ (b i : Nat) (r : tcp_flow_log), b < cfg.bufsize → i ∈ C b → st.storage[i]? = some r →
        (EXPIRE_SKB < now.tv_sec - r.last_packet_tstamp.tv_sec →
          (∀ b1, b1 < cfg.bufsize → i ∉ C1 b1) ∧ Q1.count i = 1) ∧
        (now.tv_sec - r.last_packet_tstamp.tv_sec ≤ EXPIRE_SKB → i ∈ C1 b ∧ i ∉ Q1)) ∧
      (∀ script : List read_input, script.length = Q1.length →
        (∀ inp ∈ script, inp.cnt + LINE_MAX < inp.len) →
        ∃ s1, drain_script cfg s script = some (s1, Q1) ∧
          FlowInv cfg s1 (Q1.reverse ++ F) C1 [] ∧
          ∀ script2 : List read_input, ∃ s2, drain_script cfg s1 script2 = some (s2, [])) := by
  obtain ⟨F, C, Q, h⟩ := hr.good hcap
  obtain ⟨s, P, hs, hinv, hP, _⟩ := h.prune now
  refine ⟨F, C, Q, s, _, P ++ Q, h, hs, hinv, ?_, ?_⟩
  · intro b i r hb hi hri
    have hexp := expired_at_eq now hri
    constructor
    · intro hlt
      have he : expired_at st.storage now i = true := by rw [hexp]; exact decide_eq_true hlt
      refine ⟨fun b1 _ hmem => ?_, ?_⟩
      · have := (List.mem_filter.1 hmem).2
        rw [he] at this
        cases this
      · exact List.count_eq_one_of_mem hinv.nodup_fin
          (List.mem_append.2 (Or.inl ((hP i).2 ⟨b, hb, hi, he⟩)))
    · intro hle
      have he : expired_at st.storage now i = false := by
        rw [hexp]; exact decide_eq_false (not_lt.2 hle)
      have hmem : i ∈ (C b).filter (fun x => !expired_at st.storage now x) :=
        List.mem_filter.2 ⟨hi, by rw [he]; rfl⟩
      exact ⟨hmem, hinv.chain_not_fin hb hmem⟩
  · intro script hlen hfit
    obtain ⟨s1, h1, h2⟩ := FlowInv.drain_script_fit script s F (P ++ Q) hinv hfit
    rw [hlen, List.take_length] at h1 h2
    rw [List.drop_length] at h2
    exact ⟨s1, h1, h2, fun script2 => h2.drain_script_empty script2⟩

/-- C6 (amended) at the state after one SYN at second 1, swept at second 200. -/
theorem C6_prune_whole_seconds_witness :
    1 ≤ demo_cfg.bufsize ∧
    ∃ (F : List Nat) (C : Nat → List Nat) (Q : List Nat) (s : State) (C1 : Nat → List Nat)
        (Q1 : List Nat),
      FlowInv demo_cfg demo_open F C Q ∧ prune_timer demo_cfg demo_open ⟨200, 0⟩ = some s ∧
      FlowInv demo_cfg s F C1 Q1 ∧
      (∀ (b i : Nat) (r : tcp_flow_log), b < demo_cfg.bufsize → i ∈ C b →
        demo_open.storage[i]? = some r →
        (EXPIRE_SKB < (⟨200, 0⟩ : timespec).tv_sec - r.last_packet_tstamp.tv_sec →
          (∀ b1, b1 < demo_cfg.bufsize → i ∉ C1 b1) ∧ Q1.count i = 1) ∧
        ((⟨200, 0⟩ : timespec).tv_sec - r.last_packet_tstamp.tv_sec ≤ EXPIRE_SKB →
          i ∈ C1 b ∧ i ∉ Q1)) ∧
      (∀ script : List read_input, script.length = Q1.length →
        (∀ inp ∈ script, inp.cnt + LINE_MAX < inp.len) →
        ∃ s1, drain_script demo_cfg s script = some (s1, Q1) ∧
          FlowInv demo_cfg s1 (Q1.reverse ++ F) C1 [] ∧
          ∀ script2 : List read_input, ∃ s2, drain_script demo_cfg s1 script2 = some (s2, [])) :=
  ⟨by decide, C6_prune_whole_seconds demo_open_reachable (by decide) ⟨200, 0⟩⟩

/-- C7, counterexample: with capacity 4, five SYN events with the pairwise
distinct identities `(1, 2, 3, 4)`, `(5, 6, 7, 8)`, `(9, 10, 11, 12)`,
`(13, 14, 15, 16)`, `(2, 1, 4, 3)` are fed to the initial state; afterwards
the lookup of the last identity `(2, 1, 4, 3)` returns slot 0 (the record of
the first event, which the lookup takes for the same connection in the other
direction). -/
theorem C7_reversed_identity_is_retrievable :
    demo_syn_reversed.length = demo_cfg.bufsize + 1 ∧
    (demo_syn_reversed.map rcv_event.identity).Nodup ∧
    (∀ e ∈ demo_syn_reversed, e.syn = true ∧ e.fin = false ∧ e.rst = false) ∧
    ∃ s, run_rcv demo_cfg demo_init demo_syn_reversed = some s ∧
      find_flow_log_for_skb demo_cfg s 2 1 4 3 = some (some 0) := by
  refine ⟨by decide, by decide, by decide,
    (run_rcv demo_cfg demo_init demo_syn_reversed).getD demo_init, by decide, by decide⟩

/-- C7, amended. From the state `tcpflowspy_init` leaves (capacity at least 1,
port filter 0, at least one bucket, bucket width from 1 to `2^31 - 1`), one
receive-path SYN event without FIN or RST is fed for each of `capacity + 1`
identities such that `is_log_for_skb` accepts none of them for a record
holding another one (for identities `(A, B, p, q)` and `(s, d, sp, dp)` of two
events: not `(s, d, sp, dp) = (A, B, p, q)`, and not `d = A`, `sp = q`,
`dp = p`), with `window / bucketWidth < 2^31` for established events.  Then the
run does not fault, all `capacity` slots are in the index and none is free or
finished; for every `i < capacity` the lookup of the `i`-th identity returns
slot `i`, which holds that identity; and the lookup of the last identity
returns null. -/
theorem C7_capacity_syn_flood {cfg0 cfg : Config} {st : State}
    (hinit : tcpflowspy_init cfg0 = some (cfg, st)) (hcap : 1 ≤ cfg.bufsize)
    (hport : cfg.port = 0) (hnb : 1 ≤ cfg.number_of_buckets) (hbl : 1 ≤ cfg.bucket_length)
    (hbl2 : cfg.bucket_length < 2 ^ 31) (es : List rcv_event)
    (hlen : es.length = cfg.bufsize + 1)
    (hsyn : ∀ e ∈ es, e.syn = true ∧ e.fin = false ∧ e.rst = false)
    (hwin : ∀ e ∈ es,
      e.sk_state = TCP_ESTABLISHED → e.snd_cwnd / cfg.bucket_length.toNat < 2 ^ 31)
    (hdist : es.Pairwise (fun a b => lookup_accepts a b = false ∧ lookup_accepts b a = false)) :
    ∃ s C, run_rcv cfg st es = some s ∧ FlowInv cfg s [] C [] ∧
      ((List.range cfg.bufsize).flatMap C).length = cfg.bufsize ∧
      (∀ i, i < cfg.bufsize → ∃ e, es[i]? = some e ∧
        find_flow_log_for_skb cfg s e.saddr e.daddr e.source e.dest = some (some i) ∧
        holds_identity s i e) ∧
      ∃ e, es[cfg.bufsize]? = some e ∧
        find_flow_log_for_skb cfg s e.saddr e.daddr e.source e.dest = some none := by
  have hd : ∀ (i j : Nat) (a b : rcv_event), i ≠ j → es[i]? = some a → es[j]? = some b →
      lookup_accepts a b = false := by
    intro i j a b hij ha hb
    obtain ⟨hi, rfl⟩ := List.getElem?_eq_some.1 ha
    obtain ⟨hj, rfl⟩ := List.getElem?_eq_some.1 hb
    have hp := List.pairwise_iff_getElem.1 hdist
    rcases Nat.lt_or_gt_of_ne hij with h | h
    · exact (hp i j hi hj h).1
    · exact (hp j i hj hi h).2
  obtain ⟨s, C, hrun, hinv, hI⟩ := syn_run hinit hcap hport hnb hbl (by omega) es
    (fun e he => ⟨(hsyn e he).1, by rw [(hsyn e he).2.1, (hsyn e he).2.2]; rfl,
      in_range_of_window hbl hbl2 e (hwin e he)⟩) hd cfg.bufsize (le_refl _) (by omega)
  rw [List.drop_eq_nil_of_le (by rw [List.length_range])] at hinv
  have hlt : ∀ b i, b < cfg.bufsize → i ∈ C b → i < cfg.bufsize := fun b i hb hi =>
    hinv.lt_of_mem (hinv.mem_chain hb hi)
  have hnl : cfg.bufsize < es.length := by omega
  have hen : es[cfg.bufsize]? = some es[cfg.bufsize] := List.getElem?_eq_getElem hnl
  have hno : ∀ (e : rcv_event) (k : Nat), es[k]? = some e →
      ∀ i ∈ C (skb_hash_function cfg e.saddr e.daddr e.source e.dest), i ≠ k →
      match_at s.storage e.saddr e.daddr e.source e.dest i = false := by
    intro e k hek i hi hik
    obtain ⟨a, ha, _, hh⟩ := hI i (hlt _ i (hinv.hash_lt _ _ _ _) hi)
    rw [match_at_of_holds hh]
    exact hd i k a e hik ha hek
  have hnolast : ∀ i ∈ C (skb_hash_function cfg es[cfg.bufsize].saddr es[cfg.bufsize].daddr
      es[cfg.bufsize].source es[cfg.bufsize].dest),
      match_at s.storage es[cfg.bufsize].saddr es[cfg.bufsize].daddr es[cfg.bufsize].source
        es[cfg.bufsize].dest i = false := fun i hi =>
    hno _ _ hen i hi (Nat.ne_of_lt (hlt _ i (hinv.hash_lt _ _ _ _) hi))
  refine ⟨s, C, ?_, hinv, ?_, ?_, es[cfg.bufsize], hen, ?_⟩
  · have : es = es.take cfg.bufsize ++ [es[cfg.bufsize]] := by
      have h1 : es.take (cfg.bufsize + 1) = es := List.take_of_length_le (by omega)
      rw [List.take_succ, hen] at h1
      exact h1.symm
    rw [this, run_rcv_append, hrun]
    show run_rcv cfg s [es[cfg.bufsize]] = some s
    simp only [run_rcv, hinv.rcv_dropped hport _ hnolast]
  · have := hinv.part.length_eq
    simpa using this
  · intro i hi
    obtain ⟨e, he, hmem, hh⟩ := hI i hi
    refine ⟨e, he, ?_, hh⟩
    rw [hinv.find]
    obtain ⟨l1, l2, hC⟩ := List.append_of_mem hmem
    have hnd := hinv.nodup_chain (hinv.hash_lt e.saddr e.daddr e.source e.dest)
    rw [hC] at hnd
    have hnot : i ∉ l1 := fun hm =>
      (List.nodup_append.1 hnd).2.2 hm (List.mem_cons_self _ _)
    rw [hC]
    refine congrArg some (find?_append_cons_eq (fun x hx => ?_) ?_)
    · exact hno e i he x (by rw [hC]; exact List.mem_append.2 (Or.inl hx))
        (fun e => hnot (e ▸ hx))
    · rw [match_at_of_holds hh]
      simp [lookup_accepts]
  · rw [hinv.find]
    exact congrArg some (List.find?_eq_none.2 (fun i hi => by simp [hnolast i hi]))

/-- C7 (amended) at capacity 4 with the five identities of `demo_syn_flood`. -/
theorem C7_capacity_syn_flood_witness :
    tcpflowspy_init demo_cfg = some (demo_cfg, demo_init) ∧
    demo_syn_flood.length = demo_cfg.bufsize + 1 ∧
    ∃ s C, run_rcv demo_cfg demo_init demo_syn_flood = some s ∧ FlowInv demo_cfg s [] C [] ∧
      ((List.range demo_cfg.bufsize).flatMap C).length = demo_cfg.bufsize ∧
      (∀ i, i < demo_cfg.bufsize → ∃ e, demo_syn_flood[i]? = some e ∧
        find_flow_log_for_skb demo_cfg s e.saddr e.daddr e.source e.dest = some (some i) ∧
        holds_identity s i e) ∧
      ∃ e, demo_syn_flood[demo_cfg.bufsize]? = some e ∧
        find_flow_log_for_skb demo_cfg s e.saddr e.daddr e.source e.dest = some none :=
  ⟨demo_init_eq, by decide,
    C7_capacity_syn_flood demo_init_eq (by decide) (by decide) (by decide) (by decide)
      (by decide) demo_syn_flood (by decide) (by decide) (by decide) (by decide)⟩

/-- C8, counterexample: a flow of `2^32` receive events for the identity
`(1, 2, 3, 4)` (a SYN, `k = 2^32 - 2` events without FIN or RST, a FIN, all
with sequence number 0) from the initial state of the worked configuration
leaves slot 0 alone in the finished queue with `recv_count = 0`, not
`k + 2 = 2^32`. -/
theorem C8_packet_counter_wraps :
    demo_long_flow.length = demo_wrap_count + 2 ∧ demo_wrap_count + 2 = 2 ^ 32 ∧
    ∃ s r, run_rcv demo_cfg demo_init demo_long_flow = some s ∧
      FlowInv demo_cfg s (List.range demo_cfg.bufsize).tail (fun _ => []) [0] ∧
      s.storage[0]? = some r ∧ r.recv_count = 0 := by
  have hlen : demo_long_flow.length = demo_wrap_count + 2 := by
    unfold demo_long_flow
    rw [List.length_append, List.length_cons, List.length_replicate, List.length_singleton]
  refine ⟨hlen, by unfold demo_wrap_count; norm_num, ?_⟩
  have hmem : ∀ e ∈ List.replicate demo_wrap_count (demo_rcv 1 2 3 4 false false false 0 0 2) ++
      [demo_rcv 1 2 3 4 false true false 0 0 3],
      e = demo_rcv 1 2 3 4 false false false 0 0 2 ∨ e = demo_rcv 1 2 3 4 false true false 0 0 3 := by
    intro e he
    rcases List.mem_append.1 he with h | h
    · exact Or.inl (List.eq_of_mem_replicate h)
    · exact Or.inr (List.mem_singleton.1 h)
  have hmid : ∀ e ∈ List.replicate demo_wrap_count (demo_rcv 1 2 3 4 false false false 0 0 2),
      (e.fin || e.rst) = false := by
    intro e he
    rw [List.eq_of_mem_replicate he]; rfl
  have hid : ∀ e ∈ List.replicate demo_wrap_count (demo_rcv 1 2 3 4 false false false 0 0 2) ++
      [demo_rcv 1 2 3 4 false true false 0 0 3],
      e.saddr = (demo_rcv 1 2 3 4 true false false 0 0 1).saddr ∧
      e.daddr = (demo_rcv 1 2 3 4 true false false 0 0 1).daddr ∧
      e.source = (demo_rcv 1 2 3 4 true false false 0 0 1).source ∧
      e.dest = (demo_rcv 1 2 3 4 true false false 0 0 1).dest := by
    intro e he
    rcases hmem e he with h | h <;> (rw [h]; exact ⟨rfl, rfl, rfl, rfl⟩)
  have hin : ∀ e ∈ demo_rcv 1 2 3 4 true false false 0 0 1 ::
      List.replicate demo_wrap_count (demo_rcv 1 2 3 4 false false false 0 0 2) ++
        [demo_rcv 1 2 3 4 false true false 0 0 3],
      flow_event.in_range demo_cfg (flow_event.rcv e) := by
    intro e he
    have hsk : e.sk_state = 0 := by
      rcases List.mem_append.1 he with h | h
      · rcases List.mem_cons.1 h with h | h
        · rw [h]; rfl
        · rw [List.eq_of_mem_replicate h]; rfl
      · rw [List.mem_singleton.1 h]; rfl
    intro hest
    simp [flow_event.established, hsk, TCP_ESTABLISHED] at hest
  obtain ⟨s, r0, af, _, hh0, hrun, hinv, hd, hfu⟩ :=
    single_flow_run demo_init_eq (by decide) (by decide) (by decide) (by decide) (by decide)
      (demo_rcv 1 2 3 4 true false false 0 0 1)
      (List.replicate demo_wrap_count (demo_rcv 1 2 3 4 false false false 0 0 2))
      (demo_rcv 1 2 3 4 false true false 0 0 3) ⟨rfl, rfl⟩ hmid rfl hid hin
  obtain ⟨r, hr, hra⟩ := map_strip_eq_some hd
  refine ⟨s, r, hrun, hinv, hr, ?_⟩
  have hc := flow_updates_recv_count demo_cfg _ _ _ hfu
    (by rw [(reset_log_fields demo_cfg _ r0 hh0).1]; norm_num)
  rw [(strip_fields hra).1, hc, (reset_log_fields demo_cfg _ r0 hh0).1]
  have hlen2 : (demo_rcv 1 2 3 4 true false false 0 0 1 ::
      List.replicate demo_wrap_count (demo_rcv 1 2 3 4 false false false 0 0 2) ++
        [demo_rcv 1 2 3 4 false true false 0 0 3]).length = demo_wrap_count + 2 := hlen
  rw [hlen2]
  unfold demo_wrap_count
  norm_num

/-- C8, amended. From the state `tcpflowspy_init` leaves (capacity at least 1,
port filter 0, at least one bucket, bucket width from 1 to `2^31 - 1`), a SYN
event without FIN or RST, then `k` events without FIN or RST, then a FIN event,
all on the receive path with one identity and non-decreasing sequence numbers
`ntohl(th->seq)`, with `k + 2 < 2^32` and `window / bucketWidth < 2^31` for
every established event: the run does not fault and leaves slot 0 alone in the
finished queue (the index is empty), with `recv_count = k + 2`,
`out_of_order_packets = 0` and a histogram of `numBuckets` cells whose cell `i`
holds the number of the events reported established with
`min(numBuckets - 1, window / bucketWidth) = i`; and one iteration of the read
loop with room for a line hands out slot 0 and leaves every slot on the free
list. -/
theorem C8_single_flow {cfg0 cfg : Config} {st : State}
    (hinit : tcpflowspy_init cfg0 = some (cfg, st)) (hcap : 1 ≤ cfg.bufsize)
    (hport : cfg.port = 0) (hnb : 1 ≤ cfg.number_of_buckets) (hbl : 1 ≤ cfg.bucket_length)
    (hbl2 : cfg.bucket_length < 2 ^ 31) (e0 : rcv_event) (mid : List rcv_event) (ef : rcv_event)
    (h0 : e0.syn = true ∧ e0.fin = false ∧ e0.rst = false)
    (hmid : ∀ e ∈ mid, e.fin = false ∧ e.rst = false)
    (hf : ef.fin = true)
    (hid : ∀ e ∈ mid ++ [ef], e.saddr = e0.saddr ∧ e.daddr = e0.daddr ∧ e.source = e0.source ∧
      e.dest = e0.dest)
    (hseq : List.Chain' (fun a b => ntohl cfg a.seq ≤ ntohl cfg b.seq) (e0 :: mid ++ [ef]))
    (hwin : ∀ e ∈ e0 :: mid ++ [ef],
      e.sk_state = TCP_ESTABLISHED → e.snd_cwnd / cfg.bucket_length.toNat < 2 ^ 31)
    (hk : mid.length + 2 < 2 ^ 32) :
    ∃ s r, run_rcv cfg st (e0 :: mid ++ [ef]) = some s ∧
      FlowInv cfg s (List.range cfg.bufsize).tail (fun _ => []) [0] ∧
      s.storage[0]? = some r ∧
      r.recv_count = mid.length + 2 ∧ r.out_of_order_packets = 0 ∧
      r.snd_cwnd_histogram.length = cfg.number_of_buckets.toNat ∧
      (∀ i, i < cfg.number_of_buckets.toNat →
        r.snd_cwnd_histogram[i]? =
          some ((e0 :: mid ++ [ef]).countP (spec_sampled_into cfg i))) ∧
      (∀ inp : read_input, inp.cnt + LINE_MAX < inp.len →
        ∃ s1, drain_script cfg s [inp] = some (s1, [0]) ∧
          FlowInv cfg s1 (List.range cfg.bufsize) (fun _ => []) []) := by
  have hlen : (e0 :: mid ++ [ef]).length = mid.length + 2 := by
    rw [List.length_append, List.length_cons, List.length_singleton]
  obtain ⟨s, r0, af, _, hh0, hrun, hinv, hd, hfu⟩ :=
    single_flow_run hinit hcap hport hnb hbl (by omega) e0 mid ef
      ⟨h0.1, by rw [h0.2.1, h0.2.2]; rfl⟩
      (fun e he => by rw [(hmid e he).1, (hmid e he).2]; rfl)
      (by rw [hf]; rfl) hid
      (fun e he => in_range_of_window hbl hbl2 e (hwin e he))
  obtain ⟨a1, a2, a3, a4⟩ := reset_log_fields cfg e0.now_first r0 hh0
  obtain ⟨r, hr, hra⟩ := map_strip_eq_some hd
  obtain ⟨f1, f2, f3⟩ := strip_fields hra
  refine ⟨s, r, hrun, hinv, hr, ?_, ?_, hinv.hist 0 r hr, ?_, ?_⟩
  · rw [f1, flow_updates_recv_count cfg _ _ _ hfu (by rw [a1]; norm_num), a1, hlen,
      Nat.zero_add, Nat.mod_eq_of_lt hk]
  · rw [f2, flow_updates_in_order cfg _ _ _ hfu ?_, a3]
    rw [a2, List.cons_append, List.map_cons, List.chain_cons]
    rw [List.cons_append] at hseq
    exact ⟨Nat.zero_le _, (List.chain_map (fun e : rcv_event => ntohl cfg e.seq)).2 hseq⟩
  · intro i hi
    have h0i : (strip (set_used 1 (reset_log cfg e0.now_first r0))).snd_cwnd_histogram[i]? =
        some 0 := by
      rw [a4, List.getElem?_eq_getElem (by rw [List.length_replicate]; exact hi)]
      simp
    rw [f3, flow_updates_bucket cfg i _ _ _ 0 hfu h0i (by norm_num), Nat.zero_add,
      List.countP_map]
    have hcongr : (e0 :: mid ++ [ef]).countP (flow_event.samples cfg i ∘ flow_event.rcv) =
        (e0 :: mid ++ [ef]).countP (spec_sampled_into cfg i) := by
      apply List.countP_congr
      intro e he
      show flow_event.samples cfg i (flow_event.rcv e) = true ↔ _
      rw [samples_eq_spec hnb hbl hbl2 i e (hwin e he)]
    rw [hcongr]
    have hle := List.countP_le_length (spec_sampled_into cfg i) (l := e0 :: mid ++ [ef])
    rw [Nat.mod_eq_of_lt (by omega)]
  · intro inp hroom
    obtain ⟨s1, h1, h2⟩ := FlowInv.drain_script_fit [inp] s _ [0] hinv
      (fun j hj => by rw [List.mem_singleton.1 hj]; exact hroom)
    refine ⟨s1, h1, ?_⟩
    have : List.range cfg.bufsize = ([0] : List Nat).reverse ++ (List.range cfg.bufsize).tail :=
      range_eq_cons_tail hcap
    rw [this]
    exact h2

/-- C8 (amended) at the worked example: capacity 4, ten buckets of width 1,
SYN, an established ACK with window 5, FIN; `recv_count = 3` and cell 5 holds
1. -/
theorem C8_single_flow_witness :
    tcpflowspy_init demo_cfg = some (demo_cfg, demo_init) ∧
    ∃ s r, run_rcv demo_cfg demo_init (demo_rcv 1 2 3 4 true false false 0 0 1 ::
        [demo_rcv 1 2 3 4 false false false 1 5 2] ++ [demo_rcv 1 2 3 4 false true false 0 0 3]) =
        some s ∧
      FlowInv demo_cfg s (List.range demo_cfg.bufsize).tail (fun _ => []) [0] ∧
      s.storage[0]? = some r ∧
      r.recv_count = [demo_rcv 1 2 3 4 false false false 1 5 2].length + 2 ∧
      r.out_of_order_packets = 0 ∧
      r.snd_cwnd_histogram.length = demo_cfg.number_of_buckets.toNat ∧
      (∀ i, i < demo_cfg.number_of_buckets.toNat →
        r.snd_cwnd_histogram[i]? =
          some ((demo_rcv 1 2 3 4 true false false 0 0 1 ::
            [demo_rcv 1 2 3 4 false false false 1 5 2] ++
              [demo_rcv 1 2 3 4 false true false 0 0 3]).countP
                (spec_sampled_into demo_cfg i))) ∧
      (∀ inp : read_input, inp.cnt + LINE_MAX < inp.len →
        ∃ s1, drain_script demo_cfg s [inp] = some (s1, [0]) ∧
          FlowInv demo_cfg s1 (List.range demo_cfg.bufsize) (fun _ => []) []) :=
  ⟨demo_init_eq,
    C8_single_flow demo_init_eq (by decide) (by decide) (by decide) (by decide) (by decide)
      (demo_rcv 1 2 3 4 true false false 0 0 1) [demo_rcv 1 2 3 4 false false false 1 5 2]
      (demo_rcv 1 2 3 4 false true false 0 0 3) (by decide) (by decide) (by decide) (by decide)
      (List.chain'_cons.2 ⟨by decide, List.chain'_cons.2 ⟨by decide, List.chain'_singleton _⟩⟩)
      (by decide) (by decide)⟩

/-- C9, counterexample.  From the initial state of the worked configuration
(capacity 4, no port filter, little-endian host) a SYN of the flow
`(1, 2, 3, 4)` with sequence number 7 followed by `2^32 - 1` packets of the
flow with sequence number 0 leaves the record of the flow in slot 0 with
`last_recv_seq = 7` and `out_of_order_packets = 2^32 - 1`.  One more packet
with sequence number `s = 0 < L = 7` is resolved to that record, and after it
the counter is 0: it has not increased by one. -/
theorem C9_out_of_order_counter_wraps :
    demo_late_flow.length = 2 ^ 32 ∧
    ntohl demo_cfg (demo_rcv_seq 0 false 2).seq = 0 ∧
    ∃ s r, run_rcv demo_cfg demo_init demo_late_flow = some s ∧ Reachable demo_cfg s ∧
      find_flow_log_for_skb demo_cfg s (demo_rcv_seq 0 false 2).saddr
        (demo_rcv_seq 0 false 2).daddr (demo_rcv_seq 0 false 2).source
        (demo_rcv_seq 0 false 2).dest = some (some 0) ∧
      s.storage[0]? = some r ∧ r.last_recv_seq = 7 ∧ r.out_of_order_packets = 2 ^ 32 - 1 ∧
      ∃ s1 r1, jtcp_v4_do_rcv demo_cfg s (demo_rcv_seq 0 false 2) = some s1 ∧
        s1.storage[0]? = some r1 ∧ r1.out_of_order_packets = 0 ∧ r1.last_recv_seq = 7 := by
  have hlen : demo_late_flow.length = 2 ^ 32 := by
    unfold demo_late_flow demo_late_count
    rw [List.length_cons, List.length_replicate]
    norm_num
  refine ⟨hlen, by decide, ?_⟩
  have hnest : ∀ e ∈ demo_rcv_seq (7 * 2 ^ 24) true 1 ::
      List.replicate demo_late_count (demo_rcv_seq 0 false 2),
      flow_event.in_range demo_cfg (flow_event.rcv e) := by
    intro e he
    have hsk : e.sk_state = 0 := by
      rcases List.mem_cons.1 he with h | h
      · rw [h]; rfl
      · rw [List.eq_of_mem_replicate h]; rfl
    intro hest
    simp [flow_event.established, hsk, TCP_ESTABLISHED] at hest
  obtain ⟨s, r0, a1, a2, _, hh0, hrun, hinv, hd, hid, hu1, hfu⟩ :=
    open_flow_run demo_init_eq (by decide) (by decide) (by decide) (by decide) (by decide)
      (demo_rcv_seq (7 * 2 ^ 24) true 1)
      (List.replicate demo_late_count (demo_rcv_seq 0 false 2)) ⟨rfl, rfl⟩
      (fun e he => by rw [List.eq_of_mem_replicate he]; rfl)
      (fun e he => by rw [List.eq_of_mem_replicate he]; exact ⟨rfl, rfl, rfl, rfl⟩) hnest
  have hseq7 : ntohl demo_cfg (demo_rcv_seq (7 * 2 ^ 24) true 1).seq = 7 := by decide
  obtain ⟨ho1, hl1⟩ := (rcv_update_order hu1).2 (by
    rw [(reset_log_fields demo_cfg _ r0 hh0).2.1]; exact Nat.zero_le _)
  rw [(reset_log_fields demo_cfg _ r0 hh0).2.2.1] at ho1
  rw [hseq7] at hl1
  obtain ⟨ho2, hl2⟩ := flow_updates_late demo_cfg _ a1 a2 hfu (by rw [ho1]; norm_num)
    (fun e he => by
      rw [List.eq_of_mem_replicate he, hl1]
      decide)
  rw [ho1, List.length_replicate] at ho2
  rw [hl1] at hl2
  have ho2' : a2.out_of_order_packets = 2 ^ 32 - 1 := by
    rw [ho2]; unfold demo_late_count; norm_num
  obtain ⟨r, hr, hra⟩ := map_strip_eq_some hd
  have hro : r.out_of_order_packets = a2.out_of_order_packets := by rw [← hra]; rfl
  have hrl : r.last_recv_seq = a2.last_recv_seq := by rw [← hra]; rfl
  obtain ⟨a3, hu3⟩ := rcv_update_total (by decide) (by decide) (by decide)
    (demo_rcv_seq 0 false 2) (fun hest => by
      simp [flow_event.established, demo_rcv_seq, TCP_ESTABLISHED] at hest) a2
    (hinv.data_hist hd)
  obtain ⟨s1, hs1, hd1, _, _⟩ := hinv.rcv_single (demo_rcv_seq 0 false 2) (by decide) hd hid hu3
  obtain ⟨r1, hr1, hra1⟩ := map_strip_eq_some hd1
  obtain ⟨ho3, hl3⟩ := (rcv_update_order hu3).1 (by rw [hl2]; decide)
  refine ⟨s, r, hrun, Reachable.of_run_rcv _ _ _ (Reachable.init demo_init_eq) hrun, ?_, hr,
    by rw [hrl, hl2], by rw [hro, ho2'], s1, r1, hs1, hr1, ?_, ?_⟩
  · rw [hinv.find]
    have hb : Function.update (fun _ => ([] : List Nat))
        (skb_hash_function demo_cfg (demo_rcv_seq (7 * 2 ^ 24) true 1).saddr
          (demo_rcv_seq (7 * 2 ^ 24) true 1).daddr (demo_rcv_seq (7 * 2 ^ 24) true 1).source
          (demo_rcv_seq (7 * 2 ^ 24) true 1).dest) [0]
        (skb_hash_function demo_cfg (demo_rcv_seq 0 false 2).saddr
          (demo_rcv_seq 0 false 2).daddr (demo_rcv_seq 0 false 2).source
          (demo_rcv_seq 0 false 2).dest) = [0] := Function.update_same _ _ _
    have hm : match_at s.storage (demo_rcv_seq 0 false 2).saddr (demo_rcv_seq 0 false 2).daddr
        (demo_rcv_seq 0 false 2).source (demo_rcv_seq 0 false 2).dest 0 = true :=
      match_at_of_identity hd hid
    rw [hb, List.find?_cons, hm]
  · have : r1.out_of_order_packets = a3.out_of_order_packets := by rw [← hra1]; rfl
    rw [this, ho3, ho2']
    norm_num
  · have : r1.last_recv_seq = a3.last_recv_seq := by rw [← hra1]; rfl
    rw [this, hl3, hl2]

/-- C9 (amended).  In every reachable state (capacity at least 1), for every
receive event `e` that passes the port test, with `s = ntohl(th->seq)`.
When the lookup resolves the event to slot `p`, holding the record `r` with
`L = r.last_recv_seq`, and the event carries the stored identity of `r` or
its reverse: in the state `jtcp_v4_do_rcv` returns, the record of slot `p`
has its out-of-order counter incremented as a `u32` and `last_recv_seq = L`
when `s < L`, and its counter unchanged and `last_recv_seq = s` when
`s >= L`; when the counter was below `2^32 - 1` it is one more than before
if and only if `s < L`; every other slot keeps both fields; and the probe
does return when `window / bucketWidth < 2^31` for an established event.
When the lookup finds no record, the event carries SYN and slot `p` heads the
free list, the record created in slot `p` has the counter 0 and
`last_recv_seq = s`. -/
theorem C9_out_of_order_event {cfg : Config} {st : State} (hr : Reachable cfg st)
    (hcap : 1 ≤ cfg.bufsize) (e : rcv_event)
    (hpass : cfg.port = 0 ∨ (ntohs cfg e.dest : Int) = cfg.port ∨
      (ntohs cfg e.source : Int) = cfg.port) :
    (∀ (p : Nat) (r : tcp_flow_log),
      find_flow_log_for_skb cfg st e.saddr e.daddr e.source e.dest = some (some p) →
      st.storage[p]? = some r → spec_matches r e.saddr e.daddr e.source e.dest = true →
      (∀ s, jtcp_v4_do_rcv cfg st e = some s → ∃ r1, s.storage[p]? = some r1 ∧
        (ntohl cfg e.seq < r.last_recv_seq →
          r1.out_of_order_packets = (r.out_of_order_packets + 1) % 2 ^ 32 ∧
          r1.last_recv_seq = r.last_recv_seq) ∧
        (r.last_recv_seq ≤ ntohl cfg e.seq →
          r1.out_of_order_packets = r.out_of_order_packets ∧
          r1.last_recv_seq = ntohl cfg e.seq) ∧
        (r.out_of_order_packets + 1 < 2 ^ 32 →
          (r1.out_of_order_packets = r.out_of_order_packets + 1 ↔
            ntohl cfg e.seq < r.last_recv_seq)) ∧
        (∀ (i : Nat) (r2 : tcp_flow_log), i ≠ p → st.storage[i]? = some r2 →
          ∃ r3, s.storage[i]? = some r3 ∧
            r3.out_of_order_packets = r2.out_of_order_packets ∧
            r3.last_recv_seq = r2.last_recv_seq)) ∧
      (1 ≤ cfg.number_of_buckets → 1 ≤ cfg.bucket_length → cfg.bucket_length < 2 ^ 32 →
        flow_event.in_range cfg (flow_event.rcv e) →
        ∃ s, jtcp_v4_do_rcv cfg st e = some s)) ∧
    (∀ (p : Nat),
      find_flow_log_for_skb cfg st e.saddr e.daddr e.source e.dest = some none →
      e.syn = true → st.available = some p →
      (∀ s, jtcp_v4_do_rcv cfg st e = some s → ∃ r1, s.storage[p]? = some r1 ∧
        r1.out_of_order_packets = 0 ∧ r1.last_recv_seq = ntohl cfg e.seq) ∧
      (1 ≤ cfg.number_of_buckets → 1 ≤ cfg.bucket_length → cfg.bucket_length < 2 ^ 32 →
        flow_event.in_range cfg (flow_event.rcv e) →
        ∃ s, jtcp_v4_do_rcv cfg st e = some s)) := by
  obtain ⟨F, C, Q, h⟩ := hr.good hcap
  constructor
  · intro p r hfind hrp _
    rw [h.find] at hfind
    have hfind2 := Option.some.inj hfind
    obtain ⟨hpm, l1, l2, hC, hl1⟩ := find?_eq_some_split hfind2
    have ha : (st.storage[p]?).map strip = some (strip r) := by rw [hrp]; rfl
    constructor
    · intro s hs
      rcases h.rcv_cases e hs with ⟨_, hig⟩ |
        ⟨_, p', l1', l2', a, a1, hC', hl1', hp', ha', hupd, ha1, ho, _, _⟩ |
        ⟨_, _, hno, _⟩
      · exfalso
        rcases hig with hnp | ⟨hno, _⟩
        · exact hnp hpass
        · have hm2 : match_at st.storage e.saddr e.daddr e.source e.dest p = false :=
            hno p (by
              show p ∈ C (skb_hash_function cfg e.saddr e.daddr e.source e.dest)
              rw [hC]; simp)
          rw [hpm] at hm2
          cases hm2
      · have hC2 : C (skb_hash_function cfg e.saddr e.daddr e.source e.dest) = l1' ++ p' :: l2' :=
          hC'
        have hf' := @find?_append_cons_eq (match_at st.storage e.saddr e.daddr e.source e.dest)
          l1' l2' p' hl1' hp'
        rw [← hC2, hfind2] at hf'
        have hpp : p = p' := Option.some.inj hf'
        subst hpp
        rw [ha] at ha'
        have haa : strip r = a := Option.some.inj ha'
        subst haa
        have hupd2 : rcv_update cfg e (strip r) = some a1 := hupd
        obtain ⟨r1, hr1, hra1⟩ := map_strip_eq_some ha1
        have e1 : r1.out_of_order_packets = a1.out_of_order_packets := by rw [← hra1]; rfl
        have e2 : r1.last_recv_seq = a1.last_recv_seq := by rw [← hra1]; rfl
        obtain ⟨o1, o2⟩ := rcv_update_order hupd2
        have o1' : ntohl cfg e.seq < r.last_recv_seq →
            r1.out_of_order_packets = (r.out_of_order_packets + 1) % 2 ^ 32 ∧
            r1.last_recv_seq = r.last_recv_seq := fun hlt => by
          rw [e1, e2]; exact o1 hlt
        have o2' : r.last_recv_seq ≤ ntohl cfg e.seq →
            r1.out_of_order_packets = r.out_of_order_packets ∧
            r1.last_recv_seq = ntohl cfg e.seq := fun hle => by
          rw [e1, e2]; exact o2 hle
        refine ⟨r1, hr1, o1', o2', fun hnw => ⟨fun heq => ?_, fun hlt => ?_⟩, ?_⟩
        · by_contra hge
          have := (o2' (by omega)).1
          omega
        · rw [(o1' hlt).1, Nat.mod_eq_of_lt hnw]
        · intro i r2 hi hri
          have hd := ho i hi
          rw [hri] at hd
          obtain ⟨r3, hr3, hs3⟩ := map_strip_eq_some hd
          exact ⟨r3, hr3, seq_of_strip_eq hs3⟩
      · exfalso
        have hm2 : match_at st.storage e.saddr e.daddr e.source e.dest p = false :=
          hno p (by
            show p ∈ C (skb_hash_function cfg e.saddr e.daddr e.source e.dest)
            rw [hC]; simp)
        rw [hpm] at hm2
        cases hm2
    · intro hnb hbl hbl2 hin
      obtain ⟨a1, hu⟩ := rcv_update_total hnb hbl hbl2 e hin (strip r) (h.data_hist ha)
      obtain ⟨s, hs, _⟩ := h.rcv_found_pass e hpass hC hl1 hpm ha hu
      exact ⟨s, hs⟩
  · intro p hfind hsyn hav
    rw [h.find] at hfind
    have hfind2 := Option.some.inj hfind
    have hno : ∀ i ∈ C (skb_hash_function cfg e.saddr e.daddr e.source e.dest),
        match_at st.storage e.saddr e.daddr e.source e.dest i = false := by
      intro i hi
      have := List.find?_eq_none.1 hfind2 i hi
      simpa using this
    obtain ⟨F1, hF⟩ : ∃ F1, F = p :: F1 := by
      have hfree := h.free
      cases F with
      | nil =>
        have : st.available = none := hfree
        rw [this] at hav; cases hav
      | cons q F1 =>
        have : st.available = some q := hfree.1
        rw [this] at hav
        exact ⟨F1, by rw [Option.some.inj hav]⟩
    subst hF
    obtain ⟨_, r0, hr0, _⟩ := h.free
    have hfresh := reset_log_fields cfg e.now_first r0 (h.hist p r0 hr0)
    have key : ∀ a1, rcv_update cfg e (strip (set_used 1 (reset_log cfg e.now_first r0))) =
        some a1 → a1.out_of_order_packets = 0 ∧ a1.last_recv_seq = ntohl cfg e.seq := by
      intro a1 hu
      obtain ⟨o, l⟩ := (rcv_update_order hu).2 (by rw [hfresh.2.1]; exact Nat.zero_le _)
      rw [hfresh.2.2.1] at o
      exact ⟨o, l⟩
    constructor
    · intro s hs
      rcases h.rcv_cases e hs with ⟨_, hig⟩ |
        ⟨_, p', l1', l2', a, a1, hC', hl1', hp', _⟩ |
        ⟨_, _, _, p', F1', r0', a1, hF', hr0', hupd, ha1, _⟩
      · exfalso
        rcases hig with hnp | ⟨_, hdrop⟩
        · exact hnp hpass
        · rcases hdrop with hc | hc
          · have hc2 : e.syn = false := hc
            rw [hsyn] at hc2; cases hc2
          · cases hc
      · exfalso
        have hC2 : C (skb_hash_function cfg e.saddr e.daddr e.source e.dest) = l1' ++ p' :: l2' :=
          hC'
        have := hno p' (by rw [hC2]; simp)
        have hp2 : match_at st.storage e.saddr e.daddr e.source e.dest p' = true := hp'
        rw [this] at hp2
        cases hp2
      · have hpp : p = p' := (List.cons.inj hF').1
        subst hpp
        rw [hr0] at hr0'
        have hrr : r0 = r0' := Option.some.inj hr0'
        subst hrr
        have hupd2 : rcv_update cfg e (strip (set_used 1 (reset_log cfg e.now_first r0))) =
            some a1 := hupd
        obtain ⟨r1, hr1, hra1⟩ := map_strip_eq_some ha1
        refine ⟨r1, hr1, ?_, ?_⟩
        · have : r1.out_of_order_packets = a1.out_of_order_packets := by rw [← hra1]; rfl
          rw [this]; exact (key a1 hupd2).1
        · have : r1.last_recv_seq = a1.last_recv_seq := by rw [← hra1]; rfl
          rw [this]; exact (key a1 hupd2).2
    · intro hnb hbl hbl2 hin
      have hlena : (strip (set_used 1 (reset_log cfg e.now_first r0))).snd_cwnd_histogram.length
          = cfg.number_of_buckets.toNat := by
        rw [hfresh.2.2.2, List.length_replicate]
      obtain ⟨a1, hu⟩ := rcv_update_total hnb hbl hbl2 e hin _ hlena
      obtain ⟨s, hs, _⟩ := h.rcv_new_pass e hpass hsyn hno hr0 hu
      exact ⟨s, hs⟩

/-- C9 (amended) on the state after a SYN of the flow `(1, 2, 3, 4)` with
sequence number 7: a packet of the flow with sequence number 0 is resolved to
slot 0, the probe returns, and slot 0 then counts one out-of-order packet and
still holds `last_recv_seq = 7`. -/
theorem C9_out_of_order_event_witness :
    1 ≤ demo_cfg.bufsize ∧
    (demo_cfg.port = 0 ∨ (ntohs demo_cfg (demo_rcv_seq 0 false 2).dest : Int) = demo_cfg.port ∨
      (ntohs demo_cfg (demo_rcv_seq 0 false 2).source : Int) = demo_cfg.port) ∧
    find_flow_log_for_skb demo_cfg demo_seq_open (demo_rcv_seq 0 false 2).saddr
      (demo_rcv_seq 0 false 2).daddr (demo_rcv_seq 0 false 2).source
      (demo_rcv_seq 0 false 2).dest = some (some 0) ∧
    ntohl demo_cfg (demo_rcv_seq 0 false 2).seq = 0 ∧
    (∃ r, demo_seq_open.storage[0]? = some r ∧ r.last_recv_seq = 7 ∧
      r.out_of_order_packets = 0 ∧
      spec_matches r (demo_rcv_seq 0 false 2).saddr (demo_rcv_seq 0 false 2).daddr
        (demo_rcv_seq 0 false 2).source (demo_rcv_seq 0 false 2).dest = true) ∧
    ∃ s r1, jtcp_v4_do_rcv demo_cfg demo_seq_open (demo_rcv_seq 0 false 2) = some s ∧
      s.storage[0]? = some r1 ∧ r1.out_of_order_packets = 1 ∧ r1.last_recv_seq = 7 := by
  have hr0 : ∃ r, demo_seq_open.storage[0]? = some r ∧ r.last_recv_seq = 7 ∧
      r.out_of_order_packets = 0 ∧
      spec_matches r (demo_rcv_seq 0 false 2).saddr (demo_rcv_seq 0 false 2).daddr
        (demo_rcv_seq 0 false 2).source (demo_rcv_seq 0 false 2).dest = true :=
    ⟨_, rfl, by decide, by decide, by decide⟩
  have hfind : find_flow_log_for_skb demo_cfg demo_seq_open (demo_rcv_seq 0 false 2).saddr
      (demo_rcv_seq 0 false 2).daddr (demo_rcv_seq 0 false 2).source
      (demo_rcv_seq 0 false 2).dest = some (some 0) := by decide
  have hseq : ntohl demo_cfg (demo_rcv_seq 0 false 2).seq = 0 := by decide
  refine ⟨by decide, Or.inl rfl, hfind, hseq, hr0, ?_⟩
  obtain ⟨r, hr, hl, ho, hm⟩ := hr0
  obtain ⟨hall, hret⟩ := (C9_out_of_order_event demo_seq_open_reachable (by decide)
    (demo_rcv_seq 0 false 2) (Or.inl rfl)).1 0 r hfind hr hm
  obtain ⟨s, hs⟩ := hret (by decide) (by decide) (by decide) (fun hest => by
    simp [flow_event.established, demo_rcv_seq, TCP_ESTABLISHED] at hest)
  obtain ⟨r1, hr1, hlate, _⟩ := hall s hs
  obtain ⟨h1, h2⟩ := hlate (by rw [hseq, hl]; decide)
  exact ⟨s, r1, hs, hr1, by rw [h1, ho]; norm_num, by rw [h2, hl]⟩

/-- C10, failing input: with one bucket of width one, an established receive
event that reports the window `2^31` computes the histogram index
`-2147483648` (the unsigned quotient converted to `int`), so the increment
falls outside the histogram of the record and the update has no result: the
event is an established one that no bucket counts. -/
theorem C10_established_event_not_counted :
    cwnd_index demo_cfg 2147483648 = -2147483648 ∧
    rcv_update demo_cfg (demo_rcv 1 2 3 4 false false false TCP_ESTABLISHED 2147483648 2)
      (init_log demo_cfg 4 0) = none ∧
    flow_updates demo_cfg (init_log demo_cfg 4 0)
      [flow_event.rcv (demo_rcv 1 2 3 4 false false false TCP_ESTABLISHED 2147483648 2)] = none := by
  decide

/-- C11 (code bug). With ten buckets of width 1 the window `w = 4294967295`
gives the index `-1`: the unsigned quotient `w / 1` is stored in an `int`
before it is clamped.  The exact value `min(numBuckets - 1, w / bucketWidth)`
is 9, and `w >= (numBuckets - 1) * bucketWidth`, so the last bucket was
due. -/
theorem C11_index_of_large_window_is_negative :
    cwnd_index demo_cfg 4294967295 = -1 ∧
    min (demo_cfg.number_of_buckets - 1)
      ((4294967295 / demo_cfg.bucket_length.toNat : Nat) : Int) = 9 ∧
    (demo_cfg.number_of_buckets - 1) * demo_cfg.bucket_length ≤ 4294967295 := by
  decide

/-- C12 (code bug), failing input: capacity 4, no port filter, the state after
one SYN of the flow `(1, 2, 3, 4)`, whose record is slot 0 and the only one in
the index.  The identity `(99, 1, 4, 3)` matches no record of the pool in
either orientation, and the two events carry no SYN.  The receive probe
nevertheless returns a different state, in which slot 0 counts two received
packets and stores the identity `(99, 1, 4, 3)`; the transmit probe returns a
different state, in which slot 0 counts one sent packet.  The lookup resolves
the identity to slot 0 because `is_log_for_skb` accepts it for that record. -/
theorem C12_foreign_event_changes_state :
    (demo_open.storage.all (fun r => !spec_matches r 99 1 4 3)) = true ∧
    (demo_rcv 99 1 4 3 false false false 0 0 2).syn = false ∧
    ((demo_xmit 99 1 4 3 0 0 0 2).flags &&& TCPHDR_SYN) = 0 ∧
    (demo_open.storage[0]?).map (fun r => (r.recv_count, r.snd_count, identity r)) =
      some (1, 0, (1, 2, 3, 4)) ∧
    jtcp_v4_do_rcv demo_cfg demo_open (demo_rcv 99 1 4 3 false false false 0 0 2) ≠
      some demo_open ∧
    ((jtcp_v4_do_rcv demo_cfg demo_open (demo_rcv 99 1 4 3 false false false 0 0 2)).bind
      (fun s => s.storage[0]?)).map (fun r => (r.recv_count, r.snd_count, identity r)) =
      some (2, 0, (99, 1, 4, 3)) ∧
    jtcp_transmit_skb demo_cfg demo_open (demo_xmit 99 1 4 3 0 0 0 2) ≠ some demo_open ∧
    ((jtcp_transmit_skb demo_cfg demo_open (demo_xmit 99 1 4 3 0 0 0 2)).bind
      (fun s => s.storage[0]?)).map (fun r => (r.recv_count, r.snd_count, identity r)) =
      some (1, 1, (1, 2, 3, 4)) ∧
    find_flow_log_for_skb demo_cfg demo_open 99 1 4 3 = some (some 0) ∧
    match_at demo_open.storage 99 1 4 3 0 = true :=
  ⟨by decide, by decide, by decide, by decide, by decide, by decide, by decide, by decide,
    by decide, by decide⟩

set_option maxRecDepth 100000 in
/-- C13 (code bug), failing input: live mode, capacity 4, empty finished queue,
one indexed flow in slot 0 with one event at second 1 and no report yet.  A
drain step at second 2 with room for 10 bytes stops (`cnt + width >= len`, the
line has 107 bytes); the free list and the finished queue are unchanged, but
`tcpflowspy_sprint` has already stamped the record as reported at second 2.
The next drain step, with room for 1000 bytes, does not serialize the record:
the live scan of `tcpflowspy_sprint` selects nothing (width 0) and the step
ends without a line, although the same step taken before the short read
returns the 107 bytes of the record. -/
theorem C13_short_live_read_loses_report :
    (read_step demo_live_cfg demo_live_open false ⟨2, 0⟩ ⟨2, 0⟩ (List.replicate 256 ' ')
      0 10).map (fun x => x.2) = some (read_result.stop 0) ∧
    (read_step demo_live_cfg demo_live_open false ⟨2, 0⟩ ⟨2, 0⟩ (List.replicate 256 ' ')
      0 10).map (fun x => x.1) = some demo_live_short ∧
    demo_live_short.available = demo_live_open.available ∧
    demo_live_short.finished = demo_live_open.finished ∧
    (demo_live_open.storage[0]?).map
      (fun r => (r.used, r.last_packet_tstamp, r.last_printed_tstamp)) =
      some (1, ⟨1, 0⟩, ⟨0, 0⟩) ∧
    (demo_live_short.storage[0]?).map
      (fun r => (r.used, r.last_packet_tstamp, r.last_printed_tstamp)) =
      some (1, ⟨1, 0⟩, ⟨2, 0⟩) ∧
    (tcpflowspy_sprint demo_live_cfg demo_live_short ⟨3, 0⟩ (List.replicate 256 ' ')
      256).map (fun x => x.2.2) = some 0 ∧
    (read_step demo_live_cfg demo_live_short true ⟨3, 0⟩ ⟨3, 0⟩ (List.replicate 256 ' ')
      0 1000).map (fun x => x.2) = some (read_result.stop (-ERESTARTSYS)) ∧
    (read_step demo_live_cfg demo_live_short false ⟨3, 0⟩ ⟨3, 0⟩ (List.replicate 256 ' ')
      0 1000).map (fun x => x.2) = some read_result.blocked ∧
    (read_step demo_live_cfg demo_live_open false ⟨2, 0⟩ ⟨2, 0⟩ (List.replicate 256 ' ')
      0 1000).map (fun x => x.2) =
      some (read_result.next 107
        ("1.000000000 (0) 1000000:768 2000000:1024 0.18446744073709551615 1 10 0 0 0 0 0 0 0 0 0,0,0,0,0,0,0,0,0,0, \n").toList) := by
  refine ⟨by decide, by decide, by decide, by decide, by decide, by decide, ?_, ?_, ?_, ?_⟩
  · decide
  · decide
  · decide
  · decide

/-- C14. For every reachable state (capacity at least 1) with an empty
finished queue in which no record is pending (batch mode, or live mode where
no slot in use has `last_packet_tstamp` later than `last_printed_tstamp`),
`tcpflowspy_sprint` returns 0 bytes, leaves the buffer as it is and returns the
very state it was given: free list, index, finished queue, every field of every
record and the live cursor (which in live mode has gone once round the pool)
are unchanged; so a second call, and any further one, has the same outcome. -/
theorem C14_sprint_idle {cfg : Config} {st : State} (hr : Reachable cfg st)
    (hcap : 1 ≤ cfg.bufsize) (hfin : st.finished = none)
    (hidle : cfg.live = 0 ∨ ∀ (i : Nat) (r : tcp_flow_log), st.storage[i]? = some r →
      r.used ≠ 0 →
      tcpprobe_timespec_larger r.last_packet_tstamp r.last_printed_tstamp = false)
    (now : timespec) (tbuf : List Char) (n : Nat) :
    tcpflowspy_sprint cfg st now tbuf n = some (st, tbuf, 0) ∧
    ∀ (now2 : timespec) (tbuf2 : List Char) (n2 : Nat),
      (tcpflowspy_sprint cfg st now tbuf n).bind
        (fun x => tcpflowspy_sprint cfg x.1 now2 tbuf2 n2) = some (st, tbuf2, 0) := by
  obtain ⟨F, C, Q, h⟩ := hr.good hcap
  have key : ∀ (t : timespec) (b : List Char) (m : Nat),
      tcpflowspy_sprint cfg st t b m = some (st, b, 0) := by
    intro t b m
    by_cases hl : cfg.live = 0
    · exact sprint_batch_idle cfg st hl hfin t b m
    · rcases hidle with h0 | h1
      · exact absurd h0 hl
      · exact h.sprint_live_idle hl hfin (fun i _ => not_pending_of_idle h1 i) t b m
  refine ⟨key now tbuf n, fun now2 tbuf2 n2 => ?_⟩
  rw [key now tbuf n]
  exact key now2 tbuf2 n2

/-- C14 at the initial state of the live configuration, where no slot is in
use. -/
theorem C14_sprint_idle_witness :
    1 ≤ demo_live_cfg.bufsize ∧ demo_live_init.finished = none ∧ demo_live_cfg.live ≠ 0 ∧
    tcpflowspy_sprint demo_live_cfg demo_live_init ⟨5, 0⟩ [] 0 = some (demo_live_init, [], 0) :=
  ⟨by decide, by decide, by decide,
    (C14_sprint_idle demo_live_init_reachable (by decide) (by decide)
      (Or.inr (idle_of_not_pending (by decide))) ⟨5, 0⟩ [] 0).1⟩

/-- C15.  From a reachable state (capacity at least 1) with finished queue
`Q0`, let a sequence of probes and prune-timer runs lead to a state with
finished queue `Q1`, and a second such sequence to a state `s2` with finished
queue `Q2`, with no drain anywhere.  If record `A` was finished by the first
sequence (it is in `Q1` and not in `Q0`) and record `B` by the second (it is
in `Q2` and not in `Q1`), then `Q2 = P2 ++ P1 ++ Q0` with `B` in `P2` and `A`
in `P1`, so `B` is in front of `A`; when each sequence is a single probe,
`Q2 = B :: A :: Q0`.  Drain steps whose lines fit, one for each record of
`Q2`, return, hand out the records of `Q2` in the order of `Q2` and leave the
finished queue empty.  The bytes copied to the reader in step `j` are the
first `w` bytes of the buffer `tcpflowspy_sprint` filled from the `j`-th
record of `Q2` as it is in `s2`, with finished flag 1 (`print_record`, `w`
the returned size); when the line of that record fits the 256 bytes of the
buffer they are exactly its line `sprint_line`.  The line of `B` is copied in
an earlier step than the line of `A`, and the records are pushed on the free
list in that order: the free list ends as the reverse of `Q2` in front of the
free list of `s2`. -/
theorem C15_finished_queue_lifo {cfg : Config} {st s1 s2 : State} (hr : Reachable cfg st)
    (hcap : 1 ≤ cfg.bufsize) (ops1 ops2 : List finish_op)
    (h1 : run_ops cfg st ops1 = some s1) (h2 : run_ops cfg s1 ops2 = some s2)
    {Q0 Q1 Q2 : List Nat} (hq0 : IsPath st.storage st.finished Q0)
    (hq1 : IsPath s1.storage s1.finished Q1) (hq2 : IsPath s2.storage s2.finished Q2)
    {A B : Nat} (hA0 : A ∉ Q0) (hA1 : A ∈ Q1) (hB1 : B ∉ Q1) (hB2 : B ∈ Q2) :
    (∃ P1 P2 : List Nat, Q1 = P1 ++ Q0 ∧ Q2 = P2 ++ P1 ++ Q0 ∧ A ∈ P1 ∧ B ∈ P2 ∧
      ((∃ ev1 ev2, ops1 = [finish_op.event ev1] ∧ ops2 = [finish_op.event ev2]) →
        Q2 = B :: A :: Q0)) ∧
    (∀ script : List read_input, script.length = Q2.length →
      (∀ i ∈ script, i.cnt + LINE_MAX < i.len) →
      ∃ s3, drain_script cfg s2 script = some (s3, Q2) ∧ s3.finished = none) ∧
    (∀ script : List read_input, script.length = Q2.length →
      (∀ i ∈ script, i.cnt + LINE_MAX < i.len) →
      ∃ s3 lines, drain_lines cfg s2 script = some (s3, lines) ∧
        lines.map Prod.fst = Q2 ∧
        (∀ (j q : Nat), Q2[j]? = some q →
          ∃ i r tb w, script[j]? = some i ∧ s2.storage[q]? = some r ∧
            print_record cfg s2.start 1 r i.tbuf PRINT_BUFF_SIZE = some (tb, w) ∧
            lines[j]? = some (q, tb.take w) ∧
            ((sprint_line cfg s2.start 1 r).length ≤ PRINT_BUFF_SIZE →
              PRINT_BUFF_SIZE ≤ i.tbuf.length →
              tb.take w = sprint_line cfg s2.start 1 r)) ∧
        (∃ (jB jA : Nat) (tB tA : List Char), jB < jA ∧ lines[jB]? = some (B, tB) ∧
          lines[jA]? = some (A, tA)) ∧
        (∀ F2, IsPath s2.storage s2.available F2 →
          IsPath s3.storage s3.available (Q2.reverse ++ F2)) ∧
        s3.finished = none) := by
  obtain ⟨F, C, Q, h⟩ := hr.good hcap
  have e0 : Q = Q0 := IsPath.unique h.fin hq0
  subst e0
  obtain ⟨F1, C1, P1, hinv1, hlen1⟩ := FlowInv.run_ops_queue ops1 h h1
  have e1 : P1 ++ Q = Q1 := IsPath.unique hinv1.fin hq1
  obtain ⟨F2, C2, P2, hinv2, hlen2⟩ := FlowInv.run_ops_queue ops2 hinv1 h2
  have e2 : P2 ++ (P1 ++ Q) = Q2 := IsPath.unique hinv2.fin hq2
  have hA : A ∈ P1 := by
    rw [← e1] at hA1
    rcases List.mem_append.1 hA1 with hx | hx
    · exact hx
    · exact absurd hx hA0
  have hB : B ∈ P2 := by
    rw [← e2, e1] at hB2
    rcases List.mem_append.1 hB2 with hx | hx
    · exact hx
    · exact absurd hx hB1
  refine ⟨⟨P1, P2, e1.symm, by rw [← e2, List.append_assoc], hA, hB, ?_⟩, ?_, ?_⟩
  · rintro ⟨ev1, ev2, ho1, ho2⟩
    have l1 := hlen1 ev1 ho1
    have l2 := hlen2 ev2 ho2
    have hP1 : P1 = [A] := by
      match P1, hA, l1 with
      | [x], hA, _ => rw [List.mem_singleton.1 hA]
      | _ :: _ :: _, _, l1 => simp at l1
    have hP2 : P2 = [B] := by
      match P2, hB, l2 with
      | [x], hB, _ => rw [List.mem_singleton.1 hB]
      | _ :: _ :: _, _, l2 => simp at l2
    rw [← e2, hP1, hP2]
    rfl
  · intro script hlen hfit
    rw [← e2] at hlen
    obtain ⟨s3, hd, hinv3⟩ := FlowInv.drain_script_fit script s2 F2 _ hinv2 hfit
    rw [hlen, List.take_length] at hd
    rw [hlen, List.drop_length] at hinv3
    rw [e2] at hd
    exact ⟨s3, hd, hinv3.fin⟩
  · intro script hlen hfit
    obtain ⟨s3, lines, hd, hmap, hinv3, _, hper⟩ :=
      FlowInv.drain_lines_fit script s2 F2 _ hinv2 hfit
    rw [e2] at hmap hinv3 hper
    rw [hlen, List.take_length] at hmap hinv3
    rw [List.drop_length] at hinv3
    have hget : ∀ j : Nat, (lines[j]?).map Prod.fst = Q2[j]? := by
      intro j
      rw [← hmap, List.getElem?_map]
    have hline : ∀ (j q : Nat), Q2[j]? = some q → ∃ t, lines[j]? = some (q, t) := by
      intro j q hq
      have := hget j
      rw [hq] at this
      cases hl : lines[j]? with
      | none => rw [hl] at this; cases this
      | some x =>
        rw [hl] at this
        obtain ⟨q1, t⟩ := x
        have hq1 : q1 = q := Option.some.inj this
        exact ⟨t, by rw [hq1]⟩
    refine ⟨s3, lines, hd, hmap, ?_, ?_, ?_, hinv3.fin⟩
    · intro j q hq
      have hj : j < script.length := by
        rw [hlen]
        exact (List.getElem?_eq_some_iff.1 hq).1
      obtain ⟨i, r, tb, w, e1', e2', e3', e4'⟩ := hper j q hq hj
      refine ⟨i, r, tb, w, e1', e2', e3', e4', fun hn hbuf => ?_⟩
      obtain ⟨tb1, p1, p2⟩ := print_record_line cfg s2.start 1 r i.tbuf PRINT_BUFF_SIZE
        (by rw [hinv2.hist q r e2']) hn hbuf
      rw [e3'] at p1
      simp only [Option.some.injEq, Prod.mk.injEq] at p1
      rw [p1.1, p1.2]
      exact p2
    · obtain ⟨jB, hjB, hgB⟩ := List.getElem_of_mem hB
      obtain ⟨jA, hjA, hgA⟩ := List.getElem_of_mem hA
      have hQB : Q2[jB]? = some B := by
        rw [← e2, List.getElem?_append_left hjB, List.getElem?_eq_getElem hjB, hgB]
      have hQA : Q2[P2.length + jA]? = some A := by
        rw [← e2, List.getElem?_append_right (Nat.le_add_right _ _), Nat.add_sub_cancel_left,
          List.getElem?_append_left hjA, List.getElem?_eq_getElem hjA, hgA]
      obtain ⟨tB, htB⟩ := hline _ _ hQB
      obtain ⟨tA, htA⟩ := hline _ _ hQA
      exact ⟨jB, P2.length + jA, tB, tA, by omega, htB, htA⟩
    · intro F2' hF2'
      have : F2 = F2' := IsPath.unique hinv2.free hF2'
      rw [← this]
      exact hinv3.free

set_option maxRecDepth 100000 in
/-- C15 on two flows of a pool of four slots: the first (slot 0) is finished
by a FIN, the second (slot 1) by the prune timer; the finished queue becomes
`[1, 0]` and two drain steps return slot 1, then slot 0.  The bytes copied
are the line of the flow `(5, 6, 7, 8)` of slot 1, then the line of the flow
`(1, 2, 3, 4)` of slot 0. -/
theorem C15_finished_queue_lifo_witness :
    1 ≤ demo_cfg.bufsize ∧
    run_ops demo_cfg demo_two_open
      [finish_op.event (flow_event.rcv (demo_rcv 1 2 3 4 false true false 0 0 2))] =
      some demo_two_first ∧
    run_ops demo_cfg demo_two_first [finish_op.sweep ⟨200, 0⟩] = some demo_two_both ∧
    IsPath demo_two_open.storage demo_two_open.finished [] ∧
    IsPath demo_two_first.storage demo_two_first.finished [0] ∧
    IsPath demo_two_both.storage demo_two_both.finished [1, 0] ∧
    (∃ s3, drain_script demo_cfg demo_two_both [demo_read 201, demo_read 202] =
      some (s3, [1, 0]) ∧ s3.finished = none) ∧
    (demo_two_both.storage.map identity)[1]? = some (5, 6, 7, 8) ∧
    (demo_two_both.storage.map identity)[0]? = some (1, 2, 3, 4) ∧
    (drain_lines demo_cfg demo_two_both [demo_read 201, demo_read 202]).map (fun x => x.2) =
      some [(1, ("1.000000000 (1) 5000000:1792 6000000:2048 0.18446744073709551615 1 10 0 0 0 0 0 0 0 0 0,0,0,0,0,0,0,0,0,0, \n").toList),
        (0, ("2.000000000 (1) 1000000:768 2000000:1024 1.18446744073709551615 2 20 0 0 0 0 0 0 0 0 0,0,0,0,0,0,0,0,0,0, \n").toList)] ∧
    ∃ s3 lines, drain_lines demo_cfg demo_two_both [demo_read 201, demo_read 202] =
        some (s3, lines) ∧ lines.map Prod.fst = [1, 0] ∧
      (∃ (jB jA : Nat) (tB tA : List Char), jB < jA ∧ lines[jB]? = some (1, tB) ∧
        lines[jA]? = some (0, tA)) ∧
      s3.finished = none := by
  have T := @C15_finished_queue_lifo demo_cfg demo_two_open demo_two_first demo_two_both
    demo_two_open_reachable (by decide)
    [finish_op.event (flow_event.rcv (demo_rcv 1 2 3 4 false true false 0 0 2))]
    [finish_op.sweep ⟨200, 0⟩] (by decide) (by decide) [] [0] [1, 0]
    ((is_path_iff _ _).1 (by decide)) ((is_path_iff _ _).1 (by decide))
    ((is_path_iff _ _).1 (by decide)) 0 1 (List.not_mem_nil 0) (by decide) (by decide)
    (by decide)
  obtain ⟨s3, lines, hd, hm, _, hpos, _, hfin⟩ :=
    T.2.2 [demo_read 201, demo_read 202] rfl (by decide)
  exact ⟨by decide, by decide, by decide, (is_path_iff _ _).1 (by decide),
    (is_path_iff _ _).1 (by decide), (is_path_iff _ _).1 (by decide),
    T.2.1 [demo_read 201, demo_read 202] rfl (by decide), by decide, by decide, by decide,
    s3, lines, hd, hm, hpos, hfin⟩

/-- C17. For every reachable live-mode state (capacity at least 1) with an
empty finished queue, one iteration of the read loop returns and leaves the
head of the free list, every bucket, the finished queue and their lists as
they were.  Either it serializes nothing and the pool is unchanged (the reader
stays blocked, is interrupted, or finds no pending record), or it reports one
record `p` in place with flag 0: the cursor is on `p`, `p` was in use, and the
pool afterwards is the pool before with the `last_printed_tstamp` of `p`
stamped and nothing else changed, whether or not the line fitted. -/
theorem C17_live_report_in_place {cfg : Config} {st : State} (hr : Reachable cfg st)
    (hcap : 1 ≤ cfg.bufsize) (hlive : cfg.live ≠ 0) (hfin : st.finished = none)
    (signal : Bool) (now_read now_print : timespec) (tbuf : List Char) (cnt len : Nat) :
    ∃ s res, read_step cfg st signal now_read now_print tbuf cnt len = some (s, res) ∧
      s.available = st.available ∧ s.entries = st.entries ∧ s.finished = st.finished ∧
      (∃ (F : List Nat) (C : Nat → List Nat) (Q : List Nat),
        FlowInv cfg st F C Q ∧ FlowInv cfg s F C Q) ∧
      ((s.storage = st.storage ∧
          (res = read_result.blocked ∨ res = read_result.stop (-ERESTARTSYS) ∨
            res = read_result.next cnt [])) ∨
        (∃ (p : Nat) (r : tcp_flow_log) (tb : List Char) (w : Nat),
          s.last_printed_flow_index = p ∧ st.storage[p]? = some r ∧ r.used ≠ 0 ∧
          print_record cfg st.start 0 r tbuf PRINT_BUFF_SIZE = some (tb, w) ∧ 0 < w ∧
          s.storage = st.storage.set p (set_last_printed now_print r) ∧
          res = (if len ≤ cnt + w then read_result.stop 0
            else read_result.next (cnt + w) (tb.take w)))) := by
  obtain ⟨F, C, Q, h⟩ := hr.good hcap
  have hcond : (st.finished.isSome || tcpprobe_timespec_larger st.last_update st.last_read) =
      tcpprobe_timespec_larger st.last_update st.last_read := by rw [hfin]; rfl
  unfold read_step
  simp only [hcond]
  by_cases hb : (!tcpprobe_timespec_larger st.last_update st.last_read && !signal) = true
  · rw [if_pos hb]
    exact ⟨_, _, rfl, rfl, rfl, rfl, ⟨F, C, Q, h, h⟩, Or.inl ⟨rfl, Or.inl rfl⟩⟩
  rw [if_neg hb]
  have h1 := h.set_last_read now_read
  by_cases hc : (!tcpprobe_timespec_larger st.last_update st.last_read) = true
  · rw [if_pos hc]
    exact ⟨_, _, rfl, rfl, rfl, rfl, ⟨F, C, Q, h, h1⟩, Or.inl ⟨rfl, Or.inr (Or.inl rfl)⟩⟩
  rw [if_neg hc, if_neg (fun hx => hlive hx.1)]
  have hfin1 : ({ st with last_read := now_read } : State).finished = none := hfin
  by_cases hex : ∃ j, 1 ≤ j ∧ j ≤ cfg.bufsize ∧
      pending_at st.storage ((st.last_printed_flow_index + j) % cfg.bufsize) = true
  · classical
    have hj := Nat.find_spec hex
    have hmin : ∀ j1, 1 ≤ j1 → j1 < Nat.find hex →
        pending_at st.storage ((st.last_printed_flow_index + j1) % cfg.bufsize) = false := by
      intro j1 h11 hlt
      have := Nat.find_min hex hlt
      cases hp : pending_at st.storage ((st.last_printed_flow_index + j1) % cfg.bufsize) with
      | false => rfl
      | true => exact absurd ⟨h11, by omega, hp⟩ this
    obtain ⟨r, tb, w, hr0, hused, _, hpr, hw, hsp⟩ :=
      h1.sprint_live_hit hlive hfin1 hj.1 hj.2.1 hj.2.2 hmin now_print tbuf PRINT_BUFF_SIZE
    obtain ⟨s', tb', w', hsp', hinv', _, _, _, hav', hfin', hen', _, _⟩ :=
      h1.sprint now_print tbuf PRINT_BUFF_SIZE
    have heq := hsp.symm.trans hsp'
    have hs' := (Prod.mk.inj (Option.some.inj heq)).1
    have htb : tb = tb' := (Prod.mk.inj (Prod.mk.inj (Option.some.inj heq)).2).1
    have hw' : w = w' := (Prod.mk.inj (Prod.mk.inj (Option.some.inj heq)).2).2
    subst htb hw'
    have hcur : s'.last_printed_flow_index =
        (st.last_printed_flow_index + Nat.find hex) % cfg.bufsize := by rw [← hs']
    have hsto : s'.storage = st.storage.set
        ((st.last_printed_flow_index + Nat.find hex) % cfg.bufsize)
        (set_last_printed now_print r) := by rw [← hs']
    have hfin2 : s'.finished = none := hfin'.trans hfin
    rw [hsp']
    simp only [Nat.pos_iff_ne_zero.1 hw, if_false, hfin2]
    by_cases hlen : len ≤ cnt + w
    · rw [if_pos hlen]
      exact ⟨_, _, rfl, hav', hen', hfin', ⟨F, C, Q, h, hinv'⟩,
        Or.inr ⟨_, r, tb, w, hcur, hr0, hused, hpr, hw, hsto, by rw [if_pos hlen]⟩⟩
    · rw [if_neg hlen]
      exact ⟨_, _, rfl, hav', hen', hfin', ⟨F, C, Q, h, hinv'⟩,
        Or.inr ⟨_, r, tb, w, hcur, hr0, hused, hpr, hw, hsto, by rw [if_neg hlen]⟩⟩
  · have hno : ∀ i, i < cfg.bufsize → pending_at st.storage i = false := by
      intro i hi
      obtain ⟨j, hj1, hjn, hji⟩ := scan_covers h.cursor hi
      cases hp : pending_at st.storage i with
      | false => rfl
      | true => exact absurd ⟨j, hj1, hjn, by rw [hji]; exact hp⟩ hex
    rw [h1.sprint_live_idle hlive hfin1 hno now_print tbuf PRINT_BUFF_SIZE]
    simp only [if_true]
    exact ⟨_, _, rfl, rfl, rfl, rfl, ⟨F, C, Q, h, h1⟩, Or.inl ⟨rfl, Or.inr (Or.inr rfl)⟩⟩

/-- C17 at the live state after one SYN of the flow `(1, 2, 3, 4)`. -/
theorem C17_live_report_in_place_witness :
    1 ≤ demo_live_cfg.bufsize ∧ demo_live_cfg.live ≠ 0 ∧ demo_live_open.finished = none ∧
    ∃ s res, read_step demo_live_cfg demo_live_open false ⟨2, 0⟩ ⟨2, 0⟩
        (List.replicate 256 ' ') 0 1000 = some (s, res) ∧
      s.available = demo_live_open.available ∧ s.entries = demo_live_open.entries ∧
      s.finished = demo_live_open.finished ∧
      (∃ (F : List Nat) (C : Nat → List Nat) (Q : List Nat),
        FlowInv demo_live_cfg demo_live_open F C Q ∧ FlowInv demo_live_cfg s F C Q) ∧
      ((s.storage = demo_live_open.storage ∧
          (res = read_result.blocked ∨ res = read_result.stop (-ERESTARTSYS) ∨
            res = read_result.next 0 [])) ∨
        (∃ (p : Nat) (r : tcp_flow_log) (tb : List Char) (w : Nat),
          s.last_printed_flow_index = p ∧ demo_live_open.storage[p]? = some r ∧ r.used ≠ 0 ∧
          print_record demo_live_cfg demo_live_open.start 0 r (List.replicate 256 ' ')
            PRINT_BUFF_SIZE = some (tb, w) ∧ 0 < w ∧
          s.storage = demo_live_open.storage.set p (set_last_printed ⟨2, 0⟩ r) ∧
          res = (if 1000 ≤ 0 + w then read_result.stop 0
            else read_result.next (0 + w) (tb.take w)))) :=
  ⟨by decide, by decide, by decide,
    C17_live_report_in_place demo_live_open_reachable (by decide) (by decide) (by decide)
      false ⟨2, 0⟩ ⟨2, 0⟩ (List.replicate 256 ' ') 0 1000⟩

set_option maxRecDepth 100000 in
/-- C18 (code bug). For a record created at `5 s + 100 ns` whose last packet
is stamped `7 s + 300 ns` (elapsed: `2 s + 200 ns`), `tcpprobe_timespec_sub`
returns `2 s` and `295 ns`: the nanoseconds are `last.tv_nsec - first.tv_sec`.
The line `tcpflowspy_sprint` writes for that record carries the duration
`2.000000295`. -/
theorem C18_duration_nanoseconds_wrong :
    tcpprobe_timespec_sub ⟨7, 300⟩ ⟨5, 100⟩ = ⟨2, 295⟩ ∧
    spec_elapsed_ns ⟨7, 300⟩ ⟨5, 100⟩ = 2 * 10 ^ 9 + 200 ∧
    (demo_timed.storage[0]?).map
      (fun r => (r.first_packet_tstamp, r.last_packet_tstamp)) = some (⟨5, 100⟩, ⟨7, 300⟩) ∧
    (tcpflowspy_sprint demo_cfg demo_timed ⟨8, 0⟩ (List.replicate 256 ' ') 256).map
      (fun x => x.2.1.take x.2.2) =
      some ("7.000000300 (1) 1000000:768 2000000:1024 2.000000295 2 20 0 0 0 0 0 0 0 0 0,0,0,0,0,0,0,0,0,0, \n").toList := by
  refine ⟨by decide, by decide, by decide, ?_⟩
  decide

set_option maxRecDepth 100000 in
/-- C19, counter-example.  The line of the finished flow `(1, 2, 3, 4)`
(little-endian host, ten buckets) is
`7.000000300 (1) 1000000:768 2000000:1024 2.000000295 2 20 0 0 0 0 0 0 0 0 0,0,0,0,0,0,0,0,0,0, `
and a newline.  Split on white space it has sixteen fields, not the eighteen
of the specification: the flag is the field `(1)`, in parentheses; address and
port are one field, joined by a colon, with the address in hexadecimal; and
the histogram field ends with a comma. -/
theorem C19_line_has_sixteen_fields :
    (tcpflowspy_sprint demo_cfg demo_timed ⟨8, 0⟩ (List.replicate 256 ' ') 256).map
      (fun x => spec_fields (x.2.1.take x.2.2)) =
      some ["7.000000300".toList, "(1)".toList, "1000000:768".toList, "2000000:1024".toList,
        "2.000000295".toList, "2".toList, "20".toList, "0".toList, "0".toList, "0".toList,
        "0".toList, "0".toList, "0".toList, "0".toList, "0".toList,
        "0,0,0,0,0,0,0,0,0,0,".toList] ∧
    (tcpflowspy_sprint demo_cfg demo_timed ⟨8, 0⟩ (List.replicate 256 ' ') 256).map
      (fun x => (spec_fields (x.2.1.take x.2.2)).length) = some 16 ∧
    spec_field_names.length = 18 := by
  refine ⟨by decide, by decide, by decide⟩

/-- C19 (amended).  In every reachable state (capacity at least 1, at least
one histogram bucket), `tcpflowspy_sprint` called with an array of at least
`n` characters returns; when it returns a positive size it has written the
record `pr` with flag 1 (the head of the finished queue) or flag 0 (a live
record), and when the whole line fits `n`, the first `w` characters of the
array are the line, which ends with a blank and a newline, and split on white
space the line yields sixteen fields in this order: `sec.nsec` since start;
the flag in parentheses; `saddr:sport` and `daddr:dport`, the address in
hexadecimal and the port in decimal, joined by a colon; the duration
`sec.nsec` as `tcpprobe_timespec_sub` computes it; received packets, received
bytes, sent packets, sent bytes, total retransmissions, out-of-order count,
window clamp, slow-start threshold, smoothed RTT, last congestion window; and
the histogram counts, each followed by a comma. -/
theorem C19_line_fields {cfg : Config} {st : State} (hr : Reachable cfg st)
    (hcap : 1 ≤ cfg.bufsize) (hnb : 1 ≤ cfg.number_of_buckets) (now : timespec)
    (tbuf : List Char) (n : Nat) (hbuf : n ≤ tbuf.length) :
    ∃ (s : State) (tb : List Char) (w : Nat),
      tcpflowspy_sprint cfg st now tbuf n = some (s, tb, w) ∧
      (w ≠ 0 → ∃ (p : Nat) (pr : tcp_flow_log) (fl : Nat), s.storage[p]? = some pr ∧
        ((fl = 1 ∧ st.finished = some p) ∨ (fl = 0 ∧ st.finished = none ∧ cfg.live ≠ 0)) ∧
        ((sprint_line cfg st.start fl pr).length ≤ n →
          w = (sprint_line cfg st.start fl pr).length ∧
          tb.take w = sprint_line cfg st.start fl pr ∧
          (tb.take w).getLast? = some '\n' ∧
          spec_fields (tb.take w) = sprint_fields cfg st.start fl pr)) := by
  obtain ⟨F, C, Q, h⟩ := hr.good hcap
  obtain ⟨s, tb, w, hs, hinv, _⟩ := h.sprint now tbuf n
  refine ⟨s, tb, w, hs, fun hw => ?_⟩
  obtain ⟨p, pr, fl, hpr, hfl, hprint⟩ := tcpflowspy_sprint_print hs hw
  refine ⟨p, pr, fl, hpr, hfl, fun hfit => ?_⟩
  have hlen := hinv.hist p pr hpr
  obtain ⟨tb1, hp1, htake⟩ := print_record_line cfg st.start fl pr tbuf n (by omega) hfit hbuf
  rw [hprint] at hp1
  simp only [Option.some.injEq, Prod.mk.injEq] at hp1
  obtain ⟨e1, e2⟩ := hp1
  subst e1
  have hne : sprint_hist_text (pr.snd_cwnd_histogram.take cfg.number_of_buckets.toNat) ≠ [] := by
    apply sprint_hist_text_ne_nil
    intro hc
    have := congrArg List.length hc
    rw [List.length_take, hlen] at this
    simp at this
    omega
  rw [e2, htake]
  refine ⟨rfl, rfl, ?_, sprint_line_fields cfg st.start fl pr hne⟩
  unfold sprint_line
  simp

/-- C19 (amended) on the finished flow of the counter-example, with the array
of 256 characters of `tcpflowspy_read`. -/
theorem C19_line_fields_witness :
    1 ≤ demo_cfg.bufsize ∧ 1 ≤ demo_cfg.number_of_buckets ∧
    256 ≤ (List.replicate 256 ' ').length ∧
    ∃ (s : State) (tb : List Char) (w : Nat),
      tcpflowspy_sprint demo_cfg demo_timed ⟨8, 0⟩ (List.replicate 256 ' ') 256 =
        some (s, tb, w) ∧
      (w ≠ 0 → ∃ (p : Nat) (pr : tcp_flow_log) (fl : Nat), s.storage[p]? = some pr ∧
        ((fl = 1 ∧ demo_timed.finished = some p) ∨
          (fl = 0 ∧ demo_timed.finished = none ∧ demo_cfg.live ≠ 0)) ∧
        ((sprint_line demo_cfg demo_timed.start fl pr).length ≤ 256 →
          w = (sprint_line demo_cfg demo_timed.start fl pr).length ∧
          tb.take w = sprint_line demo_cfg demo_timed.start fl pr ∧
          (tb.take w).getLast? = some '\n' ∧
          spec_fields (tb.take w) = sprint_fields demo_cfg demo_timed.start fl pr)) :=
  ⟨by decide, by decide, (List.length_replicate 256 ' ').ge,
    C19_line_fields demo_timed_reachable (by decide) (by decide) ⟨8, 0⟩
      (List.replicate 256 ' ') 256 (List.length_replicate 256 ' ').ge⟩

/-- C20 (code bug), failing input: capacity 4, no port filter.  A SYN with
identity `(1, 2, 3, 4)` creates the record of slot 0, which stores that
identity.  The lookup resolves a later receive event with the reversed
identity `(2, 1, 4, 3)`, the other direction of the same flow, to slot 0, and
after that event slot 0 stores `(2, 1, 4, 3)`: the stored identity has
changed.  The transmit event with the same reversed identity is resolved to
slot 0 as well and leaves the stored identity `(1, 2, 3, 4)`. -/
theorem C20_receive_rewrites_identity :
    (demo_open.storage[0]?).map identity = some (1, 2, 3, 4) ∧
    find_flow_log_for_skb demo_cfg demo_open 2 1 4 3 = some (some 0) ∧
    ((jtcp_v4_do_rcv demo_cfg demo_open (demo_rcv 2 1 4 3 false false false 0 0 2)).bind
      (fun s => s.storage[0]?)).map identity = some (2, 1, 4, 3) ∧
    ((jtcp_transmit_skb demo_cfg demo_open (demo_xmit 2 1 4 3 0 0 0 2)).bind
      (fun s => s.storage[0]?)).map (fun r => (r.snd_count, identity r)) =
      some (1, (1, 2, 3, 4)) := by
  decide

/-- C21.  For every configuration, state and receive or transmit event: when
the port filter is non-zero and neither `ntohs` of the source port nor `ntohs`
of the destination port equals it, the probe returns the state it was given,
unchanged in every field (`last_update` included); when the filter is 0 or one
of the two ports equals it, the probe returns what it returns with the filter
set to 0. -/
theorem C21_port_filter (cfg : Config) (st : State) :
    (∀ e : rcv_event, cfg.port ≠ 0 → (ntohs cfg e.source : Int) ≠ cfg.port →
      (ntohs cfg e.dest : Int) ≠ cfg.port → jtcp_v4_do_rcv cfg st e = some st) ∧
    (∀ e : rcv_event, (cfg.port = 0 ∨ (ntohs cfg e.source : Int) = cfg.port ∨
        (ntohs cfg e.dest : Int) = cfg.port) →
      jtcp_v4_do_rcv cfg st e = jtcp_v4_do_rcv (no_filter cfg) st e) ∧
    (∀ e : xmit_event, cfg.port ≠ 0 → (ntohs cfg e.sport : Int) ≠ cfg.port →
      (ntohs cfg e.dport : Int) ≠ cfg.port → jtcp_transmit_skb cfg st e = some st) ∧
    (∀ e : xmit_event, (cfg.port = 0 ∨ (ntohs cfg e.sport : Int) = cfg.port ∨
        (ntohs cfg e.dport : Int) = cfg.port) →
      jtcp_transmit_skb cfg st e = jtcp_transmit_skb (no_filter cfg) st e) := by
  refine ⟨fun e h0 h1 h2 => ?_, fun e h => ?_, fun e h0 h1 h2 => ?_, fun e h => ?_⟩
  · unfold jtcp_v4_do_rcv
    rw [if_neg]
    rintro (h | h | h)
    · exact h0 h
    · exact h2 h
    · exact h1 h
  · apply jtcp_v4_do_rcv_pass
    rcases h with h | h | h
    · exact Or.inl h
    · exact Or.inr (Or.inr h)
    · exact Or.inr (Or.inl h)
  · unfold jtcp_transmit_skb
    rw [if_neg]
    rintro (h | h | h)
    · exact h0 h
    · exact h1 h
    · exact h2 h
  · exact jtcp_transmit_skb_pass st e h

/-- C21 with the filter set to 80 on the initial state: a SYN between ports
768 and 1024 is ignored, and a SYN to port 80 is processed as with no filter and
creates a record. -/
theorem C21_port_filter_witness :
    demo_port_cfg.port ≠ 0 ∧
    jtcp_v4_do_rcv demo_port_cfg demo_init (demo_rcv 1 2 3 4 true false false 0 0 1) =
      some demo_init ∧
    jtcp_v4_do_rcv demo_port_cfg demo_init (demo_rcv 1 2 3 20480 true false false 0 0 1) =
      jtcp_v4_do_rcv (no_filter demo_port_cfg) demo_init
        (demo_rcv 1 2 3 20480 true false false 0 0 1) ∧
    jtcp_v4_do_rcv demo_port_cfg demo_init (demo_rcv 1 2 3 20480 true false false 0 0 1) ≠
      some demo_init :=
  ⟨by decide,
    (C21_port_filter demo_port_cfg demo_init).1 _ (by decide) (by decide) (by decide),
    (C21_port_filter demo_port_cfg demo_init).2.1 _ (Or.inr (Or.inr (by decide))),
    by decide⟩

/-- C22.  Let bucket `b` head the well-formed doubly linked chain
`l1 ++ x :: l2` (the walk from `head` along `next` ends in null, the first
record has `prev` null, every further record has the record before it as
`prev`, and `tail` is the last record).  Then `remove_from_hashentry` on the
bucket and record `x` returns, and afterwards the bucket heads the well-formed
chain `l1 ++ l2` (the other records, in their order), `head` is the first and
`tail` the last record of `l1 ++ l2` (null when it is empty), `x` has `prev`
and `next` null, no other bucket and no record outside the chain is touched,
and every record keeps all fields but its links.  `l1` and `l2` may each be
empty: `x` may be the only record, the head, the tail or an inner record. -/
theorem C22_remove_from_hashentry (st : State) (b x : Nat) (e : hashtable_entry)
    (l1 l2 : List Nat) (he : st.entries[b]? = some e)
    (hc : IsChain st.storage e (l1 ++ x :: l2)) :
    ∃ (st1 : State) (e1 : hashtable_entry) (rx1 : tcp_flow_log),
      remove_from_hashentry st b (some x) = some st1 ∧
      st1.entries[b]? = some e1 ∧ IsChain st1.storage e1 (l1 ++ l2) ∧
      e1.head = (l1 ++ l2).head? ∧ e1.tail = (l1 ++ l2).getLast? ∧
      st1.storage[x]? = some rx1 ∧ rx1.prev = none ∧ rx1.next = none ∧
      (∀ b1, b1 ≠ b → st1.entries[b1]? = st.entries[b1]?) ∧
      (∀ i, i ∉ l1 ++ x :: l2 → st1.storage[i]? = st.storage[i]?) ∧
      SameData st.storage st1.storage ∧ SameGlobals st st1 := by
  obtain ⟨hd, htl⟩ := hc
  have hnd : (l1 ++ x :: l2).Nodup := IsPath.nodup_path _ _ (IsDPath.toPath _ _ _ hd)
  obtain ⟨rp, hrp, hprev, hnp⟩ := IsDPath.at l1 none e.head hd
  rw [lastOr_none_eq] at hprev
  have hnext : rp.next = l2.head? := IsDPath.dhead_eq hnp
  have hhd : e.head = (l1 ++ x :: l2).head? := IsDPath.dhead_eq hd
  have hpl1 : x ∉ l1 := fun hm =>
    (List.nodup_append.1 hnd).2.2 hm (List.mem_cons_self _ _)
  have hpl2 : x ∉ l2 := (List.nodup_cons.1 (List.nodup_append.1 hnd).2.1).1
  have hvalid : ∀ i ∈ l1 ++ x :: l2, ∃ r, st.storage[i]? = some r := IsDPath.valid_dpath hd
  have hprev_none : rp.prev = none ↔ l1 = [] := by
    rw [hprev]; exact List.getLast?_eq_none_iff
  have hnext_none : rp.next = none ↔ l2 = [] := by
    rw [hnext]; exact List.head?_eq_none_iff
  have ha : ∀ a, rp.prev = some a → a ∈ l1 := fun a ha => by
    rw [hprev] at ha; exact List.mem_of_getLast?_eq_some ha
  have hcn : ∀ c, rp.next = some c → c ∈ l2 := fun c hc => by
    rw [hnext] at hc; exact List.mem_of_mem_head? hc
  have hl12 : ∀ a ∈ l1, ∀ c ∈ l2, a ≠ c := fun a ha c hc hac =>
    (List.nodup_append.1 hnd).2.2 ha (List.mem_cons_of_mem _ (hac ▸ hc))
  obtain ⟨s1, hs1, hg1, hen1, hm1⟩ := remove_effect st b x e rp he hrp
    (by rw [hhd, head?_append_cons_eq hnd, hprev_none])
    (by rw [htl, getLast?_append_cons_eq hnd, hnext_none])
    (fun a h1 => ⟨fun h2 => hpl1 (h2 ▸ ha a h1), hvalid a (by simp [ha a h1])⟩)
    (fun c h1 => ⟨fun h2 => hpl2 (h2 ▸ hcn c h1), hvalid c (by simp [hcn c h1])⟩)
    (fun a c h1 h2 => hl12 a (ha a h1) c (hcn c h2))
  have hp1 : s1.storage[x]? = some (unlink_rec x rp x rp) := hm1.get hrp
  have hout : ∀ i, i ∉ l1 ++ x :: l2 → ∀ r, unlink_rec x rp i r = r := by
    intro i hi r
    have h1 : i ≠ x := fun e => hi (by simp [e])
    have h2 : ¬ rp.prev = some i := fun e => hi (by simp [ha i e])
    have h3 : ¬ rp.next = some i := fun e => hi (by simp [hcn i e])
    simp [unlink_rec, h1, h2, h3]
  have hb : b < st.entries.length := getElem?_lt he
  have hpath : IsDPath s1.storage none (if rp.prev = none then rp.next else e.head)
      (l1 ++ l2) := by
    have hr := IsDPath_remove hm1 hrp l1 none e.head hd hnd (fun _ _ hh => by cases hh)
    by_cases hl1 : l1 = []
    · simpa [hl1, hprev_none.2 hl1] using hr
    · have : ¬ rp.prev = none := fun e => hl1 (hprev_none.1 e)
      simpa [hl1, this] using hr
  have htail : (if rp.next = none then rp.prev else e.tail) = (l1 ++ l2).getLast? := by
    rw [getLast?_append_remove x, ← htl, ← hprev]
    by_cases hl2 : l2 = []
    · simp [hl2, hnext_none.2 hl2]
    · have : ¬ rp.next = none := fun e => hl2 (hnext_none.1 e)
      simp [hl2, this]
  refine ⟨s1, ⟨if rp.prev = none then rp.next else e.head,
      if rp.next = none then rp.prev else e.tail⟩, unlink_rec x rp x rp, hs1, ?_,
    ⟨hpath, htail⟩, IsDPath.dhead_eq hpath, htail, hp1, ?_, ?_, ?_, ?_, ?_, hg1⟩
  · rw [hen1, getElem?_set_some he, if_pos rfl]
  · simp [unlink_rec, set_next, set_prev]
  · simp [unlink_rec, set_next, set_prev]
  · intro b1 hb1
    rw [hen1, getElem?_set_some he, if_neg (fun e => hb1 e.symm)]
  · intro i hi
    rw [hm1 i]
    cases st.storage[i]? with
    | none => rfl
    | some r => simp [hout i hi r]
  · exact hm1.sameData (strip_unlink_rec x rp)

/-- C22 on the chain of slots 0, 1, 2 in bucket 3: removing the inner record
in slot 1 leaves the chain of slots 0 and 2. -/
theorem C22_remove_from_hashentry_witness :
    demo_chain.entries[3]? = some ⟨some 0, some 2⟩ ∧
    IsChain demo_chain.storage ⟨some 0, some 2⟩ ([0] ++ 1 :: [2]) ∧
    ∃ (st1 : State) (e1 : hashtable_entry),
      remove_from_hashentry demo_chain 3 (some 1) = some st1 ∧
      st1.entries[3]? = some e1 ∧ IsChain st1.storage e1 ([0] ++ [2]) ∧
      e1.head = some 0 ∧ e1.tail = some 2 := by
  have he : demo_chain.entries[3]? = some ⟨some 0, some 2⟩ := by decide
  have hc : IsChain demo_chain.storage ⟨some 0, some 2⟩ ([0] ++ 1 :: [2]) :=
    ⟨(is_dpath_iff _ _ _).1 (by decide), by decide⟩
  obtain ⟨st1, e1, rx1, h1, h2, h3, h4, h5, _⟩ :=
    C22_remove_from_hashentry demo_chain 3 1 ⟨some 0, some 2⟩ [0] [2] he hc
  exact ⟨he, hc, st1, e1, h1, h2, h3, h4, h5⟩

/-- C23.  In live mode, in every reachable state (capacity `n` at least 1)
with an empty finished queue, the cursor `c` is below `n`, and with `pending`
meaning "the slot is in use and its `last_packet_tstamp` is later than its
`last_printed_tstamp`": if `k` is the least number in `1..n` for which slot
`(c + k) mod n` is pending, `tcpflowspy_sprint` writes the record of that slot
with flag 0, stamps its `last_printed_tstamp`, sets the cursor to that slot
and returns a positive size; such a `k` exists whenever some slot of the pool
is pending; and the call selects nothing (size 0, state unchanged) exactly
when no slot of the pool is pending. -/
theorem C23_live_scan_selection {cfg : Config} {st : State} (hr : Reachable cfg st)
    (hcap : 1 ≤ cfg.bufsize) (hlive : cfg.live ≠ 0) (hfin : st.finished = none)
    (now : timespec) (tbuf : List Char) (n : Nat) :
    st.last_printed_flow_index < cfg.bufsize ∧
    (∀ k, 1 ≤ k → k ≤ cfg.bufsize →
      pending_at st.storage ((st.last_printed_flow_index + k) % cfg.bufsize) = true →
      (∀ k1, 1 ≤ k1 → k1 < k →
        pending_at st.storage ((st.last_printed_flow_index + k1) % cfg.bufsize) = false) →
      ∃ (r : tcp_flow_log) (tb : List Char) (w : Nat),
        st.storage[(st.last_printed_flow_index + k) % cfg.bufsize]? = some r ∧
        print_record cfg st.start 0 r tbuf n = some (tb, w) ∧ 0 < w ∧
        tcpflowspy_sprint cfg st now tbuf n =
          some ({ st with
                  last_printed_flow_index := (st.last_printed_flow_index + k) % cfg.bufsize
                  storage := (st.storage.set ((st.last_printed_flow_index + k) % cfg.bufsize)
                    (set_last_printed now r)) }, tb, w)) ∧
    ((∃ i, i < cfg.bufsize ∧ pending_at st.storage i = true) →
      ∃ k, 1 ≤ k ∧ k ≤ cfg.bufsize ∧
        pending_at st.storage ((st.last_printed_flow_index + k) % cfg.bufsize) = true ∧
        ∀ k1, 1 ≤ k1 → k1 < k →
          pending_at st.storage ((st.last_printed_flow_index + k1) % cfg.bufsize) = false) ∧
    ((∀ i, i < cfg.bufsize → pending_at st.storage i = false) →
      tcpflowspy_sprint cfg st now tbuf n = some (st, tbuf, 0)) ∧
    ((tcpflowspy_sprint cfg st now tbuf n).map (fun x => x.2.2) = some 0 ↔
      ∀ i, i < cfg.bufsize → pending_at st.storage i = false) := by
  obtain ⟨F, C, Q, h⟩ := hr.good hcap
  have hhit : ∀ k, 1 ≤ k → k ≤ cfg.bufsize →
      pending_at st.storage ((st.last_printed_flow_index + k) % cfg.bufsize) = true →
      (∀ k1, 1 ≤ k1 → k1 < k →
        pending_at st.storage ((st.last_printed_flow_index + k1) % cfg.bufsize) = false) →
      ∃ (r : tcp_flow_log) (tb : List Char) (w : Nat),
        st.storage[(st.last_printed_flow_index + k) % cfg.bufsize]? = some r ∧
        print_record cfg st.start 0 r tbuf n = some (tb, w) ∧ 0 < w ∧
        tcpflowspy_sprint cfg st now tbuf n =
          some ({ st with
                  last_printed_flow_index := (st.last_printed_flow_index + k) % cfg.bufsize
                  storage := (st.storage.set ((st.last_printed_flow_index + k) % cfg.bufsize)
                    (set_last_printed now r)) }, tb, w) := by
    intro k h1 h2 hp hmin
    obtain ⟨r, tb, w, hr1, _, _, hpr, hw, hs⟩ :=
      h.sprint_live_hit hlive hfin h1 h2 hp hmin now tbuf n
    exact ⟨r, tb, w, hr1, hpr, hw, hs⟩
  refine ⟨h.cursor, hhit, ?_, fun hno => h.sprint_live_idle hlive hfin hno now tbuf n, ?_⟩
  · rintro ⟨i, hi, hp⟩
    exact first_pending_exists h hi hp
  · constructor
    · intro hz i hi
      cases hb : pending_at st.storage i with
      | false => rfl
      | true =>
        exfalso
        obtain ⟨k, h1, h2, hp, hmin⟩ := first_pending_exists h hi hb
        obtain ⟨r, tb, w, _, _, hw, hs⟩ := hhit k h1 h2 hp hmin
        rw [hs] at hz
        have : w = 0 := Option.some.inj hz
        omega
    · intro hno
      rw [h.sprint_live_idle hlive hfin hno now tbuf n]
      rfl

/-- C23 on the live state with one indexed flow in slot 0, cursor 0, capacity
4: the slots 1, 2, 3 are examined first and are not pending, the least `k` is
4, and slot `(0 + 4) mod 4 = 0` is reported. -/
theorem C23_live_scan_selection_witness :
    1 ≤ demo_live_cfg.bufsize ∧ demo_live_cfg.live ≠ 0 ∧ demo_live_open.finished = none ∧
    demo_live_open.last_printed_flow_index = 0 ∧
    pending_at demo_live_open.storage ((demo_live_open.last_printed_flow_index + 4) %
      demo_live_cfg.bufsize) = true ∧
    ∃ (r : tcp_flow_log) (tb : List Char) (w : Nat),
      demo_live_open.storage[(demo_live_open.last_printed_flow_index + 4) %
        demo_live_cfg.bufsize]? = some r ∧
      print_record demo_live_cfg demo_live_open.start 0 r (List.replicate 256 ' ') 256 =
        some (tb, w) ∧ 0 < w ∧
      tcpflowspy_sprint demo_live_cfg demo_live_open ⟨2, 0⟩ (List.replicate 256 ' ') 256 =
        some ({ demo_live_open with
                last_printed_flow_index :=
                  (demo_live_open.last_printed_flow_index + 4) % demo_live_cfg.bufsize
                storage := (demo_live_open.storage.set
                  ((demo_live_open.last_printed_flow_index + 4) % demo_live_cfg.bufsize)
                  (set_last_printed ⟨2, 0⟩ r)) }, tb, w) :=
  ⟨by decide, by decide, by decide, by decide, by decide,
    (C23_live_scan_selection demo_live_open_reachable (by decide) (by decide) (by decide)
      ⟨2, 0⟩ (List.replicate 256 ' ') 256).2.1 4 (by decide) (by decide) (by decide)
      (fun k1 h1 h2 => by
        have h3 : k1 = 1 ∨ k1 = 2 ∨ k1 = 3 := by omega
        rcases h3 with h3 | h3 | h3 <;> subst h3 <;> decide)⟩

/-- C24.  For every configuration (every table size) and every identity,
`skb_hash_function` gives the same bucket number for the identity and for the
reversed identity, so `get_entry_for_skb` reads the same bucket for both. -/
theorem C24_hash_symmetric (cfg : Config) (st : State) (saddr daddr sport dport : Nat) :
    skb_hash_function cfg saddr daddr sport dport =
      skb_hash_function cfg daddr saddr dport sport ∧
    st.entries[skb_hash_function cfg saddr daddr sport dport]? =
      st.entries[skb_hash_function cfg daddr saddr dport sport]? := by
  have h := skb_hash_function_swap cfg saddr daddr sport dport
  exact ⟨h.symm, by rw [h]⟩

/-- C25.  In every reachable state (capacity at least 1), whenever bucket `b`
heads the chain `l`, every record of `l` hashes to `b`:
`skb_hash_function` of the identity it stores now is `b`. -/
theorem C25_bucket_of_stored_identity {cfg : Config} {st : State} (hr : Reachable cfg st)
    (hcap : 1 ≤ cfg.bufsize) (b : Nat) (e : hashtable_entry) (l : List Nat)
    (he : st.entries[b]? = some e) (hc : IsChain st.storage e l) :
    ∀ i ∈ l, ∃ r, st.storage[i]? = some r ∧
      skb_hash_function cfg r.saddr r.daddr r.sport r.dport = b := by
  obtain ⟨F, C, Q, h, hb⟩ := hr.bucket_inv hcap
  have hbl : b < cfg.bufsize := by rw [← h.len_e]; exact getElem?_lt he
  have hl : l = C b :=
    IsPath.unique (IsDPath.toPath _ _ _ hc.1) (IsDPath.toPath _ _ _ (h.chain b e he).1)
  subst hl
  intro i hi
  obtain ⟨r, hr1⟩ := IsDPath.valid_dpath hc.1 i hi
  exact ⟨r, hr1, hb b hbl i hi r hr1⟩

/-- C25 on a flow whose stored identity was rewritten: slot 0, created in
bucket 3 with identity `(1, 2, 3, 4)`, stores `(2, 1, 4, 3)` after a packet of
the other direction, and that identity hashes to bucket 3 as well. -/
theorem C25_bucket_of_stored_identity_witness :
    1 ≤ demo_cfg.bufsize ∧ demo_flipped.entries[3]? = some ⟨some 0, some 0⟩ ∧
    IsChain demo_flipped.storage ⟨some 0, some 0⟩ [0] ∧
    (demo_flipped.storage[0]?).map identity = some (2, 1, 4, 3) ∧
    ∃ r, demo_flipped.storage[0]? = some r ∧
      skb_hash_function demo_cfg r.saddr r.daddr r.sport r.dport = 3 :=
  ⟨by decide, by decide, ⟨(is_dpath_iff _ _ _).1 (by decide), by decide⟩, by decide,
    C25_bucket_of_stored_identity demo_flipped_reachable (by decide) 3 ⟨some 0, some 0⟩ [0]
      (by decide) ⟨(is_dpath_iff _ _ _).1 (by decide), by decide⟩ 0
      (List.mem_singleton.2 rfl)⟩

set_option maxRecDepth 100000 in
/-- C26 (code bug), failing input: live mode, capacity 4; slot 0 holds an
indexed flow with a packet at second 1 and no report yet, slot 1 is the head
of the finished queue, the cursor is 0.  A call of `tcpflowspy_sprint` at
second 3 serializes slot 1 with flag 1 and leaves the record of slot 1 as it
was, but sets `last_printed_tstamp` of slot 0, the slot under the cursor, to
second 3.  Slot 0 is then no longer pending: after the finished record is
drained, the next call selects nothing, and the packet of second 1 is never
reported. -/
theorem C26_sprint_stamps_cursor_slot :
    demo_live_mixed.finished = some 1 ∧ demo_live_mixed.last_printed_flow_index = 0 ∧
    (demo_live_mixed.storage[0]?).map
      (fun r => (r.used, r.last_packet_tstamp, r.last_printed_tstamp)) =
      some (1, ⟨1, 0⟩, ⟨0, 0⟩) ∧
    (tcpflowspy_sprint demo_live_cfg demo_live_mixed ⟨3, 0⟩ (List.replicate 256 ' ') 256).map
      (fun x => x.2.1.take x.2.2) =
      some ("2.000000000 (1) 5000000:1792 6000000:2048 1.18446744073709551615 2 20 0 0 0 0 0 0 0 0 0,0,0,0,0,0,0,0,0,0, \n").toList ∧
    (tcpflowspy_sprint demo_live_cfg demo_live_mixed ⟨3, 0⟩ (List.replicate 256 ' ') 256).map
      (fun x => x.1.storage[1]?) = some (demo_live_mixed.storage[1]?) ∧
    (tcpflowspy_sprint demo_live_cfg demo_live_mixed ⟨3, 0⟩ (List.replicate 256 ' ') 256).map
      (fun x => (x.1.storage[0]?).map
        (fun r => (r.used, r.last_packet_tstamp, r.last_printed_tstamp))) =
      some (some (1, ⟨1, 0⟩, ⟨3, 0⟩)) ∧
    ((read_step demo_live_cfg demo_live_mixed false ⟨3, 0⟩ ⟨3, 0⟩ (List.replicate 256 ' ')
        0 1000).bind
      (fun x => tcpflowspy_sprint demo_live_cfg x.1 ⟨4, 0⟩ (List.replicate 256 ' ') 256)).map
      (fun x => (x.1.finished, x.2.2)) = some (none, 0) := by
  refine ⟨by decide, by decide, by decide, ?_, ?_, ?_, ?_⟩
  · decide
  · decide
  · decide
  · decide


end TcpFlowSpy
